import Mathlib

/-!
# Inverted page table and swap table of the os161 paging kernel

A shallow embedding of `kern/vm/pt.c`, `kern/vm/swapfile.c` (built with `LIST_ST`)
and the parts of `kern/vm/paging.c` they rely on.

Conventions of the embedding:

* a C array is a function from indices to cells together with its size; every access
  the C code makes is checked against the size, and an access outside the array ends
  the call with `Fault.bounds`;
* 32-bit integers are natural numbers, arithmetic that can overflow is taken modulo
  `U32`; a signed `int` is represented by its 32-bit pattern, so `-1` is `NEG1`;
* `panic` ends the call with the matching `Fault`; a loop that can never exit ends it
  with `Fault.diverge` (each loop walks indices of an array that it does not modify, so
  after one more step than the array has cells it has repeated a state);
* memory returned by `kmalloc` is not initialised: the initialisers take its content
  as a parameter.
-/

namespace VM

/-! ## Machine constants -/

/-- Number of values of a 32-bit word. -/
def U32 : Nat := 4294967296

/-- The 32-bit pattern of the C integer `-1`. -/
def NEG1 : Nat := 4294967295

def PAGE_SIZE : Nat := 4096

def PAGE_FRAME : Nat := 0xFFFFF000

def MIPS_KSEG0 : Nat := 0x80000000

def PADDR_TO_KVADDR (paddr : Nat) : Nat := (paddr + MIPS_KSEG0) % U32

/-- Ways in which a call ends without returning. -/
inductive Fault where
  | out_of_swap
  | free_list
  | proc_list
  | chunk_list
  | no_frame
  | bounds
  | no_proc
  | diverge
  | kassert
  | proc_exit
  deriving DecidableEq, Repr

deriving instance DecidableEq for Except

/-- Array cell update. -/
def upd {α : Type} (f : Nat → α) (i : Nat) (v : α) : Nat → α :=
  fun j => if j = i then v else f j

/-- Check made before an array access or a panic test. -/
def chk (c : Prop) [Decidable c] (f : Fault) : Except Fault Unit :=
  if c then .ok () else .error f

/-! ## Field macros of `pt.c` -/

namespace PT

def IS_VALID (x : Nat) : Nat := x &&& 0x00000001

def SET_VALID (x value : Nat) : Nat := (x &&& 0xFFFFFFFE) ||| value

def SET_PN (entry pn : Nat) : Nat := (entry &&& 0x00000FFF) ||| ((pn <<< 12) % U32)

def GET_PN (entry : Nat) : Nat := (entry &&& 0xFFFFF000) >>> 12

def SET_NEXT (entry next : Nat) : Nat := (entry &&& 0x00000FFF) ||| ((next <<< 12) % U32)

def GET_NEXT (entry : Nat) : Nat := (entry &&& 0xFFFFF000) >>> 12

def SET_PID (entry pid : Nat) : Nat := (entry &&& 0xFFFFFFC0) ||| pid

def GET_PID (entry : Nat) : Nat := entry &&& 0x0000003F

def HAS_CHAIN (x : Nat) : Nat := x &&& 0x00000002

def SET_CHAIN (x value : Nat) : Nat := (x &&& 0xFFFFFFFD) ||| (value <<< 1)

def IS_KERNEL (x : Nat) : Nat := x &&& 0x00000004

def SET_KERNEL (x value : Nat) : Nat := (x &&& 0xFFFFFFFB) ||| (value <<< 2)

end PT

/-! ## Field macros of `swapfile.c` -/

namespace SW

def IS_SWAPPED (x : Nat) : Nat := x &&& 0x00000040

def SET_SWAPPED (x value : Nat) : Nat := (x &&& 0xFFFFFFBF) ||| (value <<< 6)

def SET_PN (entry pn : Nat) : Nat := (entry &&& 0x00000FFF) ||| ((pn <<< 12) % U32)

def GET_PN (entry : Nat) : Nat := (entry &&& 0xFFFFF000) >>> 12

def SET_PID (entry pid : Nat) : Nat := (entry &&& 0xFFFFFFC0) ||| pid

def GET_PID (entry : Nat) : Nat := entry &&& 0x0000003F

def HAS_CHAIN (x : Nat) : Nat := x &&& 0x00000080

def HAS_PREV (x : Nat) : Nat := x &&& 0x00000100

def SET_CHAIN (x value : Nat) : Nat := (x &&& 0xFFFFFF7F) ||| (value <<< 7)

def SET_PREV (x value : Nat) : Nat := (x &&& 0xFFFFFEFF) ||| (value <<< 8)

end SW

/-! ## Data -/

/-- One entry of the inverted page table (`struct PTE`). -/
structure PTE where
  hi : Nat
  low : Nat
  deriving DecidableEq, Repr

/-- The inverted page table (`struct pT`). -/
structure pT where
  entries : Nat → PTE
  size : Nat
  first_free_frame : Nat
  last_free_frame : Nat
  mem_base_addr : Nat
  FIFO : Nat → Nat
  FIFO_index_start : Nat
  FIFO_index_last : Nat

/-- One entry of the swap table (`struct STE`, `LIST_ST`). -/
structure STE where
  hi : Nat
  next : Nat
  prev : Nat
  deriving DecidableEq, Repr

/-- The swap table (`struct swapTable`, `LIST_ST`); the content of the file `fp` is
the field `disk` of `Kernel`. -/
structure swapTable where
  entries : Nat → STE
  size : Nat
  first_free_chunk : Nat
  last_free_chunk : Nat

/-- Modelled from the spec: the per-process descriptor (`struct proc` of `proc.h`, not
part of the sources at hand) with the fields this code uses: `n_frames`, `start_frame`,
`last_frame`, `n_chunks`, `start_chunk`, `last_chunk`. The pid is the key under which
the descriptor is stored in `Kernel.procs`. -/
structure proc where
  n_frames : Nat
  start_pt_i : Nat
  last_pt_i : Nat
  n_chunks : Nat
  start_st_i : Nat
  last_st_i : Nat
  deriving DecidableEq, Repr

/-- Modelled from the spec: a kernel region entry (`k_frames[i]`, declared outside the
sources at hand) with the fields the code assigns. -/
structure KFrame where
  start_frame_n_to_remove : Nat
  vaddr_to_free : Nat
  owner : Nat
  n_pages : Nat
  next : Nat
  prev : Nat
  deriving DecidableEq, Repr

/-- Modelled from the spec: the statistics counters (`vmstats`, not part of the sources
at hand); each `add_*` call adds one to its counter. -/
structure Stats where
  tlb_fault : Nat
  tlb_reload : Nat
  page_fault_zeroed : Nat
  page_fault_swap : Nat
  swap_write : Nat
  swap_zero_filled : Nat
  swap_blank : Nat
  deriving DecidableEq, Repr

/-- The global state the paging code works on: the globals `IPT`, `ST`, `frame_n_k`,
`k_frames`, `start_index_k`, `start_free_index`, the process table searched by
`proc_search_pid`, the pid of `curthread->t_proc`, kernel memory (bytes by kernel
virtual address), the swap file (bytes by offset), the TLB and the counters. -/
structure Kernel where
  IPT : pT
  ST : swapTable
  procs : Nat → Option proc
  curproc : Nat
  frame_n_k : Nat
  k_frames : Nat → KFrame
  MAX_PROCESSES : Nat
  start_index_k : Nat
  start_free_index : Nat
  ram : Nat → Nat
  disk : Nat → Nat
  tlb : List (Nat × Nat)
  stats : Stats

/-- Modelled from the spec: `proc_search_pid` (not part of the sources at hand) looks a
process up by its pid and yields `NULL` when there is none. -/
def proc_search_pid (s : Kernel) (pid : Nat) : Option proc := s.procs pid

/-- The descriptor behind `curthread->t_proc`. -/
def curthread_t_proc (s : Kernel) : Except Fault proc :=
  match s.procs s.curproc with
  | some p => .ok p
  | none => .error Fault.no_proc

/-- Store a process descriptor back. -/
def setProc (s : Kernel) (pid : Nat) (p : proc) : Kernel :=
  { s with procs := upd s.procs pid (some p) }

/-- Modelled from the spec: `TLB_Invalidate` (`vm_tlb`, not part of the sources at hand)
clears any entry pointing at `paddr`. -/
def TLB_Invalidate (tlb : List (Nat × Nat)) (paddr : Nat) : List (Nat × Nat) :=
  tlb.filter (fun e => e.2 ≠ paddr)

/-- Modelled from the spec: `add_SWAP_write` of `vmstats`. -/
def add_SWAP_write (st : Stats) : Stats := { st with swap_write := st.swap_write + 1 }

/-! ## `pt.c` -/

/-- The macro `IS_FULL(pt)` of `pt.c`; the entry is read only when the two indices
are equal. -/
def PT.IS_FULL (pt : pT) : Except Fault Bool :=
  if pt.first_free_frame = pt.last_free_frame then do
    chk (pt.first_free_frame < pt.size) Fault.bounds
    pure (decide (PT.IS_VALID (pt.entries pt.first_free_frame).hi ≠ 0))
  else pure false

/-- Body of the initialisation loop of `pageTInit` for index `i`. -/
def pageTInit_step (entries : Nat → PTE) (i : Nat) : Nat → PTE :=
  upd entries i
    (PTE.mk (PT.SET_KERNEL (PT.SET_PN (PT.SET_VALID (PT.SET_CHAIN (entries i).hi 1) 0) 0) 0)
      (PT.SET_NEXT (PT.SET_PID (entries i).low 0) ((i + 1) % U32)))

/-- The loop `for(i = 0; i < n_pages - 1; i++)` of `pageTInit`, run `k` times. -/
def pageTInit_loop (entries : Nat → PTE) : Nat → Nat → PTE
  | 0 => entries
  | k + 1 => pageTInit_step (pageTInit_loop entries k) k

/-- The function `pageTInit`; `raw` and `rawFIFO` are the contents of the memory
`kmalloc` returned, `mem_base` is the value of `ram_stealmem(0)`. -/
def pageTInit (n_pages : Nat) (raw : Nat → PTE) (rawFIFO : Nat → Nat) (mem_base : Nat) : pT :=
  let i := (n_pages + U32 - 1) % U32
  let e := pageTInit_loop raw i
  { entries := upd e i
      (PTE.mk (PT.SET_KERNEL (PT.SET_PN (PT.SET_VALID (PT.SET_CHAIN (e i).hi 0) 0) 0) 0)
        (PT.SET_NEXT (PT.SET_PID (e i).low 0) 0)),
    size := n_pages,
    first_free_frame := 0,
    last_free_frame := i,
    mem_base_addr := mem_base,
    FIFO := rawFIFO,
    FIFO_index_start := 0,
    FIFO_index_last := (n_pages + U32 - 1) % U32 }

/-- The value `pageTInit` stores in the global `frame_n_k`. -/
def pageTInit_frame_n_k (n_pages : Nat) : Nat := (n_pages + U32 - 1) % U32

/-- The search loops of `addEntry` and `remove_page`:
`for(i = start; HAS_CHAIN(e[i].hi) && GET_NEXT(e[i].low) != index; i = GET_NEXT(e[i].low));`
yielding the final `i`. -/
def findPrev (pt : pT) (index : Nat) : Nat → Nat → Except Fault Nat
  | 0, _ => .error Fault.diverge
  | fuel + 1, i =>
    if i < pt.size then
      if PT.HAS_CHAIN (pt.entries i).hi ≠ 0 ∧ PT.GET_NEXT (pt.entries i).low ≠ index then
        findPrev pt index fuel (PT.GET_NEXT (pt.entries i).low)
      else .ok i
    else .error Fault.bounds

/-- The function `addEntry`. -/
def addEntry (s : Kernel) (page_n index pid : Nat) : Except Fault Kernel := do
  let pt := s.IPT
  let pt1 ←
    (if pt.first_free_frame ≠ pt.last_free_frame then
      if pt.first_free_frame = index then do
        chk (pt.first_free_frame < pt.size) Fault.bounds
        pure { pt with first_free_frame := PT.GET_NEXT (pt.entries pt.first_free_frame).low }
      else do
        let i ← findPrev pt index (pt.size + 1) pt.first_free_frame
        chk (i ≠ pt.last_free_frame) Fault.free_list
        if index = pt.last_free_frame then
          pure { pt with
            last_free_frame := i,
            entries := upd pt.entries i
              (PTE.mk (PT.SET_CHAIN (pt.entries i).hi 0) (pt.entries i).low) }
        else do
          chk (index < pt.size) Fault.bounds
          pure { pt with
            entries := upd pt.entries i
              (PTE.mk (pt.entries i).hi
                (PT.SET_NEXT (pt.entries i).low (PT.GET_NEXT (pt.entries index).low))) }
    else pure pt)
  chk (index < pt1.size) Fault.bounds
  let e := pt1.entries index
  let pt2 : pT :=
    if (page_n <<< 12) % U32 > MIPS_KSEG0 then
      { pt1 with
        entries := upd pt1.entries index
          (PTE.mk (PT.SET_PN (PT.SET_CHAIN (PT.SET_VALID (PT.SET_KERNEL e.hi 1) 1) 0) page_n)
            (PT.SET_PID (PT.SET_NEXT e.low 0) pid)) }
    else
      { pt1 with
        entries := upd pt1.entries index
          (PTE.mk (PT.SET_PN (PT.SET_CHAIN (PT.SET_VALID (PT.SET_KERNEL e.hi 0) 1) 0) page_n)
            (PT.SET_PID (PT.SET_NEXT e.low 0) pid)) }
  let p ← curthread_t_proc s
  if p.n_frames = 0 then
    pure (setProc { s with IPT := pt2 } s.curproc
      { p with start_pt_i := index, last_pt_i := index, n_frames := (p.n_frames + 1) % U32 })
  else do
    chk (p.last_pt_i < pt2.size) Fault.bounds
    let l := pt2.entries p.last_pt_i
    let pt3 : pT := { pt2 with
      entries := upd pt2.entries p.last_pt_i
        (PTE.mk (PT.SET_CHAIN l.hi 1) (PT.SET_NEXT l.low index)) }
    pure (setProc { s with IPT := pt3 } s.curproc
      { p with last_pt_i := index, n_frames := (p.n_frames + 1) % U32 })

/-- The loop of `getFrameAddress`, started at `i`. -/
def getFrameAddress_loop (pt : pT) (page_n : Nat) (frame : Bool) : Nat → Nat → Except Fault Nat
  | 0, _ => .error Fault.diverge
  | fuel + 1, i =>
    if i = NEG1 then .ok NEG1
    else if i < pt.size then
      if PT.GET_PN (pt.entries i).hi = page_n then
        .ok (if frame then i else (i * PAGE_SIZE + pt.mem_base_addr) % U32)
      else if PT.HAS_CHAIN (pt.entries i).hi = 0 then .ok NEG1
      else getFrameAddress_loop pt page_n frame fuel (PT.GET_NEXT (pt.entries i).low)
    else .error Fault.bounds

/-- The function `getFrameAddress`; the result is the 32-bit pattern of the `int` it
returns. -/
def getFrameAddress (s : Kernel) (page_n : Nat) (frame : Bool) : Except Fault Nat := do
  let p ← curthread_t_proc s
  getFrameAddress_loop s.IPT page_n frame (s.IPT.size + 1) p.start_pt_i

/-- The `do ... while` loop of `replace_page` (FIFO policy), from cursor `last`; yields
the page index and the new cursor. -/
def replace_page_loop (pt : pT) : Nat → Nat → Except Fault (Nat × Nat)
  | 0, _ => .error Fault.diverge
  | fuel + 1, last =>
    if pt.size = 0 then .error Fault.bounds
    else
      let last1 := ((last + 1) % U32) % pt.size
      let page_index := pt.FIFO last1
      if page_index < pt.size then
        if PT.IS_KERNEL (pt.entries page_index).hi ≠ 0 then replace_page_loop pt fuel last1
        else .ok (page_index, last1)
      else .error Fault.bounds

/-- The function `replace_page` (`RA = FIFO_RA`): the victim and the table with the
advanced cursor. -/
def replace_page (pt : pT) : Except Fault (Nat × pT) := do
  let r ← replace_page_loop pt (pt.size + 1) pt.FIFO_index_last
  pure (r.1, { pt with FIFO_index_last := r.2 })

/-! ## `swapfile.c` (`LIST_ST`) -/

/-- The macro `IS_FULL(st)` of `swapfile.c`. -/
def SW.IS_FULL (st : swapTable) : Except Fault Bool :=
  if st.first_free_chunk = st.last_free_chunk then do
    chk (st.first_free_chunk < st.size) Fault.bounds
    pure (decide (SW.IS_SWAPPED (st.entries st.first_free_chunk).hi = 0))
  else pure false

/-- Body of the initialisation loop of `swapTableInit` for index `i`. -/
def swapTableInit_step (entries : Nat → STE) (i : Nat) : Nat → STE :=
  let hi1 := SW.SET_PREV (SW.SET_SWAPPED (SW.SET_CHAIN (entries i).hi 1) 1) 1
  if i = 0 then upd entries i (STE.mk (SW.SET_PREV hi1 0) ((i + 1) % U32) 0)
  else upd entries i (STE.mk hi1 ((i + 1) % U32) ((i + U32 - 1) % U32))

/-- The loop `for(i = 0; i < result->size - 1; i++)` of `swapTableInit`, run `k` times. -/
def swapTableInit_loop (entries : Nat → STE) : Nat → Nat → STE
  | 0 => entries
  | k + 1 => swapTableInit_step (swapTableInit_loop entries k) k

/-- The function `swapTableInit` on a swap file of `st_size` bytes; `raw` is the content
of the memory `kmalloc` returned. -/
def swapTableInit (st_size : Nat) (raw : Nat → STE) : swapTable :=
  let size := (st_size / PAGE_SIZE) % U32
  let i := (size + U32 - 1) % U32
  let e := swapTableInit_loop raw i
  { entries := upd e i
      (STE.mk (SW.SET_PREV (SW.SET_SWAPPED (SW.SET_CHAIN (e i).hi 0) 1) 1) 0
        ((i + U32 - 1) % U32)),
    size := size,
    first_free_chunk := 0,
    last_free_chunk := i }

/-- The function `getFirstFreeChunckIndex`; the result is the 32-bit pattern of the
`int` it returns. -/
def getFirstFreeChunckIndex (st : swapTable) : Except Fault Nat := do
  let full ← SW.IS_FULL st
  if ¬ full then pure st.first_free_chunk else pure NEG1

/-- The function `delete_free_chunk`. -/
def delete_free_chunk (st : swapTable) (chunk_to_delete : Nat) : Except Fault swapTable :=
  if st.first_free_chunk = chunk_to_delete then do
    chk (st.first_free_chunk < st.size) Fault.bounds
    let first := (st.entries st.first_free_chunk).next
    chk (first < st.size) Fault.bounds
    pure { st with
      first_free_chunk := first,
      entries := upd st.entries first
        (STE.mk (SW.SET_PREV (st.entries first).hi 0) (st.entries first).next
          (st.entries first).prev) }
  else do
    chk (chunk_to_delete < st.size) Fault.bounds
    let prev := (st.entries chunk_to_delete).prev
    chk (prev ≠ st.last_free_chunk) Fault.chunk_list
    if chunk_to_delete = st.last_free_chunk then do
      chk (prev < st.size) Fault.bounds
      pure { st with
        last_free_chunk := prev,
        entries := upd st.entries prev
          (STE.mk (SW.SET_CHAIN (st.entries prev).hi 0) (st.entries prev).next
            (st.entries prev).prev) }
    else do
      chk (prev < st.size) Fault.bounds
      let e1 := upd st.entries prev
        (STE.mk (st.entries prev).hi (st.entries chunk_to_delete).next (st.entries prev).prev)
      let nx := (e1 chunk_to_delete).next
      chk (nx < st.size) Fault.bounds
      pure { st with
        entries := upd e1 nx (STE.mk (e1 nx).hi (e1 nx).next (e1 chunk_to_delete).prev) }

/-- The function `insert_into_free_chunk_list`. -/
def insert_into_free_chunk_list (st : swapTable) (chunk_to_add : Nat) :
    Except Fault swapTable := do
  let full ← SW.IS_FULL st
  if full then do
    chk (chunk_to_add < st.size) Fault.bounds
    pure { st with
      first_free_chunk := chunk_to_add,
      last_free_chunk := chunk_to_add,
      entries := upd st.entries chunk_to_add
        (STE.mk (SW.SET_PREV (SW.SET_CHAIN (st.entries chunk_to_add).hi 0) 0)
          (st.entries chunk_to_add).next (st.entries chunk_to_add).prev) }
  else do
    let l := st.last_free_chunk
    chk (l < st.size) Fault.bounds
    let e1 := upd st.entries l
      (STE.mk (SW.SET_PREV (SW.SET_CHAIN (st.entries l).hi 1) 1) chunk_to_add (st.entries l).prev)
    chk (chunk_to_add < st.size) Fault.bounds
    let e2 := upd e1 chunk_to_add (STE.mk (e1 chunk_to_add).hi (e1 chunk_to_add).next l)
    let e3 := upd e2 chunk_to_add
      (STE.mk (SW.SET_PREV (SW.SET_CHAIN (e2 chunk_to_add).hi 0) 1) 0 (e2 chunk_to_add).prev)
    pure { st with last_free_chunk := chunk_to_add, entries := e3 }

/-- The function `insert_into_process_chunk_list`, for the process stored under `pid`. -/
def insert_into_process_chunk_list (s : Kernel) (chunk_to_add : Nat) (pid : Nat) (p : proc) :
    Except Fault Kernel := do
  let st := s.ST
  chk (chunk_to_add < st.size) Fault.bounds
  if p.n_chunks = 0 then
    let e1 := upd st.entries chunk_to_add
      (STE.mk (SW.SET_CHAIN (SW.SET_PREV (st.entries chunk_to_add).hi 0) 0)
        (st.entries chunk_to_add).next (st.entries chunk_to_add).prev)
    pure (setProc { s with ST := { st with entries := e1 } } pid
      { p with start_st_i := chunk_to_add, last_st_i := chunk_to_add,
               n_chunks := (p.n_chunks + 1) % U32 })
  else do
    let l := p.last_st_i
    chk (l < st.size) Fault.bounds
    let e1 := upd st.entries l
      (STE.mk (SW.SET_CHAIN (st.entries l).hi 1) chunk_to_add (st.entries l).prev)
    let e2 := upd e1 chunk_to_add
      (STE.mk (SW.SET_CHAIN (SW.SET_PREV (e1 chunk_to_add).hi 1) 0) (e1 chunk_to_add).next l)
    pure (setProc { s with ST := { st with entries := e2 } } pid
      { p with last_st_i := chunk_to_add, n_chunks := (p.n_chunks + 1) % U32 })

/-- The function `delete_process_chunk`; it works on `curthread->t_proc`. -/
def delete_process_chunk (s : Kernel) (chunk_to_delete : Nat) : Except Fault Kernel := do
  let p ← curthread_t_proc s
  let st := s.ST
  chk (chunk_to_delete < st.size) Fault.bounds
  let c := st.entries chunk_to_delete
  if p.n_chunks ≠ 1 then
    if p.start_st_i = chunk_to_delete then do
      let start := c.next
      let e1 := upd st.entries chunk_to_delete (STE.mk (SW.SET_CHAIN c.hi 0) c.next c.prev)
      chk (start < st.size) Fault.bounds
      let e2 := upd e1 start (STE.mk (SW.SET_PREV (e1 start).hi 0) (e1 start).next (e1 start).prev)
      pure (setProc { s with ST := { st with entries := e2 } } s.curproc
        { p with start_st_i := start, n_chunks := (p.n_chunks + U32 - 1) % U32 })
    else if p.last_st_i = chunk_to_delete then do
      let last := c.prev
      chk (last < st.size) Fault.bounds
      let e1 := upd st.entries last
        (STE.mk (SW.SET_CHAIN (st.entries last).hi 0) (st.entries last).next
          (st.entries last).prev)
      let e2 := upd e1 chunk_to_delete
        (STE.mk (SW.SET_PREV (e1 chunk_to_delete).hi 0) (e1 chunk_to_delete).next
          (e1 chunk_to_delete).prev)
      pure (setProc { s with ST := { st with entries := e2 } } s.curproc
        { p with last_st_i := last, n_chunks := (p.n_chunks + U32 - 1) % U32 })
    else do
      chk (c.prev < st.size) Fault.bounds
      let e1 := upd st.entries c.prev
        (STE.mk (st.entries c.prev).hi c.next (st.entries c.prev).prev)
      let nx := (e1 chunk_to_delete).next
      chk (nx < st.size) Fault.bounds
      let e2 := upd e1 nx (STE.mk (e1 nx).hi (e1 nx).next (e1 chunk_to_delete).prev)
      let e3 := upd e2 chunk_to_delete
        (STE.mk (SW.SET_CHAIN (SW.SET_PREV (e2 chunk_to_delete).hi 0) 0)
          (e2 chunk_to_delete).next (e2 chunk_to_delete).prev)
      pure (setProc { s with ST := { st with entries := e3 } } s.curproc
        { p with n_chunks := (p.n_chunks + U32 - 1) % U32 })
  else
    let e1 := upd st.entries chunk_to_delete
      (STE.mk (SW.SET_CHAIN (SW.SET_PREV c.hi 0) 0) c.next c.prev)
    pure (setProc { s with ST := { st with entries := e1 } } s.curproc
      { p with last_st_i := p.start_st_i, n_chunks := (p.n_chunks + U32 - 1) % U32 })

/-- Transfer of one page from kernel memory at `kvaddr` to the swap file at `offset`
(`uio_kinit` with `UIO_WRITE` followed by `VOP_WRITE`). -/
def page_to_disk (ram disk : Nat → Nat) (kvaddr offset : Nat) : Nat → Nat :=
  fun a => if offset ≤ a ∧ a < offset + PAGE_SIZE then ram (kvaddr + (a - offset)) else disk a

/-- Transfer of one page from the swap file at `offset` to kernel memory at `kvaddr`
(`uio_kinit` with `UIO_READ` followed by `VOP_READ`). -/
def page_from_disk (ram disk : Nat → Nat) (kvaddr offset : Nat) : Nat → Nat :=
  fun a => if kvaddr ≤ a ∧ a < kvaddr + PAGE_SIZE then disk (offset + (a - kvaddr)) else ram a

/-- The function `swapout` (the swap table is the global `ST`). -/
def swapout (s : Kernel) (index paddr page_number pid : Nat) (invalidate : Bool) :
    Except Fault Kernel := do
  let st1 ← delete_free_chunk s.ST index
  let p ← curthread_t_proc s
  let s2 ← insert_into_process_chunk_list { s with ST := st1 } index s.curproc p
  chk (index < s2.ST.size) Fault.bounds
  let c := s2.ST.entries index
  let st3 : swapTable := { s2.ST with
    entries := upd s2.ST.entries index
      (STE.mk (SW.SET_PN (SW.SET_PID (SW.SET_SWAPPED c.hi 0) pid) page_number) c.next c.prev) }
  let disk := page_to_disk s2.ram s2.disk (PADDR_TO_KVADDR (paddr &&& PAGE_FRAME))
    ((index * PAGE_SIZE) % U32)
  pure { s2 with
    ST := st3,
    disk := disk,
    tlb := if invalidate then TLB_Invalidate s2.tlb paddr else s2.tlb }

/-- The function `swapin` (the swap table is the global `ST`). -/
def swapin (s : Kernel) (index paddr : Nat) : Except Fault Kernel := do
  chk (index < s.ST.size) Fault.bounds
  let c := s.ST.entries index
  let st1 : swapTable := { s.ST with
    entries := upd s.ST.entries index (STE.mk (SW.SET_SWAPPED c.hi 1) c.next c.prev) }
  let ram := page_from_disk s.ram s.disk (PADDR_TO_KVADDR (paddr &&& PAGE_FRAME))
    ((index * PAGE_SIZE) % U32)
  let s2 ← delete_process_chunk { s with ST := st1, ram := ram } index
  let st3 ← insert_into_free_chunk_list s2.ST index
  pure { s2 with ST := st3 }

/-- The loop of `getSwapChunk`, started at `i`. -/
def getSwapChunk_loop (st : swapTable) (page_n : Nat) : Nat → Nat → Except Fault Nat
  | 0, _ => .error Fault.diverge
  | fuel + 1, i =>
    if i < st.size then
      if SW.GET_PN (st.entries i).hi = page_n then .ok i
      else if SW.HAS_CHAIN (st.entries i).hi = 0 then .ok NEG1
      else getSwapChunk_loop st page_n fuel (st.entries i).next
    else .error Fault.bounds

/-- The function `getSwapChunk`; the parameter `pid` is not used under `LIST_ST`. -/
def getSwapChunk (s : Kernel) (faultaddress : Nat) (_pid : Nat) : Except Fault Nat := do
  let p ← curthread_t_proc s
  getSwapChunk_loop s.ST (faultaddress >>> 12) (s.ST.size + 1) p.start_st_i

/-! ## `pt.c`, continued: the functions that use the swap table -/

/-- First part of `remove_page`: "Remove the page from process list". -/
def remove_page_proc_list (s : Kernel) (frame_n : Nat) : Except Fault Kernel :=
  let pid := PT.GET_PID (s.IPT.entries frame_n).low
  match proc_search_pid s pid with
  | none => pure s
  | some p =>
    if p.n_frames ≠ 1 then
      if p.start_pt_i = frame_n then
        pure (setProc s pid
          { p with start_pt_i := PT.GET_NEXT (s.IPT.entries frame_n).low,
                   n_frames := (p.n_frames + U32 - 1) % U32 })
      else do
        let pt := s.IPT
        let i ← findPrev pt frame_n (pt.size + 1) p.start_pt_i
        chk (i ≠ p.last_pt_i) Fault.proc_list
        if frame_n = p.last_pt_i then
          pure (setProc { s with IPT := { pt with
              entries := upd pt.entries i
                (PTE.mk (PT.SET_CHAIN (pt.entries i).hi 0) (pt.entries i).low) } } pid
            { p with last_pt_i := i, n_frames := (p.n_frames + U32 - 1) % U32 })
        else
          pure (setProc { s with IPT := { pt with
              entries := upd pt.entries i
                (PTE.mk (pt.entries i).hi
                  (PT.SET_NEXT (pt.entries i).low (PT.GET_NEXT (pt.entries frame_n).low))) } } pid
            { p with n_frames := (p.n_frames + U32 - 1) % U32 })
    else
      pure (setProc s pid
        { p with last_pt_i := p.start_pt_i, n_frames := (p.n_frames + U32 - 1) % U32 })

/-- Second part of `remove_page`: "Insert the page into free list", and the final
clearing of the entry. -/
def remove_page_free_list (pt : pT) (frame_n : Nat) : Except Fault pT := do
  let full ← PT.IS_FULL pt
  let pt2 ←
    (if full then
      pure { pt with first_free_frame := frame_n, last_free_frame := frame_n }
    else do
      let l := pt.last_free_frame
      chk (l < pt.size) Fault.bounds
      pure { pt with
        last_free_frame := frame_n,
        entries := upd pt.entries l
          (PTE.mk (PT.SET_CHAIN (pt.entries l).hi 1) (PT.SET_NEXT (pt.entries l).low frame_n)) })
  let e := pt2.entries frame_n
  pure { pt2 with
    entries := upd pt2.entries frame_n
      (PTE.mk (PT.SET_KERNEL (PT.SET_PN (PT.SET_VALID (PT.SET_CHAIN e.hi 0) 0) 0) 0)
        (PT.SET_NEXT (PT.SET_PID e.low 0) 0)) }

/-- The function `remove_page`. -/
def remove_page (s : Kernel) (frame_n : Nat) : Except Fault Kernel := do
  chk (frame_n < s.IPT.size) Fault.bounds
  let s1 ← remove_page_proc_list s frame_n
  let pt2 ← remove_page_free_list s1.IPT frame_n
  pure { s1 with IPT := pt2 }

/-- The branch of `insert_page` taken when `IS_FULL(pt)` holds: a victim is chosen,
swapped out and removed; yields the frame, its address and the new state. -/
def insert_page_evict (s : Kernel) : Except Fault (Nat × Nat × Kernel) := do
  let v ← replace_page s.IPT
  let frame_n := v.1
  let pt := v.2
  let frame_address := (frame_n * PAGE_SIZE + pt.mem_base_addr) % U32
  let free_chunk_index ← getFirstFreeChunckIndex s.ST
  chk (free_chunk_index ≠ NEG1) Fault.out_of_swap
  chk (frame_n < pt.size) Fault.bounds
  let s1 ← swapout { s with IPT := pt } free_chunk_index frame_address
    (PT.GET_PN (pt.entries frame_n).hi) (PT.GET_PID (pt.entries frame_n).low) true
  let s2 := { s1 with stats := add_SWAP_write s1.stats }
  let s3 ← remove_page s2 frame_n
  pure (frame_n, frame_address, s3)

/-- The choice of the frame in `insert_page`: the frame, its address and the state
after a possible eviction. -/
def insert_page_frame (s : Kernel) (suggested_frame_n : Nat) :
    Except Fault (Nat × Nat × Kernel) :=
  if suggested_frame_n = NEG1 then do
    let full ← PT.IS_FULL s.IPT
    if full then insert_page_evict s
    else
      pure (s.IPT.first_free_frame,
        (s.IPT.first_free_frame * PAGE_SIZE + s.IPT.mem_base_addr) % U32, s)
  else
    pure (suggested_frame_n, (suggested_frame_n * PAGE_SIZE + s.IPT.mem_base_addr) % U32, s)

/-- The end of `insert_page`: "Add frame into FIFO". -/
def insert_page_fifo (s : Kernel) (frame_n : Nat) : Except Fault Kernel := do
  let pt := s.IPT
  chk (pt.FIFO_index_start < pt.size) Fault.bounds
  pure { s with IPT := { pt with
    FIFO := upd pt.FIFO pt.FIFO_index_start frame_n,
    FIFO_index_start := ((pt.FIFO_index_start + 1) % U32) % pt.size } }

/-- The function `insert_page` (`RA = FIFO_RA`); `suggested_frame_n` is the 32-bit
pattern of the `int` argument. -/
def insert_page (s : Kernel) (vaddr : Nat) (suggested_frame_n : Nat) :
    Except Fault (Nat × Kernel) := do
  let r ← insert_page_frame s suggested_frame_n
  let s4 ← addEntry r.2.2 ((vaddr &&& PAGE_FRAME) >>> 12) r.1 r.2.2.curproc
  let s5 ← insert_page_fifo s4 r.1
  pure (r.2.1, s5)

/-- One pass of the loop of `alloc_n_contiguos_pages` for frame `i`. -/
def alloc_n_contiguos_pages_step (s : Kernel) (i : Nat) : Except Fault Kernel := do
  chk (i < s.IPT.size) Fault.bounds
  let s1 ←
    (if PT.IS_VALID (s.IPT.entries i).hi ≠ 0 then do
      let free_chunk_index ← getFirstFreeChunckIndex s.ST
      chk (free_chunk_index ≠ NEG1) Fault.out_of_swap
      let s1 ← swapout s free_chunk_index ((i * PAGE_SIZE + s.IPT.mem_base_addr) % U32)
        (PT.GET_PN (s.IPT.entries i).hi) (PT.GET_PID (s.IPT.entries i).low) true
      remove_page s1 i
    else pure s)
  let r ← insert_page s1 (PADDR_TO_KVADDR ((i * PAGE_SIZE + s1.IPT.mem_base_addr) % U32)) i
  pure r.2

/-- The loop `for(i = frame_n_k; i > frame_n_k - npages; i--)` of
`alloc_n_contiguos_pages`; `bound` is the value of `frame_n_k - npages`, which the loop
does not change, and the loop makes at most `npages` passes. -/
def alloc_n_contiguos_pages_loop (bound : Nat) : Nat → Kernel → Nat → Except Fault Kernel
  | 0, s, i => if i > bound then .error Fault.diverge else .ok s
  | fuel + 1, s, i =>
    if i > bound then do
      let s1 ← alloc_n_contiguos_pages_step s i
      alloc_n_contiguos_pages_loop bound fuel s1 ((i + U32 - 1) % U32)
    else .ok s

/-- The walk `for(i = start_index_k; k_frames[i].next != -1; i = k_frames[i].next);`. -/
def k_frames_last (s : Kernel) : Nat → Nat → Except Fault Nat
  | 0, _ => .error Fault.diverge
  | fuel + 1, i =>
    if i < s.MAX_PROCESSES then
      if (s.k_frames i).next ≠ NEG1 then k_frames_last s fuel (s.k_frames i).next
      else .ok i
    else .error Fault.bounds

/-- The function `alloc_n_contiguos_pages` (the locks are not modelled; `frame_n_k` is
unsigned, so the test `frame_n_k < 0` never holds). -/
def alloc_n_contiguos_pages (s : Kernel) (npages : Nat) : Except Fault (Nat × Kernel) := do
  let index := s.frame_n_k
  let s1 ← alloc_n_contiguos_pages_loop ((s.frame_n_k + U32 - npages % U32) % U32) npages s
    s.frame_n_k
  let s2 := { s1 with frame_n_k := (s1.frame_n_k + U32 - npages % U32) % U32 }
  let vaddr_to_free :=
    PADDR_TO_KVADDR (((index * PAGE_SIZE + s2.IPT.mem_base_addr) % U32) &&& PAGE_FRAME)
  let s3 ←
    (if s2.start_index_k = NEG1 then do
      let k := s2.start_free_index
      chk (k < s2.MAX_PROCESSES) Fault.bounds
      pure { s2 with
        start_index_k := k,
        start_free_index := (s2.k_frames k).next,
        k_frames := upd s2.k_frames k
          { start_frame_n_to_remove := index, vaddr_to_free := vaddr_to_free,
            owner := s2.curproc, n_pages := npages, next := NEG1, prev := NEG1 } }
    else do
      let i ← k_frames_last s2 (s2.MAX_PROCESSES + 1) s2.start_index_k
      let f := s2.start_free_index
      let k1 := upd s2.k_frames i { (s2.k_frames i) with next := f }
      chk (f < s2.MAX_PROCESSES) Fault.bounds
      let k2 := upd k1 f { (k1 f) with prev := i }
      let f2 := (k2 f).next
      chk ((k2 i).next < s2.MAX_PROCESSES) Fault.bounds
      let k3 := upd k2 (k2 i).next { (k2 (k2 i).next) with next := NEG1 }
      let k4 := upd k3 i { (k3 i) with
        start_frame_n_to_remove := index, vaddr_to_free := vaddr_to_free,
        owner := s2.curproc, n_pages := npages }
      pure { s2 with start_free_index := f2, k_frames := k4 })
  pure (((index * PAGE_SIZE + s3.IPT.mem_base_addr) % U32) &&& PAGE_FRAME, s3)

/-! ## `paging.c`: bootstrap -/

/-- What `vm_bootstrap` takes from its environment: the constants `MAX_PROCESSES` and
`PAGES_FOR_IPT`, the values of `mainbus_ramsize()` and of `ram_stealmem(0)` (before and
inside `pageTInit`), the size of the swap file, the contents of the memory `kmalloc`
returns, the process table, kernel memory and the swap file. -/
structure BootEnv where
  MAX_PROCESSES : Nat
  PAGES_FOR_IPT : Nat
  ram_size : Nat
  ram_user_base : Nat
  mem_base : Nat
  st_size : Nat
  rawPT : Nat → PTE
  rawFIFO : Nat → Nat
  rawST : Nat → STE
  rawK : Nat → KFrame
  procs : Nat → Option proc
  curproc : Nat
  ram : Nat → Nat
  disk : Nat → Nat

/-- The loop of `vm_bootstrap` over `k_frames`, run `k` times. -/
def vm_bootstrap_loop (maxp : Nat) (k_frames : Nat → KFrame) : Nat → Nat → KFrame
  | 0 => k_frames
  | i + 1 =>
    let k := vm_bootstrap_loop maxp k_frames i
    if i = 0 then
      upd k i { start_frame_n_to_remove := 0, vaddr_to_free := 0, owner := 0, n_pages := 0,
                next := 1, prev := NEG1 }
    else if i = (maxp + U32 - 1) % U32 then
      upd k i { start_frame_n_to_remove := 0, vaddr_to_free := 0, owner := 0, n_pages := 0,
                next := NEG1, prev := (i + U32 - 1) % U32 }
    else
      upd k i { start_frame_n_to_remove := 0, vaddr_to_free := 0, owner := 0, n_pages := 0,
                next := (i + 1) % U32, prev := (i + U32 - 1) % U32 }

/-- The number of frames `vm_bootstrap` passes to `pageTInit`. -/
def vm_bootstrap_n_pages (e : BootEnv) : Nat :=
  ((e.ram_size + 2 * U32 - e.ram_user_base % U32 - (e.PAGES_FOR_IPT * PAGE_SIZE) % U32) % U32)
    / PAGE_SIZE

/-- The function `vm_bootstrap`: the state when it returns (`stat_bootstrap` clears
the counters; the TLB is taken empty). -/
def vm_bootstrap (e : BootEnv) : Kernel :=
  { IPT := pageTInit (vm_bootstrap_n_pages e) e.rawPT e.rawFIFO e.mem_base,
    ST := swapTableInit e.st_size e.rawST,
    procs := e.procs,
    curproc := e.curproc,
    frame_n_k := pageTInit_frame_n_k (vm_bootstrap_n_pages e),
    k_frames := vm_bootstrap_loop e.MAX_PROCESSES e.rawK e.MAX_PROCESSES,
    MAX_PROCESSES := e.MAX_PROCESSES,
    start_index_k := NEG1,
    start_free_index := 0,
    ram := e.ram,
    disk := e.disk,
    tlb := [],
    stats := { tlb_fault := 0, tlb_reload := 0, page_fault_zeroed := 0, page_fault_swap := 0,
               swap_write := 0, swap_zero_filled := 0, swap_blank := 0 } }

/-! ## Linked chains and the well-formedness of the tables -/

/-- The list `l` is a chain: every element but the last has its chain flag set and
points to its successor, and the last element has its chain flag clear. -/
def Linked (ch : Nat → Bool) (nx : Nat → Nat) (l : List Nat) : Prop :=
  List.Chain' (fun a b => ch a = true ∧ nx a = b) l ∧ ∀ a, l.getLast? = some a → ch a = false

/-- The elements met from `i` by following `nx` while the chain flag is set, at most
`k` of them. -/
def walk (ch : Nat → Bool) (nx : Nat → Nat) : Nat → Nat → List Nat
  | 0, _ => []
  | k + 1, i => i :: (if ch i then walk ch nx k (nx i) else [])

/-- Chain flag of frame `i`. -/
def PT.ch (e : Nat → PTE) (i : Nat) : Bool := decide (PT.HAS_CHAIN (e i).hi ≠ 0)

/-- Successor of frame `i`. -/
def PT.nx (e : Nat → PTE) (i : Nat) : Nat := PT.GET_NEXT (e i).low

/-- The free chain of the page table: empty when `IS_FULL` holds, otherwise the frames
reached from `first_free_frame` by following `next` while the chain bit is set. -/
def freeChain (pt : pT) : List Nat :=
  if pt.first_free_frame = pt.last_free_frame ∧
      PT.IS_VALID (pt.entries pt.first_free_frame).hi ≠ 0 then []
  else walk (PT.ch pt.entries) (PT.nx pt.entries) pt.size pt.first_free_frame

/-- The frame chain of a process: empty when `n_frames` is 0 (the test `addEntry`
makes), otherwise the frames reached from `start_pt_i`. -/
def procChain (pt : pT) (p : proc) : List Nat :=
  if p.n_frames = 0 then []
  else walk (PT.ch pt.entries) (PT.nx pt.entries) pt.size p.start_pt_i

/-- The frame chain of the process whose pid is stored in entry `f` (empty when there
is no such process). -/
def ownerChain (s : Kernel) (f : Nat) : List Nat :=
  match s.procs (PT.GET_PID (s.IPT.entries f).low) with
  | some p => procChain s.IPT p
  | none => []

/-- Well-formedness of the page table with respect to a free list `F` and the frame
lists `C q` of the processes. -/
structure PTInv (s : Kernel) (F : List Nat) (C : Nat → List Nat) : Prop where
  size_pos : 0 < s.IPT.size
  size_le : s.IPT.size ≤ 2 ^ 20
  fifo_start : s.IPT.FIFO_index_start < s.IPT.size
  F_nodup : F.Nodup
  F_free : ∀ f ∈ F, f < s.IPT.size ∧ PT.IS_VALID (s.IPT.entries f).hi = 0
  F_link : Linked (PT.ch s.IPT.entries) (PT.nx s.IPT.entries) F
  F_head : ∀ a, F.head? = some a → s.IPT.first_free_frame = a
  F_last : ∀ a, F.getLast? = some a → s.IPT.last_free_frame = a
  F_nil : F = [] → s.IPT.first_free_frame = s.IPT.last_free_frame ∧
    s.IPT.first_free_frame < s.IPT.size ∧
    PT.IS_VALID (s.IPT.entries s.IPT.first_free_frame).hi ≠ 0
  C_nodup : ∀ q, (C q).Nodup
  C_own : ∀ q, ∀ f ∈ C q, f < s.IPT.size ∧ PT.IS_VALID (s.IPT.entries f).hi ≠ 0 ∧
    PT.GET_PID (s.IPT.entries f).low = q
  C_link : ∀ q, Linked (PT.ch s.IPT.entries) (PT.nx s.IPT.entries) (C q)
  C_len : ∀ q p, s.procs q = some p → (C q).length = p.n_frames
  C_head : ∀ q p a, s.procs q = some p → (C q).head? = some a → p.start_pt_i = a
  C_last : ∀ q p a, s.procs q = some p → (C q).getLast? = some a → p.last_pt_i = a
  C_none : ∀ q, s.procs q = none → C q = []
  pid_lt : ∀ q p, s.procs q = some p → q < 64
  cover : ∀ f, f < s.IPT.size →
    (PT.IS_VALID (s.IPT.entries f).hi = 0 → f ∈ F) ∧
    (PT.IS_VALID (s.IPT.entries f).hi ≠ 0 → f ∈ C (PT.GET_PID (s.IPT.entries f).low))
  addr_fit : s.IPT.mem_base_addr + s.IPT.size * PAGE_SIZE ≤ U32

/-- A well-formed page table: one that has a free list and per-process frame lists. -/
def PTWf (s : Kernel) : Prop := ∃ F C, PTInv s F C

/-- A kernel state right after `pageTInit(n)`: the table is the one `pageTInit` builds
for `n ≥ 1` frames that lie in the 32-bit physical address space from `mem_base` on, and
the processes have 6-bit pids and no frames. -/
def PTFresh (n : Nat) (s : Kernel) : Prop :=
  1 ≤ n ∧
  (∃ raw rawFIFO mem_base, mem_base + n * PAGE_SIZE ≤ U32 ∧
    s.IPT = pageTInit n raw rawFIFO mem_base) ∧
  ∀ q p, s.procs q = some p → q < 64 ∧ p.n_frames = 0

/-- One call made by an existing process `q`: `insert_page(vaddr, -1)` that returns
(so a free swap chunk was found if a victim had to be evicted), or `remove_page(f)` on
a valid frame that returns. -/
inductive PTStep : Kernel → Kernel → Prop where
  | insert (s s' : Kernel) (q vaddr a : Nat) : s.procs q ≠ none →
      insert_page { s with curproc := q } vaddr NEG1 = .ok (a, s') → PTStep s s'
  | remove (s s' : Kernel) (q f : Nat) : s.procs q ≠ none →
      f < s.IPT.size → PT.IS_VALID (s.IPT.entries f).hi ≠ 0 →
      remove_page { s with curproc := q } f = .ok s' → PTStep s s'

/-- States reached from `s0` by such calls. -/
inductive PTReach (s0 : Kernel) : Kernel → Prop where
  | init : PTReach s0 s0
  | step (s s' : Kernel) : PTReach s0 s → PTStep s s' → PTReach s0 s'

/-- The partition property of the page table. -/
def PTPartition (s : Kernel) : Prop :=
  (freeChain s.IPT).Nodup ∧
  (∀ a, (freeChain s.IPT).getLast? = some a → a = s.IPT.last_free_frame) ∧
  (∀ f, f < s.IPT.size →
    (f ∈ freeChain s.IPT ↔ PT.IS_VALID (s.IPT.entries f).hi = 0) ∧
    (f ∈ freeChain s.IPT ↔ f ∉ ownerChain s f)) ∧
  (∀ q p, s.procs q = some p →
    (procChain s.IPT p).Nodup ∧ p.n_frames = (procChain s.IPT p).length)

/-- The parts of the state that the page-table functions leave alone. -/
def sameOther (s s' : Kernel) : Prop :=
  s'.ST = s.ST ∧ s'.curproc = s.curproc ∧ s'.frame_n_k = s.frame_n_k ∧
  s'.k_frames = s.k_frames ∧ s'.MAX_PROCESSES = s.MAX_PROCESSES ∧
  s'.start_index_k = s.start_index_k ∧ s'.start_free_index = s.start_free_index ∧
  s'.ram = s.ram ∧ s'.disk = s.disk ∧ s'.tlb = s.tlb ∧ s'.stats = s.stats

/-- What `addEntry` does when `f` is the head of the free list. -/
structure AddEntryPost (s s' : Kernel) (vpn f pid : Nat) (p : proc) : Prop where
  e_other : ∀ j, j ≠ f → (p.n_frames = 0 ∨ j ≠ p.last_pt_i) →
    s'.IPT.entries j = s.IPT.entries j
  e_valid : PT.IS_VALID (s'.IPT.entries f).hi = 1
  e_chain : PT.HAS_CHAIN (s'.IPT.entries f).hi = 0
  e_kernel : PT.IS_KERNEL (s'.IPT.entries f).hi =
    if (vpn <<< 12) % U32 > MIPS_KSEG0 then 4 else 0
  e_pn : PT.GET_PN (s'.IPT.entries f).hi = vpn % 2 ^ 20
  e_pid : PT.GET_PID (s'.IPT.entries f).low = pid
  e_next : PT.GET_NEXT (s'.IPT.entries f).low = 0
  l_link : p.n_frames ≠ 0 → p.last_pt_i ≠ f →
    PT.HAS_CHAIN (s'.IPT.entries p.last_pt_i).hi = 2 ∧
    PT.GET_NEXT (s'.IPT.entries p.last_pt_i).low = f % 2 ^ 20 ∧
    PT.IS_VALID (s'.IPT.entries p.last_pt_i).hi = PT.IS_VALID (s.IPT.entries p.last_pt_i).hi ∧
    PT.IS_KERNEL (s'.IPT.entries p.last_pt_i).hi = PT.IS_KERNEL (s.IPT.entries p.last_pt_i).hi ∧
    PT.GET_PN (s'.IPT.entries p.last_pt_i).hi = PT.GET_PN (s.IPT.entries p.last_pt_i).hi ∧
    PT.GET_PID (s'.IPT.entries p.last_pt_i).low = PT.GET_PID (s.IPT.entries p.last_pt_i).low
  first : s'.IPT.first_free_frame =
    if s.IPT.first_free_frame ≠ s.IPT.last_free_frame then PT.GET_NEXT (s.IPT.entries f).low
    else s.IPT.first_free_frame
  last : s'.IPT.last_free_frame = s.IPT.last_free_frame
  size : s'.IPT.size = s.IPT.size
  mem_base : s'.IPT.mem_base_addr = s.IPT.mem_base_addr
  fifo : s'.IPT.FIFO = s.IPT.FIFO
  fifo_start : s'.IPT.FIFO_index_start = s.IPT.FIFO_index_start
  fifo_last : s'.IPT.FIFO_index_last = s.IPT.FIFO_index_last
  procs : s'.procs = upd s.procs s.curproc (some
    { p with start_pt_i := if p.n_frames = 0 then f else p.start_pt_i,
             last_pt_i := f, n_frames := (p.n_frames + 1) % U32 })
  other : sameOther s s'

/-- What `remove_page` does to frame `f`, owned by process `q` with descriptor `p`, when
the frame list of `q` is `l1 ++ f :: l2` and the free list is `F`. -/
structure RemovePagePost (s s' : Kernel) (f q : Nat) (p : proc) (F l1 l2 : List Nat) :
    Prop where
  e_valid : PT.IS_VALID (s'.IPT.entries f).hi = 0
  e_chain : PT.HAS_CHAIN (s'.IPT.entries f).hi = 0
  e_kernel : PT.IS_KERNEL (s'.IPT.entries f).hi = 0
  e_pn : PT.GET_PN (s'.IPT.entries f).hi = 0
  e_pid : PT.GET_PID (s'.IPT.entries f).low = 0
  e_next : PT.GET_NEXT (s'.IPT.entries f).low = 0
  e_other : ∀ j, j ≠ f → l1.getLast? ≠ some j → F.getLast? ≠ some j →
    s'.IPT.entries j = s.IPT.entries j
  e_fields : ∀ j, j ≠ f →
    PT.IS_VALID (s'.IPT.entries j).hi = PT.IS_VALID (s.IPT.entries j).hi ∧
    PT.IS_KERNEL (s'.IPT.entries j).hi = PT.IS_KERNEL (s.IPT.entries j).hi ∧
    PT.GET_PN (s'.IPT.entries j).hi = PT.GET_PN (s.IPT.entries j).hi ∧
    PT.GET_PID (s'.IPT.entries j).low = PT.GET_PID (s.IPT.entries j).low
  pred_last : ∀ i, l1.getLast? = some i → l2 = [] → PT.HAS_CHAIN (s'.IPT.entries i).hi = 0
  pred_mid : ∀ i g, l1.getLast? = some i → l2.head? = some g →
    PT.HAS_CHAIN (s'.IPT.entries i).hi ≠ 0 ∧ PT.GET_NEXT (s'.IPT.entries i).low = g
  free_last : ∀ a, F.getLast? = some a →
    PT.HAS_CHAIN (s'.IPT.entries a).hi = 2 ∧ PT.GET_NEXT (s'.IPT.entries a).low = f
  first : s'.IPT.first_free_frame = if F = [] then f else s.IPT.first_free_frame
  last : s'.IPT.last_free_frame = f
  size : s'.IPT.size = s.IPT.size
  mem_base : s'.IPT.mem_base_addr = s.IPT.mem_base_addr
  fifo : s'.IPT.FIFO = s.IPT.FIFO
  fifo_start : s'.IPT.FIFO_index_start = s.IPT.FIFO_index_start
  fifo_last : s'.IPT.FIFO_index_last = s.IPT.FIFO_index_last
  procs_other : ∀ q', q' ≠ q → s'.procs q' = s.procs q'
  procs_q : ∃ p', s'.procs q = some p' ∧ p'.n_frames + 1 = p.n_frames ∧
    p'.n_chunks = p.n_chunks ∧ p'.start_st_i = p.start_st_i ∧ p'.last_st_i = p.last_st_i ∧
    (∀ a, (l1 ++ l2).head? = some a → p'.start_pt_i = a) ∧
    (∀ a, (l1 ++ l2).getLast? = some a → p'.last_pt_i = a)
  other : sameOther s s'

/-- What the first part of `remove_page` does (see `RemovePagePost`). -/
structure UnlinkPost (s s' : Kernel) (f q : Nat) (p : proc) (l1 l2 : List Nat) : Prop where
  e_other : ∀ j, l1.getLast? ≠ some j → s'.IPT.entries j = s.IPT.entries j
  e_fields : ∀ j,
    PT.IS_VALID (s'.IPT.entries j).hi = PT.IS_VALID (s.IPT.entries j).hi ∧
    PT.IS_KERNEL (s'.IPT.entries j).hi = PT.IS_KERNEL (s.IPT.entries j).hi ∧
    PT.GET_PN (s'.IPT.entries j).hi = PT.GET_PN (s.IPT.entries j).hi ∧
    PT.GET_PID (s'.IPT.entries j).low = PT.GET_PID (s.IPT.entries j).low
  pred_last : ∀ i, l1.getLast? = some i → l2 = [] → PT.HAS_CHAIN (s'.IPT.entries i).hi = 0
  pred_mid : ∀ i g, l1.getLast? = some i → l2.head? = some g →
    PT.HAS_CHAIN (s'.IPT.entries i).hi ≠ 0 ∧ PT.GET_NEXT (s'.IPT.entries i).low = g
  first : s'.IPT.first_free_frame = s.IPT.first_free_frame
  last : s'.IPT.last_free_frame = s.IPT.last_free_frame
  size : s'.IPT.size = s.IPT.size
  mem_base : s'.IPT.mem_base_addr = s.IPT.mem_base_addr
  fifo : s'.IPT.FIFO = s.IPT.FIFO
  fifo_start : s'.IPT.FIFO_index_start = s.IPT.FIFO_index_start
  fifo_last : s'.IPT.FIFO_index_last = s.IPT.FIFO_index_last
  procs_other : ∀ q', q' ≠ q → s'.procs q' = s.procs q'
  procs_q : ∃ p', s'.procs q = some p' ∧ p'.n_frames + 1 = p.n_frames ∧
    p'.n_chunks = p.n_chunks ∧ p'.start_st_i = p.start_st_i ∧ p'.last_st_i = p.last_st_i ∧
    (∀ a, (l1 ++ l2).head? = some a → p'.start_pt_i = a) ∧
    (∀ a, (l1 ++ l2).getLast? = some a → p'.last_pt_i = a)
  other : sameOther s s'

/-- What the second part of `remove_page` does when the free list is `F`. -/
structure FreePost (pt pt' : pT) (f : Nat) (F : List Nat) : Prop where
  e_valid : PT.IS_VALID (pt'.entries f).hi = 0
  e_chain : PT.HAS_CHAIN (pt'.entries f).hi = 0
  e_kernel : PT.IS_KERNEL (pt'.entries f).hi = 0
  e_pn : PT.GET_PN (pt'.entries f).hi = 0
  e_pid : PT.GET_PID (pt'.entries f).low = 0
  e_next : PT.GET_NEXT (pt'.entries f).low = 0
  e_other : ∀ j, j ≠ f → F.getLast? ≠ some j → pt'.entries j = pt.entries j
  e_fields : ∀ j, j ≠ f →
    PT.IS_VALID (pt'.entries j).hi = PT.IS_VALID (pt.entries j).hi ∧
    PT.IS_KERNEL (pt'.entries j).hi = PT.IS_KERNEL (pt.entries j).hi ∧
    PT.GET_PN (pt'.entries j).hi = PT.GET_PN (pt.entries j).hi ∧
    PT.GET_PID (pt'.entries j).low = PT.GET_PID (pt.entries j).low
  free_last : ∀ a, F.getLast? = some a →
    PT.HAS_CHAIN (pt'.entries a).hi = 2 ∧ PT.GET_NEXT (pt'.entries a).low = f
  first : pt'.first_free_frame = if F = [] then f else pt.first_free_frame
  last : pt'.last_free_frame = f
  size : pt'.size = pt.size
  mem_base : pt'.mem_base_addr = pt.mem_base_addr
  fifo : pt'.FIFO = pt.FIFO
  fifo_start : pt'.FIFO_index_start = pt.FIFO_index_start
  fifo_last : pt'.FIFO_index_last = pt.FIFO_index_last

/-- The state `s1` has the same page table, current process and per-process frame
bookkeeping as `s`. -/
def PTSame (s s1 : Kernel) : Prop :=
  s1.IPT = s.IPT ∧ s1.curproc = s.curproc ∧
  ∀ q, (s.procs q = none → s1.procs q = none) ∧
    ∀ p, s.procs q = some p → ∃ p1, s1.procs q = some p1 ∧
      p1.n_frames = p.n_frames ∧ p1.start_pt_i = p.start_pt_i ∧ p1.last_pt_i = p.last_pt_i

/-! ## A concrete system: 8 frames, 16 swap chunks, `MAX_PROCESSES = 8` -/

/-- A process descriptor with no frames and no chunks. -/
def proc0 : proc :=
  { n_frames := 0, start_pt_i := 0, last_pt_i := 0, n_chunks := 0, start_st_i := 0,
    last_st_i := 0 }

/-- An environment with `n` user frames at physical address `0x100000`, 16 swap chunks,
`MAX_PROCESSES = 8`, zeroed memory and the two processes 1 and 2; process 1 is running. -/
def demoEnv (n : Nat) : BootEnv :=
  { MAX_PROCESSES := 8,
    PAGES_FOR_IPT := 1,
    ram_size := 0x100000 + PAGE_SIZE + n * PAGE_SIZE,
    ram_user_base := 0x100000,
    mem_base := 0x100000,
    st_size := 16 * PAGE_SIZE,
    rawPT := fun _ => PTE.mk 0 0,
    rawFIFO := fun _ => 0,
    rawST := fun _ => STE.mk 0 0 0,
    rawK := fun _ => KFrame.mk 0 0 0 0 0 0,
    procs := fun q => if q = 1 ∨ q = 2 then some proc0 else none,
    curproc := 1,
    ram := fun _ => 0,
    disk := fun _ => 0 }

/-- The freshly booted system with 8 frames. -/
def demo8 : Kernel := vm_bootstrap (demoEnv 8)

/-- The state a call leaves behind (the unchanged state if the call does not return). -/
def stateAfter {α : Type} (s : Kernel) (r : Except Fault (α × Kernel)) : Kernel :=
  match r with
  | .ok x => x.2
  | .error _ => s

/-- The system after process 1 has touched page `0x400`. -/
def demo8_1 : Kernel := stateAfter demo8 (insert_page demo8 0x400000 NEG1)

/-- The value `getFrameAddress` reports for frame `i`. -/
def frameResult (pt : pT) (frame : Bool) (i : Nat) : Nat :=
  if frame then i else i * PAGE_SIZE + pt.mem_base_addr

/-- One advance of the FIFO cursor in `replace_page`. -/
def fifoAdvance (pt : pT) (last : Nat) : Nat := ((last + 1) % U32) % pt.size


/-! ## `pt.c` and `swapfile.c`: whole-process operations, fork and ELF preload -/

/-- The loop of `all_proc_page_out`, with `n` passes left (`n_frames_left`). -/
def all_proc_page_out_loop : Nat → Kernel → Nat → Except Fault Kernel
  | 0, s, _ => .ok s
  | n + 1, s, i => do
    chk (i < s.IPT.size) Fault.bounds
    let tmp := PT.GET_NEXT (s.IPT.entries i).low
    let s1 ← remove_page s i
    all_proc_page_out_loop n s1 tmp

/-- The function `all_proc_page_out`; `n_frames_left` is an `int`, so the loop makes
no pass when `n_frames` has its top bit set. -/
def all_proc_page_out (s : Kernel) : Except Fault Kernel := do
  let p ← curthread_t_proc s
  if p.n_frames > 1 then
    all_proc_page_out_loop (if p.n_frames < 2 ^ 31 then p.n_frames else 0) s p.start_pt_i
  else
    remove_page s p.start_pt_i

/-- The loop of `pages_fork`, started at frame `i`. -/
def pages_fork_loop (dst_pid : Nat) : Nat → Kernel → Nat → Except Fault Kernel
  | 0, _, _ => .error Fault.diverge
  | fuel + 1, s, i => do
    let free_chunk_index ← getFirstFreeChunckIndex s.ST
    chk (free_chunk_index ≠ NEG1) Fault.out_of_swap
    chk (i < s.IPT.size) Fault.bounds
    let frame_address := (i * PAGE_SIZE + s.IPT.mem_base_addr) % U32
    let s1 ← swapout s free_chunk_index frame_address (PT.GET_PN (s.IPT.entries i).hi)
      dst_pid false
    if PT.HAS_CHAIN (s1.IPT.entries i).hi = 0 then .ok s1
    else pages_fork_loop dst_pid fuel s1 (PT.GET_NEXT (s1.IPT.entries i).low)

/-- The function `pages_fork`. -/
def pages_fork (s : Kernel) (start_src_frame dst_pid : Nat) : Except Fault Kernel :=
  pages_fork_loop dst_pid (s.IPT.size + 1) s start_src_frame

/-- One pass of the loop of `all_proc_chunk_out` for chunk `i`. -/
def all_proc_chunk_out_step (s : Kernel) (i : Nat) : Except Fault Kernel := do
  chk (i < s.ST.size) Fault.bounds
  if SW.GET_PID (s.ST.entries i).hi = s.curproc then do
    let c := s.ST.entries i
    let st1 : swapTable := { s.ST with
      entries := upd s.ST.entries i (STE.mk (SW.SET_SWAPPED c.hi 1) c.next c.prev) }
    let s2 ← delete_process_chunk { s with ST := st1 } i
    let st3 ← insert_into_free_chunk_list s2.ST i
    pure { s2 with ST := st3 }
  else pure s

/-- The loop `for(i = 0; i < st->size; i++)` of `all_proc_chunk_out`, with `k` passes
left, at index `i`. -/
def all_proc_chunk_out_loop : Nat → Kernel → Nat → Except Fault Kernel
  | 0, s, _ => .ok s
  | k + 1, s, i => do
    let s1 ← all_proc_chunk_out_step s i
    all_proc_chunk_out_loop k s1 (i + 1)

/-- The function `all_proc_chunk_out` (the swap table is the global `ST`). -/
def all_proc_chunk_out (s : Kernel) : Except Fault Kernel :=
  all_proc_chunk_out_loop s.ST.size s 0

/-- Copy of half a page inside the swap file through `buffer` (`VOP_READ` at
`offset_src`, `VOP_WRITE` at `offset_dst`). -/
def copy_half (disk : Nat → Nat) (offset_src offset_dst : Nat) : Nat → Nat :=
  fun a => if offset_dst ≤ a ∧ a < offset_dst + PAGE_SIZE / 2
    then disk (offset_src + (a - offset_dst)) else disk a

/-- One pass of the loop of `chunks_fork` for chunk `i`. -/
def chunks_fork_step (s : Kernel) (src_pid dst_pid i : Nat) : Except Fault Kernel := do
  chk (i < s.ST.size) Fault.bounds
  if SW.GET_PID (s.ST.entries i).hi = src_pid ∧ SW.IS_SWAPPED (s.ST.entries i).hi = 0 then do
    let free_chunk ← getFirstFreeChunckIndex s.ST
    chk (free_chunk ≠ NEG1) Fault.out_of_swap
    let offset_src := (i * PAGE_SIZE) % U32
    let offset_dst := (free_chunk * PAGE_SIZE) % U32
    let disk1 := copy_half s.disk offset_src offset_dst
    let disk2 := copy_half disk1 ((offset_src + PAGE_SIZE / 2) % U32)
      ((offset_dst + PAGE_SIZE / 2) % U32)
    let st1 ← delete_free_chunk s.ST free_chunk
    let s1 : Kernel := { s with ST := st1, disk := disk2 }
    let s2 ←
      (match proc_search_pid s1 dst_pid with
       | some p => insert_into_process_chunk_list s1 free_chunk dst_pid p
       | none => pure s1)
    chk (free_chunk < s2.ST.size) Fault.bounds
    let c := s2.ST.entries free_chunk
    pure { s2 with ST := { s2.ST with
      entries := upd s2.ST.entries free_chunk
        (STE.mk (SW.SET_PN (SW.SET_PID (SW.SET_SWAPPED c.hi 0) dst_pid)
          (SW.GET_PN (s2.ST.entries i).hi)) c.next c.prev) } }
  else pure s

/-- The loop `for(i = 0; i < st->size; i++)` of `chunks_fork`, with `k` passes left,
at index `i`. -/
def chunks_fork_loop (src_pid dst_pid : Nat) : Nat → Kernel → Nat → Except Fault Kernel
  | 0, s, _ => .ok s
  | k + 1, s, i => do
    let s1 ← chunks_fork_step s src_pid dst_pid i
    chunks_fork_loop src_pid dst_pid k s1 (i + 1)

/-- The function `chunks_fork` (the swap table is the global `ST`). -/
def chunks_fork (s : Kernel) (src_pid dst_pid : Nat) : Except Fault Kernel :=
  chunks_fork_loop src_pid dst_pid s.ST.size s 0

/-- The function `elf_to_swap_transfer`: `len_read` bytes of the ELF file at `offset`
go to the buffer (cleared first when `zero` is set), `len_write` bytes of the buffer
go to the swap file at `chunk_offset`. The callers pass `len_read = len_write` when
`zero` is not set, so no stale byte of the buffer reaches the file. -/
def elf_to_swap_transfer (disk elf : Nat → Nat) (len_read len_write offset chunk_offset : Nat)
    (_zero : Bool) : Nat → Nat :=
  fun a => if chunk_offset ≤ a ∧ a < chunk_offset + len_write
    then (if a - chunk_offset < len_read then elf (offset + (a - chunk_offset)) else 0)
    else disk a

/-- The function `write_page` for a buffer of zeros (`zero_page`, or `buffer` with
`zero` set). -/
def write_page (disk : Nat → Nat) (len_write chunk_offset : Nat) : Nat → Nat :=
  fun a => if chunk_offset ≤ a ∧ a < chunk_offset + len_write then 0 else disk a

/-- The stamp `SET_SWAPPED(SET_PID(SET_PN(hi, init_page_n), PID), 0)` of `elf_to_swap`
on chunk `c`. -/
def elf_to_swap_stamp (s : Kernel) (c init_page_n pid : Nat) : Except Fault Kernel := do
  chk (c < s.ST.size) Fault.bounds
  let e := s.ST.entries c
  pure { s with ST := { s.ST with
    entries := upd s.ST.entries c
      (STE.mk (SW.SET_SWAPPED (SW.SET_PID (SW.SET_PN e.hi init_page_n) pid) 0) e.next e.prev) } }

/-- The list update made for a full or an empty page of `elf_to_swap`:
`delete_free_chunk` and `insert_into_process_chunk_list` for `curthread->t_proc`. -/
def elf_to_swap_link (s : Kernel) (c : Nat) : Except Fault Kernel := do
  let st1 ← delete_free_chunk s.ST c
  let p ← curthread_t_proc s
  insert_into_process_chunk_list { s with ST := st1 } c s.curproc p

/-- The first loop of `elf_to_swap` (full pages), with `k` passes left; yields the
state, the file offset and the page number reached. -/
def elf_to_swap_full (elf : Nat → Nat) (pid : Nat) :
    Nat → Kernel → Nat → Nat → Except Fault (Kernel × Nat × Nat)
  | 0, s, offset, init_page_n => .ok (s, offset, init_page_n)
  | k + 1, s, offset, init_page_n => do
    let chunk_index ← getFirstFreeChunckIndex s.ST
    chk (chunk_index ≠ NEG1) Fault.out_of_swap
    let incr := PAGE_SIZE / 2
    let chunk_offset := (chunk_index * PAGE_SIZE) % U32
    let disk1 := elf_to_swap_transfer s.disk elf incr incr offset chunk_offset false
    let disk2 := elf_to_swap_transfer disk1 elf incr incr (offset + incr)
      ((chunk_offset + incr) % U32) false
    let s1 ← elf_to_swap_link { s with disk := disk2 } chunk_index
    let s2 ← elf_to_swap_stamp s1 chunk_index init_page_n pid
    elf_to_swap_full elf pid k s2 (offset + 2 * incr) ((init_page_n + 1) % U32)

/-- The middle part of `elf_to_swap`: the partial page, written when
`last_chunk_size != 0`. -/
def elf_to_swap_partial (elf : Nat → Nat) (pid : Nat) (s : Kernel)
    (offset init_page_n last_chunk_size : Nat) : Except Fault (Kernel × Nat) :=
  if last_chunk_size ≠ 0 then do
    let chunk_index ← getFirstFreeChunckIndex s.ST
    chk (chunk_index ≠ NEG1) Fault.out_of_swap
    let incr := PAGE_SIZE / 2
    let chunk_offset := (chunk_index * PAGE_SIZE) % U32
    let disk2 :=
      if last_chunk_size > incr then
        let disk1 := elf_to_swap_transfer s.disk elf incr incr offset chunk_offset false
        elf_to_swap_transfer disk1 elf (last_chunk_size - incr) incr (offset + incr)
          ((chunk_offset + incr) % U32) true
      else
        let disk1 := elf_to_swap_transfer s.disk elf last_chunk_size incr offset chunk_offset
          true
        write_page disk1 incr ((chunk_offset + incr) % U32)
    let s1 ← elf_to_swap_stamp { s with disk := disk2 } chunk_index init_page_n pid
    pure ({ s1 with stats := { s1.stats with
      swap_zero_filled := s1.stats.swap_zero_filled + 1 } }, (init_page_n + 1) % U32)
  else pure (s, init_page_n)

/-- The last loop of `elf_to_swap` (zero pages), with `k` passes left. -/
def elf_to_swap_empty (pid : Nat) : Nat → Kernel → Nat → Except Fault Kernel
  | 0, s, _ => .ok s
  | k + 1, s, init_page_n => do
    let chunk_index ← getFirstFreeChunckIndex s.ST
    chk (chunk_index ≠ NEG1) Fault.out_of_swap
    let chunk_offset := (chunk_index * PAGE_SIZE) % U32
    let disk1 := write_page s.disk PAGE_SIZE chunk_offset
    let s1 ← elf_to_swap_link { s with disk := disk1 } chunk_index
    let s2 ← elf_to_swap_stamp s1 chunk_index init_page_n pid
    let s3 := { s2 with stats := { s2.stats with swap_blank := s2.stats.swap_blank + 1 } }
    elf_to_swap_empty pid k s3 ((init_page_n + 1) % U32)

/-- The value `n_full_chunks` of `elf_to_swap`. -/
def elf_to_swap_n_full_chunks (filesize : Nat) : Nat := filesize / PAGE_SIZE

/-- The value `last_chunk_size` of `elf_to_swap`. -/
def elf_to_swap_last_chunk_size (filesize : Nat) : Nat := filesize % PAGE_SIZE

/-- The value `n_empty_chunks` of `elf_to_swap` (`size_t` and `uint32_t` are 32 bits
wide). -/
def elf_to_swap_n_empty_chunks (memsize filesize : Nat) : Nat :=
  let last_chunk_size := elf_to_swap_last_chunk_size filesize
  let diff := (memsize + U32 - filesize % U32) % U32
  if diff > 0 then
    if (last_chunk_size + diff) % U32 ≤ PAGE_SIZE then 0
    else ((diff + U32 - 1 + last_chunk_size) % U32) / PAGE_SIZE
  else 0

/-- The function `elf_to_swap`; `elf` is the content of the vnode `v`, byte by byte. -/
def elf_to_swap (s : Kernel) (elf : Nat → Nat) (offset init_page_n memsize filesize pid : Nat) :
    Except Fault Kernel := do
  let r1 ← elf_to_swap_full elf pid (elf_to_swap_n_full_chunks filesize) s offset init_page_n
  let r2 ← elf_to_swap_partial elf pid r1.1 r1.2.1 r1.2.2 (elf_to_swap_last_chunk_size filesize)
  elf_to_swap_empty pid (elf_to_swap_n_empty_chunks memsize filesize) r2.1 r2.2

/-! ## `paging.c`: kernel pages -/

/-- The function `alloc_kpages` once `vm_bootstrap` has set `vm_enabled`. -/
def alloc_kpages (s : Kernel) (npages : Nat) : Except Fault (Nat × Kernel) := do
  let r ← alloc_n_contiguos_pages s npages
  pure (PADDR_TO_KVADDR r.1, r.2)

/-- The search `for(i = start_index_k; i != -1 && k_frames[i].vaddr_to_free != addr;
i = k_frames[i].next);` of `free_kpages`. -/
def free_kpages_find (s : Kernel) (addr : Nat) : Nat → Nat → Except Fault Nat
  | 0, _ => .error Fault.diverge
  | fuel + 1, i =>
    if i ≠ NEG1 then do
      chk (i < s.MAX_PROCESSES) Fault.bounds
      if (s.k_frames i).vaddr_to_free ≠ addr then free_kpages_find s addr fuel (s.k_frames i).next
      else .ok i
    else .ok i

/-- The loop of `free_kpages` over the frames of the run, with `k` passes left. -/
def free_kpages_loop : Nat → Kernel → Nat → Except Fault Kernel
  | 0, s, _ => .ok s
  | k + 1, s, frame_n => do
    let s1 ← remove_page s frame_n
    free_kpages_loop k s1 ((frame_n + 1) % U32)

/-- The function `free_kpages` once `vm_bootstrap` has set `vm_enabled` (the locks are
not modelled). -/
def free_kpages (s : Kernel) (addr : Nat) : Except Fault Kernel := do
  let addr := addr &&& PAGE_FRAME
  let i ← free_kpages_find s addr (s.MAX_PROCESSES + 1) s.start_index_k
  chk (i ≠ NEG1) Fault.no_frame
  let s1 ← free_kpages_loop (s.k_frames i).n_pages s (s.k_frames i).start_frame_n_to_remove
  let s2 := { s1 with frame_n_k := (s1.frame_n_k + (s1.k_frames i).n_pages) % U32 }
  let s3 ←
    (if i = s2.start_index_k then do
      let start := (s2.k_frames i).next
      if start ≠ NEG1 then do
        chk (start < s2.MAX_PROCESSES) Fault.bounds
        pure { s2 with start_index_k := start,
                       k_frames := upd s2.k_frames start { (s2.k_frames start) with prev := NEG1 } }
      else pure { s2 with start_index_k := start }
    else do
      let pv := (s2.k_frames i).prev
      chk (pv < s2.MAX_PROCESSES) Fault.bounds
      let k1 := upd s2.k_frames pv { (s2.k_frames pv) with next := (s2.k_frames i).next }
      let nx := (k1 i).next
      if nx ≠ NEG1 then do
        chk (nx < s2.MAX_PROCESSES) Fault.bounds
        pure { s2 with k_frames := upd k1 nx { (k1 nx) with prev := (k1 i).prev } }
      else pure { s2 with k_frames := k1 })
  let f := s3.start_free_index
  chk (f < s3.MAX_PROCESSES) Fault.bounds
  let k1 := upd s3.k_frames f { (s3.k_frames f) with prev := i }
  let k2 := upd k1 i { (k1 i) with next := f }
  let k3 := upd k2 i { (k2 i) with prev := NEG1 }
  pure { s3 with k_frames := k3, start_free_index := i }

/-! ## `pt.c`: `pageIn`, and `paging.c`: `vm_fault` -/

/-- Fault kinds of `vm.h`. -/
def VM_FAULT_READ : Nat := 0

def VM_FAULT_WRITE : Nat := 1

def VM_FAULT_READONLY : Nat := 2

/-- Error codes of `kern/errno.h`. -/
def EFAULT : Nat := 6

def EINVAL : Nat := 8

/-- The fields of `struct addrspace` that `vm_fault` reads (`addrspace.h`, not part of
the sources at hand). -/
structure addrspace where
  as_vbase1 : Nat
  as_npages1 : Nat
  as_vbase2 : Nat
  as_npages2 : Nat
  deriving DecidableEq, Repr

/-- The argument of `add_VM_pageFault`. -/
inductive PageFaultKind where
  | VM_SWAP
  | VM_ZEROED
  deriving DecidableEq, Repr

/-- Modelled from the spec: `add_TLB_fault` of `vmstats`. -/
def add_TLB_fault (st : Stats) : Stats := { st with tlb_fault := st.tlb_fault + 1 }

/-- Modelled from the spec: `add_TLB_reload` of `vmstats`. -/
def add_TLB_reload (st : Stats) : Stats := { st with tlb_reload := st.tlb_reload + 1 }

/-- Modelled from the spec: `add_VM_pageFault` of `vmstats`. -/
def add_VM_pageFault (st : Stats) : PageFaultKind → Stats
  | .VM_SWAP => { st with page_fault_swap := st.page_fault_swap + 1 }
  | .VM_ZEROED => { st with page_fault_zeroed := st.page_fault_zeroed + 1 }

/-- Modelled from the spec: `TLB_Insert` (`vm_tlb`, not part of the sources at hand)
installs the translation of `faultaddress` to `paddr`. -/
def TLB_Insert (tlb : List (Nat × Nat)) (faultaddress paddr : Nat) : List (Nat × Nat) :=
  (faultaddress, paddr) :: tlb

/-- The function `pageIn` (the tables are the globals `IPT` and `ST`). -/
def pageIn (s : Kernel) (pid vaddr : Nat) : Except Fault (Nat × Kernel) := do
  let r ← insert_page s vaddr NEG1
  let paddr := r.1
  let chunk_index ← getSwapChunk r.2 vaddr pid
  let s2 ←
    (if chunk_index ≠ NEG1 then do
      let s1 ← swapin r.2 chunk_index paddr
      pure { s1 with stats := add_VM_pageFault s1.stats .VM_SWAP }
    else pure r.2)
  pure (paddr, { s2 with stats := add_VM_pageFault s2.stats .VM_ZEROED })

/-- The part of `vm_fault` after the checks of the address space. -/
def vm_fault_resolve (s : Kernel) (faultaddress : Nat) : Except Fault (Nat × Kernel) :=
  if faultaddress ≤ MIPS_KSEG0 then do
    let s1 : Kernel := { s with stats := add_TLB_fault s.stats }
    let paddr ← getFrameAddress s1 ((faultaddress &&& PAGE_FRAME) >>> 12) false
    let r ←
      (if paddr = NEG1 then pageIn s1 s1.curproc faultaddress
       else pure (paddr, { s1 with stats := add_TLB_reload s1.stats }))
    let paddr1 := r.1 &&& PAGE_FRAME
    pure (0, { r.2 with tlb := TLB_Insert r.2.tlb faultaddress paddr1 })
  else pure (EFAULT, s)

/-- The function `vm_fault`; `as` is the value `proc_getas()` returns (`none` for
`NULL`), `curproc == NULL` holds when no process is stored under the current pid. The
result is the value returned and the state; `sys__exit` does not return, a failing
`KASSERT` is a panic. The interrupt level and the spinlock are not modelled. -/
def vm_fault (s : Kernel) (as : Option addrspace) (faulttype faultaddress : Nat) :
    Except Fault (Nat × Kernel) :=
  let faultaddress := faultaddress &&& PAGE_FRAME
  if faulttype = VM_FAULT_READONLY then .error Fault.proc_exit
  else if faulttype = VM_FAULT_READ ∨ faulttype = VM_FAULT_WRITE then
    match s.procs s.curproc with
    | none => pure (EFAULT, s)
    | some _ =>
      match as with
      | none => pure (EFAULT, s)
      | some a => do
        chk (a.as_vbase1 ≠ 0) Fault.kassert
        chk (a.as_npages1 ≠ 0) Fault.kassert
        chk (a.as_vbase2 ≠ 0) Fault.kassert
        chk (a.as_npages2 ≠ 0) Fault.kassert
        chk (a.as_vbase1 &&& PAGE_FRAME = a.as_vbase1) Fault.kassert
        chk (a.as_vbase2 &&& PAGE_FRAME = a.as_vbase2) Fault.kassert
        vm_fault_resolve s faultaddress
  else pure (EINVAL, s)

/-! ## Runs on concrete systems -/

/-- Process `curproc` touches the page of `vaddr` (`insert_page` with no suggested frame);
the state is unchanged when the call does not return. -/
def touch (s : Kernel) (vaddr : Nat) : Kernel := stateAfter s (insert_page s vaddr NEG1)

/-- The page numbers stored in the frames `0 .. n-1`. -/
def residentPages (s : Kernel) : List Nat :=
  (List.range s.IPT.size).map fun i => PT.GET_PN (s.IPT.entries i).hi

/-- The kernel bits of the frames `0 .. n-1`. -/
def kernelBits (s : Kernel) : List Nat :=
  (List.range s.IPT.size).map fun i => PT.IS_KERNEL (s.IPT.entries i).hi

/-- The valid bits of the frames `0 .. n-1`. -/
def validBits (s : Kernel) : List Nat :=
  (List.range s.IPT.size).map fun i => PT.IS_VALID (s.IPT.entries i).hi

/-- The FIFO ring, slot by slot. -/
def fifoSlots (s : Kernel) : List Nat := (List.range s.IPT.size).map s.IPT.FIFO

/-- The swapped bits of the chunks `0 .. N-1`. -/
def swappedBits (s : Kernel) : List Nat :=
  (List.range s.ST.size).map fun i => SW.IS_SWAPPED (s.ST.entries i).hi

/-- The page numbers stamped on the chunks `0 .. N-1`. -/
def chunkPages (s : Kernel) : List Nat :=
  (List.range s.ST.size).map fun i => SW.GET_PN (s.ST.entries i).hi

/-- The pids stamped on the chunks `0 .. N-1`. -/
def chunkPids (s : Kernel) : List Nat :=
  (List.range s.ST.size).map fun i => SW.GET_PID (s.ST.entries i).hi

/-- The 8-frame system after process 1 has touched the first `k` of the pages
`0x400, 0x401, ..`, in this order. -/
def demo8_fill : Nat → Kernel
  | 0 => demo8
  | k + 1 => touch (demo8_fill k) (0x400000 + k * PAGE_SIZE)

/-- The 8-frame system after process 1 has touched the pages `0x400 .. 0x407`. -/
def demo8_8 : Kernel := demo8_fill 8

/-- The 8-frame system after process 1 has touched the pages `0x400 .. 0x408`. -/
def demo8_9 : Kernel := touch demo8_8 0x408000

/-- The state after the following `alloc_n_contiguos_pages(2)`. -/
def demo8_9k : Kernel := stateAfter demo8_9 (alloc_n_contiguos_pages demo8_9 2)

/-- The way the callers use `swapout`: on the chunk `getFirstFreeChunckIndex` returns,
with the "Out of swap space" panic when that is `-1`; here for the running process. -/
def swapoutFirst (s : Kernel) (paddr vpn : Nat) : Except Fault Kernel := do
  let c ← getFirstFreeChunckIndex s.ST
  chk (c ≠ NEG1) Fault.out_of_swap
  swapout s c paddr vpn s.curproc false

/-- The booted system of `demoEnv 8` with a swap file of two chunks. -/
def demoSwap2 : Kernel := vm_bootstrap { demoEnv 8 with st_size := 2 * PAGE_SIZE }

/-- Process 1 swaps out two pages on the two-chunk system. -/
def demoSwap2_full : Except Fault Kernel := do
  let s1 ← swapoutFirst demoSwap2 0x100000 0x400
  swapoutFirst s1 0x101000 0x401

/-- The 8-frame system after process 1 has touched the pages `0x400` and `0x401`. -/
def demo8_2 : Kernel := touch (touch demo8 0x400000) 0x401000

/-- The `n_chunks` field of process `q`. -/
def nChunks (s : Kernel) (q : Nat) : Option Nat := (s.procs q).map proc.n_chunks

/-- The `n_frames` field of process `q`. -/
def nFrames (s : Kernel) (q : Nat) : Option Nat := (s.procs q).map proc.n_frames

/-- The chain bits and `next` fields of the frames `0 .. n-1`. -/
def frameLinks (s : Kernel) : List (Nat × Nat) :=
  (List.range s.IPT.size).map fun i =>
    (PT.HAS_CHAIN (s.IPT.entries i).hi, PT.GET_NEXT (s.IPT.entries i).low)

/-- The content of an ELF file used in the runs: byte `a` is `a % 251 + 1`. -/
def demoElf : Nat → Nat := fun a => a % 251 + 1

/-- The number of pages the three parts of `elf_to_swap` write: `n_full_chunks` full
pages, one partial page when `last_chunk_size != 0`, `n_empty_chunks` zero pages. -/
def elf_to_swap_n_pages (memsize filesize : Nat) : Nat :=
  elf_to_swap_n_full_chunks filesize
    + (if elf_to_swap_last_chunk_size filesize ≠ 0 then 1 else 0)
    + elf_to_swap_n_empty_chunks memsize filesize

/-- The number of chunks in use (`swapped = 0`). -/
def chunksInUse (s : Kernel) : Nat := ((swappedBits s).filter (fun b => b = 0)).length

/-- The records of the kernel region table: start frame, address and pages of each
entry. -/
def kRecords (s : Kernel) : List (Nat × Nat × Nat) :=
  (List.range s.MAX_PROCESSES).map fun i =>
    ((s.k_frames i).start_frame_n_to_remove, (s.k_frames i).vaddr_to_free, (s.k_frames i).n_pages)

/-- Whether a call returned, and with which fault it ended otherwise. -/
def outcome {α : Type} (r : Except Fault α) : Except Fault Unit := r.map fun _ => ()

/-- Process 1 swaps page `0x400` out to chunk 0, takes it back in, and swaps page
`0x401` out (to chunk 1, the head of the free chain by then). -/
def demoSwapInOut : Except Fault Kernel := do
  let s1 ← swapoutFirst demo8 0x100000 0x400
  let s2 ← swapin s1 0 0x100000
  swapoutFirst s2 0x100000 0x401

/-- The state a call leaves behind (the unchanged state if the call does not return). -/
def stateOf (s : Kernel) (r : Except Fault Kernel) : Kernel :=
  match r with
  | .ok x => x
  | .error _ => s

/-- The 16-chunk system after process 1 has swapped page `0x400` out of the frame at
`0x100000`. -/
def demo8_out : Kernel := stateOf demo8 (swapoutFirst demo8 0x100000 0x400)

/-- The 16-chunk system after process 1 has swapped out the pages `0x400` and `0x401`
(to the chunks 0 and 1). -/
def demo8_out2 : Kernel := stateOf demo8_out (swapoutFirst demo8_out 0x101000 0x401)

/-- The system `demo8_out2` after `chunks_fork` from process 1 to process 2. -/
def demo8_forked : Kernel := stateOf demo8_out2 (chunks_fork demo8_out2 1 2)

/-- An address space with a code segment at `0x400000` and a data segment at
`0x500000`. -/
def demoAs : addrspace :=
  { as_vbase1 := 0x400000, as_npages1 := 16, as_vbase2 := 0x500000, as_npages2 := 16 }

/-- The counters `TLB_FAULT`, `TLB_RELOAD`, `VM_PAGE_FAULT_SWAP`,
`VM_PAGE_FAULT_ZEROED`. -/
def faultCounters (s : Kernel) : Nat × Nat × Nat × Nat :=
  (s.stats.tlb_fault, s.stats.tlb_reload, s.stats.page_fault_swap, s.stats.page_fault_zeroed)

/-- The freshly booted system with 3 frames. -/
def demo3 : Kernel := vm_bootstrap (demoEnv 3)

/-- The 3-frame system after process 1 has touched the pages `0x400`, `0x401`, `0x402`. -/
def demo3_full : Kernel := touch (touch (touch demo3 0x400000) 0x401000) 0x402000

/-- The 3-frame system after the three user inserts and two calls
`alloc_n_contiguos_pages(1, pt)`. -/
def demo3_kk : Kernel :=
  let s1 := stateAfter demo3_full (alloc_n_contiguos_pages demo3_full 1)
  stateAfter s1 (alloc_n_contiguos_pages s1 1)

/-- The 8-frame system after process 2 has swapped its page `0x7FF` out (to chunk 0)
and back in, and has then touched the pages `0x400 .. 0x407` (frames `0 .. 7`). -/
def demo8_q : Kernel :=
  let s0 : Kernel := { demo8 with curproc := 2 }
  let s1 := stateOf s0 (swapoutFirst s0 0x100000 0x7FF)
  let s2 := stateOf s1 (swapin s1 0 0x100000)
  (List.range 8).foldl (fun s k => touch s (0x400000 + k * PAGE_SIZE)) s2

/-- The state `demo8_q` with process 1 running. -/
def demo8_qp : Kernel := { demo8_q with curproc := 1 }

/-- The 16-chunk system after process 1 has swapped page `0x400` out to chunk 0 and
taken it back in. -/
def demo8_out_in : Kernel := stateOf demo8_out (swapin demo8_out 0 0x100000)

/-! ## Well-formedness of the swap table -/

/-- Chain flag of chunk `i`. -/
def SW.ch (e : Nat → STE) (i : Nat) : Bool := decide (SW.HAS_CHAIN (e i).hi ≠ 0)

/-- Successor of chunk `i`. -/
def SW.nx (e : Nat → STE) (i : Nat) : Nat := (e i).next

/-- Predecessor of chunk `i`. -/
def SW.pv (e : Nat → STE) (i : Nat) : Nat := (e i).prev

/-- Every element but the first has its predecessor as `prev`. -/
def PrevLinked (pv : Nat → Nat) : List Nat → Prop
  | [] => True
  | [_] => True
  | a :: b :: l => pv b = a ∧ PrevLinked pv (b :: l)

/-- The free-chunk chain: empty when `IS_FULL` holds, otherwise the chunks reached from
`first_free_chunk` by following `next` while the chain bit is set. -/
def freeChunkChain (st : swapTable) : List Nat :=
  if st.first_free_chunk = st.last_free_chunk ∧
      SW.IS_SWAPPED (st.entries st.first_free_chunk).hi = 0 then []
  else walk (SW.ch st.entries) (SW.nx st.entries) st.size st.first_free_chunk

/-- The chunk chain of a process: empty when `n_chunks` is 0 (the test
`insert_into_process_chunk_list` makes), otherwise the chunks reached from
`start_st_i`. -/
def procChunkChain (st : swapTable) (p : proc) : List Nat :=
  if p.n_chunks = 0 then []
  else walk (SW.ch st.entries) (SW.nx st.entries) st.size p.start_st_i

/-- The chunk chain of the process whose pid is stamped on chunk `c` (empty when there
is no such process). -/
def ownerChunkChain (s : Kernel) (c : Nat) : List Nat :=
  match s.procs (SW.GET_PID (s.ST.entries c).hi) with
  | some p => procChunkChain s.ST p
  | none => []

/-- Well-formedness of the swap table with respect to a free list `F` and the chunk
lists `C q` of the processes. The free list is not empty: once the last free chunk
has been taken, `first_free_chunk` and `last_free_chunk` no longer describe a chain. -/
structure SWInv (s : Kernel) (F : List Nat) (C : Nat → List Nat) : Prop where
  size_lt : s.ST.size < U32
  F_ne : F ≠ []
  F_nodup : F.Nodup
  F_free : ∀ c ∈ F, c < s.ST.size ∧ SW.IS_SWAPPED (s.ST.entries c).hi ≠ 0
  F_link : Linked (SW.ch s.ST.entries) (SW.nx s.ST.entries) F
  F_head : ∀ a, F.head? = some a → s.ST.first_free_chunk = a
  F_last : ∀ a, F.getLast? = some a → s.ST.last_free_chunk = a
  C_nodup : ∀ q, (C q).Nodup
  C_own : ∀ q, ∀ c ∈ C q, c < s.ST.size ∧ SW.IS_SWAPPED (s.ST.entries c).hi = 0 ∧
    SW.GET_PID (s.ST.entries c).hi = q
  C_link : ∀ q, Linked (SW.ch s.ST.entries) (SW.nx s.ST.entries) (C q)
  C_prev : ∀ q, PrevLinked (SW.pv s.ST.entries) (C q)
  C_len : ∀ q p, s.procs q = some p → (C q).length = p.n_chunks
  C_head : ∀ q p a, s.procs q = some p → (C q).head? = some a → p.start_st_i = a
  C_last : ∀ q p a, s.procs q = some p → (C q).getLast? = some a → p.last_st_i = a
  C_none : ∀ q, s.procs q = none → C q = []
  pid_lt : ∀ q p, s.procs q = some p → q < 64
  cover : ∀ c, c < s.ST.size →
    (SW.IS_SWAPPED (s.ST.entries c).hi ≠ 0 → c ∈ F) ∧
    (SW.IS_SWAPPED (s.ST.entries c).hi = 0 → c ∈ C (SW.GET_PID (s.ST.entries c).hi))

/-- A well-formed swap table: one that has a free list, not empty, and per-process
chunk lists. -/
def SWWf (s : Kernel) : Prop := ∃ F C, SWInv s F C

/-- A kernel state right after `swapTableInit` on a swap file of `N ≥ 2` chunks: the
processes have 6-bit pids and no chunks. -/
def SWFresh (N : Nat) (s : Kernel) : Prop :=
  2 ≤ N ∧
  (∃ st_size raw, (st_size / PAGE_SIZE) % U32 = N ∧ s.ST = swapTableInit st_size raw) ∧
  ∀ q p, s.procs q = some p → q < 64 ∧ p.n_chunks = 0

/-- One call made by an existing process `q`: a `swapout` of one of its pages to the
chunk `getFirstFreeChunckIndex` returned, after which at least one chunk is still
free, or a `swapin` of a chunk of its chunk chain; the call returns. -/
inductive SWStep : Kernel → Kernel → Prop where
  | out (s s' : Kernel) (q c paddr vpn : Nat) (inv : Bool) : s.procs q ≠ none →
      getFirstFreeChunckIndex s.ST = .ok c →
      swapout { s with curproc := q } c paddr vpn q inv = .ok s' →
      (∃ c', c' < s'.ST.size ∧ SW.IS_SWAPPED (s'.ST.entries c').hi ≠ 0) → SWStep s s'
  | back (s s' : Kernel) (q c paddr : Nat) (p : proc) : s.procs q = some p →
      c ∈ procChunkChain s.ST p →
      swapin { s with curproc := q } c paddr = .ok s' → SWStep s s'

/-- States reached from `s0` by such calls. -/
inductive SWReach (s0 : Kernel) : Kernel → Prop where
  | init : SWReach s0 s0
  | step (s s' : Kernel) : SWReach s0 s → SWStep s s' → SWReach s0 s'

/-- The partition property of the swap table. -/
def SWPartition (s : Kernel) : Prop :=
  (freeChunkChain s.ST).Nodup ∧
  (∀ a, (freeChunkChain s.ST).getLast? = some a → a = s.ST.last_free_chunk) ∧
  (∀ c, c < s.ST.size →
    (c ∈ freeChunkChain s.ST ↔ SW.IS_SWAPPED (s.ST.entries c).hi ≠ 0) ∧
    (c ∈ freeChunkChain s.ST ↔ c ∉ ownerChunkChain s c) ∧
    (SW.IS_SWAPPED (s.ST.entries c).hi = 0 → c ∈ ownerChunkChain s c)) ∧
  (∀ q p, s.procs q = some p →
    (procChunkChain s.ST p).Nodup ∧ p.n_chunks = (procChunkChain s.ST p).length)

/-- What taking the head `c` of the free list for process `q` (descriptor `p`) does to
the swap table and the process table: `delete_free_chunk`,
`insert_into_process_chunk_list` and the stamp `(vpn, pid, swapped = 0)`. -/
structure TakePost (s s' : Kernel) (c q : Nat) (p : proc) (pid vpn : Nat) : Prop where
  size : s'.ST.size = s.ST.size
  first : s'.ST.first_free_chunk = (s.ST.entries c).next
  last : s'.ST.last_free_chunk = s.ST.last_free_chunk
  c_swapped : SW.IS_SWAPPED (s'.ST.entries c).hi = 0
  c_pid : SW.GET_PID (s'.ST.entries c).hi = pid
  c_pn : SW.GET_PN (s'.ST.entries c).hi = vpn % 2 ^ 20
  c_chain : SW.HAS_CHAIN (s'.ST.entries c).hi = 0
  c_prev : p.n_chunks ≠ 0 → (s'.ST.entries c).prev = p.last_st_i
  e_fields : ∀ j, j ≠ c →
    SW.IS_SWAPPED (s'.ST.entries j).hi = SW.IS_SWAPPED (s.ST.entries j).hi ∧
    SW.GET_PID (s'.ST.entries j).hi = SW.GET_PID (s.ST.entries j).hi ∧
    SW.GET_PN (s'.ST.entries j).hi = SW.GET_PN (s.ST.entries j).hi ∧
    (s'.ST.entries j).prev = (s.ST.entries j).prev
  e_link : ∀ j, j ≠ c → (p.n_chunks = 0 ∨ j ≠ p.last_st_i) →
    SW.HAS_CHAIN (s'.ST.entries j).hi = SW.HAS_CHAIN (s.ST.entries j).hi ∧
    (s'.ST.entries j).next = (s.ST.entries j).next
  l_link : p.n_chunks ≠ 0 → p.last_st_i ≠ c →
    SW.HAS_CHAIN (s'.ST.entries p.last_st_i).hi ≠ 0 ∧ (s'.ST.entries p.last_st_i).next = c
  procs : s'.procs = upd s.procs q (some
    { p with start_st_i := if p.n_chunks = 0 then c else p.start_st_i,
             last_st_i := c, n_chunks := (p.n_chunks + 1) % U32 })
  ipt : s'.IPT = s.IPT

/-- What `swapin` of chunk `c` does to the swap table and the process table, when the
chunk list of the running process `q` (descriptor `p`) is `l1 ++ c :: l2` and the
free list is `F`. -/
structure ReleasePost (s s' : Kernel) (c q : Nat) (p : proc) (F l1 l2 : List Nat) :
    Prop where
  size : s'.ST.size = s.ST.size
  first : s'.ST.first_free_chunk = s.ST.first_free_chunk
  last : s'.ST.last_free_chunk = c
  c_swapped : SW.IS_SWAPPED (s'.ST.entries c).hi ≠ 0
  c_chain : SW.HAS_CHAIN (s'.ST.entries c).hi = 0
  c_pid : SW.GET_PID (s'.ST.entries c).hi = SW.GET_PID (s.ST.entries c).hi
  c_pn : SW.GET_PN (s'.ST.entries c).hi = SW.GET_PN (s.ST.entries c).hi
  e_fields : ∀ j, j ≠ c →
    SW.IS_SWAPPED (s'.ST.entries j).hi = SW.IS_SWAPPED (s.ST.entries j).hi ∧
    SW.GET_PID (s'.ST.entries j).hi = SW.GET_PID (s.ST.entries j).hi ∧
    SW.GET_PN (s'.ST.entries j).hi = SW.GET_PN (s.ST.entries j).hi
  e_link : ∀ j, j ≠ c → F.getLast? ≠ some j → l1.getLast? ≠ some j →
    SW.HAS_CHAIN (s'.ST.entries j).hi = SW.HAS_CHAIN (s.ST.entries j).hi ∧
    (s'.ST.entries j).next = (s.ST.entries j).next
  e_prev : ∀ j, j ≠ c → l2.head? ≠ some j → (s'.ST.entries j).prev = (s.ST.entries j).prev
  free_last : ∀ a, F.getLast? = some a →
    SW.HAS_CHAIN (s'.ST.entries a).hi ≠ 0 ∧ (s'.ST.entries a).next = c
  pred_last : ∀ i, l1.getLast? = some i → l2 = [] → SW.HAS_CHAIN (s'.ST.entries i).hi = 0
  pred_mid : ∀ i g, l1.getLast? = some i → l2.head? = some g →
    SW.HAS_CHAIN (s'.ST.entries i).hi ≠ 0 ∧ (s'.ST.entries i).next = g ∧
    (s'.ST.entries g).prev = i
  procs_other : ∀ q', q' ≠ q → s'.procs q' = s.procs q'
  procs_q : ∃ p', s'.procs q = some p' ∧ p'.n_chunks + 1 = p.n_chunks ∧
    p'.n_frames = p.n_frames ∧ p'.start_pt_i = p.start_pt_i ∧ p'.last_pt_i = p.last_pt_i ∧
    (∀ a, (l1 ++ l2).head? = some a → p'.start_st_i = a) ∧
    (∀ a, (l1 ++ l2).getLast? = some a → p'.last_st_i = a)
  ipt : s'.IPT = s.IPT

/-- What `delete_process_chunk` does to chunk `c` of the running process `q`
(descriptor `p`), whose chunk list is `l1 ++ c :: l2`. -/
structure ChunkUnlinkPost (s s' : Kernel) (c q : Nat) (p : proc) (l1 l2 : List Nat) :
    Prop where
  size : s'.ST.size = s.ST.size
  first : s'.ST.first_free_chunk = s.ST.first_free_chunk
  last : s'.ST.last_free_chunk = s.ST.last_free_chunk
  c_chain : SW.HAS_CHAIN (s'.ST.entries c).hi = 0
  e_fields : ∀ j,
    SW.IS_SWAPPED (s'.ST.entries j).hi = SW.IS_SWAPPED (s.ST.entries j).hi ∧
    SW.GET_PID (s'.ST.entries j).hi = SW.GET_PID (s.ST.entries j).hi ∧
    SW.GET_PN (s'.ST.entries j).hi = SW.GET_PN (s.ST.entries j).hi
  e_link : ∀ j, j ≠ c → l1.getLast? ≠ some j →
    SW.HAS_CHAIN (s'.ST.entries j).hi = SW.HAS_CHAIN (s.ST.entries j).hi ∧
    (s'.ST.entries j).next = (s.ST.entries j).next
  e_prev : ∀ j, l2.head? ≠ some j → (s'.ST.entries j).prev = (s.ST.entries j).prev
  pred_last : ∀ i, l1.getLast? = some i → l2 = [] → SW.HAS_CHAIN (s'.ST.entries i).hi = 0
  pred_mid : ∀ i g, l1.getLast? = some i → l2.head? = some g →
    SW.HAS_CHAIN (s'.ST.entries i).hi = SW.HAS_CHAIN (s.ST.entries i).hi ∧
    (s'.ST.entries i).next = g ∧ (s'.ST.entries g).prev = i
  procs_other : ∀ q', q' ≠ q → s'.procs q' = s.procs q'
  procs_q : ∃ p', s'.procs q = some p' ∧ p'.n_chunks + 1 = p.n_chunks ∧
    p'.n_frames = p.n_frames ∧ p'.start_pt_i = p.start_pt_i ∧ p'.last_pt_i = p.last_pt_i ∧
    (∀ a, (l1 ++ l2).head? = some a → p'.start_st_i = a) ∧
    (∀ a, (l1 ++ l2).getLast? = some a → p'.last_st_i = a)
  ipt : s'.IPT = s.IPT
  curproc : s'.curproc = s.curproc
  ram : s'.ram = s.ram
  disk : s'.disk = s.disk
  stats : s'.stats = s.stats

/-- What `insert_into_free_chunk_list` does to chunk `c` when the free list is not
empty and ends in `st.last_free_chunk`. -/
structure ChunkFreePost (st st' : swapTable) (c : Nat) : Prop where
  size : st'.size = st.size
  first : st'.first_free_chunk = st.first_free_chunk
  last : st'.last_free_chunk = c
  c_chain : SW.HAS_CHAIN (st'.entries c).hi = 0
  e_fields : ∀ j,
    SW.IS_SWAPPED (st'.entries j).hi = SW.IS_SWAPPED (st.entries j).hi ∧
    SW.GET_PID (st'.entries j).hi = SW.GET_PID (st.entries j).hi ∧
    SW.GET_PN (st'.entries j).hi = SW.GET_PN (st.entries j).hi
  e_link : ∀ j, j ≠ c → j ≠ st.last_free_chunk →
    SW.HAS_CHAIN (st'.entries j).hi = SW.HAS_CHAIN (st.entries j).hi ∧
    (st'.entries j).next = (st.entries j).next
  e_prev : ∀ j, j ≠ c → (st'.entries j).prev = (st.entries j).prev
  free_last : st.last_free_chunk ≠ c →
    SW.HAS_CHAIN (st'.entries st.last_free_chunk).hi ≠ 0 ∧
    (st'.entries st.last_free_chunk).next = c

/-! ## Runs of page faults -/

/-- No chunk of the swap table is free. -/
def SWExhausted (s : Kernel) : Prop :=
  ∀ c, c < s.ST.size → SW.IS_SWAPPED (s.ST.entries c).hi = 0

/-- A chunk of the swap table is free. -/
def SWAvailable (s : Kernel) : Prop :=
  ∃ c, c < s.ST.size ∧ SW.IS_SWAPPED (s.ST.entries c).hi ≠ 0

/-- The state `s1` has the same swap table, current process and per-process chunk
bookkeeping as `s`. -/
def SWSame (s s1 : Kernel) : Prop :=
  s1.ST = s.ST ∧ s1.curproc = s.curproc ∧
  ∀ q, (s.procs q = none → s1.procs q = none) ∧
    ∀ p, s.procs q = some p → ∃ p1, s1.procs q = some p1 ∧
      p1.n_chunks = p.n_chunks ∧ p1.start_st_i = p.start_st_i ∧ p1.last_st_i = p.last_st_i

/-- The system after `j` calls `insert_page(vaddr, -1)` for user pages made by the
running process on an `n`-frame table that started empty, with no other call in
between: the frames are taken in the order `0, 1, .., n-1`, the FIFO ring holds frame
`i` in slot `i`, the insertion index is `j mod n` and the cursor stands on the slot of
the last victim (`n - 1` before the first eviction); every resident frame is a user
frame of the running process. The swap table is well formed, with a free chunk whose
successor is inside the table at the end of the free chain, or no chunk is free. -/
structure FifoInv (n : Nat) (s : Kernel) (j : Nat) : Prop where
  pt : ∃ C, PTInv s (List.range' j (n - j)) C
  size : s.IPT.size = n
  fifo : ∀ i, i < n → i < j → s.IPT.FIFO i = i
  start : s.IPT.FIFO_index_start = j % n
  last : s.IPT.FIFO_index_last = (n - 1 + (j - n)) % n
  user : ∀ f, f < n → PT.IS_KERNEL (s.IPT.entries f).hi = 0
  own : ∀ f, f < n → PT.IS_VALID (s.IPT.entries f).hi ≠ 0 →
    PT.GET_PID (s.IPT.entries f).low = s.curproc
  proc : s.procs s.curproc ≠ none
  sw : (∃ F C, SWInv s F C ∧
      ∀ a, F.getLast? = some a → (s.ST.entries a).next < s.ST.size) ∨ SWExhausted s

/-- A run of `j` page faults of the running process from the state `s0`: each is a call
`insert_page(vaddr, -1)` for a user address (`vaddr ≤ MIPS_KSEG0`, the test of
`vm_fault`) that returns; when no frame is free, a swap chunk is free at the call. -/
inductive FifoRun (s0 : Kernel) : Nat → Kernel → Prop where
  | init : FifoRun s0 0 s0
  | step (j : Nat) (s s' : Kernel) (vaddr a : Nat) : FifoRun s0 j s →
      vaddr ≤ MIPS_KSEG0 → (freeChain s.IPT = [] → SWAvailable s) →
      insert_page s vaddr NEG1 = .ok (a, s') → FifoRun s0 (j + 1) s'

/-! ## The swap fork -/

/-- The test of `chunks_fork` on chunk `i`: stamped with `src_pid` and in use. -/
def srcSel (s : Kernel) (src_pid : Nat) (i : Nat) : Bool :=
  decide (SW.GET_PID (s.ST.entries i).hi = src_pid ∧ SW.IS_SWAPPED (s.ST.entries i).hi = 0)

/-- The in-use chunks of `src_pid` among the chunks `0 .. i-1`, in increasing order
(the order in which `chunks_fork` meets them). -/
def srcChunks (s : Kernel) (src_pid : Nat) (i : Nat) : List Nat :=
  (List.range i).filter (srcSel s src_pid)

/-- The byte `a` of the swap file lies in chunk `c`. -/
def inChunk (c a : Nat) : Prop := c * PAGE_SIZE ≤ a ∧ a < c * PAGE_SIZE + PAGE_SIZE

/-- The state `t` of the loop of `chunks_fork(st, src_pid, dst_pid)` before the pass
for chunk `i`, started in the state `s` with free list `F` and chunk lists `C`: the
`m` source chunks met so far have been copied to the first `m` chunks of `F`, which
have joined the chain of `dst_pid`. -/
structure ForkInv (s t : Kernel) (src_pid dst_pid i : Nat) (F : List Nat)
    (C : Nat → List Nat) : Prop where
  inv : SWInv t (F.drop (srcChunks s src_pid i).length)
    (upd C dst_pid (C dst_pid ++ F.take (srcChunks s src_pid i).length))
  size : t.ST.size = s.ST.size
  stamp_other : ∀ j, j ∉ F.take (srcChunks s src_pid i).length →
    SW.IS_SWAPPED (t.ST.entries j).hi = SW.IS_SWAPPED (s.ST.entries j).hi ∧
    SW.GET_PID (t.ST.entries j).hi = SW.GET_PID (s.ST.entries j).hi ∧
    SW.GET_PN (t.ST.entries j).hi = SW.GET_PN (s.ST.entries j).hi
  disk_other : ∀ a, (∀ b ∈ F.take (srcChunks s src_pid i).length, ¬ inChunk b a) →
    t.disk a = s.disk a
  pairs : ∀ x ∈ List.zip (srcChunks s src_pid i) F,
    SW.GET_PN (t.ST.entries x.2).hi = SW.GET_PN (s.ST.entries x.1).hi ∧
    SW.GET_PID (t.ST.entries x.2).hi = dst_pid ∧
    SW.IS_SWAPPED (t.ST.entries x.2).hi = 0 ∧
    ∀ k, k < PAGE_SIZE → t.disk (x.2 * PAGE_SIZE + k) = s.disk (x.1 * PAGE_SIZE + k)
  procs_other : ∀ q, q ≠ dst_pid → t.procs q = s.procs q
  procs_dst : ∃ p, t.procs dst_pid = some p

/-! ## Bit fields -/

/-- The words `e` and `r` agree on every bit outside the positions `lo .. hi - 1`. -/
def sameOutside (lo hi e r : Nat) : Prop :=
  ∀ i, ¬ (lo ≤ i ∧ i < hi) → r.testBit i = e.testBit i
/-! ## Bit-field lemmas -/

theorem tb_small (x k i : Nat) (h : x < 2 ^ k) (hi : k ≤ i) : x.testBit i = false :=
  Nat.testBit_lt_two_pow (lt_of_lt_of_le h (Nat.pow_le_pow_right (by decide) hi))

theorem tb_U32 (x i : Nat) : (x % U32).testBit i = (decide (i < 32) && x.testBit i) :=
  Nat.testBit_mod_two_pow x 32 i

theorem tb_range (m lo hi : Nat) (h : m = (2 ^ (hi - lo) - 1) <<< lo) (i : Nat) :
    m.testBit i = decide (lo ≤ i ∧ i < hi) := by
  subst h
  rw [Nat.testBit_shiftLeft, Nat.testBit_two_pow_sub_one]
  by_cases h1 : lo ≤ i <;> by_cases h2 : i < hi <;> simp [h1, h2] <;> omega

theorem tb_hole (m k : Nat) (h : m = 2 ^ 32 - 1 - 2 ^ k) (hk : k < 32) (i : Nat) :
    m.testBit i = decide (i < 32 ∧ i ≠ k) := by
  have h2 : 2 ^ 32 - 1 = m ||| 2 ^ k := by
    subst h; interval_cases k <;> decide
  have h3 : m &&& 2 ^ k = 0 := by
    subst h; interval_cases k <;> decide
  have a := congrArg (fun z => Nat.testBit z i) h2
  have b := congrArg (fun z => Nat.testBit z i) h3
  simp only [Nat.testBit_two_pow_sub_one, Nat.testBit_or, Nat.testBit_and, Nat.testBit_two_pow,
    Nat.zero_testBit] at a b
  by_cases e : k = i
  · subst e; simp at a b ⊢; exact b
  · simp [e] at a b ⊢
    rw [← a]; simp; omega

theorem tb_bit (m k : Nat) (h : m = 2 ^ k) (i : Nat) : m.testBit i = decide (i = k) := by
  subst h; rw [Nat.testBit_two_pow]; simp [eq_comm]


theorem tb_1 (i : Nat) : (1 : Nat).testBit i = decide (i = 0) :=
  tb_bit _ 0 (by decide) i

theorem tb_2 (i : Nat) : (2 : Nat).testBit i = decide (i = 1) :=
  tb_bit _ 1 (by decide) i

theorem tb_4 (i : Nat) : (4 : Nat).testBit i = decide (i = 2) :=
  tb_bit _ 2 (by decide) i

theorem tb_64 (i : Nat) : (64 : Nat).testBit i = decide (i = 6) :=
  tb_bit _ 6 (by decide) i

theorem tb_128 (i : Nat) : (128 : Nat).testBit i = decide (i = 7) :=
  tb_bit _ 7 (by decide) i

theorem tb_256 (i : Nat) : (256 : Nat).testBit i = decide (i = 8) :=
  tb_bit _ 8 (by decide) i

theorem tb_4294967294 (i : Nat) : (4294967294 : Nat).testBit i = decide (i < 32 ∧ i ≠ 0) :=
  tb_hole _ 0 (by decide) (by decide) i

theorem tb_4294967293 (i : Nat) : (4294967293 : Nat).testBit i = decide (i < 32 ∧ i ≠ 1) :=
  tb_hole _ 1 (by decide) (by decide) i

theorem tb_4294967291 (i : Nat) : (4294967291 : Nat).testBit i = decide (i < 32 ∧ i ≠ 2) :=
  tb_hole _ 2 (by decide) (by decide) i

theorem tb_4294967231 (i : Nat) : (4294967231 : Nat).testBit i = decide (i < 32 ∧ i ≠ 6) :=
  tb_hole _ 6 (by decide) (by decide) i

theorem tb_4294967167 (i : Nat) : (4294967167 : Nat).testBit i = decide (i < 32 ∧ i ≠ 7) :=
  tb_hole _ 7 (by decide) (by decide) i

theorem tb_4294967039 (i : Nat) : (4294967039 : Nat).testBit i = decide (i < 32 ∧ i ≠ 8) :=
  tb_hole _ 8 (by decide) (by decide) i

theorem tb_4095 (i : Nat) : (4095 : Nat).testBit i = decide (0 ≤ i ∧ i < 12) :=
  tb_range _ 0 12 (by decide) i

theorem tb_4294963200 (i : Nat) : (4294963200 : Nat).testBit i = decide (12 ≤ i ∧ i < 32) :=
  tb_range _ 12 32 (by decide) i

theorem tb_63 (i : Nat) : (63 : Nat).testBit i = decide (0 ≤ i ∧ i < 6) :=
  tb_range _ 0 6 (by decide) i

theorem tb_4294967232 (i : Nat) : (4294967232 : Nat).testBit i = decide (6 ≤ i ∧ i < 32) :=
  tb_range _ 6 32 (by decide) i

@[simp]
theorem PT_IS_VALID_SET_VALID (x v : Nat) (hv : v ≤ 1) :
    PT.IS_VALID (PT.SET_VALID x v) = v := by
  apply Nat.eq_of_testBit_eq; intro i
  interval_cases v <;>
  simp only [PT.IS_VALID, PT.SET_VALID, Nat.testBit_shiftRight, Nat.testBit_and, Nat.testBit_or,
    Nat.testBit_shiftLeft, tb_U32, Nat.testBit_mod_two_pow, Nat.zero_testBit, Nat.zero_shiftLeft,
    Nat.one_shiftLeft, Nat.testBit_two_pow, Nat.mul_zero, Nat.mul_one,
    tb_1, tb_2, tb_4, tb_64, tb_128, tb_256, tb_4294967294, tb_4294967293, tb_4294967291, tb_4294967231, tb_4294967167, tb_4294967039, tb_4095, tb_4294963200, tb_63, tb_4294967232] <;>
  generalize Nat.testBit x _ = b <;>
  cases b <;> simp <;> omega

@[simp]
theorem PT_IS_VALID_SET_CHAIN (x v : Nat) (hv : v ≤ 1) :
    PT.IS_VALID (PT.SET_CHAIN x v) = PT.IS_VALID x := by
  apply Nat.eq_of_testBit_eq; intro i
  interval_cases v <;>
  simp only [PT.IS_VALID, PT.SET_CHAIN, Nat.testBit_shiftRight, Nat.testBit_and, Nat.testBit_or,
    Nat.testBit_shiftLeft, tb_U32, Nat.testBit_mod_two_pow, Nat.zero_testBit, Nat.zero_shiftLeft,
    Nat.one_shiftLeft, Nat.testBit_two_pow, Nat.mul_zero, Nat.mul_one,
    tb_1, tb_2, tb_4, tb_64, tb_128, tb_256, tb_4294967294, tb_4294967293, tb_4294967291, tb_4294967231, tb_4294967167, tb_4294967039, tb_4095, tb_4294963200, tb_63, tb_4294967232] <;>
  generalize Nat.testBit x _ = b <;>
  cases b <;> simp <;> omega

@[simp]
theorem PT_IS_VALID_SET_KERNEL (x v : Nat) (hv : v ≤ 1) :
    PT.IS_VALID (PT.SET_KERNEL x v) = PT.IS_VALID x := by
  apply Nat.eq_of_testBit_eq; intro i
  interval_cases v <;>
  simp only [PT.IS_VALID, PT.SET_KERNEL, Nat.testBit_shiftRight, Nat.testBit_and, Nat.testBit_or,
    Nat.testBit_shiftLeft, tb_U32, Nat.testBit_mod_two_pow, Nat.zero_testBit, Nat.zero_shiftLeft,
    Nat.one_shiftLeft, Nat.testBit_two_pow, Nat.mul_zero, Nat.mul_one,
    tb_1, tb_2, tb_4, tb_64, tb_128, tb_256, tb_4294967294, tb_4294967293, tb_4294967291, tb_4294967231, tb_4294967167, tb_4294967039, tb_4095, tb_4294963200, tb_63, tb_4294967232] <;>
  generalize Nat.testBit x _ = b <;>
  cases b <;> simp <;> omega

@[simp]
theorem PT_IS_VALID_SET_PN (x pn : Nat) :
    PT.IS_VALID (PT.SET_PN x pn) = PT.IS_VALID x := by
  apply Nat.eq_of_testBit_eq; intro i
  simp only [PT.IS_VALID, PT.SET_PN, Nat.testBit_shiftRight, Nat.testBit_and, Nat.testBit_or,
    Nat.testBit_shiftLeft, tb_U32, Nat.testBit_mod_two_pow, Nat.zero_testBit, Nat.zero_shiftLeft,
    Nat.one_shiftLeft, Nat.testBit_two_pow, Nat.mul_zero, Nat.mul_one,
    tb_1, tb_2, tb_4, tb_64, tb_128, tb_256, tb_4294967294, tb_4294967293, tb_4294967291, tb_4294967231, tb_4294967167, tb_4294967039, tb_4095, tb_4294963200, tb_63, tb_4294967232]
  generalize Nat.testBit x _ = b
  generalize Nat.testBit pn _ = c
  cases b <;> cases c <;> simp <;> omega

@[simp]
theorem PT_HAS_CHAIN_SET_VALID (x v : Nat) (hv : v ≤ 1) :
    PT.HAS_CHAIN (PT.SET_VALID x v) = PT.HAS_CHAIN x := by
  apply Nat.eq_of_testBit_eq; intro i
  interval_cases v <;>
  simp only [PT.HAS_CHAIN, PT.SET_VALID, Nat.testBit_shiftRight, Nat.testBit_and, Nat.testBit_or,
    Nat.testBit_shiftLeft, tb_U32, Nat.testBit_mod_two_pow, Nat.zero_testBit, Nat.zero_shiftLeft,
    Nat.one_shiftLeft, Nat.testBit_two_pow, Nat.mul_zero, Nat.mul_one,
    tb_1, tb_2, tb_4, tb_64, tb_128, tb_256, tb_4294967294, tb_4294967293, tb_4294967291, tb_4294967231, tb_4294967167, tb_4294967039, tb_4095, tb_4294963200, tb_63, tb_4294967232] <;>
  generalize Nat.testBit x _ = b <;>
  cases b <;> simp <;> omega

@[simp]
theorem PT_HAS_CHAIN_SET_CHAIN (x v : Nat) (hv : v ≤ 1) :
    PT.HAS_CHAIN (PT.SET_CHAIN x v) = 2 * v := by
  apply Nat.eq_of_testBit_eq; intro i
  interval_cases v <;>
  simp only [PT.HAS_CHAIN, PT.SET_CHAIN, Nat.testBit_shiftRight, Nat.testBit_and, Nat.testBit_or,
    Nat.testBit_shiftLeft, tb_U32, Nat.testBit_mod_two_pow, Nat.zero_testBit, Nat.zero_shiftLeft,
    Nat.one_shiftLeft, Nat.testBit_two_pow, Nat.mul_zero, Nat.mul_one,
    tb_1, tb_2, tb_4, tb_64, tb_128, tb_256, tb_4294967294, tb_4294967293, tb_4294967291, tb_4294967231, tb_4294967167, tb_4294967039, tb_4095, tb_4294963200, tb_63, tb_4294967232] <;>
  generalize Nat.testBit x _ = b <;>
  cases b <;> simp <;> omega

@[simp]
theorem PT_HAS_CHAIN_SET_KERNEL (x v : Nat) (hv : v ≤ 1) :
    PT.HAS_CHAIN (PT.SET_KERNEL x v) = PT.HAS_CHAIN x := by
  apply Nat.eq_of_testBit_eq; intro i
  interval_cases v <;>
  simp only [PT.HAS_CHAIN, PT.SET_KERNEL, Nat.testBit_shiftRight, Nat.testBit_and, Nat.testBit_or,
    Nat.testBit_shiftLeft, tb_U32, Nat.testBit_mod_two_pow, Nat.zero_testBit, Nat.zero_shiftLeft,
    Nat.one_shiftLeft, Nat.testBit_two_pow, Nat.mul_zero, Nat.mul_one,
    tb_1, tb_2, tb_4, tb_64, tb_128, tb_256, tb_4294967294, tb_4294967293, tb_4294967291, tb_4294967231, tb_4294967167, tb_4294967039, tb_4095, tb_4294963200, tb_63, tb_4294967232] <;>
  generalize Nat.testBit x _ = b <;>
  cases b <;> simp <;> omega

@[simp]
theorem PT_HAS_CHAIN_SET_PN (x pn : Nat) :
    PT.HAS_CHAIN (PT.SET_PN x pn) = PT.HAS_CHAIN x := by
  apply Nat.eq_of_testBit_eq; intro i
  simp only [PT.HAS_CHAIN, PT.SET_PN, Nat.testBit_shiftRight, Nat.testBit_and, Nat.testBit_or,
    Nat.testBit_shiftLeft, tb_U32, Nat.testBit_mod_two_pow, Nat.zero_testBit, Nat.zero_shiftLeft,
    Nat.one_shiftLeft, Nat.testBit_two_pow, Nat.mul_zero, Nat.mul_one,
    tb_1, tb_2, tb_4, tb_64, tb_128, tb_256, tb_4294967294, tb_4294967293, tb_4294967291, tb_4294967231, tb_4294967167, tb_4294967039, tb_4095, tb_4294963200, tb_63, tb_4294967232]
  generalize Nat.testBit x _ = b
  generalize Nat.testBit pn _ = c
  cases b <;> cases c <;> simp <;> omega

@[simp]
theorem PT_IS_KERNEL_SET_VALID (x v : Nat) (hv : v ≤ 1) :
    PT.IS_KERNEL (PT.SET_VALID x v) = PT.IS_KERNEL x := by
  apply Nat.eq_of_testBit_eq; intro i
  interval_cases v <;>
  simp only [PT.IS_KERNEL, PT.SET_VALID, Nat.testBit_shiftRight, Nat.testBit_and, Nat.testBit_or,
    Nat.testBit_shiftLeft, tb_U32, Nat.testBit_mod_two_pow, Nat.zero_testBit, Nat.zero_shiftLeft,
    Nat.one_shiftLeft, Nat.testBit_two_pow, Nat.mul_zero, Nat.mul_one,
    tb_1, tb_2, tb_4, tb_64, tb_128, tb_256, tb_4294967294, tb_4294967293, tb_4294967291, tb_4294967231, tb_4294967167, tb_4294967039, tb_4095, tb_4294963200, tb_63, tb_4294967232] <;>
  generalize Nat.testBit x _ = b <;>
  cases b <;> simp <;> omega

@[simp]
theorem PT_IS_KERNEL_SET_CHAIN (x v : Nat) (hv : v ≤ 1) :
    PT.IS_KERNEL (PT.SET_CHAIN x v) = PT.IS_KERNEL x := by
  apply Nat.eq_of_testBit_eq; intro i
  interval_cases v <;>
  simp only [PT.IS_KERNEL, PT.SET_CHAIN, Nat.testBit_shiftRight, Nat.testBit_and, Nat.testBit_or,
    Nat.testBit_shiftLeft, tb_U32, Nat.testBit_mod_two_pow, Nat.zero_testBit, Nat.zero_shiftLeft,
    Nat.one_shiftLeft, Nat.testBit_two_pow, Nat.mul_zero, Nat.mul_one,
    tb_1, tb_2, tb_4, tb_64, tb_128, tb_256, tb_4294967294, tb_4294967293, tb_4294967291, tb_4294967231, tb_4294967167, tb_4294967039, tb_4095, tb_4294963200, tb_63, tb_4294967232] <;>
  generalize Nat.testBit x _ = b <;>
  cases b <;> simp <;> omega

@[simp]
theorem PT_IS_KERNEL_SET_KERNEL (x v : Nat) (hv : v ≤ 1) :
    PT.IS_KERNEL (PT.SET_KERNEL x v) = 4 * v := by
  apply Nat.eq_of_testBit_eq; intro i
  interval_cases v <;>
  simp only [PT.IS_KERNEL, PT.SET_KERNEL, Nat.testBit_shiftRight, Nat.testBit_and, Nat.testBit_or,
    Nat.testBit_shiftLeft, tb_U32, Nat.testBit_mod_two_pow, Nat.zero_testBit, Nat.zero_shiftLeft,
    Nat.one_shiftLeft, Nat.testBit_two_pow, Nat.mul_zero, Nat.mul_one,
    tb_1, tb_2, tb_4, tb_64, tb_128, tb_256, tb_4294967294, tb_4294967293, tb_4294967291, tb_4294967231, tb_4294967167, tb_4294967039, tb_4095, tb_4294963200, tb_63, tb_4294967232] <;>
  generalize Nat.testBit x _ = b <;>
  cases b <;> simp <;> omega

@[simp]
theorem PT_IS_KERNEL_SET_PN (x pn : Nat) :
    PT.IS_KERNEL (PT.SET_PN x pn) = PT.IS_KERNEL x := by
  apply Nat.eq_of_testBit_eq; intro i
  simp only [PT.IS_KERNEL, PT.SET_PN, Nat.testBit_shiftRight, Nat.testBit_and, Nat.testBit_or,
    Nat.testBit_shiftLeft, tb_U32, Nat.testBit_mod_two_pow, Nat.zero_testBit, Nat.zero_shiftLeft,
    Nat.one_shiftLeft, Nat.testBit_two_pow, Nat.mul_zero, Nat.mul_one,
    tb_1, tb_2, tb_4, tb_64, tb_128, tb_256, tb_4294967294, tb_4294967293, tb_4294967291, tb_4294967231, tb_4294967167, tb_4294967039, tb_4095, tb_4294963200, tb_63, tb_4294967232]
  generalize Nat.testBit x _ = b
  generalize Nat.testBit pn _ = c
  cases b <;> cases c <;> simp <;> omega

@[simp]
theorem PT_GET_PN_SET_VALID (x v : Nat) (hv : v ≤ 1) :
    PT.GET_PN (PT.SET_VALID x v) = PT.GET_PN x := by
  apply Nat.eq_of_testBit_eq; intro i
  interval_cases v <;>
  simp only [PT.GET_PN, PT.SET_VALID, Nat.testBit_shiftRight, Nat.testBit_and, Nat.testBit_or,
    Nat.testBit_shiftLeft, tb_U32, Nat.testBit_mod_two_pow, Nat.zero_testBit, Nat.zero_shiftLeft,
    Nat.one_shiftLeft, Nat.testBit_two_pow, Nat.mul_zero, Nat.mul_one,
    tb_1, tb_2, tb_4, tb_64, tb_128, tb_256, tb_4294967294, tb_4294967293, tb_4294967291, tb_4294967231, tb_4294967167, tb_4294967039, tb_4095, tb_4294963200, tb_63, tb_4294967232] <;>
  generalize Nat.testBit x _ = b <;>
  cases b <;> simp <;> omega

@[simp]
theorem PT_GET_PN_SET_CHAIN (x v : Nat) (hv : v ≤ 1) :
    PT.GET_PN (PT.SET_CHAIN x v) = PT.GET_PN x := by
  apply Nat.eq_of_testBit_eq; intro i
  interval_cases v <;>
  simp only [PT.GET_PN, PT.SET_CHAIN, Nat.testBit_shiftRight, Nat.testBit_and, Nat.testBit_or,
    Nat.testBit_shiftLeft, tb_U32, Nat.testBit_mod_two_pow, Nat.zero_testBit, Nat.zero_shiftLeft,
    Nat.one_shiftLeft, Nat.testBit_two_pow, Nat.mul_zero, Nat.mul_one,
    tb_1, tb_2, tb_4, tb_64, tb_128, tb_256, tb_4294967294, tb_4294967293, tb_4294967291, tb_4294967231, tb_4294967167, tb_4294967039, tb_4095, tb_4294963200, tb_63, tb_4294967232] <;>
  generalize Nat.testBit x _ = b <;>
  cases b <;> simp <;> omega

@[simp]
theorem PT_GET_PN_SET_KERNEL (x v : Nat) (hv : v ≤ 1) :
    PT.GET_PN (PT.SET_KERNEL x v) = PT.GET_PN x := by
  apply Nat.eq_of_testBit_eq; intro i
  interval_cases v <;>
  simp only [PT.GET_PN, PT.SET_KERNEL, Nat.testBit_shiftRight, Nat.testBit_and, Nat.testBit_or,
    Nat.testBit_shiftLeft, tb_U32, Nat.testBit_mod_two_pow, Nat.zero_testBit, Nat.zero_shiftLeft,
    Nat.one_shiftLeft, Nat.testBit_two_pow, Nat.mul_zero, Nat.mul_one,
    tb_1, tb_2, tb_4, tb_64, tb_128, tb_256, tb_4294967294, tb_4294967293, tb_4294967291, tb_4294967231, tb_4294967167, tb_4294967039, tb_4095, tb_4294963200, tb_63, tb_4294967232] <;>
  generalize Nat.testBit x _ = b <;>
  cases b <;> simp <;> omega

@[simp]
theorem PT_GET_PN_SET_PN (x pn : Nat) :
    PT.GET_PN (PT.SET_PN x pn) = pn % 2 ^ 20 := by
  apply Nat.eq_of_testBit_eq; intro i
  simp only [PT.GET_PN, PT.SET_PN, Nat.testBit_shiftRight, Nat.testBit_and, Nat.testBit_or,
    Nat.testBit_shiftLeft, tb_U32, Nat.testBit_mod_two_pow, Nat.zero_testBit, Nat.zero_shiftLeft,
    Nat.one_shiftLeft, Nat.testBit_two_pow, Nat.mul_zero, Nat.mul_one,
    tb_1, tb_2, tb_4, tb_64, tb_128, tb_256, tb_4294967294, tb_4294967293, tb_4294967291, tb_4294967231, tb_4294967167, tb_4294967039, tb_4095, tb_4294963200, tb_63, tb_4294967232]
  have e : 12 + i - 12 = i := by omega
  rw [e]
  generalize Nat.testBit x _ = b
  generalize Nat.testBit pn _ = c
  cases b <;> cases c <;> simp <;> omega

@[simp]
theorem PT_GET_NEXT_SET_NEXT (x pn : Nat) :
    PT.GET_NEXT (PT.SET_NEXT x pn) = pn % 2 ^ 20 := by
  apply Nat.eq_of_testBit_eq; intro i
  simp only [PT.GET_NEXT, PT.SET_NEXT, Nat.testBit_shiftRight, Nat.testBit_and, Nat.testBit_or,
    Nat.testBit_shiftLeft, tb_U32, Nat.testBit_mod_two_pow, Nat.zero_testBit, Nat.zero_shiftLeft,
    Nat.one_shiftLeft, Nat.testBit_two_pow, Nat.mul_zero, Nat.mul_one,
    tb_1, tb_2, tb_4, tb_64, tb_128, tb_256, tb_4294967294, tb_4294967293, tb_4294967291, tb_4294967231, tb_4294967167, tb_4294967039, tb_4095, tb_4294963200, tb_63, tb_4294967232]
  have e : 12 + i - 12 = i := by omega
  rw [e]
  generalize Nat.testBit x _ = b
  generalize Nat.testBit pn _ = c
  cases b <;> cases c <;> simp <;> omega

@[simp]
theorem PT_GET_NEXT_SET_PID (x p : Nat) (hp : p < 64) :
    PT.GET_NEXT (PT.SET_PID x p) = PT.GET_NEXT x := by
  apply Nat.eq_of_testBit_eq; intro i
  simp only [PT.GET_NEXT, PT.SET_PID, Nat.testBit_shiftRight, Nat.testBit_and, Nat.testBit_or,
    Nat.testBit_shiftLeft, tb_U32, Nat.testBit_mod_two_pow, Nat.zero_testBit, Nat.zero_shiftLeft,
    Nat.one_shiftLeft, Nat.testBit_two_pow, Nat.mul_zero, Nat.mul_one,
    tb_1, tb_2, tb_4, tb_64, tb_128, tb_256, tb_4294967294, tb_4294967293, tb_4294967291, tb_4294967231, tb_4294967167, tb_4294967039, tb_4095, tb_4294963200, tb_63, tb_4294967232]
  rw [tb_small p 6 (12 + i) hp (by omega)]
  generalize Nat.testBit x _ = b
  cases b <;> simp <;> omega

@[simp]
theorem PT_GET_PID_SET_NEXT (x pn : Nat) :
    PT.GET_PID (PT.SET_NEXT x pn) = PT.GET_PID x := by
  apply Nat.eq_of_testBit_eq; intro i
  simp only [PT.GET_PID, PT.SET_NEXT, Nat.testBit_shiftRight, Nat.testBit_and, Nat.testBit_or,
    Nat.testBit_shiftLeft, tb_U32, Nat.testBit_mod_two_pow, Nat.zero_testBit, Nat.zero_shiftLeft,
    Nat.one_shiftLeft, Nat.testBit_two_pow, Nat.mul_zero, Nat.mul_one,
    tb_1, tb_2, tb_4, tb_64, tb_128, tb_256, tb_4294967294, tb_4294967293, tb_4294967291, tb_4294967231, tb_4294967167, tb_4294967039, tb_4095, tb_4294963200, tb_63, tb_4294967232]
  generalize Nat.testBit x _ = b
  generalize Nat.testBit pn _ = c
  cases b <;> cases c <;> simp <;> omega

@[simp]
theorem PT_GET_PID_SET_PID (x p : Nat) (hp : p < 64) :
    PT.GET_PID (PT.SET_PID x p) = p := by
  apply Nat.eq_of_testBit_eq; intro i
  simp only [PT.GET_PID, PT.SET_PID, Nat.testBit_shiftRight, Nat.testBit_and, Nat.testBit_or,
    Nat.testBit_shiftLeft, tb_U32, Nat.testBit_mod_two_pow, Nat.zero_testBit, Nat.zero_shiftLeft,
    Nat.one_shiftLeft, Nat.testBit_two_pow, Nat.mul_zero, Nat.mul_one,
    tb_1, tb_2, tb_4, tb_64, tb_128, tb_256, tb_4294967294, tb_4294967293, tb_4294967291, tb_4294967231, tb_4294967167, tb_4294967039, tb_4095, tb_4294963200, tb_63, tb_4294967232]
  by_cases h6 : 6 ≤ i
  · rw [tb_small p 6 i hp h6]
    generalize Nat.testBit x _ = b
    cases b <;> simp <;> omega
  · generalize Nat.testBit x _ = b
    generalize Nat.testBit p _ = c
    cases b <;> cases c <;> simp <;> omega

@[simp]
theorem SW_GET_PID_SET_PID (x p : Nat) (hp : p < 64) :
    SW.GET_PID (SW.SET_PID x p) = p := by
  apply Nat.eq_of_testBit_eq; intro i
  simp only [SW.GET_PID, SW.SET_PID, Nat.testBit_shiftRight, Nat.testBit_and, Nat.testBit_or,
    Nat.testBit_shiftLeft, tb_U32, Nat.testBit_mod_two_pow, Nat.zero_testBit, Nat.zero_shiftLeft,
    Nat.one_shiftLeft, Nat.testBit_two_pow, Nat.mul_zero, Nat.mul_one,
    tb_1, tb_2, tb_4, tb_64, tb_128, tb_256, tb_4294967294, tb_4294967293, tb_4294967291, tb_4294967231, tb_4294967167, tb_4294967039, tb_4095, tb_4294963200, tb_63, tb_4294967232]
  by_cases h6 : 6 ≤ i
  · rw [tb_small p 6 i hp h6]
    generalize Nat.testBit x _ = b
    cases b <;> simp <;> omega
  · generalize Nat.testBit x _ = b
    generalize Nat.testBit p _ = c
    cases b <;> cases c <;> simp <;> omega

@[simp]
theorem SW_GET_PID_SET_SWAPPED (x v : Nat) (hv : v ≤ 1) :
    SW.GET_PID (SW.SET_SWAPPED x v) = SW.GET_PID x := by
  apply Nat.eq_of_testBit_eq; intro i
  interval_cases v <;>
  simp only [SW.GET_PID, SW.SET_SWAPPED, Nat.testBit_shiftRight, Nat.testBit_and, Nat.testBit_or,
    Nat.testBit_shiftLeft, tb_U32, Nat.testBit_mod_two_pow, Nat.zero_testBit, Nat.zero_shiftLeft,
    Nat.one_shiftLeft, Nat.testBit_two_pow, Nat.mul_zero, Nat.mul_one,
    tb_1, tb_2, tb_4, tb_64, tb_128, tb_256, tb_4294967294, tb_4294967293, tb_4294967291, tb_4294967231, tb_4294967167, tb_4294967039, tb_4095, tb_4294963200, tb_63, tb_4294967232] <;>
  generalize Nat.testBit x _ = b <;>
  cases b <;> simp <;> omega

@[simp]
theorem SW_GET_PID_SET_CHAIN (x v : Nat) (hv : v ≤ 1) :
    SW.GET_PID (SW.SET_CHAIN x v) = SW.GET_PID x := by
  apply Nat.eq_of_testBit_eq; intro i
  interval_cases v <;>
  simp only [SW.GET_PID, SW.SET_CHAIN, Nat.testBit_shiftRight, Nat.testBit_and, Nat.testBit_or,
    Nat.testBit_shiftLeft, tb_U32, Nat.testBit_mod_two_pow, Nat.zero_testBit, Nat.zero_shiftLeft,
    Nat.one_shiftLeft, Nat.testBit_two_pow, Nat.mul_zero, Nat.mul_one,
    tb_1, tb_2, tb_4, tb_64, tb_128, tb_256, tb_4294967294, tb_4294967293, tb_4294967291, tb_4294967231, tb_4294967167, tb_4294967039, tb_4095, tb_4294963200, tb_63, tb_4294967232] <;>
  generalize Nat.testBit x _ = b <;>
  cases b <;> simp <;> omega

@[simp]
theorem SW_GET_PID_SET_PREV (x v : Nat) (hv : v ≤ 1) :
    SW.GET_PID (SW.SET_PREV x v) = SW.GET_PID x := by
  apply Nat.eq_of_testBit_eq; intro i
  interval_cases v <;>
  simp only [SW.GET_PID, SW.SET_PREV, Nat.testBit_shiftRight, Nat.testBit_and, Nat.testBit_or,
    Nat.testBit_shiftLeft, tb_U32, Nat.testBit_mod_two_pow, Nat.zero_testBit, Nat.zero_shiftLeft,
    Nat.one_shiftLeft, Nat.testBit_two_pow, Nat.mul_zero, Nat.mul_one,
    tb_1, tb_2, tb_4, tb_64, tb_128, tb_256, tb_4294967294, tb_4294967293, tb_4294967291, tb_4294967231, tb_4294967167, tb_4294967039, tb_4095, tb_4294963200, tb_63, tb_4294967232] <;>
  generalize Nat.testBit x _ = b <;>
  cases b <;> simp <;> omega

@[simp]
theorem SW_GET_PID_SET_PN (x pn : Nat) :
    SW.GET_PID (SW.SET_PN x pn) = SW.GET_PID x := by
  apply Nat.eq_of_testBit_eq; intro i
  simp only [SW.GET_PID, SW.SET_PN, Nat.testBit_shiftRight, Nat.testBit_and, Nat.testBit_or,
    Nat.testBit_shiftLeft, tb_U32, Nat.testBit_mod_two_pow, Nat.zero_testBit, Nat.zero_shiftLeft,
    Nat.one_shiftLeft, Nat.testBit_two_pow, Nat.mul_zero, Nat.mul_one,
    tb_1, tb_2, tb_4, tb_64, tb_128, tb_256, tb_4294967294, tb_4294967293, tb_4294967291, tb_4294967231, tb_4294967167, tb_4294967039, tb_4095, tb_4294963200, tb_63, tb_4294967232]
  generalize Nat.testBit x _ = b
  generalize Nat.testBit pn _ = c
  cases b <;> cases c <;> simp <;> omega

@[simp]
theorem SW_IS_SWAPPED_SET_PID (x p : Nat) (hp : p < 64) :
    SW.IS_SWAPPED (SW.SET_PID x p) = SW.IS_SWAPPED x := by
  apply Nat.eq_of_testBit_eq; intro i
  simp only [SW.IS_SWAPPED, SW.SET_PID, Nat.testBit_shiftRight, Nat.testBit_and, Nat.testBit_or,
    Nat.testBit_shiftLeft, tb_U32, Nat.testBit_mod_two_pow, Nat.zero_testBit, Nat.zero_shiftLeft,
    Nat.one_shiftLeft, Nat.testBit_two_pow, Nat.mul_zero, Nat.mul_one,
    tb_1, tb_2, tb_4, tb_64, tb_128, tb_256, tb_4294967294, tb_4294967293, tb_4294967291, tb_4294967231, tb_4294967167, tb_4294967039, tb_4095, tb_4294963200, tb_63, tb_4294967232]
  by_cases h6 : 6 ≤ i
  · rw [tb_small p 6 i hp h6]
    generalize Nat.testBit x _ = b
    cases b <;> simp <;> omega
  · generalize Nat.testBit x _ = b
    generalize Nat.testBit p _ = c
    cases b <;> cases c <;> simp <;> omega

@[simp]
theorem SW_IS_SWAPPED_SET_SWAPPED (x v : Nat) (hv : v ≤ 1) :
    SW.IS_SWAPPED (SW.SET_SWAPPED x v) = 64 * v := by
  apply Nat.eq_of_testBit_eq; intro i
  interval_cases v <;>
  simp only [SW.IS_SWAPPED, SW.SET_SWAPPED, Nat.testBit_shiftRight, Nat.testBit_and, Nat.testBit_or,
    Nat.testBit_shiftLeft, tb_U32, Nat.testBit_mod_two_pow, Nat.zero_testBit, Nat.zero_shiftLeft,
    Nat.one_shiftLeft, Nat.testBit_two_pow, Nat.mul_zero, Nat.mul_one,
    tb_1, tb_2, tb_4, tb_64, tb_128, tb_256, tb_4294967294, tb_4294967293, tb_4294967291, tb_4294967231, tb_4294967167, tb_4294967039, tb_4095, tb_4294963200, tb_63, tb_4294967232] <;>
  generalize Nat.testBit x _ = b <;>
  cases b <;> simp <;> omega

@[simp]
theorem SW_IS_SWAPPED_SET_CHAIN (x v : Nat) (hv : v ≤ 1) :
    SW.IS_SWAPPED (SW.SET_CHAIN x v) = SW.IS_SWAPPED x := by
  apply Nat.eq_of_testBit_eq; intro i
  interval_cases v <;>
  simp only [SW.IS_SWAPPED, SW.SET_CHAIN, Nat.testBit_shiftRight, Nat.testBit_and, Nat.testBit_or,
    Nat.testBit_shiftLeft, tb_U32, Nat.testBit_mod_two_pow, Nat.zero_testBit, Nat.zero_shiftLeft,
    Nat.one_shiftLeft, Nat.testBit_two_pow, Nat.mul_zero, Nat.mul_one,
    tb_1, tb_2, tb_4, tb_64, tb_128, tb_256, tb_4294967294, tb_4294967293, tb_4294967291, tb_4294967231, tb_4294967167, tb_4294967039, tb_4095, tb_4294963200, tb_63, tb_4294967232] <;>
  generalize Nat.testBit x _ = b <;>
  cases b <;> simp <;> omega

@[simp]
theorem SW_IS_SWAPPED_SET_PREV (x v : Nat) (hv : v ≤ 1) :
    SW.IS_SWAPPED (SW.SET_PREV x v) = SW.IS_SWAPPED x := by
  apply Nat.eq_of_testBit_eq; intro i
  interval_cases v <;>
  simp only [SW.IS_SWAPPED, SW.SET_PREV, Nat.testBit_shiftRight, Nat.testBit_and, Nat.testBit_or,
    Nat.testBit_shiftLeft, tb_U32, Nat.testBit_mod_two_pow, Nat.zero_testBit, Nat.zero_shiftLeft,
    Nat.one_shiftLeft, Nat.testBit_two_pow, Nat.mul_zero, Nat.mul_one,
    tb_1, tb_2, tb_4, tb_64, tb_128, tb_256, tb_4294967294, tb_4294967293, tb_4294967291, tb_4294967231, tb_4294967167, tb_4294967039, tb_4095, tb_4294963200, tb_63, tb_4294967232] <;>
  generalize Nat.testBit x _ = b <;>
  cases b <;> simp <;> omega

@[simp]
theorem SW_IS_SWAPPED_SET_PN (x pn : Nat) :
    SW.IS_SWAPPED (SW.SET_PN x pn) = SW.IS_SWAPPED x := by
  apply Nat.eq_of_testBit_eq; intro i
  simp only [SW.IS_SWAPPED, SW.SET_PN, Nat.testBit_shiftRight, Nat.testBit_and, Nat.testBit_or,
    Nat.testBit_shiftLeft, tb_U32, Nat.testBit_mod_two_pow, Nat.zero_testBit, Nat.zero_shiftLeft,
    Nat.one_shiftLeft, Nat.testBit_two_pow, Nat.mul_zero, Nat.mul_one,
    tb_1, tb_2, tb_4, tb_64, tb_128, tb_256, tb_4294967294, tb_4294967293, tb_4294967291, tb_4294967231, tb_4294967167, tb_4294967039, tb_4095, tb_4294963200, tb_63, tb_4294967232]
  generalize Nat.testBit x _ = b
  generalize Nat.testBit pn _ = c
  cases b <;> cases c <;> simp <;> omega

@[simp]
theorem SW_HAS_CHAIN_SET_PID (x p : Nat) (hp : p < 64) :
    SW.HAS_CHAIN (SW.SET_PID x p) = SW.HAS_CHAIN x := by
  apply Nat.eq_of_testBit_eq; intro i
  simp only [SW.HAS_CHAIN, SW.SET_PID, Nat.testBit_shiftRight, Nat.testBit_and, Nat.testBit_or,
    Nat.testBit_shiftLeft, tb_U32, Nat.testBit_mod_two_pow, Nat.zero_testBit, Nat.zero_shiftLeft,
    Nat.one_shiftLeft, Nat.testBit_two_pow, Nat.mul_zero, Nat.mul_one,
    tb_1, tb_2, tb_4, tb_64, tb_128, tb_256, tb_4294967294, tb_4294967293, tb_4294967291, tb_4294967231, tb_4294967167, tb_4294967039, tb_4095, tb_4294963200, tb_63, tb_4294967232]
  by_cases h6 : 6 ≤ i
  · rw [tb_small p 6 i hp h6]
    generalize Nat.testBit x _ = b
    cases b <;> simp <;> omega
  · generalize Nat.testBit x _ = b
    generalize Nat.testBit p _ = c
    cases b <;> cases c <;> simp <;> omega

@[simp]
theorem SW_HAS_CHAIN_SET_SWAPPED (x v : Nat) (hv : v ≤ 1) :
    SW.HAS_CHAIN (SW.SET_SWAPPED x v) = SW.HAS_CHAIN x := by
  apply Nat.eq_of_testBit_eq; intro i
  interval_cases v <;>
  simp only [SW.HAS_CHAIN, SW.SET_SWAPPED, Nat.testBit_shiftRight, Nat.testBit_and, Nat.testBit_or,
    Nat.testBit_shiftLeft, tb_U32, Nat.testBit_mod_two_pow, Nat.zero_testBit, Nat.zero_shiftLeft,
    Nat.one_shiftLeft, Nat.testBit_two_pow, Nat.mul_zero, Nat.mul_one,
    tb_1, tb_2, tb_4, tb_64, tb_128, tb_256, tb_4294967294, tb_4294967293, tb_4294967291, tb_4294967231, tb_4294967167, tb_4294967039, tb_4095, tb_4294963200, tb_63, tb_4294967232] <;>
  generalize Nat.testBit x _ = b <;>
  cases b <;> simp <;> omega

@[simp]
theorem SW_HAS_CHAIN_SET_CHAIN (x v : Nat) (hv : v ≤ 1) :
    SW.HAS_CHAIN (SW.SET_CHAIN x v) = 128 * v := by
  apply Nat.eq_of_testBit_eq; intro i
  interval_cases v <;>
  simp only [SW.HAS_CHAIN, SW.SET_CHAIN, Nat.testBit_shiftRight, Nat.testBit_and, Nat.testBit_or,
    Nat.testBit_shiftLeft, tb_U32, Nat.testBit_mod_two_pow, Nat.zero_testBit, Nat.zero_shiftLeft,
    Nat.one_shiftLeft, Nat.testBit_two_pow, Nat.mul_zero, Nat.mul_one,
    tb_1, tb_2, tb_4, tb_64, tb_128, tb_256, tb_4294967294, tb_4294967293, tb_4294967291, tb_4294967231, tb_4294967167, tb_4294967039, tb_4095, tb_4294963200, tb_63, tb_4294967232] <;>
  generalize Nat.testBit x _ = b <;>
  cases b <;> simp <;> omega

@[simp]
theorem SW_HAS_CHAIN_SET_PREV (x v : Nat) (hv : v ≤ 1) :
    SW.HAS_CHAIN (SW.SET_PREV x v) = SW.HAS_CHAIN x := by
  apply Nat.eq_of_testBit_eq; intro i
  interval_cases v <;>
  simp only [SW.HAS_CHAIN, SW.SET_PREV, Nat.testBit_shiftRight, Nat.testBit_and, Nat.testBit_or,
    Nat.testBit_shiftLeft, tb_U32, Nat.testBit_mod_two_pow, Nat.zero_testBit, Nat.zero_shiftLeft,
    Nat.one_shiftLeft, Nat.testBit_two_pow, Nat.mul_zero, Nat.mul_one,
    tb_1, tb_2, tb_4, tb_64, tb_128, tb_256, tb_4294967294, tb_4294967293, tb_4294967291, tb_4294967231, tb_4294967167, tb_4294967039, tb_4095, tb_4294963200, tb_63, tb_4294967232] <;>
  generalize Nat.testBit x _ = b <;>
  cases b <;> simp <;> omega

@[simp]
theorem SW_HAS_CHAIN_SET_PN (x pn : Nat) :
    SW.HAS_CHAIN (SW.SET_PN x pn) = SW.HAS_CHAIN x := by
  apply Nat.eq_of_testBit_eq; intro i
  simp only [SW.HAS_CHAIN, SW.SET_PN, Nat.testBit_shiftRight, Nat.testBit_and, Nat.testBit_or,
    Nat.testBit_shiftLeft, tb_U32, Nat.testBit_mod_two_pow, Nat.zero_testBit, Nat.zero_shiftLeft,
    Nat.one_shiftLeft, Nat.testBit_two_pow, Nat.mul_zero, Nat.mul_one,
    tb_1, tb_2, tb_4, tb_64, tb_128, tb_256, tb_4294967294, tb_4294967293, tb_4294967291, tb_4294967231, tb_4294967167, tb_4294967039, tb_4095, tb_4294963200, tb_63, tb_4294967232]
  generalize Nat.testBit x _ = b
  generalize Nat.testBit pn _ = c
  cases b <;> cases c <;> simp <;> omega

@[simp]
theorem SW_HAS_PREV_SET_PID (x p : Nat) (hp : p < 64) :
    SW.HAS_PREV (SW.SET_PID x p) = SW.HAS_PREV x := by
  apply Nat.eq_of_testBit_eq; intro i
  simp only [SW.HAS_PREV, SW.SET_PID, Nat.testBit_shiftRight, Nat.testBit_and, Nat.testBit_or,
    Nat.testBit_shiftLeft, tb_U32, Nat.testBit_mod_two_pow, Nat.zero_testBit, Nat.zero_shiftLeft,
    Nat.one_shiftLeft, Nat.testBit_two_pow, Nat.mul_zero, Nat.mul_one,
    tb_1, tb_2, tb_4, tb_64, tb_128, tb_256, tb_4294967294, tb_4294967293, tb_4294967291, tb_4294967231, tb_4294967167, tb_4294967039, tb_4095, tb_4294963200, tb_63, tb_4294967232]
  by_cases h6 : 6 ≤ i
  · rw [tb_small p 6 i hp h6]
    generalize Nat.testBit x _ = b
    cases b <;> simp <;> omega
  · generalize Nat.testBit x _ = b
    generalize Nat.testBit p _ = c
    cases b <;> cases c <;> simp <;> omega

@[simp]
theorem SW_HAS_PREV_SET_SWAPPED (x v : Nat) (hv : v ≤ 1) :
    SW.HAS_PREV (SW.SET_SWAPPED x v) = SW.HAS_PREV x := by
  apply Nat.eq_of_testBit_eq; intro i
  interval_cases v <;>
  simp only [SW.HAS_PREV, SW.SET_SWAPPED, Nat.testBit_shiftRight, Nat.testBit_and, Nat.testBit_or,
    Nat.testBit_shiftLeft, tb_U32, Nat.testBit_mod_two_pow, Nat.zero_testBit, Nat.zero_shiftLeft,
    Nat.one_shiftLeft, Nat.testBit_two_pow, Nat.mul_zero, Nat.mul_one,
    tb_1, tb_2, tb_4, tb_64, tb_128, tb_256, tb_4294967294, tb_4294967293, tb_4294967291, tb_4294967231, tb_4294967167, tb_4294967039, tb_4095, tb_4294963200, tb_63, tb_4294967232] <;>
  generalize Nat.testBit x _ = b <;>
  cases b <;> simp <;> omega

@[simp]
theorem SW_HAS_PREV_SET_CHAIN (x v : Nat) (hv : v ≤ 1) :
    SW.HAS_PREV (SW.SET_CHAIN x v) = SW.HAS_PREV x := by
  apply Nat.eq_of_testBit_eq; intro i
  interval_cases v <;>
  simp only [SW.HAS_PREV, SW.SET_CHAIN, Nat.testBit_shiftRight, Nat.testBit_and, Nat.testBit_or,
    Nat.testBit_shiftLeft, tb_U32, Nat.testBit_mod_two_pow, Nat.zero_testBit, Nat.zero_shiftLeft,
    Nat.one_shiftLeft, Nat.testBit_two_pow, Nat.mul_zero, Nat.mul_one,
    tb_1, tb_2, tb_4, tb_64, tb_128, tb_256, tb_4294967294, tb_4294967293, tb_4294967291, tb_4294967231, tb_4294967167, tb_4294967039, tb_4095, tb_4294963200, tb_63, tb_4294967232] <;>
  generalize Nat.testBit x _ = b <;>
  cases b <;> simp <;> omega

@[simp]
theorem SW_HAS_PREV_SET_PREV (x v : Nat) (hv : v ≤ 1) :
    SW.HAS_PREV (SW.SET_PREV x v) = 256 * v := by
  apply Nat.eq_of_testBit_eq; intro i
  interval_cases v <;>
  simp only [SW.HAS_PREV, SW.SET_PREV, Nat.testBit_shiftRight, Nat.testBit_and, Nat.testBit_or,
    Nat.testBit_shiftLeft, tb_U32, Nat.testBit_mod_two_pow, Nat.zero_testBit, Nat.zero_shiftLeft,
    Nat.one_shiftLeft, Nat.testBit_two_pow, Nat.mul_zero, Nat.mul_one,
    tb_1, tb_2, tb_4, tb_64, tb_128, tb_256, tb_4294967294, tb_4294967293, tb_4294967291, tb_4294967231, tb_4294967167, tb_4294967039, tb_4095, tb_4294963200, tb_63, tb_4294967232] <;>
  generalize Nat.testBit x _ = b <;>
  cases b <;> simp <;> omega

@[simp]
theorem SW_HAS_PREV_SET_PN (x pn : Nat) :
    SW.HAS_PREV (SW.SET_PN x pn) = SW.HAS_PREV x := by
  apply Nat.eq_of_testBit_eq; intro i
  simp only [SW.HAS_PREV, SW.SET_PN, Nat.testBit_shiftRight, Nat.testBit_and, Nat.testBit_or,
    Nat.testBit_shiftLeft, tb_U32, Nat.testBit_mod_two_pow, Nat.zero_testBit, Nat.zero_shiftLeft,
    Nat.one_shiftLeft, Nat.testBit_two_pow, Nat.mul_zero, Nat.mul_one,
    tb_1, tb_2, tb_4, tb_64, tb_128, tb_256, tb_4294967294, tb_4294967293, tb_4294967291, tb_4294967231, tb_4294967167, tb_4294967039, tb_4095, tb_4294963200, tb_63, tb_4294967232]
  generalize Nat.testBit x _ = b
  generalize Nat.testBit pn _ = c
  cases b <;> cases c <;> simp <;> omega

@[simp]
theorem SW_GET_PN_SET_PID (x p : Nat) (hp : p < 64) :
    SW.GET_PN (SW.SET_PID x p) = SW.GET_PN x := by
  apply Nat.eq_of_testBit_eq; intro i
  simp only [SW.GET_PN, SW.SET_PID, Nat.testBit_shiftRight, Nat.testBit_and, Nat.testBit_or,
    Nat.testBit_shiftLeft, tb_U32, Nat.testBit_mod_two_pow, Nat.zero_testBit, Nat.zero_shiftLeft,
    Nat.one_shiftLeft, Nat.testBit_two_pow, Nat.mul_zero, Nat.mul_one,
    tb_1, tb_2, tb_4, tb_64, tb_128, tb_256, tb_4294967294, tb_4294967293, tb_4294967291, tb_4294967231, tb_4294967167, tb_4294967039, tb_4095, tb_4294963200, tb_63, tb_4294967232]
  rw [tb_small p 6 (12 + i) hp (by omega)]
  generalize Nat.testBit x _ = b
  cases b <;> simp <;> omega

@[simp]
theorem SW_GET_PN_SET_SWAPPED (x v : Nat) (hv : v ≤ 1) :
    SW.GET_PN (SW.SET_SWAPPED x v) = SW.GET_PN x := by
  apply Nat.eq_of_testBit_eq; intro i
  interval_cases v <;>
  simp only [SW.GET_PN, SW.SET_SWAPPED, Nat.testBit_shiftRight, Nat.testBit_and, Nat.testBit_or,
    Nat.testBit_shiftLeft, tb_U32, Nat.testBit_mod_two_pow, Nat.zero_testBit, Nat.zero_shiftLeft,
    Nat.one_shiftLeft, Nat.testBit_two_pow, Nat.mul_zero, Nat.mul_one,
    tb_1, tb_2, tb_4, tb_64, tb_128, tb_256, tb_4294967294, tb_4294967293, tb_4294967291, tb_4294967231, tb_4294967167, tb_4294967039, tb_4095, tb_4294963200, tb_63, tb_4294967232] <;>
  generalize Nat.testBit x _ = b <;>
  cases b <;> simp <;> omega

@[simp]
theorem SW_GET_PN_SET_CHAIN (x v : Nat) (hv : v ≤ 1) :
    SW.GET_PN (SW.SET_CHAIN x v) = SW.GET_PN x := by
  apply Nat.eq_of_testBit_eq; intro i
  interval_cases v <;>
  simp only [SW.GET_PN, SW.SET_CHAIN, Nat.testBit_shiftRight, Nat.testBit_and, Nat.testBit_or,
    Nat.testBit_shiftLeft, tb_U32, Nat.testBit_mod_two_pow, Nat.zero_testBit, Nat.zero_shiftLeft,
    Nat.one_shiftLeft, Nat.testBit_two_pow, Nat.mul_zero, Nat.mul_one,
    tb_1, tb_2, tb_4, tb_64, tb_128, tb_256, tb_4294967294, tb_4294967293, tb_4294967291, tb_4294967231, tb_4294967167, tb_4294967039, tb_4095, tb_4294963200, tb_63, tb_4294967232] <;>
  generalize Nat.testBit x _ = b <;>
  cases b <;> simp <;> omega

@[simp]
theorem SW_GET_PN_SET_PREV (x v : Nat) (hv : v ≤ 1) :
    SW.GET_PN (SW.SET_PREV x v) = SW.GET_PN x := by
  apply Nat.eq_of_testBit_eq; intro i
  interval_cases v <;>
  simp only [SW.GET_PN, SW.SET_PREV, Nat.testBit_shiftRight, Nat.testBit_and, Nat.testBit_or,
    Nat.testBit_shiftLeft, tb_U32, Nat.testBit_mod_two_pow, Nat.zero_testBit, Nat.zero_shiftLeft,
    Nat.one_shiftLeft, Nat.testBit_two_pow, Nat.mul_zero, Nat.mul_one,
    tb_1, tb_2, tb_4, tb_64, tb_128, tb_256, tb_4294967294, tb_4294967293, tb_4294967291, tb_4294967231, tb_4294967167, tb_4294967039, tb_4095, tb_4294963200, tb_63, tb_4294967232] <;>
  generalize Nat.testBit x _ = b <;>
  cases b <;> simp <;> omega

@[simp]
theorem SW_GET_PN_SET_PN (x pn : Nat) :
    SW.GET_PN (SW.SET_PN x pn) = pn % 2 ^ 20 := by
  apply Nat.eq_of_testBit_eq; intro i
  simp only [SW.GET_PN, SW.SET_PN, Nat.testBit_shiftRight, Nat.testBit_and, Nat.testBit_or,
    Nat.testBit_shiftLeft, tb_U32, Nat.testBit_mod_two_pow, Nat.zero_testBit, Nat.zero_shiftLeft,
    Nat.one_shiftLeft, Nat.testBit_two_pow, Nat.mul_zero, Nat.mul_one,
    tb_1, tb_2, tb_4, tb_64, tb_128, tb_256, tb_4294967294, tb_4294967293, tb_4294967291, tb_4294967231, tb_4294967167, tb_4294967039, tb_4095, tb_4294963200, tb_63, tb_4294967232]
  have e : 12 + i - 12 = i := by omega
  rw [e]
  generalize Nat.testBit x _ = b
  generalize Nat.testBit pn _ = c
  cases b <;> cases c <;> simp <;> omega

/-! ## Arrays and chains -/

theorem upd_same {α : Type} (f : Nat → α) (i : Nat) (v : α) : upd f i v i = v := by
  simp [upd]

theorem upd_ne {α : Type} (f : Nat → α) (i j : Nat) (v : α) (h : j ≠ i) : upd f i v j = f j := by
  simp [upd, h]

theorem Linked.nil (ch : Nat → Bool) (nx : Nat → Nat) : Linked ch nx [] := by
  simp [Linked]

theorem Linked.single (ch : Nat → Bool) (nx : Nat → Nat) (a : Nat) (h : ch a = false) :
    Linked ch nx [a] := by
  simp [Linked, h]

theorem Linked.cons_cons {ch : Nat → Bool} {nx : Nat → Nat} {a b : Nat} {l : List Nat} :
    Linked ch nx (a :: b :: l) ↔ ch a = true ∧ nx a = b ∧ Linked ch nx (b :: l) := by
  simp [Linked, List.chain'_cons, List.getLast?_cons_cons, and_assoc]

theorem Linked.single_iff {ch : Nat → Bool} {nx : Nat → Nat} {a : Nat} :
    Linked ch nx [a] ↔ ch a = false := by
  simp [Linked]

theorem Linked.tail {ch : Nat → Bool} {nx : Nat → Nat} {a : Nat} {l : List Nat}
    (h : Linked ch nx (a :: l)) : Linked ch nx l := by
  cases l with
  | nil => exact Linked.nil ch nx
  | cons b l => exact (Linked.cons_cons.mp h).2.2

theorem Linked.congr {ch ch2 : Nat → Bool} {nx nx2 : Nat → Nat} {l : List Nat}
    (hc : ∀ a ∈ l, ch2 a = ch a ∧ nx2 a = nx a) (h : Linked ch nx l) : Linked ch2 nx2 l := by
  induction l with
  | nil => exact Linked.nil _ _
  | cons a l ih =>
    cases l with
    | nil =>
      rw [Linked.single_iff] at h ⊢
      rw [(hc a (by simp)).1]; exact h
    | cons b l =>
      rw [Linked.cons_cons] at h ⊢
      refine ⟨?_, ?_, ih (fun x hx => hc x (List.mem_cons_of_mem _ hx)) h.2.2⟩
      · rw [(hc a (by simp)).1]; exact h.1
      · rw [(hc a (by simp)).2]; exact h.2.1

/-- Appending `f` after the last element `a`, whose link is redirected to `f`. -/
theorem Linked.snoc {ch ch2 : Nat → Bool} {nx nx2 : Nat → Nat} {l : List Nat} {a f : Nat}
    (h : Linked ch nx (l ++ [a])) (hc : ∀ x ∈ l, ch2 x = ch x ∧ nx2 x = nx x)
    (ha : ch2 a = true) (hn : nx2 a = f) (hf : ch2 f = false) :
    Linked ch2 nx2 (l ++ [a, f]) := by
  induction l with
  | nil =>
    simp only [List.nil_append]
    rw [Linked.cons_cons, Linked.single_iff]; exact ⟨ha, hn, hf⟩
  | cons b l ih =>
    have h2 := ih (Linked.tail h) (fun x hx => hc x (List.mem_cons_of_mem _ hx))
    cases l with
    | nil =>
      simp only [List.cons_append, List.nil_append] at h h2 ⊢
      rw [Linked.cons_cons] at h ⊢
      have := hc b (by simp)
      exact ⟨by rw [this.1]; exact h.1, by rw [this.2]; exact h.2.1, h2⟩
    | cons c l =>
      simp only [List.cons_append] at h h2 ⊢
      rw [Linked.cons_cons] at h ⊢
      have := hc b (by simp)
      exact ⟨by rw [this.1]; exact h.1, by rw [this.2]; exact h.2.1, h2⟩

/-- Unlinking `f` between `i` and `g`. -/
theorem Linked.drop_mid {ch ch2 : Nat → Bool} {nx nx2 : Nat → Nat} {l1 l2 : List Nat}
    {i f g : Nat} (h : Linked ch nx (l1 ++ i :: f :: g :: l2))
    (hc : ∀ x ∈ l1 ++ g :: l2, ch2 x = ch x ∧ nx2 x = nx x)
    (hi : ch2 i = true) (hn : nx2 i = g) : Linked ch2 nx2 (l1 ++ i :: g :: l2) := by
  induction l1 with
  | nil =>
    simp only [List.nil_append] at h hc ⊢
    rw [Linked.cons_cons] at h ⊢
    exact ⟨hi, hn, Linked.congr hc (Linked.tail h.2.2)⟩
  | cons b l ih =>
    have h2 := ih (Linked.tail h) (fun x hx => hc x (List.mem_cons_of_mem _ hx))
    have hb := hc b (by simp)
    cases l with
    | nil =>
      simp only [List.cons_append, List.nil_append] at h h2 ⊢
      rw [Linked.cons_cons] at h ⊢
      exact ⟨by rw [hb.1]; exact h.1, by rw [hb.2]; exact h.2.1, h2⟩
    | cons c l =>
      simp only [List.cons_append] at h h2 ⊢
      rw [Linked.cons_cons] at h ⊢
      exact ⟨by rw [hb.1]; exact h.1, by rw [hb.2]; exact h.2.1, h2⟩

/-- Unlinking the last element `f`, whose predecessor `i` becomes the last. -/
theorem Linked.drop_last {ch ch2 : Nat → Bool} {nx nx2 : Nat → Nat} {l1 : List Nat}
    {i f : Nat} (h : Linked ch nx (l1 ++ [i, f]))
    (hc : ∀ x ∈ l1, ch2 x = ch x ∧ nx2 x = nx x)
    (hi : ch2 i = false) : Linked ch2 nx2 (l1 ++ [i]) := by
  induction l1 with
  | nil =>
    simp only [List.nil_append]
    rw [Linked.single_iff]; exact hi
  | cons b l ih =>
    have h2 := ih (Linked.tail h) (fun x hx => hc x (List.mem_cons_of_mem _ hx))
    have hb := hc b (by simp)
    cases l with
    | nil =>
      simp only [List.cons_append, List.nil_append] at h h2 ⊢
      rw [Linked.cons_cons] at h ⊢
      exact ⟨by rw [hb.1]; exact h.1, by rw [hb.2]; exact h.2.1, h2⟩
    | cons c l =>
      simp only [List.cons_append] at h h2 ⊢
      rw [Linked.cons_cons] at h ⊢
      exact ⟨by rw [hb.1]; exact h.1, by rw [hb.2]; exact h.2.1, h2⟩

theorem Linked.last_false {ch : Nat → Bool} {nx : Nat → Nat} {l : List Nat} {a : Nat}
    (h : Linked ch nx l) (ha : l.getLast? = some a) : ch a = false := h.2 a ha

theorem walk_of_linked {ch : Nat → Bool} {nx : Nat → Nat} (l : List Nat) (a : Nat) (k : Nat)
    (h : Linked ch nx (a :: l)) (hk : (a :: l).length ≤ k) : walk ch nx k a = a :: l := by
  induction l generalizing a k with
  | nil =>
    cases k with
    | zero => simp at hk
    | succ k => simp [walk, Linked.single_iff.mp h]
  | cons b l ih =>
    cases k with
    | zero => simp at hk
    | succ k =>
      rw [Linked.cons_cons] at h
      simp only [walk, h.1, if_true, h.2.1]
      rw [ih b k h.2.2 (by simpa using hk)]

theorem Linked.head_step {ch : Nat → Bool} {nx : Nat → Nat} {a b : Nat} {l : List Nat}
    (h : Linked ch nx (a :: b :: l)) : ch a = true ∧ nx a = b :=
  ⟨(Linked.cons_cons.mp h).1, (Linked.cons_cons.mp h).2.1⟩

theorem nodup_bounded_length (l : List Nat) (n : Nat) (hn : l.Nodup) (hb : ∀ a ∈ l, a < n) :
    l.length ≤ n := by
  have h1 : l.toFinset ⊆ Finset.range n := by
    intro a ha
    rw [List.mem_toFinset] at ha
    exact Finset.mem_range.mpr (hb a ha)
  have h2 := Finset.card_le_card h1
  rw [List.toFinset_card_of_nodup hn, Finset.card_range] at h2
  exact h2

theorem bind_ok {α β : Type} (a : α) (f : α → Except Fault β) :
    (Except.ok a >>= f) = f a := rfl

theorem bind_err {α β : Type} (e : Fault) (f : α → Except Fault β) :
    ((Except.error e : Except Fault α) >>= f) = Except.error e := rfl

theorem pure_eq {α : Type} (a : α) : (pure a : Except Fault α) = Except.ok a := rfl

theorem chk_pos {c : Prop} [Decidable c] (f : Fault) (h : c) : chk c f = .ok () := by
  simp [chk, h]

theorem chk_neg {c : Prop} [Decidable c] (f : Fault) (h : ¬ c) : chk c f = .error f := by
  simp [chk, h]

theorem chk_true (f : Fault) [inst : Decidable True] : @chk True inst f = .ok () := by
  simp [chk]

theorem chk_false (f : Fault) [inst : Decidable False] : @chk False inst f = .error f := by
  simp [chk]

/-! ## The page table after `pageTInit` -/

theorem pageTInit_loop_apply (raw : Nat → PTE) (k j : Nat) :
    pageTInit_loop raw k j =
      if j < k then
        PTE.mk (PT.SET_KERNEL (PT.SET_PN (PT.SET_VALID (PT.SET_CHAIN (raw j).hi 1) 0) 0) 0)
          (PT.SET_NEXT (PT.SET_PID (raw j).low 0) ((j + 1) % U32))
      else raw j := by
  induction k with
  | zero => simp [pageTInit_loop]
  | succ k ih =>
    simp only [pageTInit_loop, pageTInit_step, upd]
    by_cases h : j = k
    · subst h; simp [ih]
    · simp only [h, if_false, ih]
      by_cases h2 : j < k
      · simp [h2, Nat.lt_succ_of_lt h2]
      · have : ¬ j < k + 1 := by omega
        simp [h2, this]

theorem pageTInit_entries (n : Nat) (raw : Nat → PTE) (rawFIFO : Nat → Nat) (mem_base : Nat)
    (h1 : 1 ≤ n) (h2 : n ≤ 2 ^ 20) (j : Nat) (hj : j < n) :
    PT.IS_VALID ((pageTInit n raw rawFIFO mem_base).entries j).hi = 0 ∧
    PT.IS_KERNEL ((pageTInit n raw rawFIFO mem_base).entries j).hi = 0 ∧
    PT.GET_PN ((pageTInit n raw rawFIFO mem_base).entries j).hi = 0 ∧
    PT.GET_PID ((pageTInit n raw rawFIFO mem_base).entries j).low = 0 ∧
    (j + 1 < n → PT.HAS_CHAIN ((pageTInit n raw rawFIFO mem_base).entries j).hi = 2 ∧
      PT.GET_NEXT ((pageTInit n raw rawFIFO mem_base).entries j).low = j + 1) ∧
    (j + 1 = n → PT.HAS_CHAIN ((pageTInit n raw rawFIFO mem_base).entries j).hi = 0) := by
  have hn : (n + U32 - 1) % U32 = n - 1 := by
    simp only [U32] at *; omega
  simp only [pageTInit, hn, upd, pageTInit_loop_apply]
  by_cases hl : j = n - 1
  · subst hl
    simp [PT_IS_VALID_SET_KERNEL, PT_IS_VALID_SET_PN, PT_IS_VALID_SET_VALID,
      PT_IS_KERNEL_SET_KERNEL, PT_GET_PN_SET_KERNEL, PT_GET_PN_SET_PN, PT_GET_PID_SET_NEXT,
      PT_GET_PID_SET_PID, PT_HAS_CHAIN_SET_KERNEL, PT_HAS_CHAIN_SET_PN, PT_HAS_CHAIN_SET_VALID,
      PT_HAS_CHAIN_SET_CHAIN]
    omega
  · have hlt : j < n - 1 := by omega
    have e1 : (j + 1) % U32 % 2 ^ 20 = j + 1 := by
      simp only [U32] at *; omega
    simp [hl, hlt, PT_IS_VALID_SET_KERNEL, PT_IS_VALID_SET_PN, PT_IS_VALID_SET_VALID,
      PT_IS_KERNEL_SET_KERNEL, PT_GET_PN_SET_KERNEL, PT_GET_PN_SET_PN, PT_GET_PID_SET_NEXT,
      PT_GET_PID_SET_PID, PT_HAS_CHAIN_SET_KERNEL, PT_HAS_CHAIN_SET_PN, PT_HAS_CHAIN_SET_VALID,
      PT_HAS_CHAIN_SET_CHAIN, PT_GET_NEXT_SET_NEXT, e1]
    omega

theorem Linked_range' (ch : Nat → Bool) (nx : Nat → Nat) (len a : Nat)
    (h : ∀ j, a ≤ j → j < a + len → ch j = true ∧ nx j = j + 1) (hl : ch (a + len) = false) :
    Linked ch nx (List.range' a (len + 1)) := by
  induction len generalizing a with
  | zero => simpa [Linked.single_iff] using hl
  | succ len ih =>
    have : List.range' a (len + 1 + 1) = a :: (a + 1) :: List.range' (a + 1 + 1) len := by
      simp [List.range'_succ]
    rw [this, Linked.cons_cons]
    refine ⟨(h a (le_refl _) (by omega)).1, (h a (le_refl _) (by omega)).2, ?_⟩
    have := ih (a + 1) (fun j h1 h2 => h j (by omega) (by omega)) (by
      have e : a + 1 + len = a + (len + 1) := by omega
      rw [e]; exact hl)
    simpa [List.range'_succ] using this

/-! ## `addEntry` on the head of the free list -/

theorem addEntry_head (s : Kernel) (vpn f pid : Nat) (p : proc)
    (hfirst : s.IPT.first_free_frame = f) (hf : f < s.IPT.size) (hpid : pid < 64)
    (hp : s.procs s.curproc = some p) (hl : p.n_frames ≠ 0 → p.last_pt_i < s.IPT.size)
    (hlf : p.n_frames ≠ 0 → p.last_pt_i ≠ f) :
    ∃ s', addEntry s vpn f pid = .ok s' ∧ AddEntryPost s s' vpn f pid p := by
  subst hfirst
  by_cases h1 : s.IPT.first_free_frame = s.IPT.last_free_frame <;>
  by_cases h2 : p.n_frames = 0 <;>
  by_cases h3 : (vpn <<< 12) % U32 > MIPS_KSEG0
  all_goals
    have hl' := hl
    have hlf' := hlf
    have hlf'' : p.n_frames ≠ 0 → s.IPT.first_free_frame ≠ p.last_pt_i := fun h e => hlf h e.symm
    simp only [h2, ne_eq, not_true_eq_false, not_false_eq_true, true_implies, false_implies] at hl' hlf' hlf''
    first
    | have h1' := eq_true h1
    | have h1' := eq_false h1
    simp only [addEntry, h1', h2, h3, hf, hl', curthread_t_proc, hp, chk_true, bind_ok, pure_eq,
      if_true, if_false, ne_eq, not_true_eq_false, not_false_eq_true]
    refine ⟨_, rfl, ?_⟩
    constructor <;>
      simp [setProc, upd, sameOther, h3, h2, h1', hpid, hlf', hlf'']
    try (intro j hj1 hj2; first | exact absurd hj2 hj1 | simp [hj1, hj2])

theorem getLast?_mem {l : List Nat} {a : Nat} (h : l.getLast? = some a) : a ∈ l :=
  List.mem_of_getLast?_eq_some h

theorem getLast?_cons_ne_nil {l : List Nat} (a : Nat) (h : l ≠ []) :
    (a :: l).getLast? = l.getLast? := by
  cases l with
  | nil => exact absurd rfl h
  | cons b l => simp [List.getLast?_cons_cons]

theorem exists_getLast?_of_ne_nil {l : List Nat} (h : l ≠ []) : ∃ a, l.getLast? = some a := by
  cases hl : l.getLast? with
  | none => exact absurd (List.getLast?_eq_none_iff.mp hl) h
  | some a => exact ⟨a, rfl⟩

theorem eq_append_of_getLast? {l : List Nat} {a : Nat} (h : l.getLast? = some a) :
    ∃ l', l = l' ++ [a] := by
  rw [List.getLast?_eq_some_iff] at h
  exact h

theorem PTInv_addEntry (s s' : Kernel) (F' : List Nat) (C : Nat → List Nat) (f vpn : Nat)
    (p : proc) (hinv : PTInv s (f :: F') C) (hp : s.procs s.curproc = some p)
    (hpost : AddEntryPost s s' vpn f s.curproc p) :
    PTInv s' F' (upd C s.curproc (C s.curproc ++ [f])) := by
  have hfF := hinv.F_free f (by simp)
  have hfirst : s.IPT.first_free_frame = f := hinv.F_head f rfl
  -- f is in no process list
  have hfC : ∀ q, f ∉ C q := fun q hq => (hinv.C_own q f hq).2.1 hfF.2
  -- the old last frame of the current process
  have hlast : p.n_frames ≠ 0 → p.last_pt_i ∈ C s.curproc := by
    intro h0
    have hne : C s.curproc ≠ [] := by
      intro h; have := hinv.C_len _ _ hp; rw [h] at this; exact h0 this.symm
    obtain ⟨a, ha⟩ := exists_getLast?_of_ne_nil hne
    rw [hinv.C_last _ _ a hp ha]; exact getLast?_mem ha
  have hsame : ∀ j, j ≠ f → j ∉ C s.curproc → s'.IPT.entries j = s.IPT.entries j := by
    intro j h1 h2
    apply hpost.e_other j h1
    by_cases h0 : p.n_frames = 0
    · exact Or.inl h0
    · exact Or.inr (fun e => h2 (e ▸ hlast h0))
  have hsameF : ∀ j ∈ F', s'.IPT.entries j = s.IPT.entries j := by
    intro j hj
    apply hsame j
    · intro e; subst e; exact (List.nodup_cons.mp hinv.F_nodup).1 hj
    · intro hc; exact (hinv.C_own _ j hc).2.1 (hinv.F_free j (List.mem_cons_of_mem _ hj)).2
  have hsameC : ∀ q, q ≠ s.curproc → ∀ j ∈ C q, s'.IPT.entries j = s.IPT.entries j := by
    intro q hq j hj
    apply hsame j
    · intro e; subst e; exact hfC q hj
    · intro hc; exact hq ((hinv.C_own q j hj).2.2.symm.trans (hinv.C_own _ j hc).2.2)
  -- fields of the members of the current process list
  have hcur : ∀ j ∈ C s.curproc,
      PT.IS_VALID (s'.IPT.entries j).hi = PT.IS_VALID (s.IPT.entries j).hi ∧
      PT.GET_PID (s'.IPT.entries j).low = PT.GET_PID (s.IPT.entries j).low ∧
      (j ≠ p.last_pt_i → s'.IPT.entries j = s.IPT.entries j) := by
    intro j hj
    have hjf : j ≠ f := fun e => hfC _ (e ▸ hj)
    by_cases hjl : j = p.last_pt_i
    · have h0 : p.n_frames ≠ 0 := by
        intro h
        have := hinv.C_len _ _ hp
        rw [h] at this
        rw [List.length_eq_zero] at this
        rw [this] at hj; simp at hj
      have := hpost.l_link h0 (hjl ▸ hjf)
      subst hjl
      exact ⟨this.2.2.1, this.2.2.2.2.2, fun h => absurd rfl h⟩
    · have := hpost.e_other j hjf (Or.inr hjl)
      exact ⟨by rw [this], by rw [this], fun _ => this⟩
  have hsize := hpost.size
  have hf20 : f % 2 ^ 20 = f := Nat.mod_eq_of_lt (lt_of_lt_of_le hfF.1 hinv.size_le)
  constructor
  · rw [hsize]; exact hinv.size_pos
  · rw [hsize]; exact hinv.size_le
  · rw [hsize, hpost.fifo_start]; exact hinv.fifo_start
  · exact (List.nodup_cons.mp hinv.F_nodup).2
  · intro g hg
    rw [hsize, hsameF g hg]
    exact hinv.F_free g (List.mem_cons_of_mem _ hg)
  · apply Linked.congr _ (Linked.tail hinv.F_link)
    intro a ha
    simp [PT.ch, PT.nx, hsameF a ha]
  · intro a ha
    cases F' with
    | nil => simp at ha
    | cons g F'' =>
      simp only [List.head?_cons, Option.some.injEq] at ha
      subst ha
      have hne : s.IPT.first_free_frame ≠ s.IPT.last_free_frame := by
        obtain ⟨b, hb⟩ := exists_getLast?_of_ne_nil (l := g :: F'') (by simp)
        have hb2 : (f :: g :: F'').getLast? = some b := by
          rw [getLast?_cons_ne_nil f (by simp)]; exact hb
        rw [hinv.F_last b hb2, hfirst]
        intro e
        exact (List.nodup_cons.mp hinv.F_nodup).1 (e ▸ getLast?_mem hb)
      rw [hpost.first, if_pos hne]
      have := Linked.head_step hinv.F_link
      exact this.2
  · intro a ha
    have hne : F' ≠ [] := by intro h; rw [h] at ha; simp at ha
    rw [hpost.last]
    apply hinv.F_last
    rw [getLast?_cons_ne_nil f hne]; exact ha
  · intro hnil
    subst hnil
    have hl : s.IPT.last_free_frame = f := hinv.F_last f rfl
    have : s.IPT.first_free_frame = s.IPT.last_free_frame := by rw [hfirst, hl]
    rw [hpost.first, hpost.last, hsize]
    simp only [this, ne_eq, not_true_eq_false, if_false]
    rw [hl]
    refine ⟨trivial, hfF.1, ?_⟩
    rw [hpost.e_valid]; decide
  · intro q
    by_cases hq : q = s.curproc
    · subst hq
      simp only [upd, if_true]
      rw [List.nodup_append]
      refine ⟨hinv.C_nodup _, by simp, ?_⟩
      intro a ha hb
      simp at hb; subst hb; exact hfC _ ha
    · simp only [upd, hq, if_false]; exact hinv.C_nodup q
  · intro q g hg
    rw [hsize]
    by_cases hq : q = s.curproc
    · subst hq
      simp only [upd, if_true, List.mem_append, List.mem_singleton] at hg
      rcases hg with hg | hg
      · have := hcur g hg
        have h0 := hinv.C_own _ g hg
        exact ⟨h0.1, by rw [this.1]; exact h0.2.1, by rw [this.2.1]; exact h0.2.2⟩
      · subst hg
        exact ⟨hfF.1, by rw [hpost.e_valid]; decide, hpost.e_pid⟩
    · simp only [upd, hq, if_false] at hg
      rw [hsameC q hq g hg]
      exact hinv.C_own q g hg
  · intro q
    by_cases hq : q = s.curproc
    · subst hq
      simp only [upd, if_true]
      by_cases h0 : p.n_frames = 0
      · have hnil : C s.curproc = [] := by
          have := hinv.C_len _ _ hp
          rw [h0] at this; exact List.length_eq_zero.mp this
        rw [hnil]
        apply Linked.single
        simp [PT.ch, hpost.e_chain]
      · have hne : C s.curproc ≠ [] := by
          intro h; have := hinv.C_len _ _ hp; rw [h] at this; exact h0 this.symm
        obtain ⟨a, ha⟩ := exists_getLast?_of_ne_nil hne
        have hal : p.last_pt_i = a := hinv.C_last _ _ a hp ha
        obtain ⟨l, hl⟩ := eq_append_of_getLast? ha
        have hlink := hinv.C_link s.curproc
        have hnd := hinv.C_nodup s.curproc
        rw [hl] at hlink hnd ⊢
        have haf : p.last_pt_i ≠ f := by
          intro e; exact hfC s.curproc (e ▸ hlast h0)
        have hll := hpost.l_link h0 haf
        rw [hal] at hll
        rw [List.append_assoc]
        apply Linked.snoc hlink
        · intro x hx
          have hxa : x ≠ p.last_pt_i := by
            rw [hal]; intro e; subst e
            rw [List.nodup_append] at hnd
            exact hnd.2.2 hx (by simp)
          have := (hcur x (by rw [hl]; simp [hx])).2.2 hxa
          simp [PT.ch, PT.nx, this]
        · simp [PT.ch, hll.1]
        · show PT.GET_NEXT (s'.IPT.entries a).low = f
          rw [hll.2.1]; exact hf20
        · simp [PT.ch, hpost.e_chain]
    · simp only [upd, hq, if_false]
      apply Linked.congr _ (hinv.C_link q)
      intro a ha
      simp [PT.ch, PT.nx, hsameC q hq a ha]
  · intro q p' hq
    rw [hpost.procs] at hq
    by_cases hqc : q = s.curproc
    · subst hqc
      simp only [upd, if_true, Option.some.injEq] at hq ⊢
      subst hq
      simp only [List.length_append, List.length_singleton]
      rw [hinv.C_len _ _ hp]
      have hle : (C s.curproc).length ≤ s.IPT.size :=
        nodup_bounded_length _ _ (hinv.C_nodup _) (fun a ha => (hinv.C_own _ a ha).1)
      rw [hinv.C_len _ _ hp] at hle
      have := hinv.size_le
      simp only [U32]
      omega
    · simp only [upd, hqc, if_false] at hq ⊢
      exact hinv.C_len q p' hq
  · intro q p' a hq ha
    rw [hpost.procs] at hq
    by_cases hqc : q = s.curproc
    · subst hqc
      simp only [upd, if_true, Option.some.injEq] at hq ha
      subst hq
      by_cases h0 : p.n_frames = 0
      · have hnil : C s.curproc = [] := by
          have := hinv.C_len _ _ hp
          rw [h0] at this; exact List.length_eq_zero.mp this
        rw [hnil] at ha
        simp at ha
        simp [h0, ha]
      · have hne : C s.curproc ≠ [] := by
          intro h; have := hinv.C_len _ _ hp; rw [h] at this; exact h0 this.symm
        cases hc : C s.curproc with
        | nil => exact absurd hc hne
        | cons b l =>
          rw [hc] at ha
          simp only [List.cons_append, List.head?_cons, Option.some.injEq] at ha
          subst ha
          simp only [h0, if_false]
          exact hinv.C_head _ _ b hp (by rw [hc]; rfl)
    · simp only [upd, hqc, if_false] at hq ha
      exact hinv.C_head q p' a hq ha
  · intro q p' a hq ha
    rw [hpost.procs] at hq
    by_cases hqc : q = s.curproc
    · subst hqc
      simp only [upd, if_true, Option.some.injEq] at hq ha
      subst hq
      simp at ha
      simp [ha]
    · simp only [upd, hqc, if_false] at hq ha
      exact hinv.C_last q p' a hq ha
  · intro q hq
    rw [hpost.procs] at hq
    by_cases hqc : q = s.curproc
    · subst hqc
      simp [upd] at hq
    · simp only [upd, hqc, if_false] at hq ⊢
      exact hinv.C_none q hq
  · intro q p' hq
    rw [hpost.procs] at hq
    by_cases hqc : q = s.curproc
    · subst hqc
      exact hinv.pid_lt _ _ hp
    · simp only [upd, hqc, if_false] at hq
      exact hinv.pid_lt q p' hq
  · intro j hj
    rw [hsize] at hj
    by_cases hjf : j = f
    · subst hjf
      constructor
      · intro h; rw [hpost.e_valid] at h; exact absurd h (by decide)
      · intro _
        rw [hpost.e_pid]
        simp [upd]
    · by_cases hjc : j ∈ C s.curproc
      · have := hcur j hjc
        have h0 := hinv.C_own _ j hjc
        constructor
        · intro h; rw [this.1] at h; exact absurd h h0.2.1
        · intro _
          rw [this.2.1, h0.2.2]
          simp [upd, hjc]
      · rw [hsame j hjf hjc]
        have hc := hinv.cover j hj
        constructor
        · intro h
          have := hc.1 h
          simp only [List.mem_cons] at this
          rcases this with h1 | h1
          · exact absurd h1 hjf
          · exact h1
        · intro h
          have := hc.2 h
          by_cases hq : PT.GET_PID (s.IPT.entries j).low = s.curproc
          · rw [hq] at this; exact absurd this hjc
          · simp only [upd, hq, if_false]; exact this
  · rw [hsize, hpost.mem_base]; exact hinv.addr_fit

/-! ## `remove_page` -/

theorem findPrev_linked (pt : pT) (f : Nat) (l2 : List Nat) (l : List Nat) (a : Nat)
    (fuel : Nat)
    (hlink : Linked (PT.ch pt.entries) (PT.nx pt.entries) (a :: l ++ f :: l2))
    (hnd : (a :: l ++ f :: l2).Nodup) (hb : ∀ x ∈ a :: l, x < pt.size)
    (hfuel : l.length < fuel) :
    findPrev pt f fuel a = .ok ((a :: l).getLast (by simp)) := by
  induction l generalizing a fuel with
  | nil =>
    cases fuel with
    | zero => simp at hfuel
    | succ fuel =>
      simp only [List.cons_append, List.nil_append] at hlink
      have h := Linked.head_step hlink
      simp only [PT.ch, PT.nx, decide_eq_true_eq] at h
      simp [findPrev, hb a (by simp), h.2]
  | cons b l ih =>
    cases fuel with
    | zero => simp at hfuel
    | succ fuel =>
      simp only [List.cons_append] at hlink hnd
      have h := Linked.head_step hlink
      simp only [PT.ch, PT.nx, decide_eq_true_eq] at h
      have hbf : b ≠ f := by
        intro e; subst e
        have := (List.nodup_cons.mp hnd).2
        simp at this
      have hres := ih b fuel (Linked.tail hlink) (List.nodup_cons.mp hnd).2
        (fun x hx => hb x (List.mem_cons_of_mem _ hx)) (by simpa using hfuel)
      simp only [findPrev, hb a (by simp), if_true, h.1, h.2, ne_eq, not_false_eq_true,
        hbf, and_self]
      rw [hres]
      simp [List.getLast_cons]

theorem IS_FULL_true (pt : pT) (h1 : pt.first_free_frame = pt.last_free_frame)
    (h2 : pt.first_free_frame < pt.size)
    (h3 : PT.IS_VALID (pt.entries pt.first_free_frame).hi ≠ 0) : PT.IS_FULL pt = .ok true := by
  have h1' := eq_true h1
  simp only [PT.IS_FULL, h1', if_true, h2, chk_true, bind_ok, pure_eq]
  simp [h3]

theorem IS_FULL_false (pt : pT) (h2 : pt.first_free_frame < pt.size)
    (h3 : PT.IS_VALID (pt.entries pt.first_free_frame).hi = 0) : PT.IS_FULL pt = .ok false := by
  by_cases h1 : pt.first_free_frame = pt.last_free_frame
  · have h1' := eq_true h1
    simp only [PT.IS_FULL, h1', if_true, h2, chk_true, bind_ok, pure_eq]
    simp [h3]
  · have h1' := eq_false h1
    simp only [PT.IS_FULL, h1', if_false, pure_eq]

theorem remove_page_free_list_spec (pt : pT) (f : Nat) (F : List Nat)
    (hf20 : f < 2 ^ 20)
    (hnil : F = [] → pt.first_free_frame = pt.last_free_frame ∧
      pt.first_free_frame < pt.size ∧ PT.IS_VALID (pt.entries pt.first_free_frame).hi ≠ 0)
    (hhead : ∀ a, F.head? = some a → pt.first_free_frame = a ∧ a < pt.size ∧
      PT.IS_VALID (pt.entries a).hi = 0)
    (hlast : ∀ a, F.getLast? = some a → pt.last_free_frame = a ∧ a < pt.size ∧ a ≠ f) :
    ∃ pt', remove_page_free_list pt f = .ok pt' ∧ FreePost pt pt' f F := by
  have hf20' : f % 2 ^ 20 = f := Nat.mod_eq_of_lt hf20
  cases F with
  | nil =>
    have h := hnil rfl
    simp only [remove_page_free_list, IS_FULL_true pt h.1 h.2.1 h.2.2, bind_ok, if_true, pure_eq]
    refine ⟨_, rfl, ?_⟩
    constructor <;> simp [upd]
    · intro j hj; simp [hj]
    · intro j hj; simp [hj]
  | cons a F' =>
    have h := hhead a rfl
    obtain ⟨b, hb⟩ := exists_getLast?_of_ne_nil (l := a :: F') (by simp)
    have hl := hlast b hb
    have hfull : PT.IS_FULL pt = .ok false :=
      IS_FULL_false pt (by rw [h.1]; exact h.2.1) (by rw [h.1]; exact h.2.2)
    have hlt : pt.last_free_frame < pt.size := by rw [hl.1]; exact hl.2.1
    have hne : pt.last_free_frame ≠ f := by rw [hl.1]; exact hl.2.2
    have hne' : f ≠ pt.last_free_frame := fun e => hne e.symm
    simp only [remove_page_free_list, hfull, bind_ok, pure_eq, hlt, chk_true]
    refine ⟨_, rfl, ?_⟩
    constructor <;> simp [upd, hne, hne', hb]
    · intro j hj1 hj2
      have : j ≠ pt.last_free_frame := by rw [hl.1]; exact fun e => hj2 e.symm
      simp [hj1, this]
    · intro j hj1
      simp only [hj1, if_false]
      by_cases hj2 : j = pt.last_free_frame
      · subst hj2; simp
      · simp [hj2]
    · rw [← hl.1]
      have hf20n : f % 1048576 = f := hf20'
      simp [hne, hf20n]

theorem Linked.suffix {ch : Nat → Bool} {nx : Nat → Nat} (l1 l : List Nat)
    (h : Linked ch nx (l1 ++ l)) : Linked ch nx l := by
  induction l1 with
  | nil => exact h
  | cons a l1 ih => exact ih (Linked.tail h)

theorem getLast?_cons_concat (a f : Nat) (l : List Nat) :
    (a :: (l ++ [f])).getLast? = some f := List.getLast?_concat (a :: l)

theorem getLast?_append_cons (l1 : List Nat) (g : Nat) (l2 : List Nat) :
    (l1 ++ g :: l2).getLast? = (g :: l2).getLast? :=
  List.getLast?_append_of_ne_nil _ (by simp)

theorem PTInv.proc_of_mem {s : Kernel} {F : List Nat} {C : Nat → List Nat} (hinv : PTInv s F C)
    {q f : Nat} (hf : f ∈ C q) : ∃ p, s.procs q = some p := by
  cases hq : s.procs q with
  | none => have := hinv.C_none q hq; rw [this] at hf; simp at hf
  | some p => exact ⟨p, rfl⟩

theorem PTInv.n_frames_lt {s : Kernel} {F : List Nat} {C : Nat → List Nat} (hinv : PTInv s F C)
    {q : Nat} {p : proc} (hp : s.procs q = some p) : p.n_frames ≤ 2 ^ 20 := by
  have hle : (C q).length ≤ s.IPT.size :=
    nodup_bounded_length _ _ (hinv.C_nodup _) (fun a ha => (hinv.C_own _ a ha).1)
  rw [hinv.C_len _ _ hp] at hle
  exact le_trans hle hinv.size_le

theorem remove_page_proc_list_spec (s : Kernel) (F : List Nat) (C : Nat → List Nat) (f : Nat)
    (l1 l2 : List Nat) (hinv : PTInv s F C)
    (hC : C (PT.GET_PID (s.IPT.entries f).low) = l1 ++ f :: l2) :
    ∃ p, s.procs (PT.GET_PID (s.IPT.entries f).low) = some p ∧
      ∃ s1, remove_page_proc_list s f = .ok s1 ∧
        UnlinkPost s s1 f (PT.GET_PID (s.IPT.entries f).low) p l1 l2 := by
  obtain ⟨p, hp⟩ := hinv.proc_of_mem (q := PT.GET_PID (s.IPT.entries f).low) (f := f)
    (by rw [hC]; simp)
  have hlen := hinv.C_len _ _ hp
  have hnd := hinv.C_nodup (PT.GET_PID (s.IPT.entries f).low)
  have hlink := hinv.C_link (PT.GET_PID (s.IPT.entries f).low)
  have hhead := fun a => hinv.C_head (PT.GET_PID (s.IPT.entries f).low) p a hp
  have hlast := fun a => hinv.C_last (PT.GET_PID (s.IPT.entries f).low) p a hp
  have hown := hinv.C_own (PT.GET_PID (s.IPT.entries f).low)
  have hn20 := hinv.n_frames_lt hp
  rw [hC] at hlen hnd hlink hhead hlast hown
  refine ⟨p, hp, ?_⟩
  cases l1 with
  | nil =>
    have hstart : p.start_pt_i = f := hhead f rfl
    cases l2 with
    | nil =>
      have hn : p.n_frames = 1 := by simpa using hlen.symm
      simp only [remove_page_proc_list, proc_search_pid, hp, hn, ne_eq, not_true_eq_false,
        if_false, pure_eq]
      refine ⟨_, rfl, ?_⟩
      constructor <;> simp [setProc, upd, sameOther, U32]
      case procs_other => intro q' hq'; simp [hq']
      case procs_q => exact hn.symm
    | cons g l2 =>
      have hn : p.n_frames ≠ 1 := by
        simp at hlen; omega
      have hn' := eq_false hn
      have hstep := Linked.head_step hlink
      simp only [PT.nx] at hstep
      simp only [remove_page_proc_list, proc_search_pid, hp, ne_eq, hn', not_false_eq_true,
        if_true, hstart, pure_eq, hstep.2]
      refine ⟨_, rfl, ?_⟩
      constructor <;> simp [setProc, upd, sameOther]
      case procs_other => intro q' hq'; simp [hq']
      case procs_q =>
        refine ⟨?_, ?_⟩
        · simp only [U32] at *; simp at hlen; omega
        · intro a ha
          apply hlast
          simp [List.getLast?_cons_cons, ha]
  | cons a l =>
    have hstart : p.start_pt_i = a := hhead a rfl
    have haf : a ≠ f := by
      intro e; subst e
      simp at hnd
    have hn : p.n_frames ≠ 1 := by
      simp at hlen; omega
    have hn' := eq_false hn
    have hsf := eq_false (hstart ▸ haf : p.start_pt_i ≠ f)
    have hlenle : (a :: l ++ f :: l2).length ≤ s.IPT.size :=
      nodup_bounded_length _ _ hnd (fun x hx => (hown x hx).1)
    have hfp := findPrev_linked s.IPT f l2 l a (s.IPT.size + 1) hlink hnd
      (fun x hx => (hown x (by simp at hx ⊢; tauto)).1)
      (by simp at hlenle; omega)
    obtain ⟨i, hi⟩ : ∃ i, (a :: l).getLast? = some i := exists_getLast?_of_ne_nil (by simp)
    have hi' : (a :: l).getLast (by simp) = i := by
      rw [List.getLast?_eq_getLast _ (by simp)] at hi
      exact Option.some.inj hi
    rw [hi'] at hfp
    obtain ⟨l', hl'⟩ := eq_append_of_getLast? hi
    have hlink2 : Linked (PT.ch s.IPT.entries) (PT.nx s.IPT.entries) (i :: f :: l2) := by
      have := hlink
      rw [hl', List.append_assoc] at this
      exact Linked.suffix l' _ this
    have hstep := Linked.head_step hlink2
    have hnd2 : (l' ++ i :: f :: l2).Nodup := by
      have := hnd; rw [hl', List.append_assoc] at this; exact this
    have hnd3 : (i :: f :: l2).Nodup := (List.nodup_append.mp hnd2).2.1
    cases l2 with
    | nil =>
      have hlastf : p.last_pt_i = f := hlast f (getLast?_cons_concat a f l)
      have hil : i ≠ p.last_pt_i := by
        rw [hlastf]; intro e; subst e; simp at hnd3
      rw [← hstart] at hfp
      simp only [remove_page_proc_list, proc_search_pid, hp, ne_eq, hn', not_false_eq_true,
        if_true, hsf, if_false, hfp, bind_ok, eq_true hil, chk_true, eq_true hlastf.symm, pure_eq]
      refine ⟨_, rfl, ?_⟩
      constructor <;> simp [setProc, upd, sameOther, hi]
      case e_other =>
        intro j hj
        have : j ≠ i := fun e => hj e.symm
        simp [this]
      case e_fields =>
        intro j
        by_cases hj : j = i
        · subst hj; simp
        · simp [hj]
      case procs_other => intro q' hq'; simp [hq']
      case procs_q =>
        refine ⟨?_, ?_⟩
        · simp only [U32] at *; simp at hlen; omega
        · exact hhead a rfl
    | cons g l2 =>
      have hlastf : p.last_pt_i ≠ f := by
        obtain ⟨b, hb⟩ := exists_getLast?_of_ne_nil (l := g :: l2) (by simp)
        have : (a :: l ++ f :: g :: l2).getLast? = some b := by
          rw [List.getLast?_append_of_ne_nil _ (by simp), getLast?_cons_ne_nil f (by simp)]
          exact hb
        rw [hlast b this]
        intro e; subst e
        have := getLast?_mem hb
        simp at hnd3
        simp at this
        tauto
      have hil : i ≠ p.last_pt_i := by
        obtain ⟨b, hb⟩ := exists_getLast?_of_ne_nil (l := g :: l2) (by simp)
        have : (a :: l ++ f :: g :: l2).getLast? = some b := by
          rw [List.getLast?_append_of_ne_nil _ (by simp), getLast?_cons_ne_nil f (by simp)]
          exact hb
        rw [hlast b this]
        intro e; subst e
        have := getLast?_mem hb
        simp at hnd3
        simp at this
        tauto
      have hstep2 := Linked.head_step (Linked.tail hlink2)
      simp only [PT.nx, PT.ch, decide_eq_true_eq] at hstep hstep2
      have hg20 : g % 1048576 = g := by
        have := (hown g (by simp)).1
        have := hinv.size_le
        omega
      rw [← hstart] at hfp
      simp only [remove_page_proc_list, proc_search_pid, hp, ne_eq, hn', not_false_eq_true,
        if_true, hsf, if_false, hfp, bind_ok, eq_true hil, chk_true,
        eq_false (fun e => hlastf e.symm : ¬ f = p.last_pt_i), pure_eq, hstep2.2]
      refine ⟨_, rfl, ?_⟩
      constructor <;> simp [setProc, upd, sameOther, hi, hg20, hstep.1]
      case e_other =>
        intro j hj
        have : j ≠ i := fun e => hj e.symm
        simp [this]
      case e_fields =>
        intro j
        by_cases hj : j = i
        · subst hj; simp
        · simp [hj]
      case procs_other => intro q' hq'; simp [hq']
      case procs_q =>
        refine ⟨?_, ?_, ?_⟩
        · simp only [U32] at *; simp at hlen; omega
        · exact hhead a rfl
        · intro b hb
          apply hlast
          have e1 : (a :: l ++ f :: g :: l2).getLast? = (g :: l2).getLast? := by
            rw [getLast?_append_cons, getLast?_cons_ne_nil f (by simp)]
          have e2 : (a :: (l ++ g :: l2)).getLast? = (g :: l2).getLast? :=
            getLast?_append_cons (a :: l) g l2
          rw [e1, ← e2]; exact hb

theorem remove_page_spec (s : Kernel) (F : List Nat) (C : Nat → List Nat) (f : Nat)
    (l1 l2 : List Nat) (hinv : PTInv s F C)
    (hC : C (PT.GET_PID (s.IPT.entries f).low) = l1 ++ f :: l2) :
    ∃ p, s.procs (PT.GET_PID (s.IPT.entries f).low) = some p ∧
      ∃ s', remove_page s f = .ok s' ∧
        RemovePagePost s s' f (PT.GET_PID (s.IPT.entries f).low) p F l1 l2 := by
  obtain ⟨p, hp, s1, h1, hu⟩ := remove_page_proc_list_spec s F C f l1 l2 hinv hC
  refine ⟨p, hp, ?_⟩
  have hfC : f ∈ C (PT.GET_PID (s.IPT.entries f).low) := by rw [hC]; simp
  have hfo := hinv.C_own _ f hfC
  have hf20 : f < 2 ^ 20 := lt_of_lt_of_le hfo.1 hinv.size_le
  obtain ⟨pt2, h2, hfr⟩ := remove_page_free_list_spec s1.IPT f F hf20
    (by
      intro hnil
      have := hinv.F_nil hnil
      rw [hu.first, hu.last, hu.size, (hu.e_fields _).1]
      exact this)
    (by
      intro a ha
      have hm : a ∈ F := List.mem_of_mem_head? ha
      have := hinv.F_free a hm
      rw [hu.first, hu.size, (hu.e_fields _).1]
      exact ⟨hinv.F_head a ha, this⟩)
    (by
      intro a ha
      have hm : a ∈ F := getLast?_mem ha
      have := hinv.F_free a hm
      rw [hu.last, hu.size]
      refine ⟨hinv.F_last a ha, this.1, ?_⟩
      intro e; subst e; exact hfo.2.1 this.2)
  have hfs : f < s.IPT.size := hfo.1
  simp only [remove_page, hfs, chk_true, bind_ok, h1, h2, pure_eq]
  refine ⟨_, rfl, ?_⟩
  -- the predecessor is a valid frame, the last free frame is not
  have hpredF : ∀ i, l1.getLast? = some i → F.getLast? ≠ some i := by
    intro i hi hF
    have h1 := hinv.F_free i (getLast?_mem hF)
    have h2 := hinv.C_own _ i (by rw [hC]; simp [getLast?_mem hi])
    exact h2.2.1 h1.2
  have hpredf : ∀ i, l1.getLast? = some i → i ≠ f := by
    intro i hi e; subst e
    have := hinv.C_nodup (PT.GET_PID (s.IPT.entries i).low)
    rw [hC] at this
    have hm := getLast?_mem hi
    rw [List.nodup_append] at this
    exact this.2.2 hm (by simp)
  constructor
  · exact hfr.e_valid
  · exact hfr.e_chain
  · exact hfr.e_kernel
  · exact hfr.e_pn
  · exact hfr.e_pid
  · exact hfr.e_next
  · intro j hj1 hj2 hj3
    show pt2.entries j = s.IPT.entries j
    rw [hfr.e_other j hj1 hj3, hu.e_other j hj2]
  · intro j hj
    have a := hfr.e_fields j hj
    have b := hu.e_fields j
    exact ⟨a.1.trans b.1, a.2.1.trans b.2.1, a.2.2.1.trans b.2.2.1, a.2.2.2.trans b.2.2.2⟩
  · intro i hi hl2
    show PT.HAS_CHAIN (pt2.entries i).hi = 0
    rw [hfr.e_other i (hpredf i hi) (hpredF i hi)]
    exact hu.pred_last i hi hl2
  · intro i g hi hg
    show PT.HAS_CHAIN (pt2.entries i).hi ≠ 0 ∧ PT.GET_NEXT (pt2.entries i).low = g
    rw [hfr.e_other i (hpredf i hi) (hpredF i hi)]
    exact hu.pred_mid i g hi hg
  · exact hfr.free_last
  · show pt2.first_free_frame = _
    rw [hfr.first, hu.first]
  · exact hfr.last
  · show pt2.size = _
    rw [hfr.size, hu.size]
  · show pt2.mem_base_addr = _
    rw [hfr.mem_base, hu.mem_base]
  · show pt2.FIFO = _
    rw [hfr.fifo, hu.fifo]
  · show pt2.FIFO_index_start = _
    rw [hfr.fifo_start, hu.fifo_start]
  · show pt2.FIFO_index_last = _
    rw [hfr.fifo_last, hu.fifo_last]
  · exact hu.procs_other
  · exact hu.procs_q
  · exact hu.other

theorem PTInv_remove (s s' : Kernel) (F : List Nat) (C : Nat → List Nat) (f : Nat)
    (l1 l2 : List Nat) (p : proc) (hinv : PTInv s F C)
    (hC : C (PT.GET_PID (s.IPT.entries f).low) = l1 ++ f :: l2)
    (hp : s.procs (PT.GET_PID (s.IPT.entries f).low) = some p)
    (hpost : RemovePagePost s s' f (PT.GET_PID (s.IPT.entries f).low) p F l1 l2) :
    PTInv s' (F ++ [f]) (upd C (PT.GET_PID (s.IPT.entries f).low) (l1 ++ l2)) := by
  generalize hq : PT.GET_PID (s.IPT.entries f).low = q at hC hp hpost ⊢
  have hfC : f ∈ C q := by rw [hC]; simp
  have hfo := hinv.C_own _ f hfC
  have hfF : f ∉ F := fun h => hfo.2.1 (hinv.F_free f h).2
  have hnd := hinv.C_nodup q
  rw [hC] at hnd
  have hndq : (l1 ++ l2).Nodup := by
    have : (l1 ++ l2).Sublist (l1 ++ f :: l2) :=
      List.Sublist.append (List.Sublist.refl l1) (List.sublist_cons_self f l2)
    exact List.Nodup.sublist this hnd
  have hfl : f ∉ l1 ++ l2 := by
    intro h
    rw [List.nodup_append] at hnd
    simp only [List.mem_append] at h
    rcases h with h | h
    · exact hnd.2.2 h (by simp)
    · exact (List.nodup_cons.mp hnd.2.1).1 h
  have hsub : ∀ x ∈ l1 ++ l2, x ∈ C q := by
    intro x hx; rw [hC]; simp at hx ⊢; tauto
  -- frames of other processes and free frames that are not touched
  have hvalid : ∀ j, j ≠ f →
      PT.IS_VALID (s'.IPT.entries j).hi = PT.IS_VALID (s.IPT.entries j).hi ∧
      PT.GET_PID (s'.IPT.entries j).low = PT.GET_PID (s.IPT.entries j).low :=
    fun j hj => ⟨(hpost.e_fields j hj).1, (hpost.e_fields j hj).2.2.2⟩
  have hsameC : ∀ x, x ≠ f → PT.IS_VALID (s.IPT.entries x).hi ≠ 0 → l1.getLast? ≠ some x →
      s'.IPT.entries x = s.IPT.entries x := by
    intro x h1 h2 h3
    apply hpost.e_other x h1 h3
    intro h
    exact h2 (hinv.F_free x (getLast?_mem h)).2
  have hsameF : ∀ x ∈ F, F.getLast? ≠ some x → s'.IPT.entries x = s.IPT.entries x := by
    intro x hx h3
    apply hpost.e_other x (fun e => hfF (e ▸ hx)) _ h3
    intro h
    have := hinv.C_own q x (by rw [hC]; simp [getLast?_mem h])
    exact this.2.1 (hinv.F_free x hx).2
  have hsize := hpost.size
  constructor
  · rw [hsize]; exact hinv.size_pos
  · rw [hsize]; exact hinv.size_le
  · rw [hsize, hpost.fifo_start]; exact hinv.fifo_start
  · rw [List.nodup_append]
    refine ⟨hinv.F_nodup, by simp, ?_⟩
    intro a ha hb
    simp at hb; subst hb; exact hfF ha
  · intro g hg
    rw [hsize]
    simp only [List.mem_append, List.mem_singleton] at hg
    rcases hg with hg | hg
    · have := hinv.F_free g hg
      rw [(hvalid g (fun e => hfF (e ▸ hg))).1]
      exact this
    · subst hg; exact ⟨hfo.1, hpost.e_valid⟩
  · by_cases hF : F = []
    · subst hF
      simp only [List.nil_append]
      apply Linked.single
      simp [PT.ch, hpost.e_chain]
    · obtain ⟨a, ha⟩ := exists_getLast?_of_ne_nil hF
      obtain ⟨l, hl⟩ := eq_append_of_getLast? ha
      have hlink := hinv.F_link
      have hFnd := hinv.F_nodup
      have hfl := hpost.free_last a ha
      rw [hl] at hlink hFnd ⊢
      rw [List.append_assoc]
      apply Linked.snoc hlink
      · intro x hx
        have hxa : x ≠ a := by
          intro e; subst e
          rw [List.nodup_append] at hFnd
          exact hFnd.2.2 hx (by simp)
        have := hsameF x (by rw [hl]; simp [hx]) (by rw [ha]; simpa using hxa.symm)
        simp [PT.ch, PT.nx, this]
      · simp [PT.ch, hfl.1]
      · exact hfl.2
      · simp [PT.ch, hpost.e_chain]
  · intro a ha
    rw [hpost.first]
    by_cases hF : F = []
    · subst hF; simp at ha; simp [ha]
    · simp only [hF, if_false]
      apply hinv.F_head
      cases F with
      | nil => exact absurd rfl hF
      | cons b F => simpa using ha
  · intro a ha
    rw [hpost.last]
    simpa using ha
  · intro h; simp at h
  · intro q'
    by_cases hq' : q' = q
    · subst hq'; simp only [upd, if_true]; exact hndq
    · simp only [upd, hq', if_false]; exact hinv.C_nodup q'
  · intro q' g hg
    rw [hsize]
    by_cases hq' : q' = q
    · subst hq'
      simp only [upd, if_true] at hg
      have hgf : g ≠ f := fun e => hfl (e ▸ hg)
      have := hinv.C_own _ g (hsub g hg)
      rw [(hvalid g hgf).1, (hvalid g hgf).2]
      exact this
    · simp only [upd, hq', if_false] at hg
      have := hinv.C_own q' g hg
      have hgf : g ≠ f := by
        intro e; subst e; exact hq' (this.2.2.symm.trans hfo.2.2)
      rw [(hvalid g hgf).1, (hvalid g hgf).2]
      exact this
  · intro q'
    by_cases hq' : q' = q
    · subst hq'
      simp only [upd, if_true]
      have hlink := hinv.C_link q'
      rw [hC] at hlink
      -- members of the remaining list other than the predecessor are unchanged
      have hkeep : ∀ x ∈ l1 ++ l2, l1.getLast? ≠ some x →
          PT.ch s'.IPT.entries x = PT.ch s.IPT.entries x ∧
          PT.nx s'.IPT.entries x = PT.nx s.IPT.entries x := by
        intro x hx h3
        have := hsameC x (fun e => hfl (e ▸ hx)) (hinv.C_own _ x (hsub x hx)).2.1 h3
        simp [PT.ch, PT.nx, this]
      by_cases hl1 : l1 = []
      · subst hl1
        simp only [List.nil_append] at hlink hkeep ⊢
        exact Linked.congr (fun x hx => hkeep x hx (by simp)) (Linked.tail hlink)
      · obtain ⟨i, hi⟩ := exists_getLast?_of_ne_nil hl1
        obtain ⟨l, hl⟩ := eq_append_of_getLast? hi
        subst hl
        have hil : ∀ x ∈ l, (l ++ [i]).getLast? ≠ some x := by
          intro x hx
          rw [List.getLast?_concat]
          intro e
          have e' : i = x := Option.some.inj e
          subst e'
          rw [List.append_assoc, List.nodup_append] at hnd
          exact hnd.2.2 hx (by simp)
        cases l2 with
        | nil =>
          simp only [List.append_nil] at hkeep ⊢
          rw [List.append_assoc] at hlink
          apply Linked.drop_last hlink
          · intro x hx
            exact hkeep x (by simp [hx]) (hil x hx)
          · have := hpost.pred_last i hi rfl
            simp [PT.ch, this]
        | cons g l2 =>
          rw [List.append_assoc] at hlink ⊢
          simp only [List.singleton_append] at hlink ⊢
          have hpm := hpost.pred_mid i g hi rfl
          apply Linked.drop_mid hlink
          · intro x hx
            apply hkeep x (by simp at hx ⊢; tauto)
            simp only [List.mem_append, List.mem_cons] at hx
            rcases hx with hx | hx
            · exact hil x hx
            · rw [List.getLast?_concat]
              intro e
              have e' : i = x := Option.some.inj e
              subst e'
              rw [List.append_assoc, List.nodup_append] at hnd
              have := hnd.2.1
              simp at this
              tauto
          · simp [PT.ch, hpm.1]
          · exact hpm.2
    · simp only [upd, hq', if_false]
      apply Linked.congr _ (hinv.C_link q')
      intro x hx
      have hxo := hinv.C_own q' x hx
      have hxf : x ≠ f := by
        intro e; subst e; exact hq' (hxo.2.2.symm.trans hfo.2.2)
      have := hsameC x hxf hxo.2.1 (by
        intro h
        have := hinv.C_own q x (by rw [hC]; simp [getLast?_mem h])
        exact hq' (hxo.2.2.symm.trans this.2.2))
      simp [PT.ch, PT.nx, this]
  · intro q' p' hp'
    by_cases hq' : q' = q
    · subst hq'
      simp only [upd, if_true]
      obtain ⟨p2, h1, h2, _⟩ := hpost.procs_q
      rw [h1] at hp'
      have e : p2 = p' := Option.some.inj hp'
      subst e
      have := hinv.C_len _ _ hp
      rw [hC] at this
      simp at this ⊢
      omega
    · simp only [upd, hq', if_false]
      rw [hpost.procs_other q' hq'] at hp'
      exact hinv.C_len q' p' hp'
  · intro q' p' a hp' ha
    by_cases hq' : q' = q
    · subst hq'
      simp only [upd, if_true] at ha
      obtain ⟨p2, h1, _, _, _, _, h6, _⟩ := hpost.procs_q
      rw [h1] at hp'
      have e : p2 = p' := Option.some.inj hp'
      subst e
      exact h6 a ha
    · simp only [upd, hq', if_false] at ha
      rw [hpost.procs_other q' hq'] at hp'
      exact hinv.C_head q' p' a hp' ha
  · intro q' p' a hp' ha
    by_cases hq' : q' = q
    · subst hq'
      simp only [upd, if_true] at ha
      obtain ⟨p2, h1, _, _, _, _, _, h7⟩ := hpost.procs_q
      rw [h1] at hp'
      have e : p2 = p' := Option.some.inj hp'
      subst e
      exact h7 a ha
    · simp only [upd, hq', if_false] at ha
      rw [hpost.procs_other q' hq'] at hp'
      exact hinv.C_last q' p' a hp' ha
  · intro q' hp'
    by_cases hq' : q' = q
    · subst hq'
      obtain ⟨p2, h1, _⟩ := hpost.procs_q
      rw [h1] at hp'; simp at hp'
    · simp only [upd, hq', if_false]
      rw [hpost.procs_other q' hq'] at hp'
      exact hinv.C_none q' hp'
  · intro q' p' hp'
    by_cases hq' : q' = q
    · subst hq'; exact hinv.pid_lt _ _ hp
    · rw [hpost.procs_other q' hq'] at hp'
      exact hinv.pid_lt q' p' hp'
  · intro j hj
    rw [hsize] at hj
    by_cases hjf : j = f
    · subst hjf
      constructor
      · intro _; simp
      · intro h; exact absurd hpost.e_valid h
    · rw [(hvalid j hjf).1, (hvalid j hjf).2]
      have hc := hinv.cover j hj
      constructor
      · intro h; simp [hc.1 h]
      · intro h
        have := hc.2 h
        by_cases hq' : PT.GET_PID (s.IPT.entries j).low = q
        · rw [hq'] at this ⊢
          simp only [upd, if_true]
          rw [hC] at this
          simp at this ⊢
          tauto
        · simp only [upd, hq', if_false]; exact this
  · rw [hsize, hpost.mem_base]; exact hinv.addr_fit

/-! ## `insert_page` -/

theorem bind_eq_ok {α β : Type} {x : Except Fault α} {f : α → Except Fault β} {b : β}
    (h : (x >>= f) = .ok b) : ∃ a, x = .ok a ∧ f a = .ok b := by
  cases x with
  | error e => simp [bind_err] at h
  | ok a => exact ⟨a, rfl, h⟩

theorem chk_eq_ok {c : Prop} [Decidable c] {f : Fault} {u : Unit} (h : chk c f = .ok u) : c := by
  by_cases hc : c
  · exact hc
  · simp [chk, hc] at h

theorem PTInv_of_same (s s1 : Kernel) (F : List Nat) (C : Nat → List Nat) (hinv : PTInv s F C)
    (h : PTSame s s1) : PTInv s1 F C := by
  obtain ⟨h1, _, h3⟩ := h
  constructor
  · rw [h1]; exact hinv.size_pos
  · rw [h1]; exact hinv.size_le
  · rw [h1]; exact hinv.fifo_start
  · exact hinv.F_nodup
  · rw [h1]; exact hinv.F_free
  · rw [h1]; exact hinv.F_link
  · rw [h1]; exact hinv.F_head
  · rw [h1]; exact hinv.F_last
  · rw [h1]; exact hinv.F_nil
  · exact hinv.C_nodup
  · rw [h1]; exact hinv.C_own
  · rw [h1]; exact hinv.C_link
  · intro q p1 hp1
    cases hq : s.procs q with
    | none => rw [(h3 q).1 hq] at hp1; simp at hp1
    | some p =>
      obtain ⟨p2, e, a, _, _⟩ := (h3 q).2 p hq
      rw [e] at hp1; cases hp1
      rw [a]; exact hinv.C_len q p hq
  · intro q p1 x hp1 hx
    cases hq : s.procs q with
    | none => rw [(h3 q).1 hq] at hp1; simp at hp1
    | some p =>
      obtain ⟨p2, e, _, b, _⟩ := (h3 q).2 p hq
      rw [e] at hp1; cases hp1
      rw [b]; exact hinv.C_head q p x hq hx
  · intro q p1 x hp1 hx
    cases hq : s.procs q with
    | none => rw [(h3 q).1 hq] at hp1; simp at hp1
    | some p =>
      obtain ⟨p2, e, _, _, c⟩ := (h3 q).2 p hq
      rw [e] at hp1; cases hp1
      rw [c]; exact hinv.C_last q p x hq hx
  · intro q hq1
    cases hq : s.procs q with
    | none => exact hinv.C_none q hq
    | some p =>
      obtain ⟨p2, e, _⟩ := (h3 q).2 p hq
      rw [e] at hq1; simp at hq1
  · intro q p1 hp1
    cases hq : s.procs q with
    | none => rw [(h3 q).1 hq] at hp1; simp at hp1
    | some p => exact hinv.pid_lt q p hq
  · rw [h1]; exact hinv.cover
  · rw [h1]; exact hinv.addr_fit

theorem PTSame.refl (s : Kernel) : PTSame s s :=
  ⟨rfl, rfl, fun _ => ⟨fun h => h, fun p hp => ⟨p, hp, rfl, rfl, rfl⟩⟩⟩

theorem insert_into_process_chunk_list_same (s s1 : Kernel) (c : Nat) (p : proc)
    (hp : s.procs s.curproc = some p)
    (h : insert_into_process_chunk_list s c s.curproc p = .ok s1) :
    s1.IPT = s.IPT ∧ s1.curproc = s.curproc ∧ s1.stats = s.stats ∧ s1.ST.size = s.ST.size ∧
    ∀ q, (s.procs q = none → s1.procs q = none) ∧
      ∀ p0, s.procs q = some p0 → ∃ p1, s1.procs q = some p1 ∧
        p1.n_frames = p0.n_frames ∧ p1.start_pt_i = p0.start_pt_i ∧
        p1.last_pt_i = p0.last_pt_i := by
  unfold insert_into_process_chunk_list at h
  obtain ⟨_, _, h⟩ := bind_eq_ok h
  by_cases h0 : p.n_chunks = 0
  · simp only [h0, if_true, pure_eq] at h
    cases h
    refine ⟨rfl, rfl, rfl, rfl, ?_⟩
    intro q
    by_cases hq : q = s.curproc
    · subst hq; simp [setProc, upd, hp]
    · simp only [setProc, upd, hq, if_false]
      exact ⟨fun h => h, fun p0 h0 => ⟨p0, h0, rfl, rfl, rfl⟩⟩
  · simp only [h0, if_false] at h
    obtain ⟨_, _, h⟩ := bind_eq_ok h
    simp only [pure_eq] at h
    cases h
    refine ⟨rfl, rfl, rfl, rfl, ?_⟩
    intro q
    by_cases hq : q = s.curproc
    · subst hq; simp [setProc, upd, hp]
    · simp only [setProc, upd, hq, if_false]
      exact ⟨fun h => h, fun p0 h0 => ⟨p0, h0, rfl, rfl, rfl⟩⟩

theorem delete_free_chunk_size (st st1 : swapTable) (c : Nat)
    (h : delete_free_chunk st c = .ok st1) : st1.size = st.size := by
  unfold delete_free_chunk at h
  by_cases h1 : st.first_free_chunk = c
  · simp only [eq_true h1, if_true] at h
    obtain ⟨_, _, h⟩ := bind_eq_ok h
    obtain ⟨_, _, h⟩ := bind_eq_ok h
    simp only [pure_eq] at h
    cases h; rfl
  · simp only [eq_false h1, if_false] at h
    obtain ⟨_, _, h⟩ := bind_eq_ok h
    obtain ⟨_, _, h⟩ := bind_eq_ok h
    by_cases h2 : c = st.last_free_chunk
    · simp only [eq_true h2, if_true] at h
      obtain ⟨_, _, h⟩ := bind_eq_ok h
      simp only [pure_eq] at h
      cases h; rfl
    · simp only [eq_false h2, if_false] at h
      obtain ⟨_, _, h⟩ := bind_eq_ok h
      obtain ⟨_, _, h⟩ := bind_eq_ok h
      simp only [pure_eq] at h
      cases h; rfl

theorem swapout_same (s s1 : Kernel) (index paddr page_number pid : Nat) (invalidate : Bool)
    (h : swapout s index paddr page_number pid invalidate = .ok s1) :
    PTSame s s1 ∧ s1.stats = s.stats := by
  unfold swapout at h
  obtain ⟨st1, _, h⟩ := bind_eq_ok h
  obtain ⟨p, hp, h⟩ := bind_eq_ok h
  obtain ⟨s2, h2, h⟩ := bind_eq_ok h
  obtain ⟨_, _, h⟩ := bind_eq_ok h
  simp only [pure_eq] at h
  cases h
  have hp' : s.procs s.curproc = some p := by
    simp only [curthread_t_proc] at hp
    cases hq : s.procs s.curproc with
    | none => rw [hq] at hp; simp at hp
    | some p0 => rw [hq] at hp; cases hp; rfl
  have := insert_into_process_chunk_list_same { s with ST := st1 } s2 index p hp' h2
  exact ⟨⟨this.1, this.2.1, this.2.2.2.2⟩, this.2.2.1⟩

theorem PTInv.last_mem {s : Kernel} {F : List Nat} {C : Nat → List Nat} (hinv : PTInv s F C)
    {q : Nat} {p : proc} (hp : s.procs q = some p) (h0 : p.n_frames ≠ 0) :
    p.last_pt_i ∈ C q := by
  have hne : C q ≠ [] := by
    intro h; have := hinv.C_len _ _ hp; rw [h] at this; exact h0 this.symm
  obtain ⟨a, ha⟩ := exists_getLast?_of_ne_nil hne
  rw [hinv.C_last _ _ a hp ha]; exact getLast?_mem ha

theorem addEntry_inv (s : Kernel) (F' : List Nat) (C : Nat → List Nat) (f vpn : Nat) (p : proc)
    (hinv : PTInv s (f :: F') C) (hp : s.procs s.curproc = some p) :
    ∃ s', addEntry s vpn f s.curproc = .ok s' ∧ AddEntryPost s s' vpn f s.curproc p ∧
      PTInv s' F' (upd C s.curproc (C s.curproc ++ [f])) := by
  have hfF := hinv.F_free f (by simp)
  obtain ⟨s', h1, h2⟩ := addEntry_head s vpn f s.curproc p (hinv.F_head f rfl) hfF.1
    (hinv.pid_lt _ _ hp) hp
    (fun h0 => (hinv.C_own _ _ (hinv.last_mem hp h0)).1)
    (fun h0 e => (hinv.C_own _ _ (hinv.last_mem hp h0)).2.1 (e ▸ hfF.2))
  exact ⟨s', h1, h2, PTInv_addEntry s s' F' C f vpn p hinv hp h2⟩

theorem PTInv_of_ipt (s s1 : Kernel) (F : List Nat) (C : Nat → List Nat) (hinv : PTInv s F C)
    (h1 : s1.IPT.entries = s.IPT.entries) (h2 : s1.IPT.size = s.IPT.size)
    (h3 : s1.IPT.first_free_frame = s.IPT.first_free_frame)
    (h4 : s1.IPT.last_free_frame = s.IPT.last_free_frame)
    (h5 : s1.IPT.FIFO_index_start < s1.IPT.size) (h6 : s1.procs = s.procs)
    (h7 : s1.IPT.mem_base_addr = s.IPT.mem_base_addr) :
    PTInv s1 F C := by
  constructor
  · rw [h2]; exact hinv.size_pos
  · rw [h2]; exact hinv.size_le
  · exact h5
  · exact hinv.F_nodup
  · rw [h1, h2]; exact hinv.F_free
  · rw [h1]; exact hinv.F_link
  · rw [h3]; exact hinv.F_head
  · rw [h4]; exact hinv.F_last
  · rw [h1, h2, h3, h4]; exact hinv.F_nil
  · exact hinv.C_nodup
  · rw [h1, h2]; exact hinv.C_own
  · rw [h1]; exact hinv.C_link
  · rw [h6]; exact hinv.C_len
  · rw [h6]; exact hinv.C_head
  · rw [h6]; exact hinv.C_last
  · rw [h6]; exact hinv.C_none
  · rw [h6]; exact hinv.pid_lt
  · rw [h1, h2]; exact hinv.cover
  · rw [h2, h7]; exact hinv.addr_fit

theorem insert_page_fifo_inv (s : Kernel) (F : List Nat) (C : Nat → List Nat) (f : Nat)
    (hinv : PTInv s F C) :
    ∃ s', insert_page_fifo s f = .ok s' ∧ PTInv s' F C ∧
      s' = { s with IPT := { s.IPT with
        FIFO := upd s.IPT.FIFO s.IPT.FIFO_index_start f,
        FIFO_index_start := ((s.IPT.FIFO_index_start + 1) % U32) % s.IPT.size } } := by
  simp only [insert_page_fifo, hinv.fifo_start, chk_true, bind_ok, pure_eq]
  refine ⟨_, rfl, ?_, rfl⟩
  exact PTInv_of_ipt s _ F C hinv rfl rfl rfl rfl (Nat.mod_lt _ hinv.size_pos) rfl rfl

theorem PTInv.is_full_false {s : Kernel} {F : List Nat} {C : Nat → List Nat} {f : Nat}
    (hinv : PTInv s (f :: F) C) : PT.IS_FULL s.IPT = .ok false := by
  have h1 := hinv.F_head f rfl
  have h2 := hinv.F_free f (by simp)
  exact IS_FULL_false s.IPT (by rw [h1]; exact h2.1) (by rw [h1]; exact h2.2)

theorem PTInv.is_full_true {s : Kernel} {C : Nat → List Nat}
    (hinv : PTInv s [] C) : PT.IS_FULL s.IPT = .ok true := by
  have h := hinv.F_nil rfl
  exact IS_FULL_true s.IPT h.1 h.2.1 h.2.2

/-- `insert_page(vaddr, -1)` on a table with a free frame. -/
theorem insert_page_free_spec (s : Kernel) (F' : List Nat) (C : Nat → List Nat)
    (f vaddr : Nat) (p : proc) (hinv : PTInv s (f :: F') C) (hp : s.procs s.curproc = some p) :
    ∃ s4 s', addEntry s ((vaddr &&& PAGE_FRAME) >>> 12) f s.curproc = .ok s4 ∧
      AddEntryPost s s4 ((vaddr &&& PAGE_FRAME) >>> 12) f s.curproc p ∧
      insert_page s vaddr NEG1 = .ok ((f * PAGE_SIZE + s.IPT.mem_base_addr) % U32, s') ∧
      s' = { s4 with IPT := { s4.IPT with
        FIFO := upd s4.IPT.FIFO s4.IPT.FIFO_index_start f,
        FIFO_index_start := ((s4.IPT.FIFO_index_start + 1) % U32) % s4.IPT.size } } ∧
      PTInv s' F' (upd C s.curproc (C s.curproc ++ [f])) := by
  obtain ⟨s4, h1, h2, h3⟩ := addEntry_inv s F' C f ((vaddr &&& PAGE_FRAME) >>> 12) p hinv hp
  obtain ⟨s', h4, h5, h6⟩ := insert_page_fifo_inv s4 F' _ f h3
  refine ⟨s4, s', h1, h2, ?_, h6, h5⟩
  have hfirst := hinv.F_head f rfl
  simp only [insert_page, insert_page_frame, if_true, hinv.is_full_false, bind_ok, pure_eq,
    Bool.false_eq_true, if_false, hfirst, h1, h4]

theorem replace_page_loop_ok (pt : pT) (fuel last v l : Nat)
    (h : replace_page_loop pt fuel last = .ok (v, l)) :
    v < pt.size ∧ PT.IS_KERNEL (pt.entries v).hi = 0 ∧ l < pt.size ∧ v = pt.FIFO l := by
  induction fuel generalizing last with
  | zero => simp [replace_page_loop] at h
  | succ fuel ih =>
    unfold replace_page_loop at h
    by_cases h0 : pt.size = 0
    · rw [if_pos h0] at h; cases h
    · rw [if_neg h0] at h
      simp only at h
      by_cases h1 : pt.FIFO (((last + 1) % U32) % pt.size) < pt.size
      · simp only [h1, if_true] at h
        by_cases h2 : PT.IS_KERNEL (pt.entries (pt.FIFO (((last + 1) % U32) % pt.size))).hi ≠ 0
        · rw [if_pos h2] at h
          exact ih _ h
        · rw [if_neg h2] at h
          simp only [Except.ok.injEq, Prod.mk.injEq] at h
          obtain ⟨e1, e2⟩ := h
          subst e1 e2
          exact ⟨h1, by simpa using h2, Nat.mod_lt _ (Nat.pos_of_ne_zero h0), rfl⟩
      · rw [if_neg h1] at h; cases h

theorem replace_page_ok (pt pt' : pT) (v : Nat) (h : replace_page pt = .ok (v, pt')) :
    v < pt.size ∧ PT.IS_KERNEL (pt.entries v).hi = 0 ∧
    pt' = { pt with FIFO_index_last := pt'.FIFO_index_last } ∧
    pt'.FIFO_index_last < pt.size ∧ v = pt.FIFO pt'.FIFO_index_last := by
  unfold replace_page at h
  obtain ⟨r, hr, h⟩ := bind_eq_ok h
  simp only [pure_eq, Except.ok.injEq, Prod.mk.injEq] at h
  obtain ⟨e1, e2⟩ := h
  subst e1 e2
  have := replace_page_loop_ok pt _ _ r.1 r.2 hr
  exact ⟨this.1, this.2.1, rfl, this.2.2.1, this.2.2.2⟩

/-- When the table is full, a call `insert_page(vaddr, -1)` that returns leaves a
well-formed table that is full again. -/
theorem insert_page_full_inv (s s' : Kernel) (C : Nat → List Nat) (vaddr a : Nat) (p : proc)
    (hinv : PTInv s [] C) (hp : s.procs s.curproc = some p)
    (h : insert_page s vaddr NEG1 = .ok (a, s')) : ∃ C', PTInv s' [] C' := by
  unfold insert_page at h
  obtain ⟨r, hr, h⟩ := bind_eq_ok h
  obtain ⟨s4, h4, h⟩ := bind_eq_ok h
  obtain ⟨s5, h5, h⟩ := bind_eq_ok h
  simp only [pure_eq, Except.ok.injEq, Prod.mk.injEq] at h
  obtain ⟨_, e5⟩ := h
  subst e5
  simp only [insert_page_frame, if_true, hinv.is_full_true, bind_ok] at hr
  unfold insert_page_evict at hr
  obtain ⟨v, hv, hr⟩ := bind_eq_ok hr
  obtain ⟨c, _, hr⟩ := bind_eq_ok hr
  obtain ⟨_, _, hr⟩ := bind_eq_ok hr
  obtain ⟨_, _, hr⟩ := bind_eq_ok hr
  obtain ⟨s1, hs1, hr⟩ := bind_eq_ok hr
  obtain ⟨s3, hs3, hr⟩ := bind_eq_ok hr
  simp only [pure_eq, Except.ok.injEq] at hr
  subst hr
  simp only at h4 h5
  obtain ⟨hv1, _, hv3, _, _⟩ := replace_page_ok s.IPT v.2 v.1 hv
  -- the table with the advanced cursor
  have hinvA : PTInv { s with IPT := v.2 } [] C := by
    apply PTInv_of_ipt s _ [] C hinv
    · rw [hv3]
    · rw [hv3]
    · rw [hv3]
    · rw [hv3]
    · rw [hv3]; exact hinv.fifo_start
    · rfl
    · rw [hv3]
  obtain ⟨hsame, _⟩ := swapout_same _ _ _ _ _ _ _ hs1
  have hinv1 : PTInv s1 [] C := PTInv_of_same _ _ _ _ hinvA hsame
  have hinv2 : PTInv { s1 with stats := add_SWAP_write s1.stats } [] C :=
    PTInv_of_ipt s1 _ [] C hinv1 rfl rfl rfl rfl hinv1.fifo_start rfl rfl
  -- the victim is a valid frame of some process
  have hvs : v.1 < s1.IPT.size := by rw [hsame.1, hv3]; exact hv1
  have hvalid : PT.IS_VALID (s1.IPT.entries v.1).hi ≠ 0 := by
    intro h0
    have := (hinv1.cover v.1 hvs).1 h0
    simp at this
  have hmem := (hinv1.cover v.1 hvs).2 hvalid
  obtain ⟨l1, l2, hl⟩ := List.append_of_mem hmem
  obtain ⟨p2, hp2, s3', hrem, hpost⟩ := remove_page_spec _ [] C v.1 l1 l2 hinv2 hl
  have e3 : s3' = s3 := by rw [hrem] at hs3; exact Except.ok.inj hs3
  subst e3
  have hinv3 := PTInv_remove _ _ [] C v.1 l1 l2 p2 hinv2 hl hp2 hpost
  simp only [List.nil_append] at hinv3
  -- the current process still exists
  have hcur3 : s3'.curproc = s.curproc := by
    rw [hpost.other.2.1]; exact hsame.2.1
  have hp3 : ∃ p3, s3'.procs s3'.curproc = some p3 := by
    cases hq : s3'.procs s3'.curproc with
    | some p3 => exact ⟨p3, rfl⟩
    | none =>
      have h1 := hinv3.C_none _ hq
      exfalso
      obtain ⟨p1, hp1, _⟩ := (hsame.2.2 s.curproc).2 p hp
      by_cases hq2 : s3'.curproc = PT.GET_PID (s1.IPT.entries v.1).low
      · obtain ⟨p', hp', _⟩ := hpost.procs_q
        rw [hq2] at hq
        rw [hq] at hp'; simp at hp'
      · have := hpost.procs_other _ hq2
        rw [hq, hcur3] at this
        rw [hp1] at this; simp at this
  obtain ⟨p3, hp3⟩ := hp3
  obtain ⟨s4', h4', _, hinv4⟩ := addEntry_inv s3' [] _ v.1 ((vaddr &&& PAGE_FRAME) >>> 12) p3
    hinv3 hp3
  have e4 : s4' = s4 := by rw [h4'] at h4; exact Except.ok.inj h4
  subst e4
  obtain ⟨s5', h5', hinv5, _⟩ := insert_page_fifo_inv s4' [] _ v.1 hinv4
  have e5 : s5' = s5 := by rw [h5'] at h5; exact Except.ok.inj h5
  subst e5
  exact ⟨_, hinv5⟩

/-! ## The partition invariant of the page table -/

theorem PTInv_fresh (n : Nat) (s : Kernel) (h : PTFresh n s) :
    PTInv s (List.range n) (fun _ => []) := by
  obtain ⟨h1, ⟨raw, rawFIFO, mem_base, hfit, hpt⟩, hprocs⟩ := h
  have h2 : n ≤ 2 ^ 20 := by simp only [U32, PAGE_SIZE] at hfit; omega
  have hbase : s.IPT.mem_base_addr = mem_base := by rw [hpt]; rfl
  have hent := pageTInit_entries n raw rawFIFO mem_base h1 h2
  have hsize : s.IPT.size = n := by rw [hpt]; rfl
  have hfirst : s.IPT.first_free_frame = 0 := by rw [hpt]; rfl
  have hn : (n + U32 - 1) % U32 = n - 1 := by simp only [U32] at *; omega
  have hlast : s.IPT.last_free_frame = n - 1 := by rw [hpt]; exact hn
  have hstart : s.IPT.FIFO_index_start = 0 := by rw [hpt]; rfl
  rw [← hpt] at hent
  have hrange : List.range n = List.range' 0 (n - 1 + 1) := by
    have e : n - 1 + 1 = n := by omega
    rw [List.range_eq_range', e]
  constructor
  · rw [hsize]; exact h1
  · rw [hsize]; exact h2
  · rw [hsize, hstart]; exact h1
  · exact List.nodup_range n
  · intro f hf
    rw [List.mem_range] at hf
    rw [hsize]
    exact ⟨hf, (hent f hf).1⟩
  · rw [hrange]
    apply Linked_range'
    · intro j _ hj
      have := (hent j (by omega)).2.2.2.2.1 (by omega)
      simp [PT.ch, PT.nx, this.1, this.2]
    · have := (hent (n - 1) (by omega)).2.2.2.2.2 (by omega)
      simp [PT.ch, this]
  · intro a ha
    rw [hrange] at ha
    simp [List.range'_succ] at ha
    rw [hfirst]; exact ha
  · intro a ha
    rw [hlast]
    rw [hrange, List.range'_concat] at ha
    simp at ha
    omega
  · intro hnil
    have : (List.range n).length = 0 := by rw [hnil]; rfl
    rw [List.length_range] at this
    omega
  · intro q; simp
  · intro q f hf; simp at hf
  · intro q; exact Linked.nil _ _
  · intro q p hp; simp [(hprocs q p hp).2]
  · intro q p a hp ha; simp at ha
  · intro q p a hp ha; simp at ha
  · intro q _; rfl
  · intro q p hp; exact (hprocs q p hp).1
  · intro f hf
    rw [hsize] at hf
    refine ⟨fun _ => List.mem_range.mpr hf, fun h => absurd (hent f hf).1 h⟩
  · rw [hsize, hbase]; exact hfit

theorem PTInv.freeChain_eq {s : Kernel} {F : List Nat} {C : Nat → List Nat}
    (hinv : PTInv s F C) : freeChain s.IPT = F := by
  unfold freeChain
  cases F with
  | nil =>
    have := hinv.F_nil rfl
    rw [if_pos ⟨this.1, this.2.2⟩]
  | cons a l =>
    have h1 := hinv.F_head a rfl
    have h2 := hinv.F_free a (by simp)
    rw [if_neg (by rw [h1]; intro h; exact h.2 h2.2), h1]
    exact walk_of_linked l a _ hinv.F_link
      (nodup_bounded_length _ _ hinv.F_nodup (fun x hx => (hinv.F_free x hx).1))

theorem PTInv.procChain_eq {s : Kernel} {F : List Nat} {C : Nat → List Nat}
    (hinv : PTInv s F C) {q : Nat} {p : proc} (hp : s.procs q = some p) :
    procChain s.IPT p = C q := by
  unfold procChain
  have hlen := hinv.C_len q p hp
  cases hc : C q with
  | nil =>
    rw [hc] at hlen
    have h0 : p.n_frames = 0 := hlen.symm
    rw [if_pos h0]
  | cons a l =>
    rw [hc] at hlen
    have h0 : p.n_frames ≠ 0 := by rw [← hlen]; simp
    rw [if_neg h0, hinv.C_head q p a hp (by rw [hc]; rfl)]
    have hl := hinv.C_link q
    have hn := hinv.C_nodup q
    have ho := hinv.C_own q
    rw [hc] at hl hn ho
    exact walk_of_linked l a _ hl (nodup_bounded_length _ _ hn (fun x hx => (ho x hx).1))

theorem PTInv.ownerChain_eq {s : Kernel} {F : List Nat} {C : Nat → List Nat}
    (hinv : PTInv s F C) (f : Nat) : ownerChain s f = C (PT.GET_PID (s.IPT.entries f).low) := by
  unfold ownerChain
  cases hq : s.procs (PT.GET_PID (s.IPT.entries f).low) with
  | none => simp only; exact (hinv.C_none _ hq).symm
  | some p => simp only; exact hinv.procChain_eq hq

theorem PTInv.partition {s : Kernel} {F : List Nat} {C : Nat → List Nat}
    (hinv : PTInv s F C) : PTPartition s := by
  refine ⟨?_, ?_, ?_, ?_⟩
  · rw [hinv.freeChain_eq]; exact hinv.F_nodup
  · rw [hinv.freeChain_eq]; intro a ha; exact (hinv.F_last a ha).symm
  · intro f hf
    rw [hinv.freeChain_eq, hinv.ownerChain_eq]
    have hc := hinv.cover f hf
    constructor
    · exact ⟨fun h => (hinv.F_free f h).2, hc.1⟩
    · constructor
      · intro h hm
        exact (hinv.C_own _ f hm).2.1 (hinv.F_free f h).2
      · intro h
        apply hc.1
        by_contra hv
        exact h (hc.2 hv)
  · intro q p hp
    rw [hinv.procChain_eq hp]
    exact ⟨hinv.C_nodup q, (hinv.C_len q p hp).symm⟩

theorem PTInv_curproc (s : Kernel) (q : Nat) (F : List Nat) (C : Nat → List Nat)
    (hinv : PTInv s F C) : PTInv { s with curproc := q } F C :=
  PTInv_of_ipt s _ F C hinv rfl rfl rfl rfl hinv.fifo_start rfl rfl

theorem PTStep_inv (s s' : Kernel) (h : PTStep s s') (hwf : PTWf s) : PTWf s' := by
  obtain ⟨F, C, hinv⟩ := hwf
  cases h with
  | insert q vaddr a hq h =>
    have hinv' := PTInv_curproc s q F C hinv
    obtain ⟨p, hp⟩ : ∃ p, s.procs q = some p := by
      cases hs : s.procs q with
      | none => exact absurd hs hq
      | some p => exact ⟨p, rfl⟩
    cases F with
    | nil =>
      obtain ⟨C', hC'⟩ := insert_page_full_inv _ s' C vaddr a p hinv' hp h
      exact ⟨[], C', hC'⟩
    | cons f F' =>
      obtain ⟨s4, s'', _, _, h3, _, h5⟩ := insert_page_free_spec _ F' C f vaddr p hinv' hp
      rw [h3] at h
      have e : s'' = s' := (Prod.mk.inj (Except.ok.inj h)).2
      subst e
      exact ⟨F', _, h5⟩
  | remove q f hq hf hv h =>
    have hinv' := PTInv_curproc s q F C hinv
    have hmem := (hinv'.cover f hf).2 hv
    obtain ⟨l1, l2, hl⟩ := List.append_of_mem hmem
    obtain ⟨p2, hp2, s3, hrem, hpost⟩ := remove_page_spec _ F C f l1 l2 hinv' hl
    rw [hrem] at h
    have e : s3 = s' := Except.ok.inj h
    subst e
    exact ⟨_, _, PTInv_remove _ _ F C f l1 l2 p2 hinv' hl hp2 hpost⟩

theorem PTReach_inv (s0 s : Kernel) (n : Nat) (h0 : PTFresh n s0) (h : PTReach s0 s) :
    PTWf s := by
  induction h with
  | init => exact ⟨_, _, PTInv_fresh n s0 h0⟩
  | step s s' _ hstep ih => exact PTStep_inv s s' hstep ih

/-- C1: starting from `pageTInit(n)` with `1 ≤ n` (the `n` frames lying in the 32-bit
physical address space), after any sequence of `insert_page(vaddr, -1)` and `remove_page(f)` calls on
valid frames that return, every frame is in exactly one of the free chain and the frame
chain of the process whose pid it stores, it is in the free chain iff its valid bit is 0,
the free chain ends at `last_free_frame`, and every process's `n_frames` is the length of
its chain. -/
theorem ipt_partition_invariant (n : Nat) (s0 s : Kernel) (h0 : PTFresh n s0)
    (h : PTReach s0 s) : PTPartition s := by
  obtain ⟨F, C, hinv⟩ := PTReach_inv s0 s n h0 h
  exact hinv.partition

theorem demo8_fresh : PTFresh 8 demo8 := by
  refine ⟨by decide, ⟨_, _, _, ?_, rfl⟩, ?_⟩
  · decide
  · intro q p h
    simp only [demo8, vm_bootstrap, demoEnv] at h
    by_cases hq : q = 1 ∨ q = 2
    · simp only [hq, if_true, Option.some.injEq] at h
      subst h
      exact ⟨by omega, rfl⟩
    · simp [hq] at h

theorem demo8_step : ∃ a, insert_page demo8 0x400000 NEG1 = .ok (a, demo8_1) := by
  obtain ⟨F, C, hinv⟩ : PTWf demo8 := ⟨_, _, PTInv_fresh 8 demo8 demo8_fresh⟩
  have hF : F = freeChain demo8.IPT := hinv.freeChain_eq.symm
  cases F with
  | nil =>
    have := hinv.F_nil rfl
    exact absurd this.2.2 (by decide)
  | cons f F' =>
    have hp : demo8.procs demo8.curproc = some proc0 := rfl
    obtain ⟨s4, s', _, _, h3, _, _⟩ := insert_page_free_spec demo8 F' C f 0x400000 proc0 hinv hp
    refine ⟨(f * PAGE_SIZE + demo8.IPT.mem_base_addr) % U32, ?_⟩
    have e : demo8_1 = s' := by simp only [demo8_1, stateAfter, h3]
    rw [e]; exact h3

theorem ipt_partition_invariant_witness :
    PTFresh 8 demo8 ∧ PTReach demo8 demo8_1 ∧ PTPartition demo8_1 :=
  have hr : PTReach demo8 demo8_1 :=
    demo8_step.elim fun a h =>
      PTReach.step demo8 demo8_1 PTReach.init
        (PTStep.insert demo8 demo8_1 1 0x400000 a (by decide) h)
  ⟨demo8_fresh, hr, ipt_partition_invariant 8 demo8 demo8_1 demo8_fresh hr⟩

/-! ## `insert_page` on a table with a free frame -/

theorem vpn_lt (vaddr : Nat) : (vaddr &&& PAGE_FRAME) >>> 12 < 2 ^ 20 := by
  have h : vaddr &&& PAGE_FRAME ≤ PAGE_FRAME := Nat.and_le_right
  rw [Nat.shiftRight_eq_div_pow]
  simp only [PAGE_FRAME] at *
  omega

theorem PTWf.exists_cons {s : Kernel} (hwf : PTWf s) (hfree : freeChain s.IPT ≠ []) :
    ∃ F' C, PTInv s (s.IPT.first_free_frame :: F') C := by
  obtain ⟨F, C, hinv⟩ := hwf
  cases F with
  | nil => rw [hinv.freeChain_eq] at hfree; exact absurd rfl hfree
  | cons f F' =>
    have := hinv.F_head f rfl
    rw [this]
    exact ⟨F', C, hinv⟩

/-- C5: on a well-formed table with a non-empty free list, `insert_page(vaddr, -1)` uses
the frame `f = first_free_frame`, takes it off the free chain, returns
`f * 4096 + mem_base_addr`, stamps entry `f` with the page number, the pid of the current
process, valid = 1, chain = 0 and kernel = 1 iff `(vpn << 12) > 0x80000000`, appends `f` to
the frame chain of the current process (`n_frames + 1`, `last_pt_i = f`), writes `f` at
`FIFO[FIFO_index_start]`, advances `FIFO_index_start` by 1 modulo `size`, and does not
swap out: the swap table, the swap file and the `SWAP_WRITE` counter are unchanged. -/
theorem insert_page_takes_first_free (s : Kernel) (vaddr : Nat) (p : proc) (hwf : PTWf s)
    (hfree : freeChain s.IPT ≠ []) (hp : s.procs s.curproc = some p) :
    ∃ s' p', insert_page s vaddr NEG1 =
        .ok (s.IPT.first_free_frame * PAGE_SIZE + s.IPT.mem_base_addr, s') ∧
      freeChain s.IPT = s.IPT.first_free_frame :: freeChain s'.IPT ∧
      s.IPT.first_free_frame ∉ freeChain s'.IPT ∧
      PT.GET_PN (s'.IPT.entries s.IPT.first_free_frame).hi = (vaddr &&& PAGE_FRAME) >>> 12 ∧
      PT.GET_PID (s'.IPT.entries s.IPT.first_free_frame).low = s.curproc ∧
      PT.IS_VALID (s'.IPT.entries s.IPT.first_free_frame).hi = 1 ∧
      PT.HAS_CHAIN (s'.IPT.entries s.IPT.first_free_frame).hi = 0 ∧
      (PT.IS_KERNEL (s'.IPT.entries s.IPT.first_free_frame).hi ≠ 0 ↔
        (((vaddr &&& PAGE_FRAME) >>> 12) <<< 12) % U32 > 0x80000000) ∧
      s'.procs s.curproc = some p' ∧
      procChain s'.IPT p' = procChain s.IPT p ++ [s.IPT.first_free_frame] ∧
      p'.n_frames = p.n_frames + 1 ∧ p'.last_pt_i = s.IPT.first_free_frame ∧
      s'.IPT.FIFO = upd s.IPT.FIFO s.IPT.FIFO_index_start s.IPT.first_free_frame ∧
      s'.IPT.FIFO_index_start = (s.IPT.FIFO_index_start + 1) % s.IPT.size ∧
      s'.ST = s.ST ∧ s'.disk = s.disk ∧ s'.stats.swap_write = s.stats.swap_write := by
  obtain ⟨F', C, hinv⟩ := hwf.exists_cons hfree
  generalize hf : s.IPT.first_free_frame = f at hinv ⊢
  obtain ⟨s4, s', h1, hpost, h3, h4, hinv'⟩ := insert_page_free_spec s F' C f vaddr p hinv hp
  have hfF := hinv.F_free f (by simp)
  have hfit := hinv.addr_fit
  have haddr : (f * PAGE_SIZE + s.IPT.mem_base_addr) % U32 = f * PAGE_SIZE + s.IPT.mem_base_addr := by
    apply Nat.mod_eq_of_lt
    have : (f + 1) * PAGE_SIZE ≤ s.IPT.size * PAGE_SIZE := Nat.mul_le_mul_right _ hfF.1
    simp only [PAGE_SIZE, U32] at *
    omega
  have hnf : p.n_frames ≤ 2 ^ 20 := hinv.n_frames_lt hp
  have hentries : s'.IPT.entries = s4.IPT.entries := by rw [h4]
  have hprocs : s'.procs = s4.procs := by rw [h4]
  have hp' : s'.procs s.curproc = some
      { p with start_pt_i := if p.n_frames = 0 then f else p.start_pt_i,
               last_pt_i := f, n_frames := (p.n_frames + 1) % U32 } := by
    rw [hprocs, hpost.procs]; simp [upd]
  refine ⟨s', _, ?_, ?_, ?_, ?_, ?_, ?_, ?_, ?_, hp', ?_, ?_, rfl, ?_, ?_, ?_, ?_, ?_⟩
  · rw [h3, haddr]
  · rw [hinv.freeChain_eq, hinv'.freeChain_eq]
  · rw [hinv'.freeChain_eq]; exact (List.nodup_cons.mp hinv.F_nodup).1
  · rw [hentries, hpost.e_pn]; exact Nat.mod_eq_of_lt (vpn_lt vaddr)
  · rw [hentries, hpost.e_pid]
  · rw [hentries, hpost.e_valid]
  · rw [hentries, hpost.e_chain]
  · rw [hentries, hpost.e_kernel]
    simp only [MIPS_KSEG0]
    split <;> simp_all
  · rw [hinv'.procChain_eq hp', hinv.procChain_eq hp]; simp [upd]
  · simp only [U32] at *; omega
  · rw [h4]; simp only; rw [hpost.fifo, hpost.fifo_start]
  · rw [h4]; simp only; rw [hpost.fifo_start, hpost.size]
    have := hinv.fifo_start
    have := hinv.size_le
    have e : (s.IPT.FIFO_index_start + 1) % U32 = s.IPT.FIFO_index_start + 1 := by
      simp only [U32]; omega
    rw [e]
  · rw [h4]; exact hpost.other.1
  · rw [h4]; exact hpost.other.2.2.2.2.2.2.2.2.1
  · rw [h4]; simp only; rw [hpost.other.2.2.2.2.2.2.2.2.2.2]

theorem demo8_wf : PTWf demo8 := ⟨_, _, PTInv_fresh 8 demo8 demo8_fresh⟩

theorem demo8_free : freeChain demo8.IPT ≠ [] := by decide

theorem insert_page_takes_first_free_witness :
    PTWf demo8 ∧ freeChain demo8.IPT ≠ [] ∧ demo8.procs demo8.curproc = some proc0 ∧
    ∃ s', insert_page demo8 0x400000 NEG1 = .ok (0x100000, s') ∧
      PT.GET_PN (s'.IPT.entries 0).hi = 0x400 ∧ PT.GET_PID (s'.IPT.entries 0).low = 1 ∧
      s'.ST = demo8.ST :=
  ⟨demo8_wf, demo8_free, rfl,
    (insert_page_takes_first_free demo8 0x400000 proc0 demo8_wf demo8_free rfl).elim
      fun s' h => h.elim fun _ h =>
        ⟨s', h.1, h.2.2.2.1, h.2.2.2.2.1, h.2.2.2.2.2.2.2.2.2.2.2.2.2.2.1⟩⟩

/-! ## The postcondition of `remove_page` -/

theorem erase_mid (l1 l2 : List Nat) (f : Nat) (h : f ∉ l1) :
    (l1 ++ f :: l2).erase f = l1 ++ l2 := by
  rw [List.erase_append_right _ h]
  simp

/-- C10: on a well-formed table, for a valid frame `f` whose owner `p` is the process
with the pid stored in `f`, the frame lies in the frame chain of `p`, and
`remove_page(pt, f)` returns, removes `f` from that chain keeping the order of the other
frames, decrements `n_frames`, makes
`f` the tail of the free chain (`last_free_frame = f`), clears vpn, pid, next, valid, chain
and kernel of entry `f`, and leaves vpn, pid, valid and kernel of every other entry
unchanged. -/
theorem remove_page_postcondition (s : Kernel) (f : Nat) (p : proc) (hwf : PTWf s)
    (hf : f < s.IPT.size) (hv : PT.IS_VALID (s.IPT.entries f).hi ≠ 0)
    (hp : s.procs (PT.GET_PID (s.IPT.entries f).low) = some p) :
    f ∈ procChain s.IPT p ∧
    ∃ s' p', remove_page s f = .ok s' ∧
      s'.procs (PT.GET_PID (s.IPT.entries f).low) = some p' ∧
      procChain s'.IPT p' = (procChain s.IPT p).erase f ∧
      p'.n_frames + 1 = p.n_frames ∧
      s'.IPT.last_free_frame = f ∧
      freeChain s'.IPT = freeChain s.IPT ++ [f] ∧
      PT.GET_PN (s'.IPT.entries f).hi = 0 ∧ PT.GET_PID (s'.IPT.entries f).low = 0 ∧
      PT.GET_NEXT (s'.IPT.entries f).low = 0 ∧ PT.IS_VALID (s'.IPT.entries f).hi = 0 ∧
      PT.HAS_CHAIN (s'.IPT.entries f).hi = 0 ∧ PT.IS_KERNEL (s'.IPT.entries f).hi = 0 ∧
      ∀ j, j ≠ f →
        PT.GET_PN (s'.IPT.entries j).hi = PT.GET_PN (s.IPT.entries j).hi ∧
        PT.GET_PID (s'.IPT.entries j).low = PT.GET_PID (s.IPT.entries j).low ∧
        PT.IS_VALID (s'.IPT.entries j).hi = PT.IS_VALID (s.IPT.entries j).hi ∧
        PT.IS_KERNEL (s'.IPT.entries j).hi = PT.IS_KERNEL (s.IPT.entries j).hi := by
  obtain ⟨F, C, hinv⟩ := hwf
  have hmem := (hinv.cover f hf).2 hv
  obtain ⟨l1, l2, hl⟩ := List.append_of_mem hmem
  obtain ⟨p2, hp2, s', hrem, hpost⟩ := remove_page_spec s F C f l1 l2 hinv hl
  have e : p2 = p := by rw [hp] at hp2; exact (Option.some.inj hp2).symm
  subst e
  have hinv' := PTInv_remove s s' F C f l1 l2 p2 hinv hl hp hpost
  obtain ⟨p', hp', hn, _⟩ := hpost.procs_q
  have hnd := hinv.C_nodup (PT.GET_PID (s.IPT.entries f).low)
  rw [hl] at hnd
  have hfl1 : f ∉ l1 := by
    intro h
    rw [List.nodup_append] at hnd
    exact hnd.2.2 h (by simp)
  refine ⟨by rw [hinv.procChain_eq hp]; exact hmem,
    s', p', hrem, hp', ?_, hn, hpost.last, ?_, hpost.e_pn, hpost.e_pid, hpost.e_next,
    hpost.e_valid, hpost.e_chain, hpost.e_kernel, ?_⟩
  · rw [hinv'.procChain_eq hp', hinv.procChain_eq hp, hl, erase_mid l1 l2 f hfl1]
    simp [upd]
  · rw [hinv'.freeChain_eq, hinv.freeChain_eq]
  · intro j hj
    have := hpost.e_fields j hj
    exact ⟨this.2.2.1, this.2.2.2, this.1, this.2.1⟩

theorem demo8_1_wf : PTWf demo8_1 :=
  demo8_step.elim fun a h =>
    PTReach_inv demo8 demo8_1 8 demo8_fresh
      (PTReach.step demo8 demo8_1 PTReach.init
        (PTStep.insert demo8 demo8_1 1 0x400000 a (by decide) h))

theorem remove_page_postcondition_witness :
    PTWf demo8_1 ∧ 0 < demo8_1.IPT.size ∧ PT.IS_VALID (demo8_1.IPT.entries 0).hi ≠ 0 ∧
    demo8_1.procs (PT.GET_PID (demo8_1.IPT.entries 0).low) =
      some { proc0 with n_frames := 1 } ∧
    ∃ s', remove_page demo8_1 0 = .ok s' ∧ s'.IPT.last_free_frame = 0 ∧
      PT.IS_VALID (s'.IPT.entries 0).hi = 0 :=
  ⟨demo8_1_wf, by decide, by decide, by decide,
    (remove_page_postcondition demo8_1 0 { proc0 with n_frames := 1 } demo8_1_wf
      (by decide) (by decide) (by decide)).2.elim
      fun s' h => h.elim fun _ h =>
        ⟨s', h.1, h.2.2.2.2.1, h.2.2.2.2.2.2.2.2.2.1⟩⟩

/-! ## Lookup in the page table -/

theorem getFrameAddress_loop_linked (pt : pT) (page_n : Nat) (frame : Bool) (l : List Nat)
    (a fuel : Nat) (hlink : Linked (PT.ch pt.entries) (PT.nx pt.entries) (a :: l))
    (hb : ∀ x ∈ a :: l, x < pt.size) (hsz : pt.size ≤ 2 ^ 20)
    (hfuel : (a :: l).length ≤ fuel) :
    getFrameAddress_loop pt page_n frame fuel a = .ok
      (match (a :: l).find? (fun i => decide (PT.GET_PN (pt.entries i).hi = page_n)) with
       | some i => if frame then i else (i * PAGE_SIZE + pt.mem_base_addr) % U32
       | none => NEG1) := by
  induction l generalizing a fuel with
  | nil =>
    cases fuel with
    | zero => simp at hfuel
    | succ fuel =>
      have ha := hb a (by simp)
      have hne : a ≠ NEG1 := by simp only [NEG1]; omega
      have hc := Linked.single_iff.mp hlink
      simp only [PT.ch, decide_eq_false_iff_not, ne_eq, not_not] at hc
      unfold getFrameAddress_loop
      by_cases hpn : PT.GET_PN (pt.entries a).hi = page_n
      · simp [hne, ha, hpn]
      · simp [hne, ha, hpn, hc]
  | cons b l ih =>
    cases fuel with
    | zero => simp at hfuel
    | succ fuel =>
      have ha := hb a (by simp)
      have hne : a ≠ NEG1 := by simp only [NEG1]; omega
      have hs := Linked.head_step hlink
      simp only [PT.ch, PT.nx, decide_eq_true_eq] at hs
      have hrec := ih b fuel (Linked.tail hlink) (fun x hx => hb x (List.mem_cons_of_mem _ hx))
        (by simpa using hfuel)
      unfold getFrameAddress_loop
      by_cases hpn : PT.GET_PN (pt.entries a).hi = page_n
      · simp [hne, ha, hpn]
      · have e : (a :: b :: l).find? (fun i => decide (PT.GET_PN (pt.entries i).hi = page_n)) =
            (b :: l).find? (fun i => decide (PT.GET_PN (pt.entries i).hi = page_n)) :=
          List.find?_cons_of_neg _ (by simpa using hpn)
        rw [e]
        simp only [hne, if_false, ha, if_true, hpn, hs.1, hs.2, hrec, ne_eq, not_false_eq_true]

/-- C6: when the current process has `n_frames ≥ 1` and the table is well formed,
`getFrameAddress(pt, page_n, frame)` returns; the result is -1 iff no frame of the
current process's chain has vpn = `page_n`; otherwise, with `i` the first frame of the
chain whose vpn is `page_n`, the result is `i` when `frame` is true and
`i * 4096 + mem_base_addr` when it is false. (The function only reads the state: it
yields a value and no new state.) -/
theorem getFrameAddress_lookup (s : Kernel) (p : proc) (page_n : Nat) (frame : Bool)
    (hwf : PTWf s) (hp : s.procs s.curproc = some p) (hn : 1 ≤ p.n_frames) :
    ∃ r, getFrameAddress s page_n frame = .ok r ∧
      (r = NEG1 ↔ ∀ i ∈ procChain s.IPT p, PT.GET_PN (s.IPT.entries i).hi ≠ page_n) ∧
      ∀ i, (procChain s.IPT p).find?
          (fun i => decide (PT.GET_PN (s.IPT.entries i).hi = page_n)) = some i →
        r = frameResult s.IPT frame i := by
  obtain ⟨F, C, hinv⟩ := hwf
  have hlen := hinv.C_len _ _ hp
  rw [hinv.procChain_eq hp]
  cases hc : C s.curproc with
  | nil => rw [hc] at hlen; simp at hlen; omega
  | cons a l =>
    have hlink := hinv.C_link s.curproc
    have hown := hinv.C_own s.curproc
    have hnd := hinv.C_nodup s.curproc
    rw [hc] at hlink hown hnd
    have hstart : p.start_pt_i = a := hinv.C_head _ _ a hp (by rw [hc]; rfl)
    have hle : (a :: l).length ≤ s.IPT.size :=
      nodup_bounded_length _ _ hnd (fun x hx => (hown x hx).1)
    have hloop := getFrameAddress_loop_linked s.IPT page_n frame l a (s.IPT.size + 1) hlink
      (fun x hx => (hown x hx).1) hinv.size_le (by omega)
    simp only [getFrameAddress, curthread_t_proc, hp, bind_ok, hstart, hloop]
    refine ⟨_, rfl, ?_, ?_⟩
    · cases hfind : (a :: l).find? (fun i => decide (PT.GET_PN (s.IPT.entries i).hi = page_n)) with
      | none =>
        simp only [true_iff]
        intro i hi
        have := List.find?_eq_none.mp hfind i hi
        simpa using this
      | some i =>
        have hmem := List.mem_of_find?_eq_some hfind
        have hpn := List.find?_some hfind
        simp only [decide_eq_true_eq] at hpn
        have hi := (hown i hmem).1
        have hfit := hinv.addr_fit
        have hsz := hinv.size_le
        simp only
        constructor
        · intro h
          exfalso
          have : (i + 1) * PAGE_SIZE ≤ s.IPT.size * PAGE_SIZE := Nat.mul_le_mul_right _ hi
          cases frame <;> simp only [NEG1, PAGE_SIZE, U32, Bool.false_eq_true, if_false, if_true] at * <;> omega
        · intro h
          exact absurd hpn (h i hmem)
    · intro i hfind
      rw [hfind]
      have hmem := List.mem_of_find?_eq_some hfind
      have hi := (hown i hmem).1
      have hfit := hinv.addr_fit
      have : (i + 1) * PAGE_SIZE ≤ s.IPT.size * PAGE_SIZE := Nat.mul_le_mul_right _ hi
      simp only [frameResult]
      cases frame
      · simp only [Bool.false_eq_true, if_false]
        apply Nat.mod_eq_of_lt
        simp only [PAGE_SIZE, U32] at *; omega
      · simp

theorem getFrameAddress_lookup_witness :
    PTWf demo8_1 ∧ demo8_1.procs demo8_1.curproc = some { proc0 with n_frames := 1 } ∧
    1 ≤ ({ proc0 with n_frames := 1 } : proc).n_frames ∧
    ∃ r, getFrameAddress demo8_1 0x400 false = .ok r ∧ r = 0x100000 :=
  ⟨demo8_1_wf, by decide, by decide,
    (getFrameAddress_lookup demo8_1 { proc0 with n_frames := 1 } 0x400 false demo8_1_wf
      (by decide) (by decide)).elim
      fun r h => ⟨r, h.1, h.2.2 0 (by decide)⟩⟩

/-! ## Victim selection -/

theorem replace_page_loop_first (pt : pT) (fuel last v l : Nat)
    (h : replace_page_loop pt fuel last = .ok (v, l)) :
    ∃ k, 1 ≤ k ∧ l = Nat.iterate (fifoAdvance pt) k last ∧ v = pt.FIFO l ∧
      ∀ j, 1 ≤ j → j < k →
        PT.IS_KERNEL (pt.entries (pt.FIFO (Nat.iterate (fifoAdvance pt) j last))).hi ≠ 0 := by
  induction fuel generalizing last with
  | zero => simp [replace_page_loop] at h
  | succ fuel ih =>
    unfold replace_page_loop at h
    by_cases h0 : pt.size = 0
    · rw [if_pos h0] at h; cases h
    · rw [if_neg h0] at h
      simp only at h
      by_cases h1 : pt.FIFO (((last + 1) % U32) % pt.size) < pt.size
      · simp only [h1, if_true] at h
        by_cases h2 : PT.IS_KERNEL (pt.entries (pt.FIFO (((last + 1) % U32) % pt.size))).hi ≠ 0
        · rw [if_pos h2] at h
          obtain ⟨k, hk1, hk2, hk3, hk4⟩ := ih _ h
          refine ⟨k + 1, by omega, ?_, hk3, ?_⟩
          · rw [Function.iterate_succ_apply]; exact hk2
          · intro j hj1 hj2
            cases j with
            | zero => omega
            | succ j =>
              rw [Function.iterate_succ_apply]
              cases j with
              | zero => simpa [fifoAdvance] using h2
              | succ j => exact hk4 (j + 1) (by omega) (by omega)
        · rw [if_neg h2] at h
          simp only [Except.ok.injEq, Prod.mk.injEq] at h
          obtain ⟨e1, e2⟩ := h
          subst e1 e2
          refine ⟨1, le_refl _, rfl, rfl, ?_⟩
          intro j hj1 hj2; omega
      · rw [if_neg h1] at h; cases h

/-- C8: whenever `replace_page(pt)` returns a frame `v`, entry `v` has kernel = 0, and
`v` is the frame in the first FIFO slot met by advancing `FIFO_index_last` cyclically
from its old value whose frame has kernel = 0: the slots met before hold kernel frames,
and the cursor is left on the slot of `v`. -/
theorem replace_page_never_kernel (pt pt' : pT) (v : Nat)
    (h : replace_page pt = .ok (v, pt')) :
    PT.IS_KERNEL (pt.entries v).hi = 0 ∧
    ∃ k, 1 ≤ k ∧ pt'.FIFO_index_last = Nat.iterate (fifoAdvance pt) k pt.FIFO_index_last ∧
      v = pt.FIFO pt'.FIFO_index_last ∧
      (∀ j, 1 ≤ j → j < k → PT.IS_KERNEL (pt.entries (pt.FIFO
          (Nat.iterate (fifoAdvance pt) j pt.FIFO_index_last))).hi ≠ 0) ∧
      pt' = { pt with FIFO_index_last := pt'.FIFO_index_last } := by
  have h1 := replace_page_ok pt pt' v h
  unfold replace_page at h
  obtain ⟨r, hr, h⟩ := bind_eq_ok h
  simp only [pure_eq, Except.ok.injEq, Prod.mk.injEq] at h
  obtain ⟨e1, e2⟩ := h
  subst e1
  obtain ⟨k, hk1, hk2, hk3, hk4⟩ := replace_page_loop_first pt _ _ r.1 r.2 hr
  refine ⟨h1.2.1, k, hk1, ?_, ?_, hk4, h1.2.2.1⟩
  · rw [← e2]; exact hk2
  · rw [← e2]; exact hk3

theorem replace_page_never_kernel_witness :
    replace_page demo8_1.IPT = .ok (0, { demo8_1.IPT with FIFO_index_last := 0 }) ∧
    PT.IS_KERNEL (demo8_1.IPT.entries 0).hi = 0 :=
  ⟨rfl, (replace_page_never_kernel demo8_1.IPT { demo8_1.IPT with FIFO_index_last := 0 } 0
    rfl).1⟩


/-! ## Kernel allocation and the FIFO ring -/

/-- C9, the code run on the claim's scenario: on the 8-frame system process 1 touches
the pages `0x400 .. 0x407` (frames 0 to 7) and then `0x408` (frame 0 is evicted and
reused), `alloc_n_contiguos_pages(2)` returns the address of frame 7 and leaves the
frames 6 and 7 kernel-owned; frame 1 still holds page `0x401` with `kernel = 0`, yet its
slot in the FIFO ring has been overwritten (the ring is `0 7 6 3 4 5 6 7`), so the next
`replace_page` returns frame 3 and the next `insert_page(-1)` returns the address of
frame 3 and replaces page `0x403`. -/
theorem kernel_alloc_next_victim_is_frame_3 :
    residentPages demo8_8 = [0x400, 0x401, 0x402, 0x403, 0x404, 0x405, 0x406, 0x407] ∧
    residentPages demo8_9 = [0x408, 0x401, 0x402, 0x403, 0x404, 0x405, 0x406, 0x407] ∧
    Except.map Prod.fst (alloc_n_contiguos_pages demo8_9 2) = .ok 0x107000 ∧
    kernelBits demo8_9k = [0, 0, 0, 0, 0, 0, 4, 4] ∧
    validBits demo8_9k = [1, 1, 1, 1, 1, 1, 1, 1] ∧
    fifoSlots demo8_9k = [0, 7, 6, 3, 4, 5, 6, 7] ∧
    demo8_9k.IPT.FIFO_index_last = 0 ∧
    Except.map Prod.fst (replace_page demo8_9k.IPT) = .ok 3 ∧
    Except.map Prod.fst (insert_page demo8_9k 0x409000 NEG1) = .ok 0x103000 ∧
    residentPages (touch demo8_9k 0x409000) =
      [0x408, 0x401, 0x402, 0x409, 0x404, 0x405, 0x80106, 0x80107] := by
  decide!

/-! ## The free-chunk query on an exhausted swap table -/

/-- C4, the code run on a two-chunk swap table: `getFirstFreeChunckIndex` returns 0,
then 1 after the first `swapout`; after the second `swapout` no chunk has
`swapped = 1` (`first_free_chunk = 0`, `last_free_chunk = 1`), yet
`getFirstFreeChunckIndex` returns 0, the in-use chunk of page `0x400`, not `-1`; a
third `swapout` through the callers' check does not reach the "Out of swap space"
panic and stamps page `0x402` over chunk 0. -/
theorem getFirstFreeChunckIndex_exhausted_returns_0 :
    getFirstFreeChunckIndex demoSwap2.ST = .ok 0 ∧
    (swapoutFirst demoSwap2 0x100000 0x400 >>= fun s => getFirstFreeChunckIndex s.ST)
      = .ok 1 ∧
    Except.map swappedBits demoSwap2_full = .ok [0, 0] ∧
    Except.map chunkPages demoSwap2_full = .ok [0x400, 0x401] ∧
    Except.map (fun s => (s.ST.first_free_chunk, s.ST.last_free_chunk)) demoSwap2_full
      = .ok (0, 1) ∧
    (demoSwap2_full >>= fun s => getFirstFreeChunckIndex s.ST) = .ok 0 ∧
    Except.map chunkPages (demoSwap2_full >>= fun s => swapoutFirst s 0x102000 0x402)
      = .ok [0x402, 0x401] := by
  decide!

/-! ## Runs of the ELF preload, the forks, the kernel pages and the teardowns -/

/-- C12, the code run on a fresh 16-chunk swap table with `filesize = 100` and
`memsize = 5000` (process 1, first page `0x400`): the partial page is written and
chunk 0 is stamped with page `0x400`, but chunk 0 is not taken off the free chain, so
the zero page that follows is written to chunk 0 as well and stamped `0x401`; in the
end one chunk is in use, the chain of process 1 holds one chunk, `getSwapChunk` for
page `0x400` returns `-1` and for page `0x401` it returns chunk 0. -/
theorem elf_to_swap_partial_page_lost :
    elf_to_swap_n_pages 5000 100 = 2 ∧
    Except.map (fun s => (s.stats.swap_zero_filled, s.stats.swap_blank))
      (elf_to_swap demo8 demoElf 0 0x400 5000 100 1) = .ok (1, 1) ∧
    Except.map chunksInUse (elf_to_swap demo8 demoElf 0 0x400 5000 100 1) = .ok 1 ∧
    Except.map (fun s => nChunks s 1) (elf_to_swap demo8 demoElf 0 0x400 5000 100 1)
      = .ok (some 1) ∧
    Except.map (fun s => (chunkPages s).take 2)
      (elf_to_swap demo8 demoElf 0 0x400 5000 100 1) = .ok [0x401, 0] ∧
    (elf_to_swap demo8 demoElf 0 0x400 5000 100 1 >>= fun s => getSwapChunk s 0x400000 1)
      = .ok NEG1 ∧
    (elf_to_swap demo8 demoElf 0 0x400 5000 100 1 >>= fun s => getSwapChunk s 0x401000 1)
      = .ok 0 := by
  decide!

/-- C13, the code run with `filesize` a multiple of 4096 and `memsize > filesize`: for
`filesize = 0`, `memsize = 4096` the three parts of `elf_to_swap` write
`0 + 0 + 0` pages (no chunk is in use afterwards) while `ceil(memsize / 4096) = 1`; for
`filesize = 4096`, `memsize = 8192` they write `1 + 0 + 0` pages (one chunk in use,
page `0x400`) while `ceil(memsize / 4096) = 2`. -/
theorem elf_to_swap_page_count_short :
    elf_to_swap_n_empty_chunks 4096 0 = 0 ∧
    elf_to_swap_n_pages 4096 0 = 0 ∧ (4096 + PAGE_SIZE - 1) / PAGE_SIZE = 1 ∧
    Except.map chunksInUse (elf_to_swap demo8 demoElf 0 0x400 4096 0 1) = .ok 0 ∧
    elf_to_swap_n_empty_chunks 8192 4096 = 0 ∧
    elf_to_swap_n_pages 8192 4096 = 1 ∧ (8192 + PAGE_SIZE - 1) / PAGE_SIZE = 2 ∧
    Except.map chunksInUse (elf_to_swap demo8 demoElf 0 0x400 8192 4096 1) = .ok 1 ∧
    Except.map (fun s => (chunkPages s).take 2)
      (elf_to_swap demo8 demoElf 0 0x400 8192 4096 1) = .ok [0x400, 0] := by
  decide!

/-- C15, the code run with process 1 holding the pages `0x400`, `0x401` in frames 0, 1:
`pages_fork(pt, 0, 2)` run by process 1 stamps the chunks 0 and 1 with pid 2 and the
two page numbers, but links them into the chunk chain of process 1 (its `n_chunks`
goes from 0 to 2, `start_st_i = 0`, `last_st_i = 1`), while process 2 keeps
`n_chunks = 0`; the frames are untouched. -/
theorem pages_fork_links_into_parent_chain :
    nChunks demo8_2 1 = some 0 ∧ nChunks demo8_2 2 = some 0 ∧
    Except.map (fun s => (chunkPids s).take 3) (pages_fork demo8_2 0 2) = .ok [2, 2, 0] ∧
    Except.map (fun s => (chunkPages s).take 3) (pages_fork demo8_2 0 2)
      = .ok [0x400, 0x401, 0] ∧
    Except.map (fun s => (swappedBits s).take 3) (pages_fork demo8_2 0 2) = .ok [0, 0, 64] ∧
    Except.map (fun s => s.procs 1) (pages_fork demo8_2 0 2)
      = .ok (some { n_frames := 2, start_pt_i := 0, last_pt_i := 1, n_chunks := 2,
                    start_st_i := 0, last_st_i := 1 }) ∧
    Except.map (fun s => nChunks s 2) (pages_fork demo8_2 0 2) = .ok (some 0) ∧
    Except.map residentPages (pages_fork demo8_2 0 2)
      = .ok [0x400, 0x401, 0, 0, 0, 0, 0, 0] := by
  decide!

/-- C16, the code run on the fresh 8-frame table (`frame_n_k = 7`):
`alloc_n_contiguos_pages(2)` reserves the frames 7 and 6 and sets `frame_n_k = 5`;
`alloc_n_contiguos_pages(8)`, that is `n = w + 1`, returns the address of frame 7 but
makes no pass of its loop (`frame_n_k - npages` wraps to `0xFFFFFFFF`): no frame is
valid or kernel-owned afterwards and `frame_n_k` is `0xFFFFFFFF`. -/
theorem alloc_all_frames_reserves_none :
    demo8.frame_n_k = 7 ∧
    Except.map (fun r => (r.1, kernelBits r.2, validBits r.2, r.2.frame_n_k))
      (alloc_n_contiguos_pages demo8 2)
      = .ok (0x107000, [0, 0, 0, 0, 0, 0, 4, 4], [0, 0, 0, 0, 0, 0, 1, 1], 5) ∧
    Except.map (fun r => (r.1, kernelBits r.2, validBits r.2, r.2.frame_n_k))
      (alloc_n_contiguos_pages demo8 8)
      = .ok (0x107000, [0, 0, 0, 0, 0, 0, 0, 0], [0, 0, 0, 0, 0, 0, 0, 0], 0xFFFFFFFF) := by
  decide!

/-- C17, the code run on the fresh 8-frame system: `free_kpages(alloc_kpages(1))`
frees frame 7 again and restores `frame_n_k = 7`; `alloc_kpages(2)` reserves the frames
7 and 6 and records the start frame 7, and `free_kpages` of its result calls
`remove_page` for the frames 7 and 8, the second of which is outside the table; after
`alloc_kpages(1)` (frame 7) and `alloc_kpages(2)` (frames 6 and 5), `free_kpages` of
the second address frees the frames 6 and 7 and leaves frame 5 kernel-owned. -/
theorem free_kpages_walks_upward :
    Except.map (fun s => (kernelBits s, validBits s, s.frame_n_k))
      (alloc_kpages demo8 1 >>= fun r => free_kpages r.2 r.1)
      = .ok ([0, 0, 0, 0, 0, 0, 0, 0], [0, 0, 0, 0, 0, 0, 0, 0], 7) ∧
    Except.map (fun r => (kernelBits r.2, (kRecords r.2).take 1)) (alloc_kpages demo8 2)
      = .ok ([0, 0, 0, 0, 0, 0, 4, 4], [(7, 0x80107000, 2)]) ∧
    outcome (alloc_kpages demo8 2 >>= fun r => free_kpages r.2 r.1) = .error Fault.bounds ∧
    Except.map (fun r => kernelBits r.2)
      (alloc_kpages demo8 1 >>= fun a => alloc_kpages a.2 2)
      = .ok [0, 0, 0, 0, 0, 4, 4, 4] ∧
    Except.map (fun s => (kernelBits s, validBits s, s.frame_n_k))
      (alloc_kpages demo8 1 >>= fun a => alloc_kpages a.2 2 >>= fun b => free_kpages b.2 b.1)
      = .ok ([0, 0, 0, 0, 0, 4, 0, 0], [0, 0, 0, 0, 0, 1, 0, 0], 6) := by
  decide!

/-- C18, the code run on the fresh 8-frame system: after `A = alloc_kpages(1)` and
`B = alloc_kpages(1)` the in-use list holds the entries 0 and 1, entry 0 carries the
record of `B` (frame 6) and entry 1 is blank, so `free_kpages(A)` ends in the panic
"Where is that frame?!". -/
theorem free_kpages_first_of_two_panics :
    Except.map Prod.fst (alloc_kpages demo8 1) = .ok 0x80107000 ∧
    Except.map Prod.fst (alloc_kpages demo8 1 >>= fun a => alloc_kpages a.2 1)
      = .ok 0x80106000 ∧
    Except.map (fun b => [b.2.start_index_k, (b.2.k_frames 0).next, (b.2.k_frames 1).next])
      (alloc_kpages demo8 1 >>= fun a => alloc_kpages a.2 1) = .ok [0, 1, NEG1] ∧
    Except.map (fun b => (kRecords b.2).take 2)
      (alloc_kpages demo8 1 >>= fun a => alloc_kpages a.2 1)
      = .ok [(6, 0x80106000, 1), (0, 0, 0)] ∧
    outcome (alloc_kpages demo8 1 >>= fun a => alloc_kpages a.2 1 >>= fun b =>
      free_kpages b.2 a.1) = .error Fault.no_frame := by
  decide!

/-- C19, the code run on the fresh 16-chunk system: process 1 swaps page `0x400` out
to chunk 0, takes it back in and swaps page `0x401` out to chunk 1; chunk 0 is then
free but still stamped with pid 1, and process 1 has one chunk. `all_proc_chunk_out`
treats chunk 0 as a chunk of process 1 too: it leaves `n_chunks = 0xFFFFFFFF`,
`start_st_i = 2` and `last_st_i = 1`. -/
theorem all_proc_chunk_out_counts_stale_chunk :
    Except.map (fun s => ((swappedBits s).take 3, (chunkPids s).take 3, s.procs 1))
      demoSwapInOut
      = .ok ([64, 0, 64], [1, 1, 0],
          some { n_frames := 0, start_pt_i := 0, last_pt_i := 0, n_chunks := 1,
                 start_st_i := 1, last_st_i := 1 }) ∧
    Except.map (fun s => ((swappedBits s).take 3, s.procs 1))
      (demoSwapInOut >>= all_proc_chunk_out)
      = .ok ([64, 64, 64],
          some { n_frames := 0, start_pt_i := 0, last_pt_i := 0, n_chunks := 0xFFFFFFFF,
                 start_st_i := 2, last_st_i := 1 }) := by
  decide!

/-- C20, the code run on the fresh 8-frame system, where process 1 has `n_frames = 0`:
`all_proc_page_out` calls `remove_page(pt, 0)` on the free frame 0, which appends
frame 0 to the free chain a second time; afterwards `first_free_frame` and
`last_free_frame` are both 0 and frame 0 has no successor, so the free chain is the
single frame 0 where it was `0, 1, .., 7` before. -/
theorem all_proc_page_out_without_frames_changes_table :
    nFrames demo8 1 = some 0 ∧
    (demo8.IPT.first_free_frame, demo8.IPT.last_free_frame) = (0, 7) ∧
    frameLinks demo8 = [(2, 1), (2, 2), (2, 3), (2, 4), (2, 5), (2, 6), (2, 7), (0, 0)] ∧
    freeChain demo8.IPT = [0, 1, 2, 3, 4, 5, 6, 7] ∧
    Except.map (fun s => (s.IPT.first_free_frame, s.IPT.last_free_frame))
      (all_proc_page_out demo8) = .ok (0, 0) ∧
    Except.map frameLinks (all_proc_page_out demo8)
      = .ok [(0, 0), (2, 2), (2, 3), (2, 4), (2, 5), (2, 6), (2, 7), (2, 0)] ∧
    Except.map (fun s => freeChain s.IPT) (all_proc_page_out demo8) = .ok [0] := by
  decide!

/-! ## Doubly linked chunk chains -/

theorem PrevLinked.tail_prev {pv : Nat → Nat} {a : Nat} {l : List Nat}
    (h : PrevLinked pv (a :: l)) : PrevLinked pv l := by
  cases l with
  | nil => trivial
  | cons b l => exact h.2

theorem PrevLinked.congr_prev {pv pv2 : Nat → Nat} {l : List Nat}
    (hc : ∀ a ∈ l, pv2 a = pv a) (h : PrevLinked pv l) : PrevLinked pv2 l := by
  induction l with
  | nil => trivial
  | cons a l ih =>
    cases l with
    | nil => trivial
    | cons b l =>
      exact ⟨by rw [hc b (by simp)]; exact h.1,
        ih (fun x hx => hc x (List.mem_cons_of_mem _ hx)) h.2⟩

/-- Only the elements after the first need to keep their `prev`. -/
theorem PrevLinked.congr_rest {pv pv2 : Nat → Nat} {a : Nat} {l : List Nat}
    (hc : ∀ x ∈ l, pv2 x = pv x) (h : PrevLinked pv (a :: l)) : PrevLinked pv2 (a :: l) := by
  induction l generalizing a with
  | nil => trivial
  | cons b l ih =>
    exact ⟨by rw [hc b (by simp)]; exact h.1,
      ih (fun x hx => hc x (List.mem_cons_of_mem _ hx)) h.2⟩

/-- Appending `f` after the last element `a`. -/
theorem PrevLinked.snoc_prev {pv pv2 : Nat → Nat} {l : List Nat} {a f : Nat}
    (h : PrevLinked pv (l ++ [a])) (hc : ∀ x ∈ l ++ [a], pv2 x = pv x) (hf : pv2 f = a) :
    PrevLinked pv2 (l ++ [a, f]) := by
  induction l with
  | nil => exact ⟨hf, trivial⟩
  | cons b l ih =>
    have h2 := ih (PrevLinked.tail_prev h) (fun x hx => hc x (List.mem_cons_of_mem _ hx))
    cases l with
    | nil =>
      simp only [List.cons_append, List.nil_append] at h h2 hc ⊢
      exact ⟨by rw [hc a (by simp)]; exact h.1, h2⟩
    | cons c l =>
      simp only [List.cons_append] at h h2 hc ⊢
      exact ⟨by rw [hc c (by simp)]; exact h.1, h2⟩

/-- The predecessor of an inner element. -/
theorem PrevLinked.pred {pv : Nat → Nat} {l1 l2 : List Nat} {i c : Nat}
    (h : PrevLinked pv (l1 ++ i :: c :: l2)) : pv c = i := by
  induction l1 with
  | nil => exact h.1
  | cons b l ih => exact ih (PrevLinked.tail_prev h)

/-- Unlinking `f` between `i` and `g`. -/
theorem PrevLinked.drop_mid_prev {pv pv2 : Nat → Nat} {l1 l2 : List Nat} {i f g : Nat}
    (h : PrevLinked pv (l1 ++ i :: f :: g :: l2))
    (hc : ∀ x ∈ l1 ++ i :: l2, pv2 x = pv x) (hg : pv2 g = i) :
    PrevLinked pv2 (l1 ++ i :: g :: l2) := by
  induction l1 with
  | nil =>
    simp only [List.nil_append] at h hc ⊢
    exact ⟨hg, PrevLinked.congr_rest (fun x hx => hc x (List.mem_cons_of_mem _ hx)) h.2.2⟩
  | cons b l ih =>
    have h2 := ih (PrevLinked.tail_prev h) (fun x hx => hc x (List.mem_cons_of_mem _ hx))
    cases l with
    | nil =>
      simp only [List.cons_append, List.nil_append] at h h2 hc ⊢
      exact ⟨by rw [hc i (by simp)]; exact h.1, h2⟩
    | cons c l =>
      simp only [List.cons_append] at h h2 hc ⊢
      exact ⟨by rw [hc c (by simp)]; exact h.1, h2⟩

/-- Unlinking the last element. -/
theorem PrevLinked.drop_last_prev {pv pv2 : Nat → Nat} {l1 : List Nat} {i f : Nat}
    (h : PrevLinked pv (l1 ++ [i, f])) (hc : ∀ x ∈ l1 ++ [i], pv2 x = pv x) :
    PrevLinked pv2 (l1 ++ [i]) := by
  induction l1 with
  | nil => trivial
  | cons b l ih =>
    have h2 := ih (PrevLinked.tail_prev h) (fun x hx => hc x (List.mem_cons_of_mem _ hx))
    cases l with
    | nil =>
      simp only [List.cons_append, List.nil_append] at h h2 hc ⊢
      exact ⟨by rw [hc i (by simp)]; exact h.1, h2⟩
    | cons c l =>
      simp only [List.cons_append] at h h2 hc ⊢
      exact ⟨by rw [hc c (by simp)]; exact h.1, h2⟩

/-! ## The swap table after `swapTableInit` -/

theorem swapTableInit_loop_apply (raw : Nat → STE) (k j : Nat) :
    swapTableInit_loop raw k j =
      if j < k then
        (if j = 0 then
          STE.mk (SW.SET_PREV (SW.SET_PREV (SW.SET_SWAPPED (SW.SET_CHAIN (raw j).hi 1) 1) 1) 0)
            ((j + 1) % U32) 0
        else
          STE.mk (SW.SET_PREV (SW.SET_SWAPPED (SW.SET_CHAIN (raw j).hi 1) 1) 1)
            ((j + 1) % U32) ((j + U32 - 1) % U32))
      else raw j := by
  induction k with
  | zero => simp [swapTableInit_loop]
  | succ k ih =>
    simp only [swapTableInit_loop, swapTableInit_step]
    by_cases h : j = k
    · subst h
      by_cases h0 : j = 0
      · subst h0; simp [upd, swapTableInit_loop]
      · simp [h0, upd, ih]
    · by_cases h0 : k = 0
      · subst h0
        have : ¬ j < 0 + 1 := by omega
        simp [upd, h, ih, this]
      · simp only [h0, if_false, upd, h, ih]
        by_cases h2 : j < k
        · simp [h2, Nat.lt_succ_of_lt h2]
        · have : ¬ j < k + 1 := by omega
          simp [h2, this]

theorem swapTableInit_entries (st_size : Nat) (raw : Nat → STE) (N : Nat)
    (hN : (st_size / PAGE_SIZE) % U32 = N) (h1 : 1 ≤ N) (j : Nat) (hj : j < N) :
    SW.IS_SWAPPED ((swapTableInit st_size raw).entries j).hi ≠ 0 ∧
    (j + 1 < N → SW.HAS_CHAIN ((swapTableInit st_size raw).entries j).hi ≠ 0 ∧
      ((swapTableInit st_size raw).entries j).next = j + 1) ∧
    (j + 1 = N → SW.HAS_CHAIN ((swapTableInit st_size raw).entries j).hi = 0) := by
  have hlt : N < U32 := by rw [← hN]; exact Nat.mod_lt _ (by simp [U32])
  have hn : (N + U32 - 1) % U32 = N - 1 := by
    simp only [U32] at *; omega
  simp only [swapTableInit, hN, hn, upd, swapTableInit_loop_apply]
  by_cases hl : j = N - 1
  · subst hl
    simp
    omega
  · have hlt2 : j < N - 1 := by omega
    have e1 : (j + 1) % U32 = j + 1 := by
      simp only [U32] at *; omega
    by_cases h0 : j = 0
    · subst h0
      simp [hl, hlt2, e1]
      omega
    · simp [hl, hlt2, e1, h0]
      omega

theorem SWInv_fresh (N : Nat) (s : Kernel) (h : SWFresh N s) :
    SWInv s (List.range N) (fun _ => []) := by
  obtain ⟨h2, ⟨st_size, raw, hN, hst⟩, hprocs⟩ := h
  have h1 : 1 ≤ N := by omega
  have hlt : N < U32 := by rw [← hN]; exact Nat.mod_lt _ (by simp [U32])
  have hent := swapTableInit_entries st_size raw N hN h1
  have hsize : s.ST.size = N := by rw [hst]; exact hN
  have hfirst : s.ST.first_free_chunk = 0 := by rw [hst]; rfl
  have hn : (N + U32 - 1) % U32 = N - 1 := by simp only [U32] at *; omega
  have hlast : s.ST.last_free_chunk = N - 1 := by
    rw [hst]; simp only [swapTableInit, hN]; exact hn
  rw [← hst] at hent
  have hrange : List.range N = List.range' 0 (N - 1 + 1) := by
    have e : N - 1 + 1 = N := by omega
    rw [List.range_eq_range', e]
  constructor
  · rw [hsize]; exact hlt
  · intro hnil
    have : (List.range N).length = 0 := by rw [hnil]; rfl
    rw [List.length_range] at this
    omega
  · exact List.nodup_range N
  · intro f hf
    rw [List.mem_range] at hf
    rw [hsize]
    exact ⟨hf, (hent f hf).1⟩
  · rw [hrange]
    apply Linked_range'
    · intro j _ hj
      have := (hent j (by omega)).2.1 (by omega)
      simp [SW.ch, SW.nx, this.1, this.2]
    · have := (hent (N - 1) (by omega)).2.2 (by omega)
      simp [SW.ch, this]
  · intro a ha
    rw [hrange] at ha
    simp [List.range'_succ] at ha
    rw [hfirst]; exact ha
  · intro a ha
    rw [hlast]
    rw [hrange, List.range'_concat] at ha
    simp at ha
    omega
  · intro q; simp
  · intro q f hf; simp at hf
  · intro q; exact Linked.nil _ _
  · intro q; trivial
  · intro q p hp; simp [(hprocs q p hp).2]
  · intro q p a hp ha; simp at ha
  · intro q p a hp ha; simp at ha
  · intro q _; rfl
  · intro q p hp; exact (hprocs q p hp).1
  · intro f hf
    rw [hsize] at hf
    refine ⟨fun _ => List.mem_range.mpr hf, fun h => absurd h (hent f hf).1⟩

/-! ## Taking the head of the free-chunk list -/

theorem curthread_t_proc_eq (s : Kernel) (p : proc) (hp : s.procs s.curproc = some p) :
    curthread_t_proc s = .ok p := by
  simp [curthread_t_proc, hp]

theorem swapout_spec (s : Kernel) (c paddr vpn pid : Nat) (inv : Bool) (p : proc)
    (hp : s.procs s.curproc = some p) (hfirst : s.ST.first_free_chunk = c)
    (hc : c < s.ST.size) (hl : p.n_chunks ≠ 0 → p.last_st_i < s.ST.size) (hpid : pid < 64) :
    ((s.ST.entries c).next < s.ST.size →
      ∃ s', swapout s c paddr vpn pid inv = .ok s' ∧ TakePost s s' c s.curproc p pid vpn ∧
        s'.curproc = s.curproc ∧ s'.ram = s.ram ∧ s'.stats = s.stats ∧
        s'.disk = page_to_disk s.ram s.disk (PADDR_TO_KVADDR (paddr &&& PAGE_FRAME))
          ((c * PAGE_SIZE) % U32)) ∧
    (¬ (s.ST.entries c).next < s.ST.size →
      swapout s c paddr vpn pid inv = .error Fault.bounds) := by
  have hcp := curthread_t_proc_eq s p hp
  constructor
  · intro hx
    by_cases hn : p.n_chunks = 0
    · simp only [swapout, delete_free_chunk, hfirst, if_true, eq_true hc, chk_true, bind_ok,
        eq_true hx, pure_eq, hcp, insert_into_process_chunk_list, hn, setProc]
      refine ⟨_, rfl, ?_, rfl, rfl, rfl, rfl⟩
      generalize hxe : (s.ST.entries c).next = x
      constructor <;> simp [upd, hpid, hn, hxe]
      · intro j hj
        rcases eq_or_ne j x with rfl | hjx
        · simp [hj]
        · simp [hj, hjx]
      · intro j hj
        rcases eq_or_ne j x with rfl | hjx
        · simp [hj]
        · simp [hj, hjx]
    · have hl' := hl hn
      simp only [swapout, delete_free_chunk, hfirst, if_true, eq_true hc, chk_true, bind_ok,
        eq_true hx, pure_eq, hcp, insert_into_process_chunk_list, eq_false hn, if_false,
        eq_true hl', setProc]
      refine ⟨_, rfl, ?_, rfl, rfl, rfl, rfl⟩
      generalize hxe : (s.ST.entries c).next = x
      generalize hle : p.last_st_i = l
      constructor <;> simp [upd, hpid, hn, hxe, hle]
      · intro j hj
        rcases eq_or_ne j l with rfl | hjl
        · rcases eq_or_ne j x with rfl | hjx
          · simp [hj]
          · simp [hj, hjx]
        · rcases eq_or_ne j x with rfl | hjx
          · simp [hj, hjl]
          · simp [hj, hjl, hjx]
      · intro j hj hjl
        rcases eq_or_ne j x with rfl | hjx
        · simp [hj, hjl]
        · simp [hj, hjl, hjx]
      · intro hlc
        simp [hlc]
  · intro hx
    simp only [swapout, delete_free_chunk, hfirst, if_true, eq_true hc, chk_true, bind_ok,
      eq_false hx, chk_false, bind_err]

theorem SWInv.n_chunks_lt {s : Kernel} {F : List Nat} {C : Nat → List Nat} (hinv : SWInv s F C)
    {q : Nat} {p : proc} (hp : s.procs q = some p) : p.n_chunks + F.length ≤ s.ST.size := by
  rw [← hinv.C_len _ _ hp, ← List.length_append]
  apply nodup_bounded_length
  · rw [List.nodup_append]
    refine ⟨hinv.C_nodup q, hinv.F_nodup, ?_⟩
    intro a ha hb
    exact (hinv.F_free a hb).2 (hinv.C_own q a ha).2.1
  · intro a ha
    rw [List.mem_append] at ha
    rcases ha with ha | ha
    · exact (hinv.C_own q a ha).1
    · exact (hinv.F_free a ha).1

theorem SWInv.last_chunk_mem {s : Kernel} {F : List Nat} {C : Nat → List Nat} (hinv : SWInv s F C)
    {q : Nat} {p : proc} (hp : s.procs q = some p) (h0 : p.n_chunks ≠ 0) :
    p.last_st_i ∈ C q := by
  have hne : C q ≠ [] := by
    intro h; have := hinv.C_len _ _ hp; rw [h] at this; exact h0 this.symm
  obtain ⟨a, ha⟩ := exists_getLast?_of_ne_nil hne
  rw [hinv.C_last _ _ a hp ha]; exact getLast?_mem ha

theorem SWInv_take (s s' : Kernel) (F' : List Nat) (C : Nat → List Nat) (c d q vpn : Nat)
    (p : proc) (hinv : SWInv s (c :: d :: F') C) (hp : s.procs q = some p)
    (hpost : TakePost s s' c q p q vpn) :
    SWInv s' (d :: F') (upd C q (C q ++ [c])) := by
  have hcF := hinv.F_free c (by simp)
  have hcC : ∀ q, c ∉ C q := fun q hq => hcF.2 (hinv.C_own q c hq).2.1
  have hlast : p.n_chunks ≠ 0 → p.last_st_i ∈ C q := hinv.last_chunk_mem hp
  have hsize := hpost.size
  have hne_c : ∀ j, j ∈ d :: F' → j ≠ c := by
    intro j hj e; subst e; exact (List.nodup_cons.mp hinv.F_nodup).1 hj
  have hnotl : ∀ j, j ∉ C q → (p.n_chunks = 0 ∨ j ≠ p.last_st_i) := by
    intro j hj
    by_cases h0 : p.n_chunks = 0
    · exact Or.inl h0
    · exact Or.inr (fun e => hj (e ▸ hlast h0))
  have hF_notC : ∀ j ∈ d :: F', ∀ q, j ∉ C q := by
    intro j hj q hq
    exact (hinv.F_free j (List.mem_cons_of_mem _ hj)).2 (hinv.C_own q j hq).2.1
  have hstep := Linked.head_step hinv.F_link
  constructor
  · rw [hsize]; exact hinv.size_lt
  · simp
  · exact (List.nodup_cons.mp hinv.F_nodup).2
  · intro g hg
    rw [hsize, (hpost.e_fields g (hne_c g hg)).1]
    exact hinv.F_free g (List.mem_cons_of_mem _ hg)
  · apply Linked.congr _ (Linked.tail hinv.F_link)
    intro a ha
    have := hpost.e_link a (hne_c a ha) (hnotl a (hF_notC a ha q))
    simp [SW.ch, SW.nx, this.1, this.2]
  · intro a ha
    simp only [List.head?_cons, Option.some.injEq] at ha
    subst ha
    rw [hpost.first]
    exact hstep.2
  · intro a ha
    rw [hpost.last]
    apply hinv.F_last
    rw [getLast?_cons_ne_nil c (by simp)]; exact ha
  · intro q'
    by_cases hq : q' = q
    · subst hq
      simp only [upd, if_true]
      rw [List.nodup_append]
      refine ⟨hinv.C_nodup _, by simp, ?_⟩
      intro a ha hb
      simp at hb; subst hb; exact hcC _ ha
    · simp only [upd, hq, if_false]; exact hinv.C_nodup q'
  · intro q' g hg
    rw [hsize]
    by_cases hq : q' = q
    · subst hq
      simp only [upd, if_true, List.mem_append, List.mem_singleton] at hg
      rcases hg with hg | hg
      · have hgc : g ≠ c := fun e => hcC _ (e ▸ hg)
        have := hpost.e_fields g hgc
        have h0 := hinv.C_own _ g hg
        exact ⟨h0.1, by rw [this.1]; exact h0.2.1, by rw [this.2.1]; exact h0.2.2⟩
      · subst hg
        exact ⟨hcF.1, hpost.c_swapped, hpost.c_pid⟩
    · simp only [upd, hq, if_false] at hg
      have hgc : g ≠ c := fun e => hcC _ (e ▸ hg)
      have := hpost.e_fields g hgc
      have h0 := hinv.C_own _ g hg
      exact ⟨h0.1, by rw [this.1]; exact h0.2.1, by rw [this.2.1]; exact h0.2.2⟩
  · intro q'
    by_cases hq : q' = q
    · subst hq
      simp only [upd, if_true]
      by_cases h0 : p.n_chunks = 0
      · have hnil : C q' = [] := by
          have := hinv.C_len _ _ hp
          rw [h0] at this; exact List.length_eq_zero.mp this
        rw [hnil]
        apply Linked.single
        simp [SW.ch, hpost.c_chain]
      · have hne : C q' ≠ [] := by
          intro h; have := hinv.C_len _ _ hp; rw [h] at this; exact h0 this.symm
        obtain ⟨a, ha⟩ := exists_getLast?_of_ne_nil hne
        have hal : p.last_st_i = a := hinv.C_last _ _ a hp ha
        obtain ⟨l, hl⟩ := eq_append_of_getLast? ha
        have hlink := hinv.C_link q'
        have hnd := hinv.C_nodup q'
        rw [hl] at hlink hnd ⊢
        have haf : p.last_st_i ≠ c := by
          intro e; exact hcC q' (e ▸ hlast h0)
        have hll := hpost.l_link h0 haf
        rw [hal] at hll
        rw [List.append_assoc]
        apply Linked.snoc hlink
        · intro x hx
          have hxa : x ≠ p.last_st_i := by
            rw [hal]; intro e; subst e
            rw [List.nodup_append] at hnd
            exact hnd.2.2 hx (by simp)
          have hxc : x ≠ c := fun e => hcC q' (by rw [hl, ← e]; simp [hx])
          have := hpost.e_link x hxc (Or.inr hxa)
          simp [SW.ch, SW.nx, this.1, this.2]
        · simp [SW.ch, hll.1]
        · exact hll.2
        · simp [SW.ch, hpost.c_chain]
    · simp only [upd, hq, if_false]
      apply Linked.congr _ (hinv.C_link q')
      intro a ha
      have hac : a ≠ c := fun e => hcC _ (e ▸ ha)
      have hal : p.n_chunks = 0 ∨ a ≠ p.last_st_i := by
        by_cases h0 : p.n_chunks = 0
        · exact Or.inl h0
        · refine Or.inr (fun e => hq ?_)
          have h1 := (hinv.C_own q' a ha).2.2
          have h2 := (hinv.C_own q _ (hlast h0)).2.2
          rw [← e] at h2
          exact h1.symm.trans h2
      have := hpost.e_link a hac hal
      simp [SW.ch, SW.nx, this.1, this.2]
  · intro q'
    by_cases hq : q' = q
    · subst hq
      simp only [upd, if_true]
      by_cases h0 : p.n_chunks = 0
      · have hnil : C q' = [] := by
          have := hinv.C_len _ _ hp
          rw [h0] at this; exact List.length_eq_zero.mp this
        rw [hnil]
        trivial
      · have hne : C q' ≠ [] := by
          intro h; have := hinv.C_len _ _ hp; rw [h] at this; exact h0 this.symm
        obtain ⟨a, ha⟩ := exists_getLast?_of_ne_nil hne
        have hal : p.last_st_i = a := hinv.C_last _ _ a hp ha
        obtain ⟨l, hl⟩ := eq_append_of_getLast? ha
        have hprev := hinv.C_prev q'
        rw [hl] at hprev ⊢
        rw [List.append_assoc]
        apply PrevLinked.snoc_prev hprev
        · intro x hx
          have hxc : x ≠ c := fun e => hcC q' (by rw [hl, ← e]; exact hx)
          exact (hpost.e_fields x hxc).2.2.2
        · show (s'.ST.entries c).prev = a
          rw [hpost.c_prev h0, hal]
    · simp only [upd, hq, if_false]
      apply PrevLinked.congr_prev _ (hinv.C_prev q')
      intro a ha
      have hac : a ≠ c := fun e => hcC _ (e ▸ ha)
      exact (hpost.e_fields a hac).2.2.2
  · intro q' p' hq
    rw [hpost.procs] at hq
    by_cases hqc : q' = q
    · subst hqc
      simp only [upd, if_true, Option.some.injEq] at hq ⊢
      subst hq
      simp only [List.length_append, List.length_singleton]
      rw [hinv.C_len _ _ hp]
      have hle := hinv.n_chunks_lt hp
      have := hinv.size_lt
      simp only [List.length_cons] at hle
      simp only [U32] at *
      omega
    · simp only [upd, hqc, if_false] at hq ⊢
      exact hinv.C_len q' p' hq
  · intro q' p' a hq ha
    rw [hpost.procs] at hq
    by_cases hqc : q' = q
    · subst hqc
      simp only [upd, if_true, Option.some.injEq] at hq ha
      subst hq
      by_cases h0 : p.n_chunks = 0
      · have hnil : C q' = [] := by
          have := hinv.C_len _ _ hp
          rw [h0] at this; exact List.length_eq_zero.mp this
        rw [hnil] at ha
        simp at ha
        simp [h0, ha]
      · have hne : C q' ≠ [] := by
          intro h; have := hinv.C_len _ _ hp; rw [h] at this; exact h0 this.symm
        cases hc : C q' with
        | nil => exact absurd hc hne
        | cons b l =>
          rw [hc] at ha
          simp only [List.cons_append, List.head?_cons, Option.some.injEq] at ha
          subst ha
          simp only [h0, if_false]
          exact hinv.C_head _ _ b hp (by rw [hc]; rfl)
    · simp only [upd, hqc, if_false] at hq ha
      exact hinv.C_head q' p' a hq ha
  · intro q' p' a hq ha
    rw [hpost.procs] at hq
    by_cases hqc : q' = q
    · subst hqc
      simp only [upd, if_true, Option.some.injEq] at hq ha
      subst hq
      simp at ha
      simp [ha]
    · simp only [upd, hqc, if_false] at hq ha
      exact hinv.C_last q' p' a hq ha
  · intro q' hq
    rw [hpost.procs] at hq
    by_cases hqc : q' = q
    · subst hqc
      simp [upd] at hq
    · simp only [upd, hqc, if_false] at hq ⊢
      exact hinv.C_none q' hq
  · intro q' p' hq
    rw [hpost.procs] at hq
    by_cases hqc : q' = q
    · subst hqc
      exact hinv.pid_lt _ _ hp
    · simp only [upd, hqc, if_false] at hq
      exact hinv.pid_lt q' p' hq
  · intro j hj
    rw [hsize] at hj
    by_cases hjc : j = c
    · subst hjc
      constructor
      · intro h; exact absurd hpost.c_swapped h
      · intro _
        rw [hpost.c_pid]
        simp [upd]
    · have hf := hpost.e_fields j hjc
      have hc := hinv.cover j hj
      rw [hf.1, hf.2.1]
      constructor
      · intro h
        have := hc.1 h
        simp only [List.mem_cons] at this ⊢
        rcases this with h1 | h1
        · exact absurd h1 hjc
        · exact h1
      · intro h
        have := hc.2 h
        by_cases hq : SW.GET_PID (s.ST.entries j).hi = q
        · rw [hq] at this ⊢
          simp [upd, this]
        · simp only [upd, hq, if_false]; exact this

/-! ## Giving a chunk back to the free-chunk list -/

theorem SW_IS_FULL_false (st : swapTable) (h2 : st.first_free_chunk < st.size)
    (h : SW.IS_SWAPPED (st.entries st.first_free_chunk).hi ≠ 0) : SW.IS_FULL st = .ok false := by
  unfold SW.IS_FULL
  by_cases h1 : st.first_free_chunk = st.last_free_chunk
  · simp only [h1, if_true]
    rw [h1] at h2 h
    simp [eq_true h2, chk_true, bind_ok, pure_eq, h]
  · simp [h1, pure_eq]

theorem insert_into_free_chunk_list_spec (st : swapTable) (c : Nat)
    (h2 : st.first_free_chunk < st.size)
    (h : SW.IS_SWAPPED (st.entries st.first_free_chunk).hi ≠ 0)
    (hl : st.last_free_chunk < st.size) (hc : c < st.size) :
    ∃ st', insert_into_free_chunk_list st c = .ok st' ∧ ChunkFreePost st st' c := by
  simp only [insert_into_free_chunk_list, SW_IS_FULL_false st h2 h, bind_ok, eq_true hl,
    chk_true, eq_true hc, pure_eq, Bool.false_eq_true, if_false]
  refine ⟨_, rfl, ?_⟩
  generalize hle : st.last_free_chunk = l
  constructor <;> simp [upd, hle]
  · intro j
    rcases eq_or_ne j c with rfl | hjc
    · rcases eq_or_ne j l with rfl | hjl
      · simp
      · simp [hjl]
    · rcases eq_or_ne j l with rfl | hjl
      · simp [hjc]
      · simp [hjc, hjl]
  · intro j hjc hjl
    simp [hjc, hjl]
  · intro j hjc
    rcases eq_or_ne j l with rfl | hjl
    · simp [hjc]
    · simp [hjc, hjl]
  · intro hlc
    simp [hlc]

theorem head?_append_cons_ne (l1 : List Nat) (c : Nat) (l2 : List Nat) (a : Nat)
    (hnd : (l1 ++ c :: l2).Nodup) (hne : l1 ≠ []) (ha : (l1 ++ c :: l2).head? = some a) :
    a ≠ c := by
  cases l1 with
  | nil => exact absurd rfl hne
  | cons b l =>
    simp only [List.cons_append, List.head?_cons, Option.some.injEq] at ha
    subst ha
    intro e; subst e
    simp at hnd

theorem getLast?_append_cons_ne (l1 : List Nat) (c : Nat) (l2 : List Nat) (a : Nat)
    (hnd : (l1 ++ c :: l2).Nodup) (hne : l2 ≠ []) (ha : (l1 ++ c :: l2).getLast? = some a) :
    a ≠ c := by
  rw [getLast?_append_cons, getLast?_cons_ne_nil c hne] at ha
  have hm := getLast?_mem ha
  intro e; subst e
  rw [List.nodup_append] at hnd
  have := hnd.2.1
  simp at this
  exact this.1 hm

theorem delete_process_chunk_spec (s : Kernel) (c : Nat) (p : proc) (l1 l2 : List Nat)
    (hp : s.procs s.curproc = some p) (hc : c < s.ST.size)
    (hlen : (l1 ++ c :: l2).length = p.n_chunks) (hn32 : p.n_chunks < U32)
    (hnd : (l1 ++ c :: l2).Nodup)
    (hhead : ∀ a, (l1 ++ c :: l2).head? = some a → p.start_st_i = a)
    (hlast : ∀ a, (l1 ++ c :: l2).getLast? = some a → p.last_st_i = a)
    (hnext : ∀ g, l2.head? = some g → (s.ST.entries c).next = g ∧ g < s.ST.size)
    (hprev : ∀ i, l1.getLast? = some i → (s.ST.entries c).prev = i ∧ i < s.ST.size)
    (hch : l2 = [] → SW.HAS_CHAIN (s.ST.entries c).hi = 0) :
    ∃ s1, delete_process_chunk s c = .ok s1 ∧ ChunkUnlinkPost s s1 c s.curproc p l1 l2 := by
  have hcp := curthread_t_proc_eq s p hp
  rcases List.eq_nil_or_concat l1 with h1 | ⟨l', i, h1⟩
  · subst h1
    have hstart : p.start_st_i = c := hhead c rfl
    cases l2 with
    | nil =>
      have hn : p.n_chunks = 1 := by simpa using hlen.symm
      simp only [delete_process_chunk, hcp, bind_ok, eq_true hc, chk_true, hn, ne_eq,
        not_true_eq_false, if_false, pure_eq, setProc]
      refine ⟨_, rfl, ?_⟩
      constructor <;> simp [upd, U32]
      · intro j
        rcases eq_or_ne j c with rfl | hjc
        · simp
        · simp [hjc]
      · intro j hjc
        simp [hjc]
      · intro j
        rcases eq_or_ne j c with rfl | hjc
        · simp
        · simp [hjc]
      · intro q' hq'; simp [hq']
      · exact hn.symm
    | cons g l2 =>
      have hn : p.n_chunks ≠ 1 := by
        simp at hlen; omega
      obtain ⟨hg, hgs⟩ := hnext g rfl
      have hgc : g ≠ c := by
        intro e; subst e; simp at hnd
      simp only [delete_process_chunk, hcp, bind_ok, eq_true hc, chk_true, ne_eq, eq_false hn,
        not_false_eq_true, if_true, hstart, hg, eq_true hgs, pure_eq, setProc]
      refine ⟨_, rfl, ?_⟩
      constructor <;> simp [upd, hgc, hgc.symm]
      · intro j
        rcases eq_or_ne j g with rfl | hjg
        · simp [hgc]
        · rcases eq_or_ne j c with rfl | hjc
          · simp [hjg]
          · simp [hjg, hjc]
      · intro j hjc
        rcases eq_or_ne j g with rfl | hjg
        · simp [hgc]
        · simp [hjg, hjc]
      · intro j hjg
        have : j ≠ g := fun e => hjg e.symm
        rcases eq_or_ne j c with rfl | hjc
        · simp [this]
        · simp [this, hjc]
      · intro q' hq'; simp [hq']
      · refine ⟨?_, ?_⟩
        · simp only [U32] at *; simp at hlen; omega
        · intro a ha
          apply hlast
          simp [List.getLast?_cons_cons, ha]
  · rw [List.concat_eq_append] at h1
    subst h1
    have hne1 : l' ++ [i] ≠ [] := by simp
    obtain ⟨a, ha⟩ : ∃ a, (l' ++ [i] ++ c :: l2).head? = some a := by
      cases l' <;> simp
    have hstart : p.start_st_i = a := hhead a ha
    have hac : a ≠ c := head?_append_cons_ne _ _ _ _ hnd hne1 ha
    have hsc := hstart ▸ hac
    have hn : p.n_chunks ≠ 1 := by
      simp at hlen; omega
    obtain ⟨hi, his⟩ := hprev i (by simp)
    have hic : i ≠ c := by
      intro e; subst e
      simp [List.nodup_append] at hnd
    cases l2 with
    | nil =>
      have hlastc : p.last_st_i = c := hlast c (by simp)
      have hch0 := hch rfl
      simp only [delete_process_chunk, hcp, bind_ok, eq_true hc, chk_true, ne_eq, eq_false hn,
        not_false_eq_true, if_true, eq_false hsc, if_false, hlastc, hi, eq_true his, pure_eq,
        setProc]
      refine ⟨_, rfl, ?_⟩
      constructor <;> simp [upd, hic, hic.symm, hch0]
      · intro j
        rcases eq_or_ne j c with rfl | hjc
        · simp [hic.symm]
        · rcases eq_or_ne j i with rfl | hji
          · simp [hjc]
          · simp [hji, hjc]
      · intro j hjc hji
        have : j ≠ i := fun e => hji e.symm
        simp [this, hjc]
      · intro j
        rcases eq_or_ne j c with rfl | hjc
        · simp [hic.symm]
        · rcases eq_or_ne j i with rfl | hji
          · simp [hjc]
          · simp [hji, hjc]
      · intro q' hq'; simp [hq']
      · refine ⟨?_, ?_⟩
        · simp only [U32] at *; simp at hlen; omega
        · intro b hb
          apply hhead
          cases l' <;> simpa using hb
    | cons g l2 =>
      obtain ⟨b, hb⟩ : ∃ b, (l' ++ [i] ++ c :: g :: l2).getLast? = some b :=
        exists_getLast?_of_ne_nil (by simp)
      have hlastb : p.last_st_i = b := hlast b hb
      have hbc : b ≠ c := getLast?_append_cons_ne _ _ _ _ hnd (by simp) hb
      have hlc := hlastb ▸ hbc
      obtain ⟨hg, hgs⟩ := hnext g rfl
      have hgc : g ≠ c := by
        intro e; subst e
        simp [List.nodup_append] at hnd
      have hgi : g ≠ i := by
        intro e; subst e
        simp [List.nodup_append] at hnd
      simp only [delete_process_chunk, hcp, bind_ok, eq_true hc, chk_true, ne_eq, eq_false hn,
        not_false_eq_true, if_true, eq_false hsc, if_false, eq_false hlc, hi, eq_true his,
        pure_eq, setProc, upd, eq_false hic.symm, hg, eq_true hgs]
      refine ⟨_, rfl, ?_⟩
      constructor <;> simp [upd, hic, hic.symm, hgc, hgc.symm, hgi, hgi.symm]
      · intro j
        rcases eq_or_ne j c with rfl | hjc
        · simp [hic.symm, hgc.symm]
        · rcases eq_or_ne j i with rfl | hji
          · simp [hjc, hgi.symm]
          · rcases eq_or_ne j g with rfl | hjg
            · simp [hjc, hji]
            · simp [hji, hjc, hjg]
      · intro j hjc hji
        have : j ≠ i := fun e => hji e.symm
        rcases eq_or_ne j g with rfl | hjg
        · simp [hjc, this]
        · simp [this, hjc, hjg]
      · intro j hjg
        have : j ≠ g := fun e => hjg e.symm
        rcases eq_or_ne j c with rfl | hjc
        · simp [this]
        · rcases eq_or_ne j i with rfl | hji
          · simp [hjc, this]
          · simp [hji, hjc, this]
      · intro q' hq'; simp [hq']
      · refine ⟨?_, ?_, ?_⟩
        · simp only [U32] at *; simp at hlen; omega
        · intro b hb
          apply hhead
          cases l' <;> simpa using hb
        · intro b' hb'
          apply hlast
          have e1 : (l' ++ [i] ++ c :: g :: l2).getLast? = (g :: l2).getLast? := by
            rw [getLast?_append_cons, getLast?_cons_ne_nil c (by simp)]
          have e2 : (l' ++ [i] ++ g :: l2).getLast? = (g :: l2).getLast? :=
            getLast?_append_cons _ g l2
          rw [e1, ← e2]; simpa using hb'

theorem Linked.next_of_mem {ch : Nat → Bool} {nx : Nat → Nat} {l1 l2 : List Nat} {c g : Nat}
    (h : Linked ch nx (l1 ++ c :: g :: l2)) : ch c = true ∧ nx c = g :=
  Linked.head_step (Linked.suffix l1 _ h)

theorem swapin_spec (s : Kernel) (F : List Nat) (C : Nat → List Nat) (c paddr : Nat)
    (l1 l2 : List Nat) (p : proc) (hinv : SWInv s F C) (hp : s.procs s.curproc = some p)
    (hC : C s.curproc = l1 ++ c :: l2) :
    ∃ s', swapin s c paddr = .ok s' ∧ ReleasePost s s' c s.curproc p F l1 l2 ∧
      s'.curproc = s.curproc ∧ s'.disk = s.disk ∧ s'.stats = s.stats ∧
      s'.ram = page_from_disk s.ram s.disk (PADDR_TO_KVADDR (paddr &&& PAGE_FRAME))
        ((c * PAGE_SIZE) % U32) := by
  have hlen := hinv.C_len _ _ hp
  have hnd := hinv.C_nodup s.curproc
  have hlink := hinv.C_link s.curproc
  have hprevl := hinv.C_prev s.curproc
  have hhead := fun a => hinv.C_head s.curproc p a hp
  have hlast := fun a => hinv.C_last s.curproc p a hp
  have hown := hinv.C_own s.curproc
  rw [hC] at hlen hnd hlink hprevl hhead hlast hown
  have hc : c < s.ST.size := (hown c (by simp)).1
  have hcsw : SW.IS_SWAPPED (s.ST.entries c).hi = 0 := (hown c (by simp)).2.1
  have hn32 : p.n_chunks < U32 := by
    have := hinv.n_chunks_lt hp
    have := hinv.size_lt
    omega
  -- the free list
  obtain ⟨f0, hf0⟩ : ∃ a, F.head? = some a := by
    cases hF : F with
    | nil => exact absurd hF hinv.F_ne
    | cons a l => exact ⟨a, rfl⟩
  obtain ⟨lf, hlf⟩ := exists_getLast?_of_ne_nil hinv.F_ne
  have hf0F : f0 ∈ F := by
    cases hF : F with
    | nil => exact absurd hF hinv.F_ne
    | cons a l => rw [hF] at hf0; simp at hf0; subst hf0; simp
  have hlfF : lf ∈ F := getLast?_mem hlf
  have hfirst : s.ST.first_free_chunk = f0 := hinv.F_head f0 hf0
  have hlastf : s.ST.last_free_chunk = lf := hinv.F_last lf hlf
  have hf0c : f0 ≠ c := by
    intro e; subst e; exact (hinv.F_free _ hf0F).2 hcsw
  have hlfc : lf ≠ c := by
    intro e; subst e; exact (hinv.F_free _ hlfF).2 hcsw
  -- the state after the mark
  obtain ⟨s1, h1, post1⟩ := delete_process_chunk_spec
    { s with
      ST := { s.ST with
        entries := upd s.ST.entries c
          (STE.mk (SW.SET_SWAPPED (s.ST.entries c).hi 1) (s.ST.entries c).next
            (s.ST.entries c).prev) },
      ram := page_from_disk s.ram s.disk (PADDR_TO_KVADDR (paddr &&& PAGE_FRAME))
        ((c * PAGE_SIZE) % U32) } c p l1 l2 hp hc hlen hn32 hnd hhead hlast
    (by
      intro g hg
      cases l2 with
      | nil => simp at hg
      | cons g' l2 =>
        simp at hg; subst hg
        have := Linked.next_of_mem hlink
        simp only [SW.nx] at this
        simp only [upd, if_true]
        exact ⟨this.2, (hown g' (by simp)).1⟩)
    (by
      intro i hi
      obtain ⟨l', hl'⟩ := eq_append_of_getLast? hi
      subst hl'
      rw [List.append_assoc] at hprevl
      have := PrevLinked.pred hprevl
      simp only [SW.pv] at this
      simp only [upd, if_true]
      exact ⟨this, (hown i (by simp)).1⟩)
    (by
      intro h2; subst h2
      have := hlink.2 c (by simp)
      simp only [SW.ch, decide_eq_false_iff_not, ne_eq, not_not] at this
      simp [upd, this])
  have hs1first : s1.ST.first_free_chunk = f0 := by rw [post1.first]; exact hfirst
  have hs1last : s1.ST.last_free_chunk = lf := by rw [post1.last]; exact hlastf
  have hs1size : s1.ST.size = s.ST.size := post1.size
  obtain ⟨st', h2, post2⟩ := insert_into_free_chunk_list_spec s1.ST c
    (by rw [hs1first, hs1size]; exact (hinv.F_free _ hf0F).1)
    (by
      rw [hs1first, (post1.e_fields f0).1]
      simp only [upd, hf0c, if_false]
      exact (hinv.F_free _ hf0F).2)
    (by rw [hs1last, hs1size]; exact (hinv.F_free _ hlfF).1)
    (by rw [hs1size]; exact hc)
  refine ⟨{ s1 with ST := st' }, ?_, ?_, ?_, ?_, ?_, ?_⟩
  rotate_left 2
  · show s1.curproc = _
    rw [post1.curproc]
  · show s1.disk = _
    rw [post1.disk]
  · show s1.stats = _
    rw [post1.stats]
  · show s1.ram = _
    rw [post1.ram]
  · simp only [swapin, eq_true hc, chk_true, bind_ok]
    rw [h1, bind_ok, h2, bind_ok, pure_eq]
  · have hm : ∀ j, j ≠ c →
        (upd s.ST.entries c
          (STE.mk (SW.SET_SWAPPED (s.ST.entries c).hi 1) (s.ST.entries c).next
            (s.ST.entries c).prev)) j = s.ST.entries j := fun j hj => by simp [upd, hj]
    constructor
    · show st'.size = _
      rw [post2.size, hs1size]
    · show st'.first_free_chunk = _
      rw [post2.first, post1.first]
    · exact post2.last
    · show SW.IS_SWAPPED (st'.entries c).hi ≠ 0
      rw [(post2.e_fields c).1, (post1.e_fields c).1]
      simp [upd]
    · exact post2.c_chain
    · show SW.GET_PID (st'.entries c).hi = _
      rw [(post2.e_fields c).2.1, (post1.e_fields c).2.1]
      simp [upd]
    · show SW.GET_PN (st'.entries c).hi = _
      rw [(post2.e_fields c).2.2, (post1.e_fields c).2.2]
      simp [upd]
    · intro j hj
      show SW.IS_SWAPPED (st'.entries j).hi = _ ∧ SW.GET_PID (st'.entries j).hi = _ ∧
        SW.GET_PN (st'.entries j).hi = _
      rw [(post2.e_fields j).1, (post1.e_fields j).1, (post2.e_fields j).2.1,
        (post1.e_fields j).2.1, (post2.e_fields j).2.2, (post1.e_fields j).2.2]
      simp [upd, hj]
    · intro j hj hjF hjl
      have hjlf : j ≠ s1.ST.last_free_chunk := by
        rw [hs1last]; intro e; subst e; exact hjF hlf
      have a1 := post2.e_link j hj hjlf
      have a2 := post1.e_link j hj hjl
      show SW.HAS_CHAIN (st'.entries j).hi = _ ∧ (st'.entries j).next = _
      rw [a1.1, a1.2, a2.1, a2.2]
      simp [upd, hj]
    · intro j hj hjg
      show (st'.entries j).prev = _
      rw [post2.e_prev j hj, post1.e_prev j hjg]
      simp only [upd, hj, if_false]
    · intro a ha
      have : a = lf := by rw [hlf] at ha; exact (Option.some.inj ha).symm
      subst this
      have := post2.free_last (by rw [hs1last]; exact hlfc)
      rw [hs1last] at this
      exact this
    · intro i hi hl2
      have hic : i ≠ c := by
        intro e; subst e
        have := getLast?_mem hi
        rw [List.nodup_append] at hnd
        exact hnd.2.2 this (by simp)
      have hilf : i ≠ s1.ST.last_free_chunk := by
        rw [hs1last]; intro e; subst e
        have h0 := (hown i (by simp [getLast?_mem hi])).2.1
        exact (hinv.F_free _ hlfF).2 h0
      show SW.HAS_CHAIN (st'.entries i).hi = 0
      rw [(post2.e_link i hic hilf).1]
      exact post1.pred_last i hi hl2
    · intro i g hi hg
      have hic : i ≠ c := by
        intro e; subst e
        have := getLast?_mem hi
        rw [List.nodup_append] at hnd
        exact hnd.2.2 this (by simp)
      have hilf : i ≠ s1.ST.last_free_chunk := by
        rw [hs1last]; intro e; subst e
        have h0 := (hown i (by simp [getLast?_mem hi])).2.1
        exact (hinv.F_free _ hlfF).2 h0
      have hgm : g ∈ l2 := by
        cases l2 with
        | nil => simp at hg
        | cons g' l2 => simp at hg; subst hg; simp
      have hgc : g ≠ c := by
        intro e; subst e
        rw [List.nodup_append] at hnd
        have := hnd.2.1
        simp at this
        exact this.1 hgm
      have pm := post1.pred_mid i g hi hg
      have hich : SW.HAS_CHAIN (s.ST.entries i).hi ≠ 0 := by
        obtain ⟨l', hl'⟩ := eq_append_of_getLast? hi
        subst hl'
        rw [List.append_assoc] at hlink
        have := (Linked.next_of_mem hlink).1
        simpa [SW.ch] using this
      show SW.HAS_CHAIN (st'.entries i).hi ≠ 0 ∧ (st'.entries i).next = g ∧
        (st'.entries g).prev = i
      rw [(post2.e_link i hic hilf).1, (post2.e_link i hic hilf).2, post2.e_prev g hgc, pm.1]
      simp only [upd, hic, if_false]
      exact ⟨hich, pm.2.1, pm.2.2⟩
    · exact post1.procs_other
    · exact post1.procs_q
    · exact post1.ipt

theorem SWInv_release (s s' : Kernel) (F : List Nat) (C : Nat → List Nat) (c q : Nat)
    (l1 l2 : List Nat) (p : proc) (hinv : SWInv s F C) (hC : C q = l1 ++ c :: l2)
    (hp : s.procs q = some p) (hpost : ReleasePost s s' c q p F l1 l2) :
    SWInv s' (F ++ [c]) (upd C q (l1 ++ l2)) := by
  have hcC : c ∈ C q := by rw [hC]; simp
  have hco := hinv.C_own _ c hcC
  have hcF : c ∉ F := fun h => (hinv.F_free c h).2 hco.2.1
  have hnd := hinv.C_nodup q
  rw [hC] at hnd
  have hndq : (l1 ++ l2).Nodup := by
    have : (l1 ++ l2).Sublist (l1 ++ c :: l2) :=
      List.Sublist.append (List.Sublist.refl l1) (List.sublist_cons_self c l2)
    exact List.Nodup.sublist this hnd
  have hcl : c ∉ l1 ++ l2 := by
    intro h
    rw [List.nodup_append] at hnd
    simp only [List.mem_append] at h
    rcases h with h | h
    · exact hnd.2.2 h (by simp)
    · exact (List.nodup_cons.mp hnd.2.1).1 h
  have hsub : ∀ x ∈ l1 ++ l2, x ∈ C q := by
    intro x hx; rw [hC]; simp at hx ⊢; tauto
  have hfld : ∀ j, j ≠ c →
      SW.IS_SWAPPED (s'.ST.entries j).hi = SW.IS_SWAPPED (s.ST.entries j).hi ∧
      SW.GET_PID (s'.ST.entries j).hi = SW.GET_PID (s.ST.entries j).hi :=
    fun j hj => ⟨(hpost.e_fields j hj).1, (hpost.e_fields j hj).2.1⟩
  -- in-use chunks are not the last free chunk
  have hnotF : ∀ x, SW.IS_SWAPPED (s.ST.entries x).hi = 0 → F.getLast? ≠ some x := by
    intro x h0 h
    exact (hinv.F_free x (getLast?_mem h)).2 h0
  have hnotl1 : ∀ x q', q' ≠ q → x ∈ C q' → l1.getLast? ≠ some x := by
    intro x q' hq' hx h
    have := hinv.C_own q x (by rw [hC]; simp [getLast?_mem h])
    exact hq' ((hinv.C_own q' x hx).2.2.symm.trans this.2.2)
  have hnotl2 : ∀ x q', q' ≠ q → x ∈ C q' → l2.head? ≠ some x := by
    intro x q' hq' hx h
    have hm : x ∈ l2 := by
      cases l2 with
      | nil => simp at h
      | cons g l2 => simp at h; subst h; simp
    have := hinv.C_own q x (by rw [hC]; simp [hm])
    exact hq' ((hinv.C_own q' x hx).2.2.symm.trans this.2.2)
  have hsize := hpost.size
  obtain ⟨a, ha⟩ := exists_getLast?_of_ne_nil hinv.F_ne
  obtain ⟨lF, hlF⟩ := eq_append_of_getLast? ha
  constructor
  · rw [hsize]; exact hinv.size_lt
  · simp
  · rw [List.nodup_append]
    refine ⟨hinv.F_nodup, by simp, ?_⟩
    intro a ha hb
    simp at hb; subst hb; exact hcF ha
  · intro g hg
    rw [hsize]
    simp only [List.mem_append, List.mem_singleton] at hg
    rcases hg with hg | hg
    · have := hinv.F_free g hg
      rw [(hfld g (fun e => hcF (e ▸ hg))).1]
      exact this
    · subst hg; exact ⟨hco.1, hpost.c_swapped⟩
  · have hlink := hinv.F_link
    have hFnd := hinv.F_nodup
    have hfl := hpost.free_last a ha
    rw [hlF] at hlink hFnd ⊢
    rw [List.append_assoc]
    apply Linked.snoc hlink
    · intro x hx
      have hxF : x ∈ F := by rw [hlF]; simp [hx]
      have hxa : x ≠ a := by
        intro e; subst e
        rw [List.nodup_append] at hFnd
        exact hFnd.2.2 hx (by simp)
      have := hpost.e_link x (fun e => hcF (e ▸ hxF)) (by rw [ha]; simpa using hxa.symm)
        (by
          intro h
          have := hinv.C_own q x (by rw [hC]; simp [getLast?_mem h])
          exact (hinv.F_free x hxF).2 this.2.1)
      simp [SW.ch, SW.nx, this.1, this.2]
    · simp [SW.ch, hfl.1]
    · exact hfl.2
    · simp [SW.ch, hpost.c_chain]
  · intro b hb
    rw [hpost.first]
    apply hinv.F_head
    cases hF : F with
    | nil => exact absurd hF hinv.F_ne
    | cons b' F' => rw [hF] at hb; simpa using hb
  · intro b hb
    rw [hpost.last]
    simpa using hb
  · intro q'
    by_cases hq' : q' = q
    · subst hq'; simp only [upd, if_true]; exact hndq
    · simp only [upd, hq', if_false]; exact hinv.C_nodup q'
  · intro q' g hg
    rw [hsize]
    by_cases hq' : q' = q
    · subst hq'
      simp only [upd, if_true] at hg
      have hgc : g ≠ c := fun e => hcl (e ▸ hg)
      have := hinv.C_own _ g (hsub g hg)
      rw [(hfld g hgc).1, (hfld g hgc).2]
      exact this
    · simp only [upd, hq', if_false] at hg
      have := hinv.C_own q' g hg
      have hgc : g ≠ c := by
        intro e; subst e; exact hq' (this.2.2.symm.trans hco.2.2)
      rw [(hfld g hgc).1, (hfld g hgc).2]
      exact this
  · intro q'
    by_cases hq' : q' = q
    · subst hq'
      simp only [upd, if_true]
      have hlink := hinv.C_link q'
      rw [hC] at hlink
      have hkeep : ∀ x ∈ l1 ++ l2, l1.getLast? ≠ some x →
          SW.ch s'.ST.entries x = SW.ch s.ST.entries x ∧
          SW.nx s'.ST.entries x = SW.nx s.ST.entries x := by
        intro x hx h3
        have := hpost.e_link x (fun e => hcl (e ▸ hx))
          (hnotF x (hinv.C_own _ x (hsub x hx)).2.1) h3
        simp [SW.ch, SW.nx, this.1, this.2]
      by_cases hl1 : l1 = []
      · subst hl1
        simp only [List.nil_append] at hlink hkeep ⊢
        exact Linked.congr (fun x hx => hkeep x hx (by simp)) (Linked.tail hlink)
      · obtain ⟨i, hi⟩ := exists_getLast?_of_ne_nil hl1
        obtain ⟨l, hl⟩ := eq_append_of_getLast? hi
        subst hl
        have hil : ∀ x ∈ l, (l ++ [i]).getLast? ≠ some x := by
          intro x hx
          rw [List.getLast?_concat]
          intro e
          have e' : i = x := Option.some.inj e
          subst e'
          rw [List.append_assoc, List.nodup_append] at hnd
          exact hnd.2.2 hx (by simp)
        cases l2 with
        | nil =>
          simp only [List.append_nil] at hkeep ⊢
          rw [List.append_assoc] at hlink
          apply Linked.drop_last hlink
          · intro x hx
            exact hkeep x (by simp [hx]) (hil x hx)
          · have := hpost.pred_last i hi rfl
            simp [SW.ch, this]
        | cons g l2 =>
          rw [List.append_assoc] at hlink ⊢
          simp only [List.singleton_append] at hlink ⊢
          have hpm := hpost.pred_mid i g hi rfl
          apply Linked.drop_mid hlink
          · intro x hx
            apply hkeep x (by simp at hx ⊢; tauto)
            simp only [List.mem_append, List.mem_cons] at hx
            rcases hx with hx | hx
            · exact hil x hx
            · rw [List.getLast?_concat]
              intro e
              have e' : i = x := Option.some.inj e
              subst e'
              rw [List.append_assoc, List.nodup_append] at hnd
              have := hnd.2.1
              simp at this
              tauto
          · simp [SW.ch, hpm.1]
          · exact hpm.2.1
    · simp only [upd, hq', if_false]
      apply Linked.congr _ (hinv.C_link q')
      intro x hx
      have hxo := hinv.C_own q' x hx
      have hxc : x ≠ c := by
        intro e; subst e; exact hq' (hxo.2.2.symm.trans hco.2.2)
      have := hpost.e_link x hxc (hnotF x hxo.2.1) (hnotl1 x q' hq' hx)
      simp [SW.ch, SW.nx, this.1, this.2]
  · intro q'
    by_cases hq' : q' = q
    · subst hq'
      simp only [upd, if_true]
      have hprev := hinv.C_prev q'
      rw [hC] at hprev
      have hkeep : ∀ x ∈ l1 ++ l2, l2.head? ≠ some x →
          SW.pv s'.ST.entries x = SW.pv s.ST.entries x := by
        intro x hx h3
        exact hpost.e_prev x (fun e => hcl (e ▸ hx)) h3
      by_cases hl1 : l1 = []
      · subst hl1
        simp only [List.nil_append] at hprev hkeep hnd ⊢
        cases l2 with
        | nil => trivial
        | cons g l2 =>
          apply PrevLinked.congr_rest _ (PrevLinked.tail_prev hprev)
          intro x hx
          apply hkeep x (by simp [hx])
          simp only [List.head?_cons, ne_eq, Option.some.injEq]
          intro e; subst e
          have := (List.nodup_cons.mp hnd).2
          exact (List.nodup_cons.mp this).1 hx
      · obtain ⟨i, hi⟩ := exists_getLast?_of_ne_nil hl1
        obtain ⟨l, hl⟩ := eq_append_of_getLast? hi
        subst hl
        cases l2 with
        | nil =>
          simp only [List.append_nil] at hkeep ⊢
          rw [List.append_assoc] at hprev
          apply PrevLinked.drop_last_prev hprev
          intro x hx
          exact hkeep x hx (by simp)
        | cons g l2 =>
          rw [List.append_assoc] at hprev ⊢
          simp only [List.singleton_append] at hprev ⊢
          have hpm := hpost.pred_mid i g hi rfl
          apply PrevLinked.drop_mid_prev hprev
          · intro x hx
            apply hkeep x (by simp at hx ⊢; tauto)
            simp only [List.head?_cons, ne_eq, Option.some.injEq]
            intro e; subst e
            rw [List.append_assoc, List.nodup_append] at hnd
            have h1 := hnd.2.1
            have h2 := hnd.2.2
            simp at h1 h2 hx
            rcases hx with hx | hx | hx
            · exact h2.2.2.1 hx
            · exact h1.1.2.1 hx.symm
            · exact h1.2.2.1 hx
          · exact hpm.2.2
    · simp only [upd, hq', if_false]
      apply PrevLinked.congr_prev _ (hinv.C_prev q')
      intro x hx
      have hxo := hinv.C_own q' x hx
      have hxc : x ≠ c := by
        intro e; subst e; exact hq' (hxo.2.2.symm.trans hco.2.2)
      exact hpost.e_prev x hxc (hnotl2 x q' hq' hx)
  · intro q' p' hp'
    by_cases hq' : q' = q
    · subst hq'
      simp only [upd, if_true]
      obtain ⟨p2, h1, h2, _⟩ := hpost.procs_q
      rw [h1] at hp'
      have e : p2 = p' := Option.some.inj hp'
      subst e
      have := hinv.C_len _ _ hp
      rw [hC] at this
      simp at this ⊢
      omega
    · simp only [upd, hq', if_false]
      rw [hpost.procs_other q' hq'] at hp'
      exact hinv.C_len q' p' hp'
  · intro q' p' a hp' ha
    by_cases hq' : q' = q
    · subst hq'
      simp only [upd, if_true] at ha
      obtain ⟨p2, h1, _, _, _, _, h6, _⟩ := hpost.procs_q
      rw [h1] at hp'
      have e : p2 = p' := Option.some.inj hp'
      subst e
      exact h6 a ha
    · simp only [upd, hq', if_false] at ha
      rw [hpost.procs_other q' hq'] at hp'
      exact hinv.C_head q' p' a hp' ha
  · intro q' p' a hp' ha
    by_cases hq' : q' = q
    · subst hq'
      simp only [upd, if_true] at ha
      obtain ⟨p2, h1, _, _, _, _, _, h7⟩ := hpost.procs_q
      rw [h1] at hp'
      have e : p2 = p' := Option.some.inj hp'
      subst e
      exact h7 a ha
    · simp only [upd, hq', if_false] at ha
      rw [hpost.procs_other q' hq'] at hp'
      exact hinv.C_last q' p' a hp' ha
  · intro q' hp'
    by_cases hq' : q' = q
    · subst hq'
      obtain ⟨p2, h1, _⟩ := hpost.procs_q
      rw [h1] at hp'; simp at hp'
    · simp only [upd, hq', if_false]
      rw [hpost.procs_other q' hq'] at hp'
      exact hinv.C_none q' hp'
  · intro q' p' hp'
    by_cases hq' : q' = q
    · subst hq'; exact hinv.pid_lt _ _ hp
    · rw [hpost.procs_other q' hq'] at hp'
      exact hinv.pid_lt q' p' hp'
  · intro j hj
    rw [hsize] at hj
    by_cases hjc : j = c
    · subst hjc
      constructor
      · intro _; simp
      · intro h; exact absurd h hpost.c_swapped
    · rw [(hfld j hjc).1, (hfld j hjc).2]
      have hc := hinv.cover j hj
      constructor
      · intro h; simp [hc.1 h]
      · intro h
        have := hc.2 h
        by_cases hq' : SW.GET_PID (s.ST.entries j).hi = q
        · rw [hq'] at this ⊢
          simp only [upd, if_true]
          rw [hC] at this
          simp at this ⊢
          tauto
        · simp only [upd, hq', if_false]; exact this

/-! ## The partition invariant of the swap table -/

theorem SWInv.freeChunkChain_eq {s : Kernel} {F : List Nat} {C : Nat → List Nat}
    (hinv : SWInv s F C) : freeChunkChain s.ST = F := by
  unfold freeChunkChain
  cases hF : F with
  | nil => exact absurd hF hinv.F_ne
  | cons a l =>
    have h1 := hinv.F_head a (by rw [hF]; rfl)
    have h2 := hinv.F_free a (by rw [hF]; simp)
    rw [if_neg (by rw [h1]; intro h; exact h2.2 h.2), h1]
    have hl := hinv.F_link
    have hn := hinv.F_nodup
    have ho := hinv.F_free
    rw [hF] at hl hn ho
    exact walk_of_linked l a _ hl (nodup_bounded_length _ _ hn (fun x hx => (ho x hx).1))

theorem SWInv.procChunkChain_eq {s : Kernel} {F : List Nat} {C : Nat → List Nat}
    (hinv : SWInv s F C) {q : Nat} {p : proc} (hp : s.procs q = some p) :
    procChunkChain s.ST p = C q := by
  unfold procChunkChain
  have hlen := hinv.C_len q p hp
  cases hc : C q with
  | nil =>
    rw [hc] at hlen
    have h0 : p.n_chunks = 0 := hlen.symm
    rw [if_pos h0]
  | cons a l =>
    rw [hc] at hlen
    have h0 : p.n_chunks ≠ 0 := by rw [← hlen]; simp
    rw [if_neg h0, hinv.C_head q p a hp (by rw [hc]; rfl)]
    have hl := hinv.C_link q
    have hn := hinv.C_nodup q
    have ho := hinv.C_own q
    rw [hc] at hl hn ho
    exact walk_of_linked l a _ hl (nodup_bounded_length _ _ hn (fun x hx => (ho x hx).1))

theorem SWInv.ownerChunkChain_eq {s : Kernel} {F : List Nat} {C : Nat → List Nat}
    (hinv : SWInv s F C) (c : Nat) :
    ownerChunkChain s c = C (SW.GET_PID (s.ST.entries c).hi) := by
  unfold ownerChunkChain
  cases hq : s.procs (SW.GET_PID (s.ST.entries c).hi) with
  | none => simp only; exact (hinv.C_none _ hq).symm
  | some p => simp only; exact hinv.procChunkChain_eq hq

theorem SWInv.chunk_partition {s : Kernel} {F : List Nat} {C : Nat → List Nat}
    (hinv : SWInv s F C) : SWPartition s := by
  refine ⟨?_, ?_, ?_, ?_⟩
  · rw [hinv.freeChunkChain_eq]; exact hinv.F_nodup
  · rw [hinv.freeChunkChain_eq]; intro a ha; exact (hinv.F_last a ha).symm
  · intro c hc
    rw [hinv.freeChunkChain_eq, hinv.ownerChunkChain_eq]
    have hcv := hinv.cover c hc
    refine ⟨⟨fun h => (hinv.F_free c h).2, hcv.1⟩, ⟨?_, ?_⟩, hcv.2⟩
    · intro h hm
      exact (hinv.F_free c h).2 (hinv.C_own _ c hm).2.1
    · intro h
      apply hcv.1
      intro hv
      exact h (hcv.2 hv)
  · intro q p hp
    rw [hinv.procChunkChain_eq hp]
    exact ⟨hinv.C_nodup q, (hinv.C_len q p hp).symm⟩

theorem SWInv_curproc (s : Kernel) (q : Nat) (F : List Nat) (C : Nat → List Nat)
    (hinv : SWInv s F C) : SWInv { s with curproc := q } F C :=
  ⟨hinv.size_lt, hinv.F_ne, hinv.F_nodup, hinv.F_free, hinv.F_link, hinv.F_head, hinv.F_last,
    hinv.C_nodup, hinv.C_own, hinv.C_link, hinv.C_prev, hinv.C_len, hinv.C_head, hinv.C_last,
    hinv.C_none, hinv.pid_lt, hinv.cover⟩

theorem SWInv.first_free {s : Kernel} {F : List Nat} {C : Nat → List Nat} {c : Nat}
    (hinv : SWInv s (c :: F) C) : getFirstFreeChunckIndex s.ST = .ok c := by
  have h1 := hinv.F_head c rfl
  have h2 := hinv.F_free c (by simp)
  simp only [getFirstFreeChunckIndex,
    SW_IS_FULL_false s.ST (by rw [h1]; exact h2.1) (by rw [h1]; exact h2.2), bind_ok]
  simp [pure_eq, h1]

/-- A `swapout` on the head of the free list, by an existing process for itself: it
returns when the free list has a second chunk, and then the table stays well formed; when
the head is the only free chunk, no chunk is free after a call that returns. -/
theorem swapout_inv (s : Kernel) (F : List Nat) (C : Nat → List Nat) (c paddr vpn : Nat)
    (inv : Bool) (p : proc) (hinv : SWInv s (c :: F) C) (hp : s.procs s.curproc = some p) :
    (∀ d F', F = d :: F' →
      ∃ s', swapout s c paddr vpn s.curproc inv = .ok s' ∧
        TakePost s s' c s.curproc p s.curproc vpn ∧
        SWInv s' (d :: F') (upd C s.curproc (C s.curproc ++ [c])) ∧
        s'.curproc = s.curproc ∧ s'.ram = s.ram ∧ s'.stats = s.stats ∧
        s'.disk = page_to_disk s.ram s.disk (PADDR_TO_KVADDR (paddr &&& PAGE_FRAME))
          ((c * PAGE_SIZE) % U32)) ∧
    (F = [] → ∀ s', swapout s c paddr vpn s.curproc inv = .ok s' →
      ∀ c', c' < s'.ST.size → SW.IS_SWAPPED (s'.ST.entries c').hi = 0) := by
  have hfirst := hinv.F_head c rfl
  have hc := hinv.F_free c (by simp)
  have hl : p.n_chunks ≠ 0 → p.last_st_i < s.ST.size :=
    fun h0 => (hinv.C_own _ _ (hinv.last_chunk_mem hp h0)).1
  have hpid := hinv.pid_lt _ _ hp
  have hspec := swapout_spec s c paddr vpn s.curproc inv p hp hfirst hc.1 hl hpid
  constructor
  · intro d F' hF
    subst hF
    have hstep := Linked.head_step hinv.F_link
    have hd := hinv.F_free d (by simp)
    have hx : (s.ST.entries c).next < s.ST.size := by
      have := hstep.2; simp only [SW.nx] at this; rw [this]; exact hd.1
    obtain ⟨s', h1, hpost, h3⟩ := hspec.1 hx
    exact ⟨s', h1, hpost, SWInv_take s s' F' C c d s.curproc vpn p hinv hp hpost, h3⟩
  · intro hF s' hs' c' hc'
    subst hF
    by_cases hx : (s.ST.entries c).next < s.ST.size
    · obtain ⟨s'', h1, hpost, _⟩ := hspec.1 hx
      rw [h1] at hs'
      have e : s'' = s' := Except.ok.inj hs'
      subst e
      by_cases hcc : c' = c
      · subst hcc; exact hpost.c_swapped
      · rw [(hpost.e_fields c' hcc).1]
        rw [hpost.size] at hc'
        by_contra hne
        have := (hinv.cover c' hc').1 hne
        simp at this
        exact hcc this
    · rw [hspec.2 hx] at hs'
      exact absurd hs' (by simp)

theorem SWStep_inv (s s' : Kernel) (h : SWStep s s') (hwf : SWWf s) : SWWf s' := by
  obtain ⟨F, C, hinv⟩ := hwf
  cases h with
  | out q c paddr vpn inv hq hfree h hleft =>
    have hinv' := SWInv_curproc s q F C hinv
    obtain ⟨p, hp⟩ : ∃ p, s.procs q = some p := by
      cases hs : s.procs q with
      | none => exact absurd hs hq
      | some p => exact ⟨p, rfl⟩
    cases hF : F with
    | nil => exact absurd hF hinv.F_ne
    | cons c0 F1 =>
      subst hF
      have e0 : c0 = c := by
        have := hinv.first_free
        rw [this] at hfree
        exact Except.ok.inj hfree
      subst e0
      have hboth := swapout_inv _ F1 C c0 paddr vpn inv p hinv' hp
      cases F1 with
      | nil =>
        obtain ⟨c', hc', hsw⟩ := hleft
        exact absurd (hboth.2 rfl s' h c' hc') hsw
      | cons d F2 =>
        obtain ⟨s'', h1, _, h3, _⟩ := hboth.1 d F2 rfl
        rw [h1] at h
        have e : s'' = s' := Except.ok.inj h
        subst e
        exact ⟨_, _, h3⟩
  | back q c paddr p hp hmem h =>
    have hinv' := SWInv_curproc s q F C hinv
    rw [hinv.procChunkChain_eq hp] at hmem
    obtain ⟨l1, l2, hl⟩ := List.append_of_mem hmem
    obtain ⟨s3, hin, hpost, _⟩ := swapin_spec _ F C c paddr l1 l2 p hinv' hp hl
    rw [hin] at h
    have e : s3 = s' := Except.ok.inj h
    subst e
    exact ⟨_, _, SWInv_release _ _ F C c q l1 l2 p hinv' hl hp hpost⟩

theorem SWReach_inv (s0 s : Kernel) (N : Nat) (h0 : SWFresh N s0) (h : SWReach s0 s) :
    SWWf s := by
  induction h with
  | init => exact ⟨_, _, SWInv_fresh N s0 h0⟩
  | step s s' _ hstep ih => exact SWStep_inv s s' hstep ih

/-- C2: starting from `swapTableInit` on a swap file of `N ≥ 2` chunks (processes with
6-bit pids and no chunks), after any sequence of `swapout` calls on the chunk
`getFirstFreeChunckIndex` returned, made by a process for itself and leaving at least
one chunk free, and of `swapin` calls on a chunk of the caller's chunk chain, every
chunk is in exactly one of the free-chunk chain and the chunk chain of the process
whose pid is stamped on it, it is in the free chain iff its swapped bit is set, an
in-use chunk is reached from its process's `start_st_i`, the free chain ends at
`last_free_chunk`, and every process's `n_chunks` is the length of its chain. -/
theorem swap_partition_invariant (N : Nat) (s0 s : Kernel) (h0 : SWFresh N s0)
    (h : SWReach s0 s) : SWPartition s := by
  obtain ⟨F, C, hinv⟩ := SWReach_inv s0 s N h0 h
  exact hinv.chunk_partition

theorem demo8_swfresh : SWFresh 16 demo8 := by
  refine ⟨by decide, ⟨16 * PAGE_SIZE, fun _ => STE.mk 0 0 0, by decide, rfl⟩, ?_⟩
  intro q p h
  simp only [demo8, vm_bootstrap, demoEnv] at h
  by_cases hq : q = 1 ∨ q = 2
  · simp only [hq, if_true, Option.some.injEq] at h
    subst h
    exact ⟨by omega, rfl⟩
  · simp [hq] at h

theorem demo8_out_step :
    swapout { demo8 with curproc := 1 } 0 0x100000 0x400 1 false = .ok demo8_out := rfl

theorem swap_partition_invariant_witness :
    SWFresh 16 demo8 ∧ SWReach demo8 demo8_out ∧ SWPartition demo8_out :=
  have hr : SWReach demo8 demo8_out :=
    SWReach.step demo8 demo8_out SWReach.init
      (SWStep.out demo8 demo8_out 1 0 0x100000 0x400 false (by decide) (by decide!)
        demo8_out_step ⟨1, by decide!, by decide!⟩)
  ⟨demo8_swfresh, hr, swap_partition_invariant 16 demo8 demo8_out demo8_swfresh hr⟩

/-! ## `swapout` and the lookup of the page -/

theorem getSwapChunk_loop_linked (st : swapTable) (page_n : Nat) (l : List Nat)
    (a fuel : Nat) (hlink : Linked (SW.ch st.entries) (SW.nx st.entries) (a :: l))
    (hb : ∀ x ∈ a :: l, x < st.size) (hfuel : (a :: l).length ≤ fuel) :
    getSwapChunk_loop st page_n fuel a = .ok
      (match (a :: l).find? (fun i => decide (SW.GET_PN (st.entries i).hi = page_n)) with
       | some i => i
       | none => NEG1) := by
  induction l generalizing a fuel with
  | nil =>
    cases fuel with
    | zero => simp at hfuel
    | succ fuel =>
      have ha := hb a (by simp)
      have hc := Linked.single_iff.mp hlink
      simp only [SW.ch, decide_eq_false_iff_not, ne_eq, not_not] at hc
      unfold getSwapChunk_loop
      by_cases hpn : SW.GET_PN (st.entries a).hi = page_n
      · simp [ha, hpn]
      · simp [ha, hpn, hc]
  | cons b l ih =>
    cases fuel with
    | zero => simp at hfuel
    | succ fuel =>
      have ha := hb a (by simp)
      have hs := Linked.head_step hlink
      simp only [SW.ch, SW.nx, decide_eq_true_eq] at hs
      have hrec := ih b fuel (Linked.tail hlink) (fun x hx => hb x (List.mem_cons_of_mem _ hx))
        (by simpa using hfuel)
      unfold getSwapChunk_loop
      by_cases hpn : SW.GET_PN (st.entries a).hi = page_n
      · simp [ha, hpn]
      · have e : (a :: b :: l).find? (fun i => decide (SW.GET_PN (st.entries i).hi = page_n)) =
            (b :: l).find? (fun i => decide (SW.GET_PN (st.entries i).hi = page_n)) :=
          List.find?_cons_of_neg _ (by simpa using hpn)
        rw [e]
        simp only [ha, if_true, hpn, if_false, hs.1, hs.2, hrec]

/-- The lookup on a well-formed table: the first chunk of the caller's chain that
carries the page number, or `-1`. -/
theorem getSwapChunk_wf (s : Kernel) (F : List Nat) (C : Nat → List Nat) (p : proc)
    (vaddr pid : Nat) (hinv : SWInv s F C) (hp : s.procs s.curproc = some p)
    (hn : p.n_chunks ≠ 0) :
    getSwapChunk s vaddr pid = .ok
      (match (C s.curproc).find?
          (fun i => decide (SW.GET_PN (s.ST.entries i).hi = vaddr >>> 12)) with
       | some i => i
       | none => NEG1) := by
  have hlen := hinv.C_len _ _ hp
  cases hc : C s.curproc with
  | nil => rw [hc] at hlen; exact absurd hlen.symm hn
  | cons a l =>
    have hlink := hinv.C_link s.curproc
    have hown := hinv.C_own s.curproc
    have hnd := hinv.C_nodup s.curproc
    rw [hc] at hlink hown hnd
    have hstart : p.start_st_i = a := hinv.C_head _ _ a hp (by rw [hc]; rfl)
    have hle : (a :: l).length ≤ s.ST.size :=
      nodup_bounded_length _ _ hnd (fun x hx => (hown x hx).1)
    have hloop := getSwapChunk_loop_linked s.ST (vaddr >>> 12) l a (s.ST.size + 1) hlink
      (fun x hx => (hown x hx).1) (by omega)
    simp only [getSwapChunk, curthread_t_proc, hp, bind_ok, hstart, hloop]

theorem shl12_shr12 (vpn : Nat) : (vpn <<< 12) >>> 12 = vpn := by
  rw [Nat.shiftLeft_eq, Nat.shiftRight_eq_div_pow]
  exact Nat.mul_div_cancel _ (by norm_num)

/-- C11: on a well-formed swap table with at least two free chunks, for the chunk `c`
that `getFirstFreeChunckIndex` returns, the running process (descriptor `p`) and a page
number `vpn < 2^20` that no chunk of the caller's chain carries,
`swapout(st, c, paddr, vpn, pid, inv)` with `pid` the caller's pid returns; `c` was the
head of the free chain and is removed from it, `c` becomes the tail of the caller's
chunk chain and `n_chunks` grows by one, `c` is stamped `(vpn, pid, swapped = 0)`, the
page image is written at offset `c * 4096`, the table stays well formed, and
`getSwapChunk(st, vpn << 12, pid)` returns `c`. -/
theorem swapout_bookkeeping (s : Kernel) (p : proc) (c paddr vpn : Nat) (inv : Bool)
    (hwf : SWWf s) (hp : s.procs s.curproc = some p)
    (h2 : 2 ≤ (freeChunkChain s.ST).length)
    (hc : getFirstFreeChunckIndex s.ST = .ok c) (hvpn : vpn < 2 ^ 20)
    (hnew : ∀ j ∈ procChunkChain s.ST p, SW.GET_PN (s.ST.entries j).hi ≠ vpn) :
    ∃ s' p', swapout s c paddr vpn s.curproc inv = .ok s' ∧
      s'.procs s.curproc = some p' ∧ s'.curproc = s.curproc ∧
      freeChunkChain s.ST = c :: freeChunkChain s'.ST ∧ c ∉ freeChunkChain s'.ST ∧
      procChunkChain s'.ST p' = procChunkChain s.ST p ++ [c] ∧
      p'.n_chunks = p.n_chunks + 1 ∧
      SW.GET_PN (s'.ST.entries c).hi = vpn ∧ SW.GET_PID (s'.ST.entries c).hi = s.curproc ∧
      SW.IS_SWAPPED (s'.ST.entries c).hi = 0 ∧
      s'.disk = page_to_disk s.ram s.disk (PADDR_TO_KVADDR (paddr &&& PAGE_FRAME))
        ((c * PAGE_SIZE) % U32) ∧
      SWWf s' ∧
      getSwapChunk s' (vpn <<< 12) s.curproc = .ok c := by
  obtain ⟨F, C, hinv⟩ := hwf
  rw [hinv.freeChunkChain_eq] at h2 ⊢
  rw [hinv.procChunkChain_eq hp] at hnew ⊢
  cases F with
  | nil => simp at h2
  | cons c0 F1 =>
    cases F1 with
    | nil => simp at h2
    | cons d F2 =>
      have e0 : c0 = c := by
        have := hinv.first_free
        rw [this] at hc
        exact Except.ok.inj hc
      subst e0
      obtain ⟨s', h1, hpost, hinv', hcur, _, _, hdisk⟩ :=
        (swapout_inv s (d :: F2) C c0 paddr vpn inv p hinv hp).1 d F2 rfl
      have hp' : s'.procs s.curproc = some
          { p with start_st_i := if p.n_chunks = 0 then c0 else p.start_st_i,
                   last_st_i := c0, n_chunks := (p.n_chunks + 1) % U32 } := by
        rw [hpost.procs]; simp [upd]
      have hp'' := hp'
      rw [← hcur] at hp''
      have hlen' := hinv'.C_len _ _ hp'
      have hpn : SW.GET_PN (s'.ST.entries c0).hi = vpn := by
        rw [hpost.c_pn]; exact Nat.mod_eq_of_lt hvpn
      have hnd := hinv.F_nodup
      refine ⟨s', _, h1, hp', hcur, ?_, ?_, ?_, ?_, hpn, hpost.c_pid, hpost.c_swapped, hdisk,
        ⟨_, _, hinv'⟩, ?_⟩
      · rw [hinv'.freeChunkChain_eq]
      · rw [hinv'.freeChunkChain_eq]
        exact (List.nodup_cons.mp hnd).1
      · rw [hinv'.procChunkChain_eq hp']; simp [upd]
      · have := hinv.C_len _ _ hp
        simp only [upd, if_true, List.length_append, List.length_singleton] at hlen'
        show (p.n_chunks + 1) % U32 = p.n_chunks + 1
        omega
      · have hn0 : ((p.n_chunks + 1) % U32) ≠ 0 := by
          simp only [upd, if_true, List.length_append, List.length_singleton] at hlen'
          omega
        rw [getSwapChunk_wf s' _ _ _ _ _ hinv' hp'' hn0, shl12_shr12, hcur]
        simp only [upd, if_true]
        have hfind : (C s.curproc ++ [c0]).find?
            (fun i => decide (SW.GET_PN (s'.ST.entries i).hi = vpn)) = some c0 := by
          rw [List.find?_append]
          have hnone : (C s.curproc).find?
              (fun i => decide (SW.GET_PN (s'.ST.entries i).hi = vpn)) = none := by
            rw [List.find?_eq_none]
            intro x hx
            have hxc : x ≠ c0 := by
              intro e; subst e
              exact (hinv.F_free x (by simp)).2 (hinv.C_own _ x hx).2.1
            simp only [decide_eq_true_eq]
            rw [(hpost.e_fields x hxc).2.2.1]
            exact hnew x hx
          rw [hnone]
          simp [hpn]
        rw [hfind]

theorem demo8_swwf : SWWf demo8 := ⟨_, _, SWInv_fresh 16 demo8 demo8_swfresh⟩

theorem swapout_bookkeeping_witness :
    SWWf demo8 ∧ 2 ≤ (freeChunkChain demo8.ST).length ∧
    getFirstFreeChunckIndex demo8.ST = .ok 0 ∧
    (∀ j ∈ procChunkChain demo8.ST proc0, SW.GET_PN (demo8.ST.entries j).hi ≠ 0x400) ∧
    ∃ s', swapout demo8 0 0x100000 0x400 1 false = .ok s' ∧
      getSwapChunk s' 0x400000 1 = .ok 0 :=
  ⟨demo8_swwf, by decide!, by decide!, by decide!,
    (swapout_bookkeeping demo8 proc0 0 0x100000 0x400 false demo8_swwf (by decide!)
      (by decide!) (by decide!) (by decide!) (by decide!)).elim
      fun s' h => h.elim fun _ h => ⟨s', h.1, h.2.2.2.2.2.2.2.2.2.2.2.2⟩⟩

/-! ## The bytes moved by `swapout` and `swapin` -/

theorem and_PAGE_FRAME (p : Nat) (h32 : p < U32) (hal : p % PAGE_SIZE = 0) :
    p &&& PAGE_FRAME = p := by
  apply Nat.eq_of_testBit_eq; intro i
  simp only [PAGE_FRAME, Nat.testBit_and, tb_4294963200]
  by_cases h12 : i < 12
  · have h0 : (p % 2 ^ 12).testBit i = false := by
      have : p % 2 ^ 12 = 0 := by simpa [PAGE_SIZE] using hal
      rw [this]; simp
    rw [Nat.testBit_mod_two_pow] at h0
    simp [h12] at h0
    simp [h0]
  · by_cases h32' : i < 32
    · have : 12 ≤ i := by omega
      simp [this, h32']
    · have := tb_small p 32 i (by simpa [U32] using h32) (by omega)
      simp [this]

theorem insert_into_process_chunk_list_mem (s s1 : Kernel) (c q : Nat) (p : proc)
    (h : insert_into_process_chunk_list s c q p = .ok s1) :
    s1.ram = s.ram ∧ s1.disk = s.disk := by
  unfold insert_into_process_chunk_list at h
  obtain ⟨_, _, h⟩ := bind_eq_ok h
  by_cases h0 : p.n_chunks = 0
  · simp only [h0, if_true, pure_eq] at h
    cases h
    exact ⟨rfl, rfl⟩
  · simp only [h0, if_false] at h
    obtain ⟨_, _, h⟩ := bind_eq_ok h
    simp only [pure_eq] at h
    cases h
    exact ⟨rfl, rfl⟩

theorem swapout_disk (s s1 : Kernel) (index paddr page_number pid : Nat) (invalidate : Bool)
    (h : swapout s index paddr page_number pid invalidate = .ok s1) :
    s1.ram = s.ram ∧
    s1.disk = page_to_disk s.ram s.disk (PADDR_TO_KVADDR (paddr &&& PAGE_FRAME))
      ((index * PAGE_SIZE) % U32) := by
  unfold swapout at h
  obtain ⟨st1, _, h⟩ := bind_eq_ok h
  obtain ⟨p, hp, h⟩ := bind_eq_ok h
  obtain ⟨s2, h2, h⟩ := bind_eq_ok h
  obtain ⟨_, _, h⟩ := bind_eq_ok h
  simp only [pure_eq] at h
  cases h
  have := insert_into_process_chunk_list_mem _ s2 index _ p h2
  refine ⟨this.1, ?_⟩
  show page_to_disk s2.ram s2.disk _ _ = _
  rw [this.1, this.2]

theorem delete_process_chunk_mem (s s1 : Kernel) (c : Nat)
    (h : delete_process_chunk s c = .ok s1) : s1.ram = s.ram ∧ s1.disk = s.disk := by
  unfold delete_process_chunk at h
  obtain ⟨p, _, h⟩ := bind_eq_ok h
  obtain ⟨_, _, h⟩ := bind_eq_ok h
  by_cases h1 : p.n_chunks = 1
  · simp only [h1, ne_eq, not_true_eq_false, if_false, pure_eq] at h
    cases h
    exact ⟨rfl, rfl⟩
  · simp only [ne_eq, eq_false h1, not_false_eq_true, if_true] at h
    by_cases h2 : p.start_st_i = c
    · simp only [eq_true h2, if_true] at h
      obtain ⟨_, _, h⟩ := bind_eq_ok h
      simp only [pure_eq] at h
      cases h
      exact ⟨rfl, rfl⟩
    · simp only [eq_false h2, if_false] at h
      by_cases h3 : p.last_st_i = c
      · simp only [eq_true h3, if_true] at h
        obtain ⟨_, _, h⟩ := bind_eq_ok h
        simp only [pure_eq] at h
        cases h
        exact ⟨rfl, rfl⟩
      · simp only [eq_false h3, if_false] at h
        obtain ⟨_, _, h⟩ := bind_eq_ok h
        obtain ⟨_, _, h⟩ := bind_eq_ok h
        simp only [pure_eq] at h
        cases h
        exact ⟨rfl, rfl⟩

theorem swapin_ram (s s2 : Kernel) (index paddr : Nat) (h : swapin s index paddr = .ok s2) :
    s2.disk = s.disk ∧
    s2.ram = page_from_disk s.ram s.disk (PADDR_TO_KVADDR (paddr &&& PAGE_FRAME))
      ((index * PAGE_SIZE) % U32) := by
  unfold swapin at h
  obtain ⟨_, _, h⟩ := bind_eq_ok h
  obtain ⟨s1, h1, h⟩ := bind_eq_ok h
  obtain ⟨st3, _, h⟩ := bind_eq_ok h
  simp only [pure_eq] at h
  cases h
  have := delete_process_chunk_mem _ s1 index h1
  constructor
  · show s1.disk = _
    rw [this.2]
  · show s1.ram = _
    rw [this.1]

/-- C3: for page-aligned 32-bit physical addresses `p1` and `p2`, any chunk `c` and any
memory image: when `swapout(st, c, p1, vpn, pid, inv)` returns, the 4096 bytes of the
swap file from offset `c * 4096` on are the bytes of the page at `p1`; when no byte of
that chunk is written before `swapin(st, c, p2)` returns, the 4096 bytes at `p2` are,
byte for byte, the bytes that were at `p1` when `swapout` ran. Both calls do return
when the table is well formed with at least two free chunks, `c` is the chunk
`getFirstFreeChunckIndex` returns and `pid` is the caller's pid. -/
theorem swap_round_trip (s : Kernel) (c p1 p2 vpn pid : Nat) (inv : Bool)
    (h1 : p1 < U32) (a1 : p1 % PAGE_SIZE = 0) (h2 : p2 < U32) (a2 : p2 % PAGE_SIZE = 0) :
    (∀ s1 t s2, swapout s c p1 vpn pid inv = .ok s1 →
      (∀ k, k < PAGE_SIZE →
        t.disk ((c * PAGE_SIZE) % U32 + k) = s1.disk ((c * PAGE_SIZE) % U32 + k)) →
      swapin t c p2 = .ok s2 →
      ∀ k, k < PAGE_SIZE →
        s1.disk ((c * PAGE_SIZE) % U32 + k) = s.ram (PADDR_TO_KVADDR p1 + k) ∧
        s2.ram (PADDR_TO_KVADDR p2 + k) = s.ram (PADDR_TO_KVADDR p1 + k)) ∧
    (SWWf s → s.procs s.curproc ≠ none → pid = s.curproc →
      2 ≤ (freeChunkChain s.ST).length → getFirstFreeChunckIndex s.ST = .ok c →
      ∃ s1 s2, swapout s c p1 vpn pid inv = .ok s1 ∧ swapin s1 c p2 = .ok s2) := by
  constructor
  · intro s1 t s2 hout hsame hin k hk
    have ho := swapout_disk s s1 c p1 vpn pid inv hout
    have hi := swapin_ram t s2 c p2 hin
    rw [and_PAGE_FRAME p1 h1 a1] at ho
    rw [and_PAGE_FRAME p2 h2 a2] at hi
    have e1 : s1.disk ((c * PAGE_SIZE) % U32 + k) = s.ram (PADDR_TO_KVADDR p1 + k) := by
      rw [ho.2]
      simp [page_to_disk, hk]
    refine ⟨e1, ?_⟩
    rw [hi.2]
    simp only [page_from_disk]
    rw [if_pos ⟨by omega, by omega⟩]
    have : PADDR_TO_KVADDR p2 + k - PADDR_TO_KVADDR p2 = k := by omega
    rw [this, hsame k hk, e1]
  · intro hwf hq hpid h2f hc
    subst hpid
    obtain ⟨F, C, hinv⟩ := hwf
    obtain ⟨p, hp⟩ : ∃ p, s.procs s.curproc = some p := by
      cases hs : s.procs s.curproc with
      | none => exact absurd hs hq
      | some p => exact ⟨p, rfl⟩
    rw [hinv.freeChunkChain_eq] at h2f
    cases F with
    | nil => simp at h2f
    | cons c0 F1 =>
      cases F1 with
      | nil => simp at h2f
      | cons d F2 =>
        have e0 : c0 = c := by
          have := hinv.first_free
          rw [this] at hc
          exact Except.ok.inj hc
        subst e0
        obtain ⟨s1, hout, hpost, hinv1, hcur, _⟩ :=
          (swapout_inv s (d :: F2) C c0 p1 vpn inv p hinv hp).1 d F2 rfl
        have hp1 : s1.procs s1.curproc = some
            { p with start_st_i := if p.n_chunks = 0 then c0 else p.start_st_i,
                     last_st_i := c0, n_chunks := (p.n_chunks + 1) % U32 } := by
          rw [hcur, hpost.procs]; simp [upd]
        obtain ⟨s2, hin, _⟩ := swapin_spec s1 _ _ c0 p2 (C s.curproc) [] _ hinv1 hp1
          (by rw [hcur]; simp [upd])
        exact ⟨s1, s2, hout, hin⟩

theorem swap_round_trip_witness :
    (0x100000 < U32 ∧ 0x100000 % PAGE_SIZE = 0 ∧ 0x103000 < U32 ∧ 0x103000 % PAGE_SIZE = 0) ∧
    ∃ s1 s2, swapout demo8 0 0x100000 0x400 1 false = .ok s1 ∧
      swapin s1 0 0x103000 = .ok s2 ∧
      ∀ k, k < PAGE_SIZE →
        s2.ram (PADDR_TO_KVADDR 0x103000 + k) = demo8.ram (PADDR_TO_KVADDR 0x100000 + k) :=
  ⟨⟨by decide, by decide, by decide, by decide⟩,
    ((swap_round_trip demo8 0 0x100000 0x103000 0x400 1 false (by decide) (by decide)
        (by decide) (by decide)).2 demo8_swwf (by decide) rfl (by decide!) (by decide!)).elim
      fun s1 h => h.elim fun s2 h => ⟨s1, s2, h.1, h.2, fun k hk =>
        ((swap_round_trip demo8 0 0x100000 0x103000 0x400 1 false (by decide) (by decide)
          (by decide) (by decide)).1 s1 s1 s2 h.1 (fun _ _ => rfl) h.2 k hk).2⟩⟩

/-! ## FIFO order of the victims -/

theorem SWInv_of_same (s s1 : Kernel) (F : List Nat) (C : Nat → List Nat) (hinv : SWInv s F C)
    (h : SWSame s s1) : SWInv s1 F C := by
  obtain ⟨h1, _, h3⟩ := h
  constructor
  · rw [h1]; exact hinv.size_lt
  · exact hinv.F_ne
  · exact hinv.F_nodup
  · rw [h1]; exact hinv.F_free
  · rw [h1]; exact hinv.F_link
  · rw [h1]; exact hinv.F_head
  · rw [h1]; exact hinv.F_last
  · exact hinv.C_nodup
  · rw [h1]; exact hinv.C_own
  · rw [h1]; exact hinv.C_link
  · rw [h1]; exact hinv.C_prev
  · intro q p1 hp1
    cases hq : s.procs q with
    | none => rw [(h3 q).1 hq] at hp1; simp at hp1
    | some p =>
      obtain ⟨p2, hp2, e1, _, _⟩ := (h3 q).2 p hq
      rw [hp2] at hp1; cases hp1
      rw [e1]; exact hinv.C_len q p hq
  · intro q p1 a hp1 ha
    cases hq : s.procs q with
    | none => rw [(h3 q).1 hq] at hp1; simp at hp1
    | some p =>
      obtain ⟨p2, hp2, _, e2, _⟩ := (h3 q).2 p hq
      rw [hp2] at hp1; cases hp1
      rw [e2]; exact hinv.C_head q p a hq ha
  · intro q p1 a hp1 ha
    cases hq : s.procs q with
    | none => rw [(h3 q).1 hq] at hp1; simp at hp1
    | some p =>
      obtain ⟨p2, hp2, _, _, e3⟩ := (h3 q).2 p hq
      rw [hp2] at hp1; cases hp1
      rw [e3]; exact hinv.C_last q p a hq ha
  · intro q hq1
    cases hq : s.procs q with
    | none => exact hinv.C_none q hq
    | some p =>
      obtain ⟨p2, hp2, _⟩ := (h3 q).2 p hq
      rw [hp2] at hq1; simp at hq1
  · intro q p1 hp1
    cases hq : s.procs q with
    | none => rw [(h3 q).1 hq] at hp1; simp at hp1
    | some p => exact hinv.pid_lt q p hq
  · rw [h1]; exact hinv.cover

theorem vpn_user (vaddr : Nat) (h : vaddr ≤ MIPS_KSEG0) :
    ¬ ((((vaddr &&& PAGE_FRAME) >>> 12) <<< 12) % U32 > MIPS_KSEG0) := by
  have h1 : ((vaddr &&& PAGE_FRAME) >>> 12) <<< 12 ≤ vaddr &&& PAGE_FRAME := by
    rw [Nat.shiftLeft_eq, Nat.shiftRight_eq_div_pow]
    exact Nat.div_mul_le_self _ _
  have h2 : vaddr &&& PAGE_FRAME ≤ vaddr := Nat.and_le_left
  have h3 : (((vaddr &&& PAGE_FRAME) >>> 12) <<< 12) % U32 ≤
      ((vaddr &&& PAGE_FRAME) >>> 12) <<< 12 := Nat.mod_le _ _
  omega

theorem SWSame_of_addEntry (s s' : Kernel) (vpn f pid : Nat) (p : proc)
    (hp : s.procs s.curproc = some p) (h : AddEntryPost s s' vpn f pid p) : SWSame s s' := by
  refine ⟨h.other.1, h.other.2.1, ?_⟩
  intro q
  rw [h.procs]
  by_cases hq : q = s.curproc
  · subst hq; simp [upd, hp]
  · simp only [upd, hq, if_false]
    exact ⟨fun h => h, fun p0 h0 => ⟨p0, h0, rfl, rfl, rfl⟩⟩

/-- A fault while a frame is free: frame `j` is taken. -/
theorem insert_page_fill_step (n j : Nat) (s : Kernel) (vaddr : Nat) (hinv : FifoInv n s j)
    (hj : j < n) (hv : vaddr ≤ MIPS_KSEG0) :
    ∃ s', insert_page s vaddr NEG1 = .ok ((j * PAGE_SIZE + s.IPT.mem_base_addr) % U32, s') ∧
      FifoInv n s' (j + 1) ∧ s'.stats = s.stats ∧ s'.ST = s.ST ∧
      s'.IPT.mem_base_addr = s.IPT.mem_base_addr := by
  obtain ⟨C, hpt⟩ := hinv.pt
  obtain ⟨p, hp⟩ : ∃ p, s.procs s.curproc = some p := by
    cases hs : s.procs s.curproc with
    | none => exact absurd hs hinv.proc
    | some p => exact ⟨p, rfl⟩
  have hF : List.range' j (n - j) = j :: List.range' (j + 1) (n - (j + 1)) := by
    have : n - j = (n - (j + 1)) + 1 := by omega
    rw [this, List.range'_succ]
  rw [hF] at hpt
  obtain ⟨s4, s', h1, hpost, h3, h4, h5⟩ :=
    insert_page_free_spec s _ C j vaddr p hpt hp
  have hn20 := hpt.size_le
  have hsz := hinv.size
  have hs4size : s4.IPT.size = n := by rw [hpost.size]; exact hsz
  have hstart4 : s4.IPT.FIFO_index_start = j := by
    rw [hpost.fifo_start, hinv.start]; exact Nat.mod_eq_of_lt hj
  have hent : s'.IPT.entries = s4.IPT.entries := by rw [h4]
  have hcur : s'.curproc = s.curproc := by rw [h4]; exact hpost.other.2.1
  have hsame : SWSame s s4 := SWSame_of_addEntry s s4 _ j _ p hp hpost
  have hsame' : SWSame s s' := by
    refine ⟨?_, hcur, ?_⟩
    · rw [h4]; exact hsame.1
    · rw [h4]; exact hsame.2.2
  -- the old last frame of the process is not the new frame
  have hlastj : p.n_frames ≠ 0 → p.last_pt_i ≠ j := by
    intro h0 e
    have h1 := (hpt.C_own _ _ (hpt.last_mem hp h0)).2.1
    rw [e] at h1
    exact h1 (hpt.F_free j (by simp)).2
  have hfields : ∀ f, f ≠ j →
      PT.IS_VALID (s4.IPT.entries f).hi = PT.IS_VALID (s.IPT.entries f).hi ∧
      PT.IS_KERNEL (s4.IPT.entries f).hi = PT.IS_KERNEL (s.IPT.entries f).hi ∧
      PT.GET_PID (s4.IPT.entries f).low = PT.GET_PID (s.IPT.entries f).low := by
    intro f hf
    by_cases hfl : p.n_frames = 0 ∨ f ≠ p.last_pt_i
    · rw [hpost.e_other f hf hfl]; exact ⟨rfl, rfl, rfl⟩
    · simp only [not_or, not_not] at hfl
      have := hpost.l_link hfl.1 (hlastj hfl.1)
      rw [hfl.2]
      exact ⟨this.2.2.1, this.2.2.2.1, this.2.2.2.2.2⟩
  refine ⟨s', h3, ?_, ?_, hsame'.1, ?_⟩
  · constructor
    · exact ⟨_, h5⟩
    · rw [h4]; exact hs4size
    · intro i hi hij
      rw [h4]
      simp only [hstart4, upd]
      by_cases e : i = j
      · simp [e]
      · simp only [e, if_false]
        rw [hpost.fifo]
        exact hinv.fifo i hi (by omega)
    · rw [h4]
      simp only [hstart4, hs4size]
      have : (j + 1) % U32 = j + 1 := by
        apply Nat.mod_eq_of_lt; rw [hsz] at hn20; simp only [U32]; omega
      rw [this]
    · rw [h4]
      show s4.IPT.FIFO_index_last = _
      rw [hpost.fifo_last, hinv.last]
      have e1 : j - n = 0 := by omega
      have e2 : j + 1 - n = 0 := by omega
      rw [e1, e2]
    · intro f hf
      rw [hent]
      by_cases hfj : f = j
      · subst hfj
        rw [hpost.e_kernel, if_neg (vpn_user vaddr hv)]
      · rw [(hfields f hfj).2.1]; exact hinv.user f hf
    · intro f hf hval
      rw [hent] at hval ⊢
      rw [hcur]
      by_cases hfj : f = j
      · subst hfj; exact hpost.e_pid
      · rw [(hfields f hfj).1] at hval
        rw [(hfields f hfj).2.2]; exact hinv.own f hf hval
    · rw [hcur]
      obtain ⟨p1, hp1, _⟩ := (hsame'.2.2 s.curproc).2 p hp
      rw [hp1]; simp
    · rcases hinv.sw with ⟨F, Cs, hsw, hnx⟩ | hex
      · left
        refine ⟨F, Cs, SWInv_of_same s s' F Cs hsw hsame', ?_⟩
        rw [hsame'.1]; exact hnx
      · right
        intro c hc
        rw [hsame'.1] at hc ⊢
        exact hex c hc
  · rw [h4]; exact hpost.other.2.2.2.2.2.2.2.2.2.2
  · rw [h4]; exact hpost.mem_base

theorem PT_GET_PID_lt (x : Nat) : PT.GET_PID x < 64 := by
  have : PT.GET_PID x ≤ 63 := Nat.and_le_right
  omega

theorem PT_GET_PN_lt (x : Nat) : PT.GET_PN x < 2 ^ 20 := by
  have h1 : x &&& 0xFFFFF000 ≤ 0xFFFFF000 := Nat.and_le_right
  simp only [PT.GET_PN, Nat.shiftRight_eq_div_pow]
  omega

theorem replace_page_first (pt : pT) (h0 : pt.size ≠ 0)
    (hv : pt.FIFO (((pt.FIFO_index_last + 1) % U32) % pt.size) < pt.size)
    (hk : PT.IS_KERNEL (pt.entries (pt.FIFO (((pt.FIFO_index_last + 1) % U32) % pt.size))).hi = 0) :
    replace_page pt = .ok (pt.FIFO (((pt.FIFO_index_last + 1) % U32) % pt.size),
      { pt with FIFO_index_last := ((pt.FIFO_index_last + 1) % U32) % pt.size }) := by
  simp only [replace_page, replace_page_loop, h0, if_false, hv, if_true, hk, ne_eq,
    not_true_eq_false, bind_ok, pure_eq]

theorem SWSame.trans {s s1 s2 : Kernel} (h1 : SWSame s s1) (h2 : SWSame s1 s2) : SWSame s s2 := by
  refine ⟨h2.1.trans h1.1, h2.2.1.trans h1.2.1, ?_⟩
  intro q
  constructor
  · intro hq
    exact (h2.2.2 q).1 ((h1.2.2 q).1 hq)
  · intro p hp
    obtain ⟨p1, hp1, a1, a2, a3⟩ := (h1.2.2 q).2 p hp
    obtain ⟨p2, hp2, b1, b2, b3⟩ := (h2.2.2 q).2 p1 hp1
    exact ⟨p2, hp2, b1.trans a1, b2.trans a2, b3.trans a3⟩

theorem SWSame_of_remove (s s' : Kernel) (f q : Nat) (p : proc) (F l1 l2 : List Nat)
    (hp : s.procs q = some p) (h : RemovePagePost s s' f q p F l1 l2) : SWSame s s' := by
  refine ⟨h.other.1, h.other.2.1, ?_⟩
  intro q'
  by_cases hq : q' = q
  · subst hq
    obtain ⟨p', hp', _, a1, a2, a3, _⟩ := h.procs_q
    constructor
    · intro h0; rw [hp] at h0; simp at h0
    · intro p0 hp0
      rw [hp] at hp0; cases hp0
      exact ⟨p', hp', a1, a2, a3⟩
  · rw [h.procs_other q' hq]
    exact ⟨fun h => h, fun p0 h0 => ⟨p0, h0, rfl, rfl, rfl⟩⟩

theorem mod_succ_mod (a n : Nat) : (a % n + 1) % n = (a + 1) % n := Nat.mod_add_mod a n 1

theorem sameOther_disk {s s' : Kernel} (h : sameOther s s') : s'.disk = s.disk :=
  h.2.2.2.2.2.2.2.2.1

theorem sameOther_stats {s s' : Kernel} (h : sameOther s s') : s'.stats = s.stats :=
  h.2.2.2.2.2.2.2.2.2.2

theorem addEntry_fields (s s' : Kernel) (F' : List Nat) (C : Nat → List Nat) (f vpn pid : Nat)
    (p : proc) (hpt : PTInv s (f :: F') C) (hp : s.procs s.curproc = some p)
    (hpost : AddEntryPost s s' vpn f pid p) (g : Nat) (hg : g ≠ f) :
    PT.IS_VALID (s'.IPT.entries g).hi = PT.IS_VALID (s.IPT.entries g).hi ∧
    PT.IS_KERNEL (s'.IPT.entries g).hi = PT.IS_KERNEL (s.IPT.entries g).hi ∧
    PT.GET_PN (s'.IPT.entries g).hi = PT.GET_PN (s.IPT.entries g).hi ∧
    PT.GET_PID (s'.IPT.entries g).low = PT.GET_PID (s.IPT.entries g).low := by
  have hlastf : p.n_frames ≠ 0 → p.last_pt_i ≠ f := by
    intro h0 e
    have h1 := (hpt.C_own _ _ (hpt.last_mem hp h0)).2.1
    rw [e] at h1
    exact h1 (hpt.F_free f (by simp)).2
  by_cases hfl : p.n_frames = 0 ∨ g ≠ p.last_pt_i
  · rw [hpost.e_other g hg hfl]; exact ⟨rfl, rfl, rfl, rfl⟩
  · simp only [not_or, not_not] at hfl
    have := hpost.l_link hfl.1 (hlastf hfl.1)
    rw [hfl.2]
    exact ⟨this.2.2.1, this.2.2.2.1, this.2.2.2.2.1, this.2.2.2.2.2⟩

/-- What a fault on a full table does: the victim is the frame in the FIFO slot after
the cursor. -/
theorem insert_page_evict_step (n j : Nat) (s : Kernel) (vaddr : Nat) (hinv : FifoInv n s j)
    (hj : n ≤ j) (hv : vaddr ≤ MIPS_KSEG0) (hav : SWAvailable s) :
    ∃ s' c, getFirstFreeChunckIndex s.ST = .ok c ∧
      insert_page s vaddr NEG1 = .ok (((j % n) * PAGE_SIZE + s.IPT.mem_base_addr) % U32, s') ∧
      FifoInv n s' (j + 1) ∧
      SW.GET_PN (s'.ST.entries c).hi = PT.GET_PN (s.IPT.entries (j % n)).hi ∧
      SW.GET_PID (s'.ST.entries c).hi = PT.GET_PID (s.IPT.entries (j % n)).low ∧
      SW.IS_SWAPPED (s'.ST.entries c).hi = 0 ∧
      s'.disk = page_to_disk s.ram s.disk
        (PADDR_TO_KVADDR ((((j % n) * PAGE_SIZE + s.IPT.mem_base_addr) % U32) &&& PAGE_FRAME))
        ((c * PAGE_SIZE) % U32) ∧
      s'.stats = add_SWAP_write s.stats ∧
      s'.IPT.mem_base_addr = s.IPT.mem_base_addr ∧
      PT.GET_PN (s'.IPT.entries (j % n)).hi = ((vaddr &&& PAGE_FRAME) >>> 12) % 2 ^ 20 ∧
      (∀ f, f ≠ j % n → PT.GET_PN (s'.IPT.entries f).hi = PT.GET_PN (s.IPT.entries f).hi) := by
  obtain ⟨C, hpt⟩ := hinv.pt
  have hnil : List.range' j (n - j) = [] := by
    have : n - j = 0 := by omega
    rw [this]; rfl
  rw [hnil] at hpt
  have hn : 0 < n := by rw [← hinv.size]; exact hpt.size_pos
  have hn20 : n ≤ 2 ^ 20 := by rw [← hinv.size]; exact hpt.size_le
  obtain ⟨p, hp⟩ : ∃ p, s.procs s.curproc = some p := by
    cases hs : s.procs s.curproc with
    | none => exact absurd hs hinv.proc
    | some p => exact ⟨p, rfl⟩
  -- the swap table has a free chunk
  obtain ⟨F, Cs, hsw, hnx⟩ : ∃ F Cs, SWInv s F Cs ∧
      ∀ a, F.getLast? = some a → (s.ST.entries a).next < s.ST.size := by
    rcases hinv.sw with h | h
    · exact h
    · obtain ⟨c, hc, hne⟩ := hav
      exact absurd (h c hc) hne
  cases hF : F with
  | nil => exact absurd hF hsw.F_ne
  | cons c F1 =>
    subst hF
    have hfree := hsw.first_free
    have hcF := hsw.F_free c (by simp)
    have hcneg : c ≠ NEG1 := by
      have := hsw.size_lt
      simp only [NEG1, U32] at *
      omega
    -- the victim
    have hlast := hinv.last
    have hl' : ((s.IPT.FIFO_index_last + 1) % U32) % s.IPT.size = j % n := by
      have hlt : s.IPT.FIFO_index_last < n := by rw [hlast]; exact Nat.mod_lt _ hn
      have e1 : (s.IPT.FIFO_index_last + 1) % U32 = s.IPT.FIFO_index_last + 1 := by
        apply Nat.mod_eq_of_lt; simp only [U32]; omega
      rw [e1, hinv.size, hlast, mod_succ_mod]
      have : n - 1 + (j - n) + 1 = j := by omega
      rw [this]
    have hvn : j % n < n := Nat.mod_lt _ hn
    have hfifo : s.IPT.FIFO (j % n) = j % n := hinv.fifo _ hvn (by omega)
    have hrep := replace_page_first s.IPT (by rw [hinv.size]; omega)
      (by rw [hl', hfifo, hinv.size]; exact hvn)
      (by rw [hl', hfifo]; exact hinv.user _ hvn)
    rw [hl', hfifo] at hrep
    -- the victim is a valid frame of the running process
    have hvalid : PT.IS_VALID (s.IPT.entries (j % n)).hi ≠ 0 := by
      intro h0
      have := (hpt.cover (j % n) (by rw [hinv.size]; exact hvn)).1 h0
      simp at this
    have hvpid : PT.GET_PID (s.IPT.entries (j % n)).low = s.curproc := hinv.own _ hvn hvalid
    -- the swap-out
    have hx : (s.ST.entries c).next < s.ST.size := by
      cases F1 with
      | nil => exact hnx c rfl
      | cons d F2 =>
        have := (Linked.head_step hsw.F_link).2
        simp only [SW.nx] at this
        rw [this]; exact (hsw.F_free d (by simp)).1
    have hswA : SWInv { s with IPT := { s.IPT with FIFO_index_last := j % n } } (c :: F1) Cs :=
      SWInv_of_same s _ _ _ hsw
        ⟨rfl, rfl, fun q => ⟨fun h => h, fun p0 h0 => ⟨p0, h0, rfl, rfl, rfl⟩⟩⟩
    have hboth := swapout_inv { s with IPT := { s.IPT with FIFO_index_last := j % n } } F1 Cs c
      (((j % n) * PAGE_SIZE + s.IPT.mem_base_addr) % U32)
      (PT.GET_PN (s.IPT.entries (j % n)).hi) true p hswA hp
    obtain ⟨s1, hout, hpost1, hcur1, hram1, hstats1, hdisk1⟩ :=
      (swapout_spec { s with IPT := { s.IPT with FIFO_index_last := j % n } } c
        (((j % n) * PAGE_SIZE + s.IPT.mem_base_addr) % U32)
        (PT.GET_PN (s.IPT.entries (j % n)).hi) s.curproc true p hp (hsw.F_head c rfl) hcF.1
        (fun h0 => (hsw.C_own _ _ (hsw.last_chunk_mem hp h0)).1) (hsw.pid_lt _ _ hp)).1 hx
    obtain ⟨hsame1, _⟩ := swapout_same _ _ _ _ _ _ _ hout
    have hptA : PTInv { s with IPT := { s.IPT with FIFO_index_last := j % n } } [] C :=
      PTInv_of_ipt s _ [] C hpt rfl rfl rfl rfl hpt.fifo_start rfl rfl
    have hpt1 : PTInv s1 [] C := PTInv_of_same _ _ _ _ hptA hsame1
    have hpt2 : PTInv { s1 with stats := add_SWAP_write s1.stats } [] C :=
      PTInv_of_ipt s1 _ [] C hpt1 rfl rfl rfl rfl hpt1.fifo_start rfl rfl
    -- the removal of the victim
    have hipt1 : s1.IPT = { s.IPT with FIFO_index_last := j % n } := hsame1.1
    have hent1 : s1.IPT.entries = s.IPT.entries := by rw [hipt1]
    have hmem : j % n ∈ C (PT.GET_PID (s1.IPT.entries (j % n)).low) := by
      refine (hpt1.cover (j % n) ?_).2 ?_
      · rw [hipt1]; show j % n < s.IPT.size; rw [hinv.size]; exact hvn
      · rw [hent1]; exact hvalid
    obtain ⟨l1, l2, hl⟩ := List.append_of_mem hmem
    obtain ⟨p2, hp2, s3, hrem, hpost3⟩ := remove_page_spec _ [] C (j % n) l1 l2 hpt2 hl
    have hpt3 := PTInv_remove _ _ [] C (j % n) l1 l2 p2 hpt2 hl hp2 hpost3
    simp only [List.nil_append] at hpt3
    have hcur3 : s3.curproc = s.curproc := by
      rw [hpost3.other.2.1]; exact hcur1
    have hsame13 : SWSame s1 s3 := by
      have := SWSame_of_remove _ s3 (j % n) _ p2 [] l1 l2 hp2 hpost3
      exact ⟨this.1, this.2.1, this.2.2⟩
    obtain ⟨p1', hp1'⟩ : ∃ p1, s1.procs s.curproc = some p1 := by
      rw [hpost1.procs]; simp [upd]
    obtain ⟨p3, hp3, _⟩ := (hsame13.2.2 s.curproc).2 p1' hp1'
    rw [← hcur3] at hp3
    obtain ⟨s4, h4, hpost4, hpt4⟩ :=
      addEntry_inv s3 [] _ (j % n) ((vaddr &&& PAGE_FRAME) >>> 12) p3 hpt3 hp3
    obtain ⟨s5, h5, hpt5, hs5⟩ := insert_page_fifo_inv s4 [] _ (j % n) hpt4
    have hins : insert_page s vaddr NEG1 =
        .ok (((j % n) * PAGE_SIZE + s.IPT.mem_base_addr) % U32, s5) := by
      simp only [insert_page, insert_page_frame, if_true, hpt.is_full_true, bind_ok,
        insert_page_evict, hrep, hfree, eq_true hcneg, chk_true]
      have hvs : j % n < s.IPT.size := by rw [hinv.size]; exact hvn
      simp only [eq_true hvs, chk_true, bind_ok]
      rw [hvpid, hout]
      simp only [bind_ok]
      rw [hrem]
      simp only [bind_ok, pure_eq]
      rw [hcur3] at h4
      rw [hcur3, h4]
      simp only [bind_ok]
      rw [h5]
      simp only [bind_ok]
    -- the fields of the states in between
    have hst5 : s5.ST = s1.ST := by
      rw [hs5]
      show s4.ST = s1.ST
      rw [hpost4.other.1, hsame13.1]
    have hent5 : s5.IPT.entries = s4.IPT.entries := by rw [hs5]
    have hcur5 : s5.curproc = s.curproc := by
      rw [hs5]; show s4.curproc = _
      rw [hpost4.other.2.1]; exact hcur3
    have hf3 : ∀ f, f ≠ j % n →
        PT.IS_VALID (s3.IPT.entries f).hi = PT.IS_VALID (s.IPT.entries f).hi ∧
        PT.IS_KERNEL (s3.IPT.entries f).hi = PT.IS_KERNEL (s.IPT.entries f).hi ∧
        PT.GET_PN (s3.IPT.entries f).hi = PT.GET_PN (s.IPT.entries f).hi ∧
        PT.GET_PID (s3.IPT.entries f).low = PT.GET_PID (s.IPT.entries f).low := by
      intro f hf
      have := hpost3.e_fields f hf
      simp only [hent1] at this
      exact this
    have hf5 : ∀ f, f ≠ j % n →
        PT.IS_VALID (s5.IPT.entries f).hi = PT.IS_VALID (s.IPT.entries f).hi ∧
        PT.IS_KERNEL (s5.IPT.entries f).hi = PT.IS_KERNEL (s.IPT.entries f).hi ∧
        PT.GET_PN (s5.IPT.entries f).hi = PT.GET_PN (s.IPT.entries f).hi ∧
        PT.GET_PID (s5.IPT.entries f).low = PT.GET_PID (s.IPT.entries f).low := by
      intro f hf
      have a := addEntry_fields s3 s4 [] _ (j % n) _ _ p3 hpt3 hp3 hpost4 f hf
      have b := hf3 f hf
      rw [hent5]
      exact ⟨a.1.trans b.1, a.2.1.trans b.2.1, a.2.2.1.trans b.2.2.1, a.2.2.2.trans b.2.2.2⟩
    have hsameA5 : SWSame s1 s5 := by
      have h34 : SWSame s3 s4 := SWSame_of_addEntry s3 s4 _ _ _ p3 hp3 hpost4
      have h45 : SWSame s4 s5 := by
        rw [hs5]
        exact ⟨rfl, rfl, fun q => ⟨fun h => h, fun p0 h0 => ⟨p0, h0, rfl, rfl, rfl⟩⟩⟩
      exact (hsame13.trans h34).trans h45
    have hpnv : PT.GET_PN (s.IPT.entries (j % n)).hi % 2 ^ 20 =
        PT.GET_PN (s.IPT.entries (j % n)).hi := Nat.mod_eq_of_lt (PT_GET_PN_lt _)
    refine ⟨s5, c, hfree, hins, ?_, ?_, ?_, ?_, ?_, ?_, ?_, ?_, ?_⟩
    · constructor
      · have e : List.range' (j + 1) (n - (j + 1)) = [] := by
          have : n - (j + 1) = 0 := by omega
          rw [this]; rfl
        rw [e]; exact ⟨_, hpt5⟩
      · rw [hs5]; show s4.IPT.size = n
        rw [hpost4.size, hpost3.size]
        show s1.IPT.size = n
        rw [hipt1]; exact hinv.size
      · intro i hi _
        rw [hs5]
        show upd s4.IPT.FIFO s4.IPT.FIFO_index_start (j % n) i = i
        have hst : s4.IPT.FIFO_index_start = j % n := by
          rw [hpost4.fifo_start, hpost3.fifo_start]
          show s1.IPT.FIFO_index_start = _
          rw [hipt1]; exact hinv.start
        have hff : s4.IPT.FIFO = s.IPT.FIFO := by
          rw [hpost4.fifo, hpost3.fifo]
          show s1.IPT.FIFO = _
          rw [hipt1]
        rw [hst, hff]
        by_cases e : i = j % n
        · simp [upd, e]
        · simp only [upd, e, if_false]
          exact hinv.fifo i hi (by omega)
      · rw [hs5]
        show ((s4.IPT.FIFO_index_start + 1) % U32) % s4.IPT.size = _
        have hst : s4.IPT.FIFO_index_start = j % n := by
          rw [hpost4.fifo_start, hpost3.fifo_start]
          show s1.IPT.FIFO_index_start = _
          rw [hipt1]; exact hinv.start
        have hsz : s4.IPT.size = n := by
          rw [hpost4.size, hpost3.size]
          show s1.IPT.size = n
          rw [hipt1]; exact hinv.size
        have e1 : (j % n + 1) % U32 = j % n + 1 := by
          apply Nat.mod_eq_of_lt; simp only [U32]; omega
        rw [hst, hsz, e1, mod_succ_mod]
      · rw [hs5]
        show s4.IPT.FIFO_index_last = _
        rw [hpost4.fifo_last, hpost3.fifo_last]
        show s1.IPT.FIFO_index_last = _
        rw [hipt1]
        show j % n = _
        have : n - 1 + (j + 1 - n) = j := by omega
        rw [this]
      · intro f hf
        by_cases hfv : f = j % n
        · rw [hfv, hent5, hpost4.e_kernel, if_neg (vpn_user vaddr hv)]
        · rw [(hf5 f hfv).2.1]; exact hinv.user f hf
      · intro f hf hval
        rw [hcur5]
        by_cases hfv : f = j % n
        · rw [hfv, hent5, hpost4.e_pid, hcur3]
        · rw [(hf5 f hfv).1] at hval
          rw [(hf5 f hfv).2.2.2]; exact hinv.own f hf hval
      · rw [hcur5]
        obtain ⟨p5, hp5, _⟩ := (hsameA5.2.2 s.curproc).2 p1' hp1'
        rw [hp5]; simp
      · cases F1 with
        | nil =>
          right
          intro c' hc'
          rw [hst5] at hc' ⊢
          exact hboth.2 rfl s1 hout c' hc'
        | cons d F2 =>
          left
          obtain ⟨s1', hout', _, hsw1, _⟩ := hboth.1 d F2 rfl
          have e : s1' = s1 := by rw [hout] at hout'; exact (Except.ok.inj hout').symm
          subst e
          refine ⟨_, _, SWInv_of_same _ s5 _ _ hsw1 hsameA5, ?_⟩
          intro a ha
          rw [hst5, hpost1.size]
          have ha' : (c :: d :: F2).getLast? = some a := by
            rw [getLast?_cons_ne_nil c (by simp)]; exact ha
          have ham : a ∈ d :: F2 := getLast?_mem ha
          have hac : a ≠ c := by
            intro e; subst e
            exact (List.nodup_cons.mp hsw.F_nodup).1 ham
          have hal : p.n_chunks = 0 ∨ a ≠ p.last_st_i := by
            by_cases h0 : p.n_chunks = 0
            · exact Or.inl h0
            · refine Or.inr (fun e => ?_)
              have h1 := (hsw.C_own _ _ (hsw.last_chunk_mem hp h0)).2.1
              rw [← e] at h1
              exact (hsw.F_free a (List.mem_cons_of_mem _ ham)).2 h1
          rw [(hpost1.e_link a hac hal).2]
          exact hnx a ha'
    · rw [hst5, hpost1.c_pn, hpnv]
    · rw [hst5, hpost1.c_pid, hvpid]
    · rw [hst5, hpost1.c_swapped]
    · rw [hs5]; show s4.disk = _
      rw [sameOther_disk hpost4.other, sameOther_disk hpost3.other]
      exact hdisk1
    · rw [hs5]; show s4.stats = _
      rw [sameOther_stats hpost4.other, sameOther_stats hpost3.other]
      show add_SWAP_write s1.stats = _
      rw [hstats1]
    · rw [hs5]; show s4.IPT.mem_base_addr = _
      rw [hpost4.mem_base, hpost3.mem_base]
      show s1.IPT.mem_base_addr = _
      rw [hipt1]
    · rw [hent5]; exact hpost4.e_pn
    · intro f hf
      exact (hf5 f hf).2.2.1

theorem swapTableInit_last_next (st_size : Nat) (raw : Nat → STE) (N : Nat)
    (hN : (st_size / PAGE_SIZE) % U32 = N) (h1 : 1 ≤ N) :
    ((swapTableInit st_size raw).entries (N - 1)).next = 0 := by
  have hlt : N < U32 := by rw [← hN]; exact Nat.mod_lt _ (by simp [U32])
  have hn : (N + U32 - 1) % U32 = N - 1 := by
    simp only [U32] at *; omega
  simp [swapTableInit, hN, hn, upd]

theorem FifoInv_fresh (n N : Nat) (s0 : Kernel) (hpt : PTFresh n s0) (hsw : SWFresh N s0)
    (hproc : s0.procs s0.curproc ≠ none) : FifoInv n s0 0 := by
  have hinv := PTInv_fresh n s0 hpt
  have hsinv := SWInv_fresh N s0 hsw
  obtain ⟨h1, ⟨raw, rawFIFO, mem_base, hfit, hipt⟩, _⟩ := hpt
  obtain ⟨h2, ⟨st_size, rawS, hN, hst⟩, _⟩ := hsw
  have hn20 : n ≤ 2 ^ 20 := by simp only [U32, PAGE_SIZE] at hfit; omega
  have hent := pageTInit_entries n raw rawFIFO mem_base h1 hn20
  rw [← hipt] at hent
  have hsize : s0.IPT.size = n := by rw [hipt]; rfl
  have hnm : (n + U32 - 1) % U32 = n - 1 := by simp only [U32] at *; omega
  constructor
  · refine ⟨fun _ => [], ?_⟩
    have : List.range' 0 (n - 0) = List.range n := by
      rw [List.range_eq_range']; rfl
    rw [this]; exact hinv
  · exact hsize
  · intro i _ hi; omega
  · rw [hipt]; simp [pageTInit]
  · rw [hipt]
    show (n + U32 - 1) % U32 = _
    rw [hnm]
    have : n - 1 + (0 - n) = n - 1 := by omega
    rw [this, Nat.mod_eq_of_lt (by omega)]
  · intro f hf; exact (hent f hf).2.1
  · intro f hf hval; exact absurd (hent f hf).1 hval
  · exact hproc
  · left
    refine ⟨_, _, hsinv, ?_⟩
    intro a ha
    have hrange : List.range N = List.range' 0 (N - 1 + 1) := by
      have e : N - 1 + 1 = N := by omega
      rw [List.range_eq_range', e]
    rw [hrange, List.range'_concat] at ha
    simp at ha
    have hsz : s0.ST.size = N := by rw [hst]; exact hN
    have := swapTableInit_last_next st_size rawS N hN (by omega)
    rw [← hst] at this
    rw [← ha, this, hsz]
    omega

theorem FifoRun_inv (n : Nat) (s0 s : Kernel) (j : Nat) (h0 : FifoInv n s0 0)
    (h : FifoRun s0 j s) : FifoInv n s j := by
  induction h with
  | init => exact h0
  | step j s s' vaddr a _ hv hav hins ih =>
    by_cases hj : j < n
    · obtain ⟨s'', h1, h2, _⟩ := insert_page_fill_step n j s vaddr ih hj hv
      rw [h1] at hins
      have e : s'' = s' := (Prod.mk.inj (Except.ok.inj hins)).2
      subst e
      exact h2
    · obtain ⟨C, hpt⟩ := ih.pt
      have hnil : List.range' j (n - j) = [] := by
        have : n - j = 0 := by omega
        rw [this]; rfl
      rw [hnil] at hpt
      have hav' := hav hpt.freeChain_eq
      obtain ⟨s'', c, _, h1, h2, _⟩ := insert_page_evict_step n j s vaddr ih (by omega) hv hav'
      rw [h1] at hins
      have e : s'' = s' := (Prod.mk.inj (Except.ok.inj hins)).2
      subst e
      exact h2

/-- C7: on a system freshly set up by `pageTInit(n)` and `swapTableInit`, with the
running process the only one that makes calls, all of them `insert_page(vaddr, -1)` for
user addresses: the call after `j < n` earlier ones returns the address of frame `j`
and writes nothing to swap, so `n` calls fill the frames `0, .., n-1` in that order;
after `n + k - 1` calls, `k ≥ 1`, with a swap chunk free, the next call returns, picks
the frame `(k - 1) mod n` as victim and returns its address, writes the victim's page
to the chunk `getFirstFreeChunckIndex` returned and stamps that chunk with the victim's
page number and pid and `swapped = 0`, adds exactly one to `SWAP_WRITE`, and puts the
new page into the victim's frame, leaving the page numbers of the other frames. -/
theorem fifo_victim_order (n N k : Nat) (s0 s : Kernel) (vaddr : Nat)
    (hpt : PTFresh n s0) (hsw : SWFresh N s0) (hproc : s0.procs s0.curproc ≠ none)
    (hk : 1 ≤ k) (hrun : FifoRun s0 (n + k - 1) s) (hv : vaddr ≤ MIPS_KSEG0)
    (hav : SWAvailable s) :
    (∀ j t u, j < n → FifoRun s0 j t → u ≤ MIPS_KSEG0 →
      ∃ t', insert_page t u NEG1 = .ok ((j * PAGE_SIZE + t.IPT.mem_base_addr) % U32, t') ∧
        t'.stats = t.stats ∧ t'.ST = t.ST) ∧
    ∃ s' c, getFirstFreeChunckIndex s.ST = .ok c ∧
      insert_page s vaddr NEG1 =
        .ok ((((k - 1) % n) * PAGE_SIZE + s.IPT.mem_base_addr) % U32, s') ∧
      SW.GET_PN (s'.ST.entries c).hi = PT.GET_PN (s.IPT.entries ((k - 1) % n)).hi ∧
      SW.GET_PID (s'.ST.entries c).hi = PT.GET_PID (s.IPT.entries ((k - 1) % n)).low ∧
      SW.IS_SWAPPED (s'.ST.entries c).hi = 0 ∧
      s'.disk = page_to_disk s.ram s.disk
        (PADDR_TO_KVADDR (((((k - 1) % n) * PAGE_SIZE + s.IPT.mem_base_addr) % U32)
          &&& PAGE_FRAME))
        ((c * PAGE_SIZE) % U32) ∧
      s'.stats = add_SWAP_write s.stats ∧
      s'.stats.swap_write = s.stats.swap_write + 1 ∧
      PT.GET_PN (s'.IPT.entries ((k - 1) % n)).hi = ((vaddr &&& PAGE_FRAME) >>> 12) % 2 ^ 20 ∧
      (∀ f, f ≠ (k - 1) % n →
        PT.GET_PN (s'.IPT.entries f).hi = PT.GET_PN (s.IPT.entries f).hi) := by
  have h0 := FifoInv_fresh n N s0 hpt hsw hproc
  constructor
  · intro j t u hj hrun' hu
    obtain ⟨t', h1, _, h3, h4, _⟩ :=
      insert_page_fill_step n j t u (FifoRun_inv n s0 t j h0 hrun') hj hu
    exact ⟨t', h1, h3, h4⟩
  · have ek : n + k - 1 = n + (k - 1) := by omega
    rw [ek] at hrun
    have hinv := FifoRun_inv n s0 s _ h0 hrun
    obtain ⟨s', c, h1, h2, _, h4, h5, h6, h7, h8, _, h10, h11⟩ :=
      insert_page_evict_step n (n + (k - 1)) s vaddr hinv (by omega) hv hav
    have e : (n + (k - 1)) % n = (k - 1) % n := Nat.add_mod_left n (k - 1)
    rw [e] at h2 h4 h5 h7 h10 h11
    refine ⟨s', c, h1, h2, h4, h5, h6, h7, h8, ?_, h10, h11⟩
    rw [h8]; rfl

theorem FifoRun.touch_step {s0 s : Kernel} {j : Nat} (h : FifoRun s0 j s) (vaddr : Nat)
    (hv : vaddr ≤ MIPS_KSEG0) (hav : freeChain s.IPT = [] → SWAvailable s)
    (hok : outcome (insert_page s vaddr NEG1) = .ok ()) :
    FifoRun s0 (j + 1) (touch s vaddr) := by
  cases hr : insert_page s vaddr NEG1 with
  | error e => rw [hr] at hok; simp [outcome, Except.map] at hok
  | ok r =>
    have e : touch s vaddr = r.2 := by simp only [touch, stateAfter, hr]
    rw [e]
    exact FifoRun.step j s r.2 vaddr r.1 h hv hav hr

theorem demo8_8_run : FifoRun demo8 8 demo8_8 :=
  ((((((((FifoRun.init : FifoRun demo8 0 demo8).touch_step 0x400000 (by decide)
    (fun h => absurd h (by decide!)) (by decide!)).touch_step 0x401000 (by decide)
    (fun h => absurd h (by decide!)) (by decide!)).touch_step 0x402000 (by decide)
    (fun h => absurd h (by decide!)) (by decide!)).touch_step 0x403000 (by decide)
    (fun h => absurd h (by decide!)) (by decide!)).touch_step 0x404000 (by decide)
    (fun h => absurd h (by decide!)) (by decide!)).touch_step 0x405000 (by decide)
    (fun h => absurd h (by decide!)) (by decide!)).touch_step 0x406000 (by decide)
    (fun h => absurd h (by decide!)) (by decide!)).touch_step 0x407000 (by decide)
    (fun h => absurd h (by decide!)) (by decide!)

theorem fifo_victim_order_witness :
    PTFresh 8 demo8 ∧ SWFresh 16 demo8 ∧ FifoRun demo8 (8 + 1 - 1) demo8_8 ∧
    SWAvailable demo8_8 ∧
    residentPages demo8_8 = [0x400, 0x401, 0x402, 0x403, 0x404, 0x405, 0x406, 0x407] ∧
    (∃ s', insert_page demo8_8 0x408000 NEG1 = .ok (0x100000, s') ∧
      s'.stats.swap_write = demo8_8.stats.swap_write + 1) ∧
    residentPages demo8_9 = [0x408, 0x401, 0x402, 0x403, 0x404, 0x405, 0x406, 0x407] ∧
    getSwapChunk demo8_9 0x400000 1 = .ok 0 :=
  ⟨demo8_fresh, demo8_swfresh, demo8_8_run, ⟨0, by decide!, by decide!⟩, by decide!,
    (fifo_victim_order 8 16 1 demo8 demo8_8 0x408000 demo8_fresh demo8_swfresh (by decide)
      (by decide) demo8_8_run (by decide) ⟨0, by decide!, by decide!⟩).2.elim
      fun s' h => h.elim fun _ h => ⟨s', h.2.1, h.2.2.2.2.2.2.2.1⟩,
    by decide!, by decide!⟩

/-! ## `chunks_fork` -/

theorem SW_GET_PN_lt (x : Nat) : SW.GET_PN x < 2 ^ 20 := by
  have h1 : x &&& 0xFFFFF000 ≤ 0xFFFFF000 := Nat.and_le_right
  simp only [SW.GET_PN, Nat.shiftRight_eq_div_pow]
  omega

theorem chunks_fork_step_skip (t : Kernel) (src dst i : Nat) (hi : i < t.ST.size)
    (hsel : srcSel t src i = false) : chunks_fork_step t src dst i = .ok t := by
  simp only [srcSel, decide_eq_false_iff_not] at hsel
  simp only [chunks_fork_step, eq_true hi, chk_true, bind_ok, eq_false hsel, if_false, pure_eq]

theorem chunks_fork_step_take (t : Kernel) (src dst i c : Nat) (p : proc)
    (hp : t.procs dst = some p) (hi : i < t.ST.size) (hsel : srcSel t src i = true)
    (hfirst : t.ST.first_free_chunk = c) (hc : c < t.ST.size)
    (hcs : SW.IS_SWAPPED (t.ST.entries c).hi ≠ 0) (hx : (t.ST.entries c).next < t.ST.size)
    (hl : p.n_chunks ≠ 0 → p.last_st_i < t.ST.size) (hdst : dst < 64) (hcU : c ≠ NEG1) :
    ∃ t', chunks_fork_step t src dst i = .ok t' ∧
      TakePost t t' c dst p dst (SW.GET_PN (t.ST.entries i).hi) ∧
      t'.disk = copy_half (copy_half t.disk ((i * PAGE_SIZE) % U32) ((c * PAGE_SIZE) % U32))
        (((i * PAGE_SIZE) % U32 + PAGE_SIZE / 2) % U32)
        (((c * PAGE_SIZE) % U32 + PAGE_SIZE / 2) % U32) := by
  simp only [srcSel, decide_eq_true_eq] at hsel
  have hic : i ≠ c := by
    intro e; subst e; exact hcs hsel.2
  have hfree : getFirstFreeChunckIndex t.ST = .ok c := by
    simp only [getFirstFreeChunckIndex,
      SW_IS_FULL_false t.ST (by rw [hfirst]; exact hc) (by rw [hfirst]; exact hcs), bind_ok]
    simp [pure_eq, hfirst]
  by_cases hn : p.n_chunks = 0
  · simp only [chunks_fork_step, eq_true hi, chk_true, bind_ok, eq_true hsel, if_true, hfree,
      eq_true hcU, delete_free_chunk, hfirst, eq_true hc, eq_true hx, pure_eq, proc_search_pid,
      hp]
    generalize hd : copy_half (copy_half t.disk (i * PAGE_SIZE % U32) (c * PAGE_SIZE % U32))
      ((i * PAGE_SIZE % U32 + PAGE_SIZE / 2) % U32)
      ((c * PAGE_SIZE % U32 + PAGE_SIZE / 2) % U32) = d
    simp only [insert_into_process_chunk_list, hn, setProc, if_true, eq_true hc, chk_true,
      bind_ok, pure_eq]
    refine ⟨_, rfl, ?_, ?_⟩
    rotate_left
    · rw [← hd]
    generalize hxe : (t.ST.entries c).next = x
    constructor <;> simp [upd, hdst, hn, hxe, hic]
    · rcases eq_or_ne i x with rfl | hix
      · simp [Nat.mod_eq_of_lt (SW_GET_PN_lt _)]
      · simp [hix, Nat.mod_eq_of_lt (SW_GET_PN_lt _)]
    · intro j hj
      rcases eq_or_ne j x with rfl | hjx
      · simp [hj]
      · simp [hj, hjx]
    · intro j hj
      rcases eq_or_ne j x with rfl | hjx
      · simp [hj]
      · simp [hj, hjx]
  · have hl' := hl hn
    simp only [chunks_fork_step, eq_true hi, chk_true, bind_ok, eq_true hsel, if_true, hfree,
      eq_true hcU, delete_free_chunk, hfirst, eq_true hc, eq_true hx, pure_eq, proc_search_pid,
      hp]
    generalize hd : copy_half (copy_half t.disk (i * PAGE_SIZE % U32) (c * PAGE_SIZE % U32))
      ((i * PAGE_SIZE % U32 + PAGE_SIZE / 2) % U32)
      ((c * PAGE_SIZE % U32 + PAGE_SIZE / 2) % U32) = d
    simp only [insert_into_process_chunk_list, eq_false hn, if_false, eq_true hl', setProc,
      eq_true hc, chk_true, bind_ok, pure_eq]
    refine ⟨_, rfl, ?_, ?_⟩
    rotate_left
    · rw [← hd]
    generalize hxe : (t.ST.entries c).next = x
    generalize hle : p.last_st_i = l
    constructor <;> simp [upd, hdst, hn, hxe, hle, hic]
    · rcases eq_or_ne i l with rfl | hil
      · rcases eq_or_ne i x with rfl | hix
        · simp [Nat.mod_eq_of_lt (SW_GET_PN_lt _)]
        · simp [hix, Nat.mod_eq_of_lt (SW_GET_PN_lt _)]
      · rcases eq_or_ne i x with rfl | hix
        · simp [hil, Nat.mod_eq_of_lt (SW_GET_PN_lt _)]
        · simp [hil, hix, Nat.mod_eq_of_lt (SW_GET_PN_lt _)]
    · intro j hj
      rcases eq_or_ne j l with rfl | hjl
      · rcases eq_or_ne j x with rfl | hjx
        · simp [hj]
        · simp [hj, hjx]
      · rcases eq_or_ne j x with rfl | hjx
        · simp [hj, hjl]
        · simp [hj, hjl, hjx]
    · intro j hj hjl
      rcases eq_or_ne j x with rfl | hjx
      · simp [hj, hjl]
      · simp [hj, hjl, hjx]
    · intro hlc
      simp [hlc]

/-! ## Lists and file regions for `chunks_fork` -/

theorem srcChunks_succ (s : Kernel) (src i : Nat) :
    srcChunks s src (i + 1) = srcChunks s src i ++ (if srcSel s src i = true then [i] else []) := by
  simp only [srcChunks, List.range_succ, List.filter_append, List.filter_cons, List.filter_nil]

theorem mem_srcChunks (s : Kernel) (src i a : Nat) :
    a ∈ srcChunks s src i ↔ a < i ∧ srcSel s src a = true := by
  simp [srcChunks, List.mem_filter]

theorem srcChunks_length_mono (s : Kernel) (src i n : Nat) (h : i ≤ n) :
    (srcChunks s src i).length ≤ (srcChunks s src n).length := by
  apply List.Sublist.length_le
  exact List.Sublist.filter _ (List.range_sublist.mpr h)

theorem srcChunks_nodup (s : Kernel) (src i : Nat) : (srcChunks s src i).Nodup :=
  List.Nodup.filter _ (List.nodup_range i)

theorem zip_take_length (S F : List Nat) : List.zip S F = List.zip S (F.take S.length) := by
  induction S generalizing F with
  | nil => simp
  | cons a S ih =>
    cases F with
    | nil => simp
    | cons b F => simp only [List.zip_cons_cons, List.length_cons, List.take_succ_cons]; rw [← ih]

theorem mem_zip_snd_take (S F : List Nat) (x : Nat × Nat) (h : x ∈ List.zip S F) :
    x.2 ∈ F.take S.length := by
  rw [zip_take_length] at h
  obtain ⟨a, b⟩ := x
  exact (List.of_mem_zip h).2

theorem mem_zip_fst (S F : List Nat) (x : Nat × Nat) (h : x ∈ List.zip S F) : x.1 ∈ S := by
  obtain ⟨a, b⟩ := x
  exact (List.of_mem_zip h).1

theorem exists_zip_of_mem_take (S F : List Nat) (h : S.length ≤ F.length) (b : Nat)
    (hb : b ∈ F.take S.length) : ∃ a, (a, b) ∈ List.zip S F := by
  rw [zip_take_length]
  have e : (List.zip S (F.take S.length)).map Prod.snd = F.take S.length := by
    apply List.map_snd_zip
    simp [List.length_take, h]
  rw [← e] at hb
  obtain ⟨x, hx, rfl⟩ := List.mem_map.mp hb
  exact ⟨x.1, hx⟩

theorem exists_zip_of_mem_fst (S F : List Nat) (h : S.length ≤ F.length) (a : Nat)
    (ha : a ∈ S) : ∃ b, (a, b) ∈ List.zip S F := by
  have e : (List.zip S F).map Prod.fst = S := List.map_fst_zip _ _ h
  rw [← e] at ha
  obtain ⟨x, hx, rfl⟩ := List.mem_map.mp ha
  exact ⟨x.2, hx⟩

theorem zip_snoc (S F : List Nat) (i c : Nat) (h : F[S.length]? = some c) :
    List.zip (S ++ [i]) F = List.zip S F ++ [(i, c)] := by
  induction S generalizing F with
  | nil =>
    cases F with
    | nil => simp at h
    | cons b F => simp at h; simp [h]
  | cons a S ih =>
    cases F with
    | nil => simp at h
    | cons b F =>
      simp only [List.length_cons, List.getElem?_cons_succ] at h
      simp only [List.cons_append, List.zip_cons_cons, ih F h]

theorem take_succ_of_getElem (F : List Nat) (m c : Nat) (h : F[m]? = some c) :
    F.take (m + 1) = F.take m ++ [c] := by
  rw [List.take_succ, h]; rfl

theorem drop_cons_getElem (F F' : List Nat) (m c : Nat) (h : F.drop m = c :: F') :
    F[m]? = some c ∧ F.drop (m + 1) = F' := by
  constructor
  · have := List.head?_drop F m
    rw [h] at this
    simpa using this.symm
  · have := List.tail_drop F m
    rw [h] at this
    simpa using this.symm

theorem drop_two_of_lt (F : List Nat) (m : Nat) (h : m + 1 < F.length) :
    ∃ c d F', F.drop m = c :: d :: F' := by
  have hl : (F.drop m).length = F.length - m := List.length_drop _ _
  match hF : F.drop m, hl with
  | [], hl => simp at hl; omega
  | [_], hl => simp at hl; omega
  | c :: d :: F', _ => exact ⟨c, d, F', rfl⟩

theorem not_mem_take_of_drop (F F' : List Nat) (m c : Nat) (hn : F.Nodup)
    (h : F.drop m = c :: F') : c ∉ F.take m := by
  intro hc
  have e := List.take_append_drop m F
  rw [h] at e
  rw [← e] at hn
  have := (List.nodup_append.mp hn).2.2
  exact this hc (by simp)

theorem inChunk_unique (b c a : Nat) (hb : inChunk b a) (hc : inChunk c a) : b = c := by
  simp only [inChunk, PAGE_SIZE] at hb hc
  omega

theorem inChunk_offset (c k : Nat) (hk : k < PAGE_SIZE) : inChunk c (c * PAGE_SIZE + k) := by
  simp only [inChunk, PAGE_SIZE] at *
  omega

/-- The two half-page copies of `chunks_fork` together: chunk `c` of the file receives
the image of chunk `i`, every other byte stays. -/
theorem copy_half_twice (d : Nat → Nat) (i c size : Nat) (hfit : size * PAGE_SIZE ≤ U32)
    (hi : i < size) (hc : c < size) (a : Nat) :
    copy_half (copy_half d ((i * PAGE_SIZE) % U32) ((c * PAGE_SIZE) % U32))
        (((i * PAGE_SIZE) % U32 + PAGE_SIZE / 2) % U32)
        (((c * PAGE_SIZE) % U32 + PAGE_SIZE / 2) % U32) a =
      if c * PAGE_SIZE ≤ a ∧ a < c * PAGE_SIZE + PAGE_SIZE then d (i * PAGE_SIZE + (a - c * PAGE_SIZE))
      else d a := by
  simp only [PAGE_SIZE, U32] at hfit ⊢
  have h1 : i * 4096 % 4294967296 = i * 4096 := Nat.mod_eq_of_lt (by omega)
  have h2 : c * 4096 % 4294967296 = c * 4096 := Nat.mod_eq_of_lt (by omega)
  have h3 : (i * 4096 + 4096 / 2) % 4294967296 = i * 4096 + 2048 := Nat.mod_eq_of_lt (by omega)
  have h4 : (c * 4096 + 4096 / 2) % 4294967296 = c * 4096 + 2048 := Nat.mod_eq_of_lt (by omega)
  rw [h1, h2, h3, h4]
  simp only [copy_half, PAGE_SIZE]
  by_cases hA : c * 4096 + 2048 ≤ a ∧ a < c * 4096 + 2048 + 4096 / 2
  · rw [if_pos hA]
    have hB : ¬ (c * 4096 ≤ i * 4096 + 2048 + (a - (c * 4096 + 2048)) ∧
        i * 4096 + 2048 + (a - (c * 4096 + 2048)) < c * 4096 + 4096 / 2) := by omega
    rw [if_neg hB, if_pos (by omega)]
    have e : i * 4096 + 2048 + (a - (c * 4096 + 2048)) = i * 4096 + (a - c * 4096) := by omega
    rw [e]
  · rw [if_neg hA]
    by_cases hB : c * 4096 ≤ a ∧ a < c * 4096 + 4096 / 2
    · rw [if_pos hB, if_pos (by omega)]
    · rw [if_neg hB, if_neg (by omega)]

/-! ## The loop of `chunks_fork` -/

theorem upd_upd_same {α : Type} (f : Nat → α) (i : Nat) (v w : α) :
    upd (upd f i v) i w = upd f i w := by
  funext j; simp only [upd]; split <;> rfl

theorem ForkInv_start (s : Kernel) (src dst : Nat) (F : List Nat) (C : Nat → List Nat)
    (h0 : SWInv s F C) (hp : ∃ p, s.procs dst = some p) : ForkInv s s src dst 0 F C := by
  have e : upd C dst (C dst ++ []) = C := by
    funext j; simp only [upd, List.append_nil]; split
    · next h => rw [h]
    · rfl
  constructor
  · simp only [srcChunks, List.range_zero, List.filter_nil, List.length_nil, List.drop_zero,
      List.take_zero, e]
    exact h0
  · rfl
  · intro j _; exact ⟨rfl, rfl, rfl⟩
  · intro a _; rfl
  · intro x hx; simp [srcChunks] at hx
  · intro q _; rfl
  · exact hp

theorem ForkInv_step (s t : Kernel) (src dst i : Nat) (F : List Nat) (C : Nat → List Nat)
    (h0 : SWInv s F C) (hne : src ≠ dst) (hfit : s.ST.size * PAGE_SIZE ≤ U32)
    (hfree : (srcChunks s src s.ST.size).length < F.length) (hi : i < s.ST.size)
    (hI : ForkInv s t src dst i F C) :
    ∃ t', chunks_fork_step t src dst i = .ok t' ∧ ForkInv s t' src dst (i + 1) F C := by
  have hit : i < t.ST.size := by rw [hI.size]; exact hi
  have hlen : (srcChunks s src i).length ≤ F.length :=
    le_trans (srcChunks_length_mono s src i _ (le_of_lt hi)) (le_of_lt hfree)
  -- the test gives the same answer in `t` as in `s`
  have hsel : srcSel t src i = srcSel s src i := by
    by_cases hiF : i ∈ F.take (srcChunks s src i).length
    · obtain ⟨a, ha⟩ := exists_zip_of_mem_take _ _ hlen i hiF
      have h1 := hI.pairs (a, i) ha
      have h2 := (h0.F_free i (List.mem_of_mem_take hiF)).2
      have e1 : srcSel t src i = false := by
        simp only [srcSel, decide_eq_false_iff_not]
        intro h; exact hne (h.1.symm.trans h1.2.1)
      have e2 : srcSel s src i = false := by
        simp only [srcSel, decide_eq_false_iff_not]
        intro h; exact h2 h.2
      rw [e1, e2]
    · have h1 := hI.stamp_other i hiF
      simp only [srcSel, h1.1, h1.2.1]
  by_cases hs : srcSel s src i = true
  · -- chunk `i` is copied
    have hS := srcChunks_succ s src i
    rw [if_pos hs] at hS
    have hm : (srcChunks s src i).length + 1 < F.length := by
      have := srcChunks_length_mono s src (i + 1) s.ST.size hi
      rw [hS, List.length_append] at this
      simp only [List.length_singleton] at this
      omega
    obtain ⟨c, d, F', hd⟩ := drop_two_of_lt F _ hm
    have hinv := hI.inv
    rw [hd] at hinv
    obtain ⟨p, hp⟩ := hI.procs_dst
    have hfirst := hinv.F_head c rfl
    have hc := hinv.F_free c (by simp)
    have hl : p.n_chunks ≠ 0 → p.last_st_i < t.ST.size :=
      fun h0 => (hinv.C_own _ _ (hinv.last_chunk_mem hp h0)).1
    have hpid := hinv.pid_lt _ _ hp
    have hstep := Linked.head_step hinv.F_link
    have hdf := hinv.F_free d (by simp)
    have hx : (t.ST.entries c).next < t.ST.size := by
      have := hstep.2; simp only [SW.nx] at this; rw [this]; exact hdf.1
    have hcU : c ≠ NEG1 := by
      have h1 := hinv.size_lt
      have h2 := hc.1
      simp only [U32, NEG1] at *
      omega
    obtain ⟨t', hok, hpost, hdisk⟩ := chunks_fork_step_take t src dst i c p hp hit
      (by rw [hsel]; exact hs) hfirst hc.1 hc.2 hx hl hpid hcU
    have hinv' := SWInv_take t t' F' _ c d dst _ p hinv hp hpost
    obtain ⟨hget, hdrop⟩ := drop_cons_getElem F (d :: F') _ c hd
    have htake := take_succ_of_getElem F _ c hget
    have hcnot := not_mem_take_of_drop F (d :: F') _ c h0.F_nodup hd
    have hcF : c ∈ F := by
      have e := List.take_append_drop (srcChunks s src i).length F
      rw [← e, hd]; simp
    have hcs : c < s.ST.size := (h0.F_free c hcF).1
    have hiF : i ∉ F := by
      intro h
      have := (h0.F_free i h).2
      simp only [srcSel, decide_eq_true_eq] at hs
      exact this hs.2
    have hic : i ≠ c := fun e => hiF (e ▸ hcF)
    have hiT : i ∉ F.take (srcChunks s src i).length := fun h => hiF (List.mem_of_mem_take h)
    have hdk_in : ∀ a, inChunk c a → t'.disk a = t.disk (i * PAGE_SIZE + (a - c * PAGE_SIZE)) := by
      intro a ha
      unfold inChunk at ha
      rw [hdisk, copy_half_twice t.disk i c s.ST.size hfit hi hcs a, if_pos ha]
    have hdk_out : ∀ a, ¬ inChunk c a → t'.disk a = t.disk a := by
      intro a ha
      unfold inChunk at ha
      rw [hdisk, copy_half_twice t.disk i c s.ST.size hfit hi hcs a, if_neg ha]
    refine ⟨t', hok, ?_⟩
    have hlen' : (srcChunks s src (i + 1)).length = (srcChunks s src i).length + 1 := by
      rw [hS]; simp
    constructor
    · rw [hlen', hdrop, htake, ← List.append_assoc]
      have e : upd (upd C dst (C dst ++ List.take (srcChunks s src i).length F)) dst
          (upd C dst (C dst ++ List.take (srcChunks s src i).length F) dst ++ [c]) =
          upd C dst (C dst ++ List.take (srcChunks s src i).length F ++ [c]) := by
        rw [upd_upd_same, upd_same]
      rw [← e]; exact hinv'
    · rw [hpost.size, hI.size]
    · intro j hj
      rw [hlen', htake, List.mem_append, not_or] at hj
      have hjc : j ≠ c := fun e => hj.2 (by simp [e])
      have h1 := hpost.e_fields j hjc
      have h2 := hI.stamp_other j hj.1
      exact ⟨h1.1.trans h2.1, h1.2.1.trans h2.2.1, h1.2.2.1.trans h2.2.2⟩
    · intro a ha
      rw [hlen', htake] at ha
      rw [hdk_out a (ha c (by simp))]
      exact hI.disk_other a (fun b hb => ha b (by simp [hb]))
    · intro x hx
      rw [hS, zip_snoc _ F i c hget, List.mem_append] at hx
      rcases hx with hx | hx
      · have hx2 := mem_zip_snd_take _ _ x hx
        have hxc : x.2 ≠ c := fun e => hcnot (e ▸ hx2)
        have h1 := hpost.e_fields x.2 hxc
        have h2 := hI.pairs x hx
        refine ⟨h1.2.2.1.trans h2.1, h1.2.1.trans h2.2.1, h1.1.trans h2.2.2.1, ?_⟩
        intro k hk
        rw [hdk_out, h2.2.2.2 k hk]
        intro hin
        exact hxc (inChunk_unique _ _ _ (inChunk_offset x.2 k hk) hin)
      · simp only [List.mem_singleton] at hx
        subst hx
        have h2 := hI.stamp_other i hiT
        refine ⟨?_, hpost.c_pid, hpost.c_swapped, ?_⟩
        · rw [hpost.c_pn, Nat.mod_eq_of_lt (SW_GET_PN_lt _)]; exact h2.2.2
        · intro k hk
          show t'.disk (c * PAGE_SIZE + k) = s.disk (i * PAGE_SIZE + k)
          rw [hdk_in _ (inChunk_offset c k hk), Nat.add_sub_cancel_left]
          apply hI.disk_other
          intro b hb hin
          have := inChunk_unique _ _ _ (inChunk_offset i k hk) hin
          exact hiT (this ▸ hb)
    · intro q hq
      rw [hpost.procs, upd_ne _ _ _ _ hq]
      exact hI.procs_other q hq
    · rw [hpost.procs, upd_same]; exact ⟨_, rfl⟩
  · -- chunk `i` is passed over
    have hs' : srcSel s src i = false := by simpa using hs
    have hS := srcChunks_succ s src i
    rw [if_neg hs, List.append_nil] at hS
    refine ⟨t, chunks_fork_step_skip t src dst i hit (by rw [hsel]; exact hs'), ?_⟩
    constructor
    · rw [hS]; exact hI.inv
    · exact hI.size
    · rw [hS]; exact hI.stamp_other
    · rw [hS]; exact hI.disk_other
    · rw [hS]; exact hI.pairs
    · exact hI.procs_other
    · exact hI.procs_dst

theorem chunks_fork_loop_inv (s : Kernel) (src dst : Nat) (F : List Nat) (C : Nat → List Nat)
    (h0 : SWInv s F C) (hne : src ≠ dst) (hfit : s.ST.size * PAGE_SIZE ≤ U32)
    (hfree : (srcChunks s src s.ST.size).length < F.length) :
    ∀ k i t, i + k = s.ST.size → ForkInv s t src dst i F C →
      ∃ t', chunks_fork_loop src dst k t i = .ok t' ∧ ForkInv s t' src dst s.ST.size F C := by
  intro k
  induction k with
  | zero =>
    intro i t hik hI
    have e : i = s.ST.size := by omega
    subst e
    exact ⟨t, rfl, hI⟩
  | succ k ih =>
    intro i t hik hI
    obtain ⟨t1, h1, hI1⟩ := ForkInv_step s t src dst i F C h0 hne hfit hfree (by omega) hI
    obtain ⟨t', h2, hI2⟩ := ih (i + 1) t1 (by omega) hI1
    refine ⟨t', ?_, hI2⟩
    simp only [chunks_fork_loop, h1, bind_ok, h2]

/-! ## C14: the swap fork -/

/-- C14: in a well-formed swap-table state whose chunk offsets fit the 32-bit offset
variables, with `src_pid ≠ dst_pid`, `dst_pid` an existing process and more free chunks
than in-use chunks of `src_pid`, `chunks_fork(st, src_pid, dst_pid)` returns and leaves
a well-formed table in which: the in-use chunks of `src_pid` (in increasing order) are
paired with the first free chunks (in free-list order), which are distinct and were
free; each counterpart is stamped with the page number of its source chunk, `dst_pid`
and swapped = 0, lies in the chunk chain of `dst_pid` (the old chain followed by the
counterparts) and holds the 4096-byte image of its source chunk; `n_chunks` of `dst_pid`
grows by the number of in-use chunks of `src_pid`; every other process descriptor, the
stamp and image of every chunk of `src_pid` and the chunk chain of `src_pid` are
unchanged. -/
theorem chunks_fork_copies_chunks (s : Kernel) (src_pid dst_pid : Nat) (pd : proc)
    (hwf : SWWf s) (hfit : s.ST.size * PAGE_SIZE ≤ U32) (hne : src_pid ≠ dst_pid)
    (hpd : s.procs dst_pid = some pd)
    (hfree : (srcChunks s src_pid s.ST.size).length < (freeChunkChain s.ST).length) :
    ∃ s' pd', chunks_fork s src_pid dst_pid = .ok s' ∧ SWWf s' ∧
      s'.procs dst_pid = some pd' ∧
      pd'.n_chunks = pd.n_chunks + (srcChunks s src_pid s.ST.size).length ∧
      procChunkChain s'.ST pd' = procChunkChain s.ST pd ++
        (freeChunkChain s.ST).take (srcChunks s src_pid s.ST.size).length ∧
      freeChunkChain s'.ST =
        (freeChunkChain s.ST).drop (srcChunks s src_pid s.ST.size).length ∧
      (List.zip (srcChunks s src_pid s.ST.size) (freeChunkChain s.ST)).map Prod.fst =
        srcChunks s src_pid s.ST.size ∧
      ((List.zip (srcChunks s src_pid s.ST.size) (freeChunkChain s.ST)).map Prod.snd).Nodup ∧
      (∀ x ∈ List.zip (srcChunks s src_pid s.ST.size) (freeChunkChain s.ST),
        SW.IS_SWAPPED (s.ST.entries x.2).hi ≠ 0 ∧
        x.2 ∈ procChunkChain s'.ST pd' ∧
        SW.GET_PN (s'.ST.entries x.2).hi = SW.GET_PN (s.ST.entries x.1).hi ∧
        SW.GET_PID (s'.ST.entries x.2).hi = dst_pid ∧
        SW.IS_SWAPPED (s'.ST.entries x.2).hi = 0 ∧
        ∀ k, k < PAGE_SIZE → s'.disk (x.2 * PAGE_SIZE + k) = s.disk (x.1 * PAGE_SIZE + k)) ∧
      (∀ q, q ≠ dst_pid → s'.procs q = s.procs q) ∧
      (∀ i, i ∈ srcChunks s src_pid s.ST.size →
        SW.IS_SWAPPED (s'.ST.entries i).hi = 0 ∧
        SW.GET_PID (s'.ST.entries i).hi = src_pid ∧
        SW.GET_PN (s'.ST.entries i).hi = SW.GET_PN (s.ST.entries i).hi ∧
        ∀ k, k < PAGE_SIZE → s'.disk (i * PAGE_SIZE + k) = s.disk (i * PAGE_SIZE + k)) ∧
      (∀ ps, s.procs src_pid = some ps →
        (∀ c, c ∈ procChunkChain s.ST ps ↔ c ∈ srcChunks s src_pid s.ST.size) ∧
        procChunkChain s'.ST ps = procChunkChain s.ST ps) := by
  obtain ⟨F, C, h0⟩ := hwf
  rw [h0.freeChunkChain_eq] at hfree ⊢
  obtain ⟨t', hloop, hI⟩ := chunks_fork_loop_inv s src_pid dst_pid F C h0 hne hfit hfree
    s.ST.size 0 s (by simp) (ForkInv_start s src_pid dst_pid F C h0 ⟨pd, hpd⟩)
  obtain ⟨pd', hpd'⟩ := hI.procs_dst
  have hk : (srcChunks s src_pid s.ST.size).length ≤ F.length := le_of_lt hfree
  have hchain' : procChunkChain t'.ST pd' =
      C dst_pid ++ F.take (srcChunks s src_pid s.ST.size).length := by
    rw [hI.inv.procChunkChain_eq hpd', upd_same]
  have hsrc_not : ∀ i, i ∈ srcChunks s src_pid s.ST.size →
      i ∉ F.take (srcChunks s src_pid s.ST.size).length := by
    intro i hi hF
    have h1 := ((mem_srcChunks s src_pid _ i).mp hi).2
    simp only [srcSel, decide_eq_true_eq] at h1
    exact (h0.F_free i (List.mem_of_mem_take hF)).2 h1.2
  refine ⟨t', pd', hloop, ⟨_, _, hI.inv⟩, hpd', ?_, ?_, hI.inv.freeChunkChain_eq,
    List.map_fst_zip _ _ hk, ?_, ?_, hI.procs_other, ?_, ?_⟩
  · have h1 := hI.inv.C_len dst_pid pd' hpd'
    rw [upd_same, List.length_append, h0.C_len dst_pid pd hpd, List.length_take,
      Nat.min_eq_left hk] at h1
    exact h1.symm
  · rw [hchain', h0.procChunkChain_eq hpd]
  · rw [zip_take_length, List.map_snd_zip _ _ (by simp [List.length_take, hk])]
    exact List.Nodup.sublist (List.take_sublist _ F) h0.F_nodup
  · intro x hx
    have hx2 := mem_zip_snd_take _ _ x hx
    refine ⟨(h0.F_free x.2 (List.mem_of_mem_take hx2)).2, ?_, hI.pairs x hx⟩
    rw [hchain']
    exact List.mem_append_right _ hx2
  · intro i hi
    have h1 := ((mem_srcChunks s src_pid _ i).mp hi).2
    simp only [srcSel, decide_eq_true_eq] at h1
    have h2 := hI.stamp_other i (hsrc_not i hi)
    refine ⟨h2.1.trans h1.2, h2.2.1.trans h1.1, h2.2.2, ?_⟩
    intro k hk'
    apply hI.disk_other
    intro b hb hin
    have := inChunk_unique _ _ _ (inChunk_offset i k hk') hin
    exact hsrc_not i hi (this ▸ hb)
  · intro ps hps
    constructor
    · intro c
      rw [h0.procChunkChain_eq hps, mem_srcChunks]
      constructor
      · intro hc
        have h1 := h0.C_own src_pid c hc
        refine ⟨h1.1, ?_⟩
        simp only [srcSel, decide_eq_true_eq]
        exact ⟨h1.2.2, h1.2.1⟩
      · intro hc
        have h1 := hc.2
        simp only [srcSel, decide_eq_true_eq] at h1
        have h2 := (h0.cover c hc.1).2 h1.2
        rw [h1.1] at h2
        exact h2
    · have hps' : t'.procs src_pid = some ps := by rw [hI.procs_other src_pid hne]; exact hps
      rw [hI.inv.procChunkChain_eq hps', upd_ne _ _ _ _ hne, h0.procChunkChain_eq hps]

theorem demo8_out2_step :
    swapout { demo8_out with curproc := 1 } 1 0x101000 0x401 1 false = .ok demo8_out2 := rfl

theorem demo8_out2_swwf : SWWf demo8_out2 :=
  SWReach_inv demo8 demo8_out2 16 demo8_swfresh
    (SWReach.step demo8_out demo8_out2
      (SWReach.step demo8 demo8_out SWReach.init
        (SWStep.out demo8 demo8_out 1 0 0x100000 0x400 false (by decide) (by decide!)
          demo8_out_step ⟨1, by decide!, by decide!⟩))
      (SWStep.out demo8_out demo8_out2 1 1 0x101000 0x401 false (by decide!) (by decide!)
        demo8_out2_step ⟨2, by decide!, by decide!⟩))

theorem chunks_fork_copies_chunks_witness :
    SWWf demo8_out2 ∧ demo8_out2.ST.size * PAGE_SIZE ≤ U32 ∧
    demo8_out2.procs 2 = some proc0 ∧
    srcChunks demo8_out2 1 demo8_out2.ST.size = [0, 1] ∧
    (List.range 16).map (fun i => SW.GET_PN (demo8_out2.ST.entries i).hi) =
      [0x400, 0x401, 0, 0, 0, 0, 0, 0, 0, 0, 0, 0, 0, 0, 0, 0] ∧
    (freeChunkChain demo8_out2.ST).length = 14 ∧
    outcome (chunks_fork demo8_out2 1 2) = .ok () ∧
    (List.range 4).map (fun i => (SW.GET_PN (demo8_forked.ST.entries i).hi,
      SW.GET_PID (demo8_forked.ST.entries i).hi, SW.IS_SWAPPED (demo8_forked.ST.entries i).hi)) =
      [(0x400, 1, 0), (0x401, 1, 0), (0x400, 2, 0), (0x401, 2, 0)] ∧
    nChunks demo8_forked 1 = some 2 ∧ nChunks demo8_forked 2 = some 2 ∧
    ∃ s' pd', chunks_fork demo8_out2 1 2 = .ok s' ∧ s'.procs 2 = some pd' ∧
      procChunkChain s'.ST pd' = procChunkChain demo8_out2.ST proc0 ++
        (freeChunkChain demo8_out2.ST).take (srcChunks demo8_out2 1 demo8_out2.ST.size).length :=
  ⟨demo8_out2_swwf, by decide!, by decide!, by decide!, by decide!, by decide!, by decide!,
    by decide!, by decide!, by decide!,
    (chunks_fork_copies_chunks demo8_out2 1 2 proc0 demo8_out2_swwf (by decide!) (by decide)
      (by decide!) (by decide!)).elim
      fun s' h => h.elim fun pd' h => ⟨s', pd', h.1, h.2.2.1, h.2.2.2.2.1⟩⟩

/-! ## The fault handler -/

/-- C21, the code run on the fresh 8-frame system with process 1 and an address space:
a READ fault at exactly `0x80000000`, and a WRITE fault at `0x80000FFF` (page-aligned to
`0x80000000`), pass the test `faultaddress <= MIPS_KSEG0`: `vm_fault` returns 0, counts
a TLB fault and a zeroed page fault, puts page `0x80000` into frame 0 and installs the
TLB entry `(0x80000000, 0x100000)`. A fault at `0x80001000` returns `EFAULT` and leaves
counters, table and TLB as they were; a fault at `0x7FFFF000` is handled. -/
theorem vm_fault_handles_kseg0_base :
    Except.map (fun r => (r.1, faultCounters r.2, r.2.tlb))
      (vm_fault demo8 (some demoAs) VM_FAULT_READ 0x80000000)
      = .ok (0, (1, 0, 0, 1), [(0x80000000, 0x100000)]) ∧
    Except.map (fun r => (validBits r.2, residentPages r.2))
      (vm_fault demo8 (some demoAs) VM_FAULT_READ 0x80000000)
      = .ok ([1, 0, 0, 0, 0, 0, 0, 0], [0x80000, 0, 0, 0, 0, 0, 0, 0]) ∧
    Except.map (fun r => (r.1, faultCounters r.2, r.2.tlb))
      (vm_fault demo8 (some demoAs) VM_FAULT_WRITE 0x80000FFF)
      = .ok (0, (1, 0, 0, 1), [(0x80000000, 0x100000)]) ∧
    Except.map (fun r => (validBits r.2, residentPages r.2))
      (vm_fault demo8 (some demoAs) VM_FAULT_WRITE 0x80000FFF)
      = .ok ([1, 0, 0, 0, 0, 0, 0, 0], [0x80000, 0, 0, 0, 0, 0, 0, 0]) ∧
    Except.map (fun r => (r.1, faultCounters r.2, r.2.tlb))
      (vm_fault demo8 (some demoAs) VM_FAULT_READ 0x80001000)
      = .ok (EFAULT, (0, 0, 0, 0), []) ∧
    Except.map (fun r => (validBits r.2, swappedBits r.2))
      (vm_fault demo8 (some demoAs) VM_FAULT_READ 0x80001000)
      = .ok (validBits demo8, swappedBits demo8) ∧
    Except.map (fun r => (r.1, faultCounters r.2, r.2.tlb))
      (vm_fault demo8 (some demoAs) VM_FAULT_READ 0x7FFFF000)
      = .ok (0, (1, 0, 0, 1), [(0x7FFFF000, 0x100000)]) :=
  ⟨by decide!, by decide!, by decide!, by decide!, by decide!, by decide!, by decide!⟩

/-- C22: for every fault kind other than `VM_FAULT_READONLY`, `VM_FAULT_READ` and
`VM_FAULT_WRITE`, `vm_fault` returns `EINVAL`; for a READ or WRITE fault it returns
`EFAULT` when there is no current process or `proc_getas()` yields no address space; in
these cases the state returned is the state of the call: page table, swap table, FIFO
and counters are unchanged. -/
theorem vm_fault_classification (s : Kernel) (as : Option addrspace)
    (faulttype faultaddress : Nat) :
    (faulttype ≠ VM_FAULT_READONLY → faulttype ≠ VM_FAULT_READ →
      faulttype ≠ VM_FAULT_WRITE →
      vm_fault s as faulttype faultaddress = .ok (EINVAL, s)) ∧
    ((faulttype = VM_FAULT_READ ∨ faulttype = VM_FAULT_WRITE) →
      (s.procs s.curproc = none ∨ as = none) →
      vm_fault s as faulttype faultaddress = .ok (EFAULT, s)) := by
  constructor
  · intro h1 h2 h3
    have h4 : ¬ (faulttype = VM_FAULT_READ ∨ faulttype = VM_FAULT_WRITE) := by
      intro h; rcases h with h | h
      · exact h2 h
      · exact h3 h
    simp only [vm_fault, if_neg h1, if_neg h4, pure_eq]
  · intro h1 h2
    have h3 : faulttype ≠ VM_FAULT_READONLY := by
      intro h; rcases h1 with h1 | h1 <;> rw [h] at h1 <;> exact absurd h1 (by decide)
    simp only [vm_fault, if_neg h3, if_pos h1]
    cases hp : s.procs s.curproc with
    | none => rfl
    | some p =>
      rcases h2 with h2 | h2
      · rw [hp] at h2; exact absurd h2 (by simp)
      · subst h2; rfl

theorem vm_fault_classification_witness :
    vm_fault demo8 (some demoAs) 7 0x400000 = .ok (EINVAL, demo8) ∧
    vm_fault demo8 none VM_FAULT_READ 0x400000 = .ok (EFAULT, demo8) ∧
    vm_fault { demo8 with curproc := 5 } (some demoAs) VM_FAULT_WRITE 0x400000
      = .ok (EFAULT, { demo8 with curproc := 5 }) :=
  ⟨(vm_fault_classification demo8 (some demoAs) 7 0x400000).1 (by decide) (by decide)
      (by decide),
    (vm_fault_classification demo8 none VM_FAULT_READ 0x400000).2 (Or.inl rfl) (Or.inr rfl),
    (vm_fault_classification { demo8 with curproc := 5 } (some demoAs) VM_FAULT_WRITE
      0x400000).2 (Or.inr rfl) (Or.inl (by decide!))⟩

/-- C25, the code run on the 8-frame system: the first READ fault of process 1 at
`0x400000` counts one TLB fault and one zeroed page fault, the WRITE fault that follows
counts one TLB fault and one TLB reload. In the state where the pages
`0x408, 0x401, .., 0x407` are resident and page `0x400` is in swap chunk 0, the READ
fault at `0x400000` returns 0, reads the page back through `swapin` (chunk 0 is free
again, page `0x401` went to chunk 1) and `pageIn` counts it both as a swap page fault
and as a zeroed page fault: `TLB_FAULT`, `VM_PAGE_FAULT_SWAP` and
`VM_PAGE_FAULT_ZEROED` grow by 1 each. -/
theorem pageIn_counts_swap_and_zeroed :
    Except.map (fun r => (r.1, faultCounters r.2))
      (vm_fault demo8 (some demoAs) VM_FAULT_READ 0x400000) = .ok (0, (1, 0, 0, 1)) ∧
    Except.map (fun r => (r.1, faultCounters r.2))
      (vm_fault demo8 (some demoAs) VM_FAULT_READ 0x400000 >>= fun r =>
        vm_fault r.2 (some demoAs) VM_FAULT_WRITE 0x400000) = .ok (0, (2, 1, 0, 1)) ∧
    faultCounters demo8_9 = (0, 0, 0, 0) ∧
    residentPages demo8_9 = [0x408, 0x401, 0x402, 0x403, 0x404, 0x405, 0x406, 0x407] ∧
    getFrameAddress demo8_9 0x400 false = .ok NEG1 ∧
    getSwapChunk demo8_9 0x400000 1 = .ok 0 ∧
    Except.map (fun r => (r.1, faultCounters r.2))
      (vm_fault demo8_9 (some demoAs) VM_FAULT_READ 0x400000) = .ok (0, (1, 0, 1, 1)) ∧
    Except.map (fun r => residentPages r.2)
      (vm_fault demo8_9 (some demoAs) VM_FAULT_READ 0x400000)
      = .ok [0x408, 0x400, 0x402, 0x403, 0x404, 0x405, 0x406, 0x407] ∧
    Except.map (fun r => ((swappedBits r.2).take 3, (chunkPages r.2).take 3))
      (vm_fault demo8_9 (some demoAs) VM_FAULT_READ 0x400000)
      = .ok ([64, 0, 64], [0x400, 0x401, 0]) :=
  ⟨by decide!, by decide!, by decide!, by decide!, by decide!, by decide!, by decide!,
    by decide!, by decide!⟩

/-! ## The initial tables -/

theorem freeChain_pageTInit_base (n : Nat) (raw : Nat → PTE) (rawFIFO : Nat → Nat)
    (mem_base : Nat) :
    freeChain (pageTInit n raw rawFIFO mem_base) = freeChain (pageTInit n raw rawFIFO 0) := rfl

/-- C23: for `1 ≤ n ≤ 2^20` (the frames of a 32-bit physical address space),
`pageTInit(n)` yields `size = n`, `first_free_frame = 0`, `last_free_frame = n - 1`,
`FIFO_index_start = 0`, `FIFO_index_last = n - 1`; every frame `i < n` has valid = 0,
kernel = 0, page number 0 and pid 0; every frame `i < n - 1` has its chain bit set and
`next = i + 1`; frame `n - 1` has chain = 0; the free chain from `first_free_frame` is
`0, 1, .., n-1`. This holds whatever the memory `kmalloc` returned holds. -/
theorem pageTInit_initial_state (n : Nat) (raw : Nat → PTE) (rawFIFO : Nat → Nat)
    (mem_base : Nat) (h1 : 1 ≤ n) (h2 : n ≤ 2 ^ 20) :
    (pageTInit n raw rawFIFO mem_base).size = n ∧
    (pageTInit n raw rawFIFO mem_base).first_free_frame = 0 ∧
    (pageTInit n raw rawFIFO mem_base).last_free_frame = n - 1 ∧
    (pageTInit n raw rawFIFO mem_base).FIFO_index_start = 0 ∧
    (pageTInit n raw rawFIFO mem_base).FIFO_index_last = n - 1 ∧
    (∀ i, i < n →
      PT.IS_VALID ((pageTInit n raw rawFIFO mem_base).entries i).hi = 0 ∧
      PT.IS_KERNEL ((pageTInit n raw rawFIFO mem_base).entries i).hi = 0 ∧
      PT.GET_PN ((pageTInit n raw rawFIFO mem_base).entries i).hi = 0 ∧
      PT.GET_PID ((pageTInit n raw rawFIFO mem_base).entries i).low = 0) ∧
    (∀ i, i + 1 < n →
      PT.HAS_CHAIN ((pageTInit n raw rawFIFO mem_base).entries i).hi ≠ 0 ∧
      PT.GET_NEXT ((pageTInit n raw rawFIFO mem_base).entries i).low = i + 1) ∧
    PT.HAS_CHAIN ((pageTInit n raw rawFIFO mem_base).entries (n - 1)).hi = 0 ∧
    freeChain (pageTInit n raw rawFIFO mem_base) = List.range n := by
  have hn : (n + U32 - 1) % U32 = n - 1 := by
    simp only [U32] at *; omega
  have hent := pageTInit_entries n raw rawFIFO mem_base h1 h2
  refine ⟨rfl, rfl, hn, rfl, hn, ?_, ?_, ?_, ?_⟩
  · intro i hi
    have h := hent i hi
    exact ⟨h.1, h.2.1, h.2.2.1, h.2.2.2.1⟩
  · intro i hi
    have h := (hent i (by omega)).2.2.2.2.1 hi
    refine ⟨?_, h.2⟩
    rw [h.1]; decide
  · exact (hent (n - 1) (by omega)).2.2.2.2.2 (by omega)
  · rw [freeChain_pageTInit_base]
    have hfresh : PTFresh n
        { ({ demo8 with procs := fun _ => none } : Kernel) with
          IPT := pageTInit n raw rawFIFO 0 } := by
      refine ⟨h1, ⟨raw, rawFIFO, 0, ?_, rfl⟩, ?_⟩
      · simp only [U32, PAGE_SIZE]; omega
      · intro q p h; exact absurd h (by simp)
    exact (PTInv_fresh n _ hfresh).freeChain_eq

theorem pageTInit_initial_state_witness :
    (pageTInit 8 (fun _ => PTE.mk 0xFFFFFFFF 0xFFFFFFFF) (fun _ => 0) 0x100000).size = 8 ∧
    freeChain (pageTInit 8 (fun _ => PTE.mk 0xFFFFFFFF 0xFFFFFFFF) (fun _ => 0) 0x100000)
      = List.range 8 ∧
    (pageTInit 8 (fun _ => PTE.mk 0xFFFFFFFF 0xFFFFFFFF) (fun _ => 0) 0x100000).last_free_frame
      = 8 - 1 :=
  have h := pageTInit_initial_state 8 (fun _ => PTE.mk 0xFFFFFFFF 0xFFFFFFFF) (fun _ => 0)
    0x100000 (by decide) (by decide)
  ⟨h.1, h.2.2.2.2.2.2.2.2, h.2.2.1⟩

/-- C24, the code run on a swap file of one chunk (4096 bytes), whatever the memory
`kmalloc` returned holds: the loop makes no pass and the statements for the last chunk
set chunk 0 up with swapped = 1, chain = 0, `has_prev = 1` and
`prev = 0 - 1 = 0xFFFFFFFF`; the head chunk has `has_prev = 0` only when the loop
reaches it, that is for two chunks or more (shown for 2 and 3 chunks on zeroed
memory). -/
theorem swapTableInit_single_chunk_has_prev (raw : Nat → STE) :
    (swapTableInit PAGE_SIZE raw).size = 1 ∧
    (swapTableInit PAGE_SIZE raw).first_free_chunk = 0 ∧
    (swapTableInit PAGE_SIZE raw).last_free_chunk = 0 ∧
    SW.IS_SWAPPED ((swapTableInit PAGE_SIZE raw).entries 0).hi = 64 ∧
    SW.HAS_CHAIN ((swapTableInit PAGE_SIZE raw).entries 0).hi = 0 ∧
    SW.HAS_PREV ((swapTableInit PAGE_SIZE raw).entries 0).hi = 256 ∧
    ((swapTableInit PAGE_SIZE raw).entries 0).prev = 0xFFFFFFFF ∧
    (List.range 2).map (fun i =>
      (SW.HAS_PREV ((swapTableInit (2 * PAGE_SIZE) (fun _ => STE.mk 0 0 0)).entries i).hi,
        ((swapTableInit (2 * PAGE_SIZE) (fun _ => STE.mk 0 0 0)).entries i).prev))
      = [(0, 0), (256, 0)] ∧
    (List.range 3).map (fun i =>
      (SW.HAS_PREV ((swapTableInit (3 * PAGE_SIZE) (fun _ => STE.mk 0 0 0)).entries i).hi,
        ((swapTableInit (3 * PAGE_SIZE) (fun _ => STE.mk 0 0 0)).entries i).prev))
      = [(0, 0), (256, 0), (256, 1)] := by
  have e1 : (PAGE_SIZE / PAGE_SIZE) % U32 = 1 := by decide
  have e2 : (1 + U32 - 1) % U32 = 0 := by decide
  have e3 : (0 + U32 - 1) % U32 = 0xFFFFFFFF := by decide
  have hent : (swapTableInit PAGE_SIZE raw).entries 0 =
      STE.mk (SW.SET_PREV (SW.SET_SWAPPED (SW.SET_CHAIN (raw 0).hi 0) 1) 1) 0 0xFFFFFFFF := by
    simp only [swapTableInit, e1, e2, e3, swapTableInit_loop, upd_same]
  refine ⟨e1, rfl, ?_, ?_, ?_, ?_, ?_, by decide!, by decide!⟩
  · simp only [swapTableInit, e1, e2]
  · rw [hent]
    simp only [SW_IS_SWAPPED_SET_PREV _ 1 (by decide), SW_IS_SWAPPED_SET_SWAPPED _ 1 (by decide)]
  · rw [hent]
    simp only [SW_HAS_CHAIN_SET_PREV _ 1 (by decide), SW_HAS_CHAIN_SET_SWAPPED _ 1 (by decide),
      SW_HAS_CHAIN_SET_CHAIN _ 0 (by decide)]
  · rw [hent]
    simp only [SW_HAS_PREV_SET_PREV _ 1 (by decide)]
  · rw [hent]

/-! ## Field writes and field reads -/

theorem PT_SET_VALID_outside (e v : Nat) (he : e < U32) (hv : v ≤ 1) :
    sameOutside 0 1 e (PT.SET_VALID e v) := by
  intro i hi
  have hb := tb_small e 32 i he
  interval_cases v <;>
  simp only [PT.SET_VALID, Nat.testBit_shiftRight, Nat.testBit_and, Nat.testBit_or,
    Nat.testBit_shiftLeft, tb_U32, Nat.testBit_mod_two_pow, Nat.zero_testBit, Nat.zero_shiftLeft,
    Nat.one_shiftLeft, Nat.testBit_two_pow, Nat.mul_zero, Nat.mul_one,
    tb_1, tb_2, tb_4, tb_64, tb_128, tb_256, tb_4294967294, tb_4294967293, tb_4294967291,
    tb_4294967231, tb_4294967167, tb_4294967039, tb_4095, tb_4294963200, tb_63, tb_4294967232] <;>
  generalize Nat.testBit e i = b at hb ⊢ <;>
  cases b <;> simp at hb ⊢ <;> omega

theorem PT_SET_CHAIN_outside (e v : Nat) (he : e < U32) (hv : v ≤ 1) :
    sameOutside 1 2 e (PT.SET_CHAIN e v) := by
  intro i hi
  have hb := tb_small e 32 i he
  interval_cases v <;>
  simp only [PT.SET_CHAIN, Nat.testBit_shiftRight, Nat.testBit_and, Nat.testBit_or,
    Nat.testBit_shiftLeft, tb_U32, Nat.testBit_mod_two_pow, Nat.zero_testBit, Nat.zero_shiftLeft,
    Nat.one_shiftLeft, Nat.testBit_two_pow, Nat.mul_zero, Nat.mul_one,
    tb_1, tb_2, tb_4, tb_64, tb_128, tb_256, tb_4294967294, tb_4294967293, tb_4294967291,
    tb_4294967231, tb_4294967167, tb_4294967039, tb_4095, tb_4294963200, tb_63, tb_4294967232] <;>
  generalize Nat.testBit e i = b at hb ⊢ <;>
  cases b <;> simp at hb ⊢ <;> omega

theorem PT_SET_KERNEL_outside (e v : Nat) (he : e < U32) (hv : v ≤ 1) :
    sameOutside 2 3 e (PT.SET_KERNEL e v) := by
  intro i hi
  have hb := tb_small e 32 i he
  interval_cases v <;>
  simp only [PT.SET_KERNEL, Nat.testBit_shiftRight, Nat.testBit_and, Nat.testBit_or,
    Nat.testBit_shiftLeft, tb_U32, Nat.testBit_mod_two_pow, Nat.zero_testBit, Nat.zero_shiftLeft,
    Nat.one_shiftLeft, Nat.testBit_two_pow, Nat.mul_zero, Nat.mul_one,
    tb_1, tb_2, tb_4, tb_64, tb_128, tb_256, tb_4294967294, tb_4294967293, tb_4294967291,
    tb_4294967231, tb_4294967167, tb_4294967039, tb_4095, tb_4294963200, tb_63, tb_4294967232] <;>
  generalize Nat.testBit e i = b at hb ⊢ <;>
  cases b <;> simp at hb ⊢ <;> omega

theorem PT_SET_PN_outside (e v : Nat) (he : e < U32) :
    sameOutside 12 32 e (PT.SET_PN e v) := by
  intro i hi
  have hb := tb_small e 32 i he
  simp only [PT.SET_PN, Nat.testBit_shiftRight, Nat.testBit_and, Nat.testBit_or,
    Nat.testBit_shiftLeft, tb_U32, Nat.testBit_mod_two_pow, Nat.zero_testBit, Nat.zero_shiftLeft,
    Nat.one_shiftLeft, Nat.testBit_two_pow, Nat.mul_zero, Nat.mul_one,
    tb_1, tb_2, tb_4, tb_64, tb_128, tb_256, tb_4294967294, tb_4294967293, tb_4294967291,
    tb_4294967231, tb_4294967167, tb_4294967039, tb_4095, tb_4294963200, tb_63, tb_4294967232]
  generalize Nat.testBit e i = b at hb ⊢
  generalize Nat.testBit v _ = c
  cases b <;> cases c <;> simp at hb ⊢ <;> omega

theorem PT_SET_NEXT_outside (e v : Nat) (he : e < U32) :
    sameOutside 12 32 e (PT.SET_NEXT e v) := by
  intro i hi
  have hb := tb_small e 32 i he
  simp only [PT.SET_NEXT, Nat.testBit_shiftRight, Nat.testBit_and, Nat.testBit_or,
    Nat.testBit_shiftLeft, tb_U32, Nat.testBit_mod_two_pow, Nat.zero_testBit, Nat.zero_shiftLeft,
    Nat.one_shiftLeft, Nat.testBit_two_pow, Nat.mul_zero, Nat.mul_one,
    tb_1, tb_2, tb_4, tb_64, tb_128, tb_256, tb_4294967294, tb_4294967293, tb_4294967291,
    tb_4294967231, tb_4294967167, tb_4294967039, tb_4095, tb_4294963200, tb_63, tb_4294967232]
  generalize Nat.testBit e i = b at hb ⊢
  generalize Nat.testBit v _ = c
  cases b <;> cases c <;> simp at hb ⊢ <;> omega

theorem PT_SET_PID_outside (e v : Nat) (he : e < U32) (hv : v < 64) :
    sameOutside 0 6 e (PT.SET_PID e v) := by
  intro i hi
  have hb := tb_small e 32 i he
  have hc := tb_small v 6 i hv
  simp only [PT.SET_PID, Nat.testBit_shiftRight, Nat.testBit_and, Nat.testBit_or,
    Nat.testBit_shiftLeft, tb_U32, Nat.testBit_mod_two_pow, Nat.zero_testBit, Nat.zero_shiftLeft,
    Nat.one_shiftLeft, Nat.testBit_two_pow, Nat.mul_zero, Nat.mul_one,
    tb_1, tb_2, tb_4, tb_64, tb_128, tb_256, tb_4294967294, tb_4294967293, tb_4294967291,
    tb_4294967231, tb_4294967167, tb_4294967039, tb_4095, tb_4294963200, tb_63, tb_4294967232]
  generalize Nat.testBit e i = b at hb ⊢
  generalize Nat.testBit v i = c at hc ⊢
  cases b <;> cases c <;> simp at hb hc ⊢ <;> omega

theorem SW_SET_SWAPPED_outside (e v : Nat) (he : e < U32) (hv : v ≤ 1) :
    sameOutside 6 7 e (SW.SET_SWAPPED e v) := by
  intro i hi
  have hb := tb_small e 32 i he
  interval_cases v <;>
  simp only [SW.SET_SWAPPED, Nat.testBit_shiftRight, Nat.testBit_and, Nat.testBit_or,
    Nat.testBit_shiftLeft, tb_U32, Nat.testBit_mod_two_pow, Nat.zero_testBit, Nat.zero_shiftLeft,
    Nat.one_shiftLeft, Nat.testBit_two_pow, Nat.mul_zero, Nat.mul_one,
    tb_1, tb_2, tb_4, tb_64, tb_128, tb_256, tb_4294967294, tb_4294967293, tb_4294967291,
    tb_4294967231, tb_4294967167, tb_4294967039, tb_4095, tb_4294963200, tb_63, tb_4294967232] <;>
  generalize Nat.testBit e i = b at hb ⊢ <;>
  cases b <;> simp at hb ⊢ <;> omega

theorem SW_SET_CHAIN_outside (e v : Nat) (he : e < U32) (hv : v ≤ 1) :
    sameOutside 7 8 e (SW.SET_CHAIN e v) := by
  intro i hi
  have hb := tb_small e 32 i he
  interval_cases v <;>
  simp only [SW.SET_CHAIN, Nat.testBit_shiftRight, Nat.testBit_and, Nat.testBit_or,
    Nat.testBit_shiftLeft, tb_U32, Nat.testBit_mod_two_pow, Nat.zero_testBit, Nat.zero_shiftLeft,
    Nat.one_shiftLeft, Nat.testBit_two_pow, Nat.mul_zero, Nat.mul_one,
    tb_1, tb_2, tb_4, tb_64, tb_128, tb_256, tb_4294967294, tb_4294967293, tb_4294967291,
    tb_4294967231, tb_4294967167, tb_4294967039, tb_4095, tb_4294963200, tb_63, tb_4294967232] <;>
  generalize Nat.testBit e i = b at hb ⊢ <;>
  cases b <;> simp at hb ⊢ <;> omega

theorem SW_SET_PREV_outside (e v : Nat) (he : e < U32) (hv : v ≤ 1) :
    sameOutside 8 9 e (SW.SET_PREV e v) := by
  intro i hi
  have hb := tb_small e 32 i he
  interval_cases v <;>
  simp only [SW.SET_PREV, Nat.testBit_shiftRight, Nat.testBit_and, Nat.testBit_or,
    Nat.testBit_shiftLeft, tb_U32, Nat.testBit_mod_two_pow, Nat.zero_testBit, Nat.zero_shiftLeft,
    Nat.one_shiftLeft, Nat.testBit_two_pow, Nat.mul_zero, Nat.mul_one,
    tb_1, tb_2, tb_4, tb_64, tb_128, tb_256, tb_4294967294, tb_4294967293, tb_4294967291,
    tb_4294967231, tb_4294967167, tb_4294967039, tb_4095, tb_4294963200, tb_63, tb_4294967232] <;>
  generalize Nat.testBit e i = b at hb ⊢ <;>
  cases b <;> simp at hb ⊢ <;> omega

theorem SW_SET_PN_outside (e v : Nat) (he : e < U32) :
    sameOutside 12 32 e (SW.SET_PN e v) := by
  intro i hi
  have hb := tb_small e 32 i he
  simp only [SW.SET_PN, Nat.testBit_shiftRight, Nat.testBit_and, Nat.testBit_or,
    Nat.testBit_shiftLeft, tb_U32, Nat.testBit_mod_two_pow, Nat.zero_testBit, Nat.zero_shiftLeft,
    Nat.one_shiftLeft, Nat.testBit_two_pow, Nat.mul_zero, Nat.mul_one,
    tb_1, tb_2, tb_4, tb_64, tb_128, tb_256, tb_4294967294, tb_4294967293, tb_4294967291,
    tb_4294967231, tb_4294967167, tb_4294967039, tb_4095, tb_4294963200, tb_63, tb_4294967232]
  generalize Nat.testBit e i = b at hb ⊢
  generalize Nat.testBit v _ = c
  cases b <;> cases c <;> simp at hb ⊢ <;> omega

theorem SW_SET_PID_outside (e v : Nat) (he : e < U32) (hv : v < 64) :
    sameOutside 0 6 e (SW.SET_PID e v) := by
  intro i hi
  have hb := tb_small e 32 i he
  have hc := tb_small v 6 i hv
  simp only [SW.SET_PID, Nat.testBit_shiftRight, Nat.testBit_and, Nat.testBit_or,
    Nat.testBit_shiftLeft, tb_U32, Nat.testBit_mod_two_pow, Nat.zero_testBit, Nat.zero_shiftLeft,
    Nat.one_shiftLeft, Nat.testBit_two_pow, Nat.mul_zero, Nat.mul_one,
    tb_1, tb_2, tb_4, tb_64, tb_128, tb_256, tb_4294967294, tb_4294967293, tb_4294967291,
    tb_4294967231, tb_4294967167, tb_4294967039, tb_4095, tb_4294963200, tb_63, tb_4294967232]
  generalize Nat.testBit e i = b at hb ⊢
  generalize Nat.testBit v i = c at hc ⊢
  cases b <;> cases c <;> simp at hb hc ⊢ <;> omega

theorem PT_SET_VALID_SET_CHAIN_comm (e v w : Nat) (hv : v ≤ 1) (hw : w ≤ 1) :
    PT.SET_CHAIN (PT.SET_VALID e v) w = PT.SET_VALID (PT.SET_CHAIN e w) v := by
  apply Nat.eq_of_testBit_eq; intro i
  interval_cases v <;> interval_cases w <;>
  simp only [PT.SET_VALID, PT.SET_CHAIN, Nat.testBit_shiftRight, Nat.testBit_and, Nat.testBit_or,
    Nat.testBit_shiftLeft, tb_U32, Nat.testBit_mod_two_pow, Nat.zero_testBit, Nat.zero_shiftLeft,
    Nat.one_shiftLeft, Nat.testBit_two_pow, Nat.mul_zero, Nat.mul_one,
    tb_1, tb_2, tb_4, tb_64, tb_128, tb_256, tb_4294967294, tb_4294967293, tb_4294967291,
    tb_4294967231, tb_4294967167, tb_4294967039, tb_4095, tb_4294963200, tb_63, tb_4294967232] <;>
  generalize Nat.testBit e i = b <;>
  cases b <;> simp <;>
  first
  | omega
  | (rw [Bool.eq_iff_iff]
     simp only [Bool.and_eq_true, Bool.or_eq_true, Bool.not_eq_true', decide_eq_true_eq,
       decide_eq_false_iff_not]
     omega)

theorem PT_SET_VALID_SET_KERNEL_comm (e v w : Nat) (hv : v ≤ 1) (hw : w ≤ 1) :
    PT.SET_KERNEL (PT.SET_VALID e v) w = PT.SET_VALID (PT.SET_KERNEL e w) v := by
  apply Nat.eq_of_testBit_eq; intro i
  interval_cases v <;> interval_cases w <;>
  simp only [PT.SET_VALID, PT.SET_KERNEL, Nat.testBit_shiftRight, Nat.testBit_and, Nat.testBit_or,
    Nat.testBit_shiftLeft, tb_U32, Nat.testBit_mod_two_pow, Nat.zero_testBit, Nat.zero_shiftLeft,
    Nat.one_shiftLeft, Nat.testBit_two_pow, Nat.mul_zero, Nat.mul_one,
    tb_1, tb_2, tb_4, tb_64, tb_128, tb_256, tb_4294967294, tb_4294967293, tb_4294967291,
    tb_4294967231, tb_4294967167, tb_4294967039, tb_4095, tb_4294963200, tb_63, tb_4294967232] <;>
  generalize Nat.testBit e i = b <;>
  cases b <;> simp <;>
  first
  | omega
  | (rw [Bool.eq_iff_iff]
     simp only [Bool.and_eq_true, Bool.or_eq_true, Bool.not_eq_true', decide_eq_true_eq,
       decide_eq_false_iff_not]
     omega)

theorem PT_SET_VALID_SET_PN_comm (e v w : Nat) (hv : v ≤ 1) :
    PT.SET_PN (PT.SET_VALID e v) w = PT.SET_VALID (PT.SET_PN e w) v := by
  apply Nat.eq_of_testBit_eq; intro i
  interval_cases v <;>
  simp only [PT.SET_VALID, PT.SET_PN, Nat.testBit_shiftRight, Nat.testBit_and, Nat.testBit_or,
    Nat.testBit_shiftLeft, tb_U32, Nat.testBit_mod_two_pow, Nat.zero_testBit, Nat.zero_shiftLeft,
    Nat.one_shiftLeft, Nat.testBit_two_pow, Nat.mul_zero, Nat.mul_one,
    tb_1, tb_2, tb_4, tb_64, tb_128, tb_256, tb_4294967294, tb_4294967293, tb_4294967291,
    tb_4294967231, tb_4294967167, tb_4294967039, tb_4095, tb_4294963200, tb_63, tb_4294967232] <;>
  generalize Nat.testBit e i = b <;>
  generalize Nat.testBit w _ = cw <;>
  cases b <;> cases cw <;> simp <;>
  first
  | omega
  | (rw [Bool.eq_iff_iff]
     simp only [Bool.and_eq_true, Bool.or_eq_true, Bool.not_eq_true', decide_eq_true_eq,
       decide_eq_false_iff_not]
     omega)

theorem PT_SET_CHAIN_SET_KERNEL_comm (e v w : Nat) (hv : v ≤ 1) (hw : w ≤ 1) :
    PT.SET_KERNEL (PT.SET_CHAIN e v) w = PT.SET_CHAIN (PT.SET_KERNEL e w) v := by
  apply Nat.eq_of_testBit_eq; intro i
  interval_cases v <;> interval_cases w <;>
  simp only [PT.SET_CHAIN, PT.SET_KERNEL, Nat.testBit_shiftRight, Nat.testBit_and, Nat.testBit_or,
    Nat.testBit_shiftLeft, tb_U32, Nat.testBit_mod_two_pow, Nat.zero_testBit, Nat.zero_shiftLeft,
    Nat.one_shiftLeft, Nat.testBit_two_pow, Nat.mul_zero, Nat.mul_one,
    tb_1, tb_2, tb_4, tb_64, tb_128, tb_256, tb_4294967294, tb_4294967293, tb_4294967291,
    tb_4294967231, tb_4294967167, tb_4294967039, tb_4095, tb_4294963200, tb_63, tb_4294967232] <;>
  generalize Nat.testBit e i = b <;>
  cases b <;> simp <;>
  first
  | omega
  | (rw [Bool.eq_iff_iff]
     simp only [Bool.and_eq_true, Bool.or_eq_true, Bool.not_eq_true', decide_eq_true_eq,
       decide_eq_false_iff_not]
     omega)

theorem PT_SET_CHAIN_SET_PN_comm (e v w : Nat) (hv : v ≤ 1) :
    PT.SET_PN (PT.SET_CHAIN e v) w = PT.SET_CHAIN (PT.SET_PN e w) v := by
  apply Nat.eq_of_testBit_eq; intro i
  interval_cases v <;>
  simp only [PT.SET_CHAIN, PT.SET_PN, Nat.testBit_shiftRight, Nat.testBit_and, Nat.testBit_or,
    Nat.testBit_shiftLeft, tb_U32, Nat.testBit_mod_two_pow, Nat.zero_testBit, Nat.zero_shiftLeft,
    Nat.one_shiftLeft, Nat.testBit_two_pow, Nat.mul_zero, Nat.mul_one,
    tb_1, tb_2, tb_4, tb_64, tb_128, tb_256, tb_4294967294, tb_4294967293, tb_4294967291,
    tb_4294967231, tb_4294967167, tb_4294967039, tb_4095, tb_4294963200, tb_63, tb_4294967232] <;>
  generalize Nat.testBit e i = b <;>
  generalize Nat.testBit w _ = cw <;>
  cases b <;> cases cw <;> simp <;>
  first
  | omega
  | (rw [Bool.eq_iff_iff]
     simp only [Bool.and_eq_true, Bool.or_eq_true, Bool.not_eq_true', decide_eq_true_eq,
       decide_eq_false_iff_not]
     omega)

theorem PT_SET_KERNEL_SET_PN_comm (e v w : Nat) (hv : v ≤ 1) :
    PT.SET_PN (PT.SET_KERNEL e v) w = PT.SET_KERNEL (PT.SET_PN e w) v := by
  apply Nat.eq_of_testBit_eq; intro i
  interval_cases v <;>
  simp only [PT.SET_KERNEL, PT.SET_PN, Nat.testBit_shiftRight, Nat.testBit_and, Nat.testBit_or,
    Nat.testBit_shiftLeft, tb_U32, Nat.testBit_mod_two_pow, Nat.zero_testBit, Nat.zero_shiftLeft,
    Nat.one_shiftLeft, Nat.testBit_two_pow, Nat.mul_zero, Nat.mul_one,
    tb_1, tb_2, tb_4, tb_64, tb_128, tb_256, tb_4294967294, tb_4294967293, tb_4294967291,
    tb_4294967231, tb_4294967167, tb_4294967039, tb_4095, tb_4294963200, tb_63, tb_4294967232] <;>
  generalize Nat.testBit e i = b <;>
  generalize Nat.testBit w _ = cw <;>
  cases b <;> cases cw <;> simp <;>
  first
  | omega
  | (rw [Bool.eq_iff_iff]
     simp only [Bool.and_eq_true, Bool.or_eq_true, Bool.not_eq_true', decide_eq_true_eq,
       decide_eq_false_iff_not]
     omega)

theorem PT_SET_NEXT_SET_PID_comm (e v w : Nat) (hw : w < 64) :
    PT.SET_PID (PT.SET_NEXT e v) w = PT.SET_NEXT (PT.SET_PID e w) v := by
  apply Nat.eq_of_testBit_eq; intro i
  have hw6 := tb_small w 6 i hw
  simp only [PT.SET_NEXT, PT.SET_PID, Nat.testBit_shiftRight, Nat.testBit_and, Nat.testBit_or,
    Nat.testBit_shiftLeft, tb_U32, Nat.testBit_mod_two_pow, Nat.zero_testBit, Nat.zero_shiftLeft,
    Nat.one_shiftLeft, Nat.testBit_two_pow, Nat.mul_zero, Nat.mul_one,
    tb_1, tb_2, tb_4, tb_64, tb_128, tb_256, tb_4294967294, tb_4294967293, tb_4294967291,
    tb_4294967231, tb_4294967167, tb_4294967039, tb_4095, tb_4294963200, tb_63, tb_4294967232]
  generalize Nat.testBit e i = b
  generalize Nat.testBit v _ = cv
  generalize Nat.testBit w i = cw at hw6 ⊢
  cases b <;> cases cv <;> cases cw <;> simp at hw6 ⊢ <;>
  first
  | omega
  | (rw [Bool.eq_iff_iff]
     simp only [Bool.and_eq_true, Bool.or_eq_true, Bool.not_eq_true', decide_eq_true_eq,
       decide_eq_false_iff_not]
     omega)

theorem SW_SET_SWAPPED_SET_CHAIN_comm (e v w : Nat) (hv : v ≤ 1) (hw : w ≤ 1) :
    SW.SET_CHAIN (SW.SET_SWAPPED e v) w = SW.SET_SWAPPED (SW.SET_CHAIN e w) v := by
  apply Nat.eq_of_testBit_eq; intro i
  interval_cases v <;> interval_cases w <;>
  simp only [SW.SET_SWAPPED, SW.SET_CHAIN, Nat.testBit_shiftRight, Nat.testBit_and, Nat.testBit_or,
    Nat.testBit_shiftLeft, tb_U32, Nat.testBit_mod_two_pow, Nat.zero_testBit, Nat.zero_shiftLeft,
    Nat.one_shiftLeft, Nat.testBit_two_pow, Nat.mul_zero, Nat.mul_one,
    tb_1, tb_2, tb_4, tb_64, tb_128, tb_256, tb_4294967294, tb_4294967293, tb_4294967291,
    tb_4294967231, tb_4294967167, tb_4294967039, tb_4095, tb_4294963200, tb_63, tb_4294967232] <;>
  generalize Nat.testBit e i = b <;>
  cases b <;> simp <;>
  first
  | omega
  | (rw [Bool.eq_iff_iff]
     simp only [Bool.and_eq_true, Bool.or_eq_true, Bool.not_eq_true', decide_eq_true_eq,
       decide_eq_false_iff_not]
     omega)

theorem SW_SET_SWAPPED_SET_PREV_comm (e v w : Nat) (hv : v ≤ 1) (hw : w ≤ 1) :
    SW.SET_PREV (SW.SET_SWAPPED e v) w = SW.SET_SWAPPED (SW.SET_PREV e w) v := by
  apply Nat.eq_of_testBit_eq; intro i
  interval_cases v <;> interval_cases w <;>
  simp only [SW.SET_SWAPPED, SW.SET_PREV, Nat.testBit_shiftRight, Nat.testBit_and, Nat.testBit_or,
    Nat.testBit_shiftLeft, tb_U32, Nat.testBit_mod_two_pow, Nat.zero_testBit, Nat.zero_shiftLeft,
    Nat.one_shiftLeft, Nat.testBit_two_pow, Nat.mul_zero, Nat.mul_one,
    tb_1, tb_2, tb_4, tb_64, tb_128, tb_256, tb_4294967294, tb_4294967293, tb_4294967291,
    tb_4294967231, tb_4294967167, tb_4294967039, tb_4095, tb_4294963200, tb_63, tb_4294967232] <;>
  generalize Nat.testBit e i = b <;>
  cases b <;> simp <;>
  first
  | omega
  | (rw [Bool.eq_iff_iff]
     simp only [Bool.and_eq_true, Bool.or_eq_true, Bool.not_eq_true', decide_eq_true_eq,
       decide_eq_false_iff_not]
     omega)

theorem SW_SET_SWAPPED_SET_PN_comm (e v w : Nat) (hv : v ≤ 1) :
    SW.SET_PN (SW.SET_SWAPPED e v) w = SW.SET_SWAPPED (SW.SET_PN e w) v := by
  apply Nat.eq_of_testBit_eq; intro i
  interval_cases v <;>
  simp only [SW.SET_SWAPPED, SW.SET_PN, Nat.testBit_shiftRight, Nat.testBit_and, Nat.testBit_or,
    Nat.testBit_shiftLeft, tb_U32, Nat.testBit_mod_two_pow, Nat.zero_testBit, Nat.zero_shiftLeft,
    Nat.one_shiftLeft, Nat.testBit_two_pow, Nat.mul_zero, Nat.mul_one,
    tb_1, tb_2, tb_4, tb_64, tb_128, tb_256, tb_4294967294, tb_4294967293, tb_4294967291,
    tb_4294967231, tb_4294967167, tb_4294967039, tb_4095, tb_4294963200, tb_63, tb_4294967232] <;>
  generalize Nat.testBit e i = b <;>
  generalize Nat.testBit w _ = cw <;>
  cases b <;> cases cw <;> simp <;>
  first
  | omega
  | (rw [Bool.eq_iff_iff]
     simp only [Bool.and_eq_true, Bool.or_eq_true, Bool.not_eq_true', decide_eq_true_eq,
       decide_eq_false_iff_not]
     omega)

theorem SW_SET_SWAPPED_SET_PID_comm (e v w : Nat) (hv : v ≤ 1) (hw : w < 64) :
    SW.SET_PID (SW.SET_SWAPPED e v) w = SW.SET_SWAPPED (SW.SET_PID e w) v := by
  apply Nat.eq_of_testBit_eq; intro i
  have hw6 := tb_small w 6 i hw
  interval_cases v <;>
  simp only [SW.SET_SWAPPED, SW.SET_PID, Nat.testBit_shiftRight, Nat.testBit_and, Nat.testBit_or,
    Nat.testBit_shiftLeft, tb_U32, Nat.testBit_mod_two_pow, Nat.zero_testBit, Nat.zero_shiftLeft,
    Nat.one_shiftLeft, Nat.testBit_two_pow, Nat.mul_zero, Nat.mul_one,
    tb_1, tb_2, tb_4, tb_64, tb_128, tb_256, tb_4294967294, tb_4294967293, tb_4294967291,
    tb_4294967231, tb_4294967167, tb_4294967039, tb_4095, tb_4294963200, tb_63, tb_4294967232] <;>
  generalize Nat.testBit e i = b <;>
  generalize Nat.testBit w i = cw at hw6 ⊢ <;>
  cases b <;> cases cw <;> simp at hw6 ⊢ <;>
  first
  | omega
  | (rw [Bool.eq_iff_iff]
     simp only [Bool.and_eq_true, Bool.or_eq_true, Bool.not_eq_true', decide_eq_true_eq,
       decide_eq_false_iff_not]
     omega)

theorem SW_SET_CHAIN_SET_PREV_comm (e v w : Nat) (hv : v ≤ 1) (hw : w ≤ 1) :
    SW.SET_PREV (SW.SET_CHAIN e v) w = SW.SET_CHAIN (SW.SET_PREV e w) v := by
  apply Nat.eq_of_testBit_eq; intro i
  interval_cases v <;> interval_cases w <;>
  simp only [SW.SET_CHAIN, SW.SET_PREV, Nat.testBit_shiftRight, Nat.testBit_and, Nat.testBit_or,
    Nat.testBit_shiftLeft, tb_U32, Nat.testBit_mod_two_pow, Nat.zero_testBit, Nat.zero_shiftLeft,
    Nat.one_shiftLeft, Nat.testBit_two_pow, Nat.mul_zero, Nat.mul_one,
    tb_1, tb_2, tb_4, tb_64, tb_128, tb_256, tb_4294967294, tb_4294967293, tb_4294967291,
    tb_4294967231, tb_4294967167, tb_4294967039, tb_4095, tb_4294963200, tb_63, tb_4294967232] <;>
  generalize Nat.testBit e i = b <;>
  cases b <;> simp <;>
  first
  | omega
  | (rw [Bool.eq_iff_iff]
     simp only [Bool.and_eq_true, Bool.or_eq_true, Bool.not_eq_true', decide_eq_true_eq,
       decide_eq_false_iff_not]
     omega)

theorem SW_SET_CHAIN_SET_PN_comm (e v w : Nat) (hv : v ≤ 1) :
    SW.SET_PN (SW.SET_CHAIN e v) w = SW.SET_CHAIN (SW.SET_PN e w) v := by
  apply Nat.eq_of_testBit_eq; intro i
  interval_cases v <;>
  simp only [SW.SET_CHAIN, SW.SET_PN, Nat.testBit_shiftRight, Nat.testBit_and, Nat.testBit_or,
    Nat.testBit_shiftLeft, tb_U32, Nat.testBit_mod_two_pow, Nat.zero_testBit, Nat.zero_shiftLeft,
    Nat.one_shiftLeft, Nat.testBit_two_pow, Nat.mul_zero, Nat.mul_one,
    tb_1, tb_2, tb_4, tb_64, tb_128, tb_256, tb_4294967294, tb_4294967293, tb_4294967291,
    tb_4294967231, tb_4294967167, tb_4294967039, tb_4095, tb_4294963200, tb_63, tb_4294967232] <;>
  generalize Nat.testBit e i = b <;>
  generalize Nat.testBit w _ = cw <;>
  cases b <;> cases cw <;> simp <;>
  first
  | omega
  | (rw [Bool.eq_iff_iff]
     simp only [Bool.and_eq_true, Bool.or_eq_true, Bool.not_eq_true', decide_eq_true_eq,
       decide_eq_false_iff_not]
     omega)

theorem SW_SET_CHAIN_SET_PID_comm (e v w : Nat) (hv : v ≤ 1) (hw : w < 64) :
    SW.SET_PID (SW.SET_CHAIN e v) w = SW.SET_CHAIN (SW.SET_PID e w) v := by
  apply Nat.eq_of_testBit_eq; intro i
  have hw6 := tb_small w 6 i hw
  interval_cases v <;>
  simp only [SW.SET_CHAIN, SW.SET_PID, Nat.testBit_shiftRight, Nat.testBit_and, Nat.testBit_or,
    Nat.testBit_shiftLeft, tb_U32, Nat.testBit_mod_two_pow, Nat.zero_testBit, Nat.zero_shiftLeft,
    Nat.one_shiftLeft, Nat.testBit_two_pow, Nat.mul_zero, Nat.mul_one,
    tb_1, tb_2, tb_4, tb_64, tb_128, tb_256, tb_4294967294, tb_4294967293, tb_4294967291,
    tb_4294967231, tb_4294967167, tb_4294967039, tb_4095, tb_4294963200, tb_63, tb_4294967232] <;>
  generalize Nat.testBit e i = b <;>
  generalize Nat.testBit w i = cw at hw6 ⊢ <;>
  cases b <;> cases cw <;> simp at hw6 ⊢ <;>
  first
  | omega
  | (rw [Bool.eq_iff_iff]
     simp only [Bool.and_eq_true, Bool.or_eq_true, Bool.not_eq_true', decide_eq_true_eq,
       decide_eq_false_iff_not]
     omega)

theorem SW_SET_PREV_SET_PN_comm (e v w : Nat) (hv : v ≤ 1) :
    SW.SET_PN (SW.SET_PREV e v) w = SW.SET_PREV (SW.SET_PN e w) v := by
  apply Nat.eq_of_testBit_eq; intro i
  interval_cases v <;>
  simp only [SW.SET_PREV, SW.SET_PN, Nat.testBit_shiftRight, Nat.testBit_and, Nat.testBit_or,
    Nat.testBit_shiftLeft, tb_U32, Nat.testBit_mod_two_pow, Nat.zero_testBit, Nat.zero_shiftLeft,
    Nat.one_shiftLeft, Nat.testBit_two_pow, Nat.mul_zero, Nat.mul_one,
    tb_1, tb_2, tb_4, tb_64, tb_128, tb_256, tb_4294967294, tb_4294967293, tb_4294967291,
    tb_4294967231, tb_4294967167, tb_4294967039, tb_4095, tb_4294963200, tb_63, tb_4294967232] <;>
  generalize Nat.testBit e i = b <;>
  generalize Nat.testBit w _ = cw <;>
  cases b <;> cases cw <;> simp <;>
  first
  | omega
  | (rw [Bool.eq_iff_iff]
     simp only [Bool.and_eq_true, Bool.or_eq_true, Bool.not_eq_true', decide_eq_true_eq,
       decide_eq_false_iff_not]
     omega)

theorem SW_SET_PREV_SET_PID_comm (e v w : Nat) (hv : v ≤ 1) (hw : w < 64) :
    SW.SET_PID (SW.SET_PREV e v) w = SW.SET_PREV (SW.SET_PID e w) v := by
  apply Nat.eq_of_testBit_eq; intro i
  have hw6 := tb_small w 6 i hw
  interval_cases v <;>
  simp only [SW.SET_PREV, SW.SET_PID, Nat.testBit_shiftRight, Nat.testBit_and, Nat.testBit_or,
    Nat.testBit_shiftLeft, tb_U32, Nat.testBit_mod_two_pow, Nat.zero_testBit, Nat.zero_shiftLeft,
    Nat.one_shiftLeft, Nat.testBit_two_pow, Nat.mul_zero, Nat.mul_one,
    tb_1, tb_2, tb_4, tb_64, tb_128, tb_256, tb_4294967294, tb_4294967293, tb_4294967291,
    tb_4294967231, tb_4294967167, tb_4294967039, tb_4095, tb_4294963200, tb_63, tb_4294967232] <;>
  generalize Nat.testBit e i = b <;>
  generalize Nat.testBit w i = cw at hw6 ⊢ <;>
  cases b <;> cases cw <;> simp at hw6 ⊢ <;>
  first
  | omega
  | (rw [Bool.eq_iff_iff]
     simp only [Bool.and_eq_true, Bool.or_eq_true, Bool.not_eq_true', decide_eq_true_eq,
       decide_eq_false_iff_not]
     omega)

theorem SW_SET_PN_SET_PID_comm (e v w : Nat) (hw : w < 64) :
    SW.SET_PID (SW.SET_PN e v) w = SW.SET_PN (SW.SET_PID e w) v := by
  apply Nat.eq_of_testBit_eq; intro i
  have hw6 := tb_small w 6 i hw
  simp only [SW.SET_PN, SW.SET_PID, Nat.testBit_shiftRight, Nat.testBit_and, Nat.testBit_or,
    Nat.testBit_shiftLeft, tb_U32, Nat.testBit_mod_two_pow, Nat.zero_testBit, Nat.zero_shiftLeft,
    Nat.one_shiftLeft, Nat.testBit_two_pow, Nat.mul_zero, Nat.mul_one,
    tb_1, tb_2, tb_4, tb_64, tb_128, tb_256, tb_4294967294, tb_4294967293, tb_4294967291,
    tb_4294967231, tb_4294967167, tb_4294967039, tb_4095, tb_4294963200, tb_63, tb_4294967232]
  generalize Nat.testBit e i = b
  generalize Nat.testBit v _ = cv
  generalize Nat.testBit w i = cw at hw6 ⊢
  cases b <;> cases cv <;> cases cw <;> simp at hw6 ⊢ <;>
  first
  | omega
  | (rw [Bool.eq_iff_iff]
     simp only [Bool.and_eq_true, Bool.or_eq_true, Bool.not_eq_true', decide_eq_true_eq,
       decide_eq_false_iff_not]
     omega)

/-- C26: for every 32-bit word `e`: each setter of the page-table entry (`SET_VALID`,
`SET_CHAIN`, `SET_KERNEL`, `SET_PN`, `SET_NEXT`, `SET_PID`) and of the swap entry
(`SET_SWAPPED`, `SET_CHAIN`, `SET_PREV`, `SET_PN`, `SET_PID`), given a value `v` that fits
its field, returns a word in which the matching getter reads `v` (the one-bit getters
return the bit in place: `v`, `2 v`, `4 v`, `64 v`, `128 v`, `256 v`, which is non-zero
exactly when `v = 1`) and whose bits outside the field are those of `e`; two setters of
different fields of the same word commute. -/
theorem field_writes_touch_own_field (e v w : Nat) (he : e < U32) :
    (v ≤ 1 →
      PT.IS_VALID (PT.SET_VALID e v) = v ∧
      sameOutside 0 1 e (PT.SET_VALID e v) ∧
      PT.HAS_CHAIN (PT.SET_CHAIN e v) = 2 * v ∧
      sameOutside 1 2 e (PT.SET_CHAIN e v) ∧
      PT.IS_KERNEL (PT.SET_KERNEL e v) = 4 * v ∧
      sameOutside 2 3 e (PT.SET_KERNEL e v) ∧
      SW.IS_SWAPPED (SW.SET_SWAPPED e v) = 64 * v ∧
      sameOutside 6 7 e (SW.SET_SWAPPED e v) ∧
      SW.HAS_CHAIN (SW.SET_CHAIN e v) = 128 * v ∧
      sameOutside 7 8 e (SW.SET_CHAIN e v) ∧
      SW.HAS_PREV (SW.SET_PREV e v) = 256 * v ∧
      sameOutside 8 9 e (SW.SET_PREV e v)) ∧
    (v < 64 →
      PT.GET_PID (PT.SET_PID e v) = v ∧
      sameOutside 0 6 e (PT.SET_PID e v) ∧
      SW.GET_PID (SW.SET_PID e v) = v ∧
      sameOutside 0 6 e (SW.SET_PID e v)) ∧
    (v < 2 ^ 20 →
      PT.GET_PN (PT.SET_PN e v) = v ∧
      sameOutside 12 32 e (PT.SET_PN e v) ∧
      PT.GET_NEXT (PT.SET_NEXT e v) = v ∧
      sameOutside 12 32 e (PT.SET_NEXT e v) ∧
      SW.GET_PN (SW.SET_PN e v) = v ∧
      sameOutside 12 32 e (SW.SET_PN e v)) ∧
    (v ≤ 1 → w ≤ 1 →
      PT.SET_CHAIN (PT.SET_VALID e v) w = PT.SET_VALID (PT.SET_CHAIN e w) v ∧
      PT.SET_KERNEL (PT.SET_VALID e v) w = PT.SET_VALID (PT.SET_KERNEL e w) v ∧
      PT.SET_KERNEL (PT.SET_CHAIN e v) w = PT.SET_CHAIN (PT.SET_KERNEL e w) v ∧
      SW.SET_CHAIN (SW.SET_SWAPPED e v) w = SW.SET_SWAPPED (SW.SET_CHAIN e w) v ∧
      SW.SET_PREV (SW.SET_SWAPPED e v) w = SW.SET_SWAPPED (SW.SET_PREV e w) v ∧
      SW.SET_PREV (SW.SET_CHAIN e v) w = SW.SET_CHAIN (SW.SET_PREV e w) v) ∧
    (v ≤ 1 → w < 2 ^ 20 →
      PT.SET_PN (PT.SET_VALID e v) w = PT.SET_VALID (PT.SET_PN e w) v ∧
      PT.SET_PN (PT.SET_CHAIN e v) w = PT.SET_CHAIN (PT.SET_PN e w) v ∧
      PT.SET_PN (PT.SET_KERNEL e v) w = PT.SET_KERNEL (PT.SET_PN e w) v ∧
      SW.SET_PN (SW.SET_SWAPPED e v) w = SW.SET_SWAPPED (SW.SET_PN e w) v ∧
      SW.SET_PN (SW.SET_CHAIN e v) w = SW.SET_CHAIN (SW.SET_PN e w) v ∧
      SW.SET_PN (SW.SET_PREV e v) w = SW.SET_PREV (SW.SET_PN e w) v) ∧
    (v ≤ 1 → w < 64 →
      SW.SET_PID (SW.SET_SWAPPED e v) w = SW.SET_SWAPPED (SW.SET_PID e w) v ∧
      SW.SET_PID (SW.SET_CHAIN e v) w = SW.SET_CHAIN (SW.SET_PID e w) v ∧
      SW.SET_PID (SW.SET_PREV e v) w = SW.SET_PREV (SW.SET_PID e w) v) ∧
    (v < 2 ^ 20 → w < 64 →
      PT.SET_PID (PT.SET_NEXT e v) w = PT.SET_NEXT (PT.SET_PID e w) v ∧
      SW.SET_PID (SW.SET_PN e v) w = SW.SET_PN (SW.SET_PID e w) v) := by
  refine ⟨?_, ?_, ?_, ?_, ?_, ?_, ?_⟩
  · intro hv
    exact ⟨PT_IS_VALID_SET_VALID e v hv,
      PT_SET_VALID_outside e v he hv,
      PT_HAS_CHAIN_SET_CHAIN e v hv,
      PT_SET_CHAIN_outside e v he hv,
      PT_IS_KERNEL_SET_KERNEL e v hv,
      PT_SET_KERNEL_outside e v he hv,
      SW_IS_SWAPPED_SET_SWAPPED e v hv,
      SW_SET_SWAPPED_outside e v he hv,
      SW_HAS_CHAIN_SET_CHAIN e v hv,
      SW_SET_CHAIN_outside e v he hv,
      SW_HAS_PREV_SET_PREV e v hv,
      SW_SET_PREV_outside e v he hv⟩
  · intro hv
    exact ⟨PT_GET_PID_SET_PID e v hv,
      PT_SET_PID_outside e v he hv,
      SW_GET_PID_SET_PID e v hv,
      SW_SET_PID_outside e v he hv⟩
  · intro hv
    exact ⟨(PT_GET_PN_SET_PN e v).trans (Nat.mod_eq_of_lt hv),
      PT_SET_PN_outside e v he,
      (PT_GET_NEXT_SET_NEXT e v).trans (Nat.mod_eq_of_lt hv),
      PT_SET_NEXT_outside e v he,
      (SW_GET_PN_SET_PN e v).trans (Nat.mod_eq_of_lt hv),
      SW_SET_PN_outside e v he⟩
  · intro hv hw
    exact ⟨PT_SET_VALID_SET_CHAIN_comm e v w hv hw,
      PT_SET_VALID_SET_KERNEL_comm e v w hv hw,
      PT_SET_CHAIN_SET_KERNEL_comm e v w hv hw,
      SW_SET_SWAPPED_SET_CHAIN_comm e v w hv hw,
      SW_SET_SWAPPED_SET_PREV_comm e v w hv hw,
      SW_SET_CHAIN_SET_PREV_comm e v w hv hw⟩
  · intro hv hw
    exact ⟨PT_SET_VALID_SET_PN_comm e v w hv,
      PT_SET_CHAIN_SET_PN_comm e v w hv,
      PT_SET_KERNEL_SET_PN_comm e v w hv,
      SW_SET_SWAPPED_SET_PN_comm e v w hv,
      SW_SET_CHAIN_SET_PN_comm e v w hv,
      SW_SET_PREV_SET_PN_comm e v w hv⟩
  · intro hv hw
    exact ⟨SW_SET_SWAPPED_SET_PID_comm e v w hv hw,
      SW_SET_CHAIN_SET_PID_comm e v w hv hw,
      SW_SET_PREV_SET_PID_comm e v w hv hw⟩
  · intro hv hw
    exact ⟨PT_SET_NEXT_SET_PID_comm e v w hw,
      SW_SET_PN_SET_PID_comm e v w hw⟩

theorem field_writes_touch_own_field_witness :
    PT.IS_VALID (PT.SET_VALID 0xFFFFFFFF 0) = 0 ∧
    sameOutside 0 1 0xFFFFFFFF (PT.SET_VALID 0xFFFFFFFF 0) ∧
    SW.GET_PN (SW.SET_PN 0xFFFFFFFF 0x400) = 0x400 ∧
    sameOutside 12 32 0xFFFFFFFF (SW.SET_PN 0xFFFFFFFF 0x400) ∧
    SW.SET_PID (SW.SET_PN 0xFFFFFFFF 0x400) 2 = SW.SET_PN (SW.SET_PID 0xFFFFFFFF 2) 0x400 :=
  have h0 := (field_writes_touch_own_field 0xFFFFFFFF 0 0 (by decide)).1 (by decide)
  have h1 := (field_writes_touch_own_field 0xFFFFFFFF 0x400 2 (by decide)).2.2.1 (by decide)
  have h2 := (field_writes_touch_own_field 0xFFFFFFFF 0x400 2 (by decide)).2.2.2.2.2.2
    (by decide) (by decide)
  ⟨h0.1, h0.2.1, h1.2.2.2.2.1, h1.2.2.2.2.2, h2.2⟩

theorem and_two_pow_ne_zero (w k : Nat) : w &&& 2 ^ k ≠ 0 ↔ w.testBit k = true := by
  constructor
  · intro h
    by_contra hb
    apply h
    apply Nat.eq_of_testBit_eq
    intro i
    rw [Nat.testBit_and, Nat.testBit_two_pow, Nat.zero_testBit]
    by_cases e : k = i
    · subst e; simp [hb]
    · simp [e]
  · intro h e
    have := congrArg (fun z => Nat.testBit z k) e
    simp only [Nat.testBit_and, Nat.testBit_two_pow, Nat.zero_testBit, h] at this
    simp at this

theorem and_PAGE_FRAME_shift (w : Nat) (hw : w < U32) : (w &&& 0xFFFFF000) >>> 12 = w >>> 12 := by
  apply Nat.eq_of_testBit_eq; intro i
  have hb := tb_small w 32 (12 + i) hw
  simp only [Nat.testBit_shiftRight, Nat.testBit_and, tb_4294963200]
  generalize Nat.testBit w (12 + i) = b at hb ⊢
  cases b <;> simp at hb ⊢ <;> omega

theorem shift12_lt (w : Nat) (hw : w < U32) : w >>> 12 < 2 ^ 20 := by
  rw [Nat.shiftRight_eq_div_pow]
  simp only [U32] at hw
  omega

/-- C27: for every 32-bit word `w`: in the page-table entry `IS_VALID`, `HAS_CHAIN` and
`IS_KERNEL` are non-zero exactly when bit 0, 1 and 2 of `w` is set, `GET_PN` and
`GET_NEXT` are `w >> 12`, below `2^20`, and `GET_PID` is `w & 0x3F`, below 64; in the
swap entry `GET_PID` is `w & 0x3F`, `IS_SWAPPED`, `HAS_CHAIN` and `HAS_PREV` are non-zero
exactly when bit 6, 7 and 8 is set, and `GET_PN` is `w >> 12`, below `2^20`: no read is
sign-extended, also when bit 31 of `w` is set. -/
theorem field_reads_follow_layout (w : Nat) (hw : w < U32) :
    (PT.IS_VALID w ≠ 0 ↔ w.testBit 0 = true) ∧
    (PT.HAS_CHAIN w ≠ 0 ↔ w.testBit 1 = true) ∧
    (PT.IS_KERNEL w ≠ 0 ↔ w.testBit 2 = true) ∧
    PT.GET_PN w = w >>> 12 ∧ PT.GET_PN w < 2 ^ 20 ∧
    PT.GET_NEXT w = w >>> 12 ∧ PT.GET_NEXT w < 2 ^ 20 ∧
    PT.GET_PID w = w &&& 0x3F ∧ PT.GET_PID w < 64 ∧
    SW.GET_PID w = w &&& 0x3F ∧ SW.GET_PID w < 64 ∧
    (SW.IS_SWAPPED w ≠ 0 ↔ w.testBit 6 = true) ∧
    (SW.HAS_CHAIN w ≠ 0 ↔ w.testBit 7 = true) ∧
    (SW.HAS_PREV w ≠ 0 ↔ w.testBit 8 = true) ∧
    SW.GET_PN w = w >>> 12 ∧ SW.GET_PN w < 2 ^ 20 := by
  have hpn := and_PAGE_FRAME_shift w hw
  have hlt := shift12_lt w hw
  have h63 : w &&& 0x3F < 64 := Nat.lt_succ_of_le Nat.and_le_right
  refine ⟨and_two_pow_ne_zero w 0, and_two_pow_ne_zero w 1, and_two_pow_ne_zero w 2,
    hpn, ?_, hpn, ?_, rfl, h63, rfl, h63, and_two_pow_ne_zero w 6, and_two_pow_ne_zero w 7,
    and_two_pow_ne_zero w 8, hpn, ?_⟩
  · show (w &&& 0xFFFFF000) >>> 12 < 2 ^ 20
    rw [hpn]; exact hlt
  · show (w &&& 0xFFFFF000) >>> 12 < 2 ^ 20
    rw [hpn]; exact hlt
  · show (w &&& 0xFFFFF000) >>> 12 < 2 ^ 20
    rw [hpn]; exact hlt

theorem field_reads_follow_layout_witness :
    (0x80000FC7 : Nat).testBit 31 = true ∧
    PT.GET_PN 0x80000FC7 = 0x80000 ∧ SW.GET_PN 0x80000FC7 = 0x80000 ∧
    PT.GET_PID 0x80000FC7 < 64 ∧ SW.IS_SWAPPED 0x80000FC7 ≠ 0 :=
  have h := field_reads_follow_layout 0x80000FC7 (by decide)
  ⟨by decide, h.2.2.2.1.trans (by decide), h.2.2.2.2.2.2.2.2.2.2.2.2.2.2.1.trans (by decide),
    h.2.2.2.2.2.2.2.2.1, h.2.2.2.2.2.2.2.2.2.2.2.1.mpr (by decide)⟩

/-! ## Runs of the victim search, of an eviction across processes and of the kernel
allocation -/

/-- C28, the code run with `n = 3`: after the user inserts of the pages `0x400`,
`0x401`, `0x402` (ring `0 1 2`) and two calls `alloc_n_contiguos_pages(1, pt)`, which
take the frames 2 and 1 and push them into the ring over the slots of the frames 0 and
1, the ring is `2 1 2`, the frames 1 and 2 are kernel frames and frame 0 is a valid
user frame that is no longer in the ring. The table is full, and the loop of
`replace_page` finds a kernel frame in every slot: from every cursor and with every
number of passes allowed it has not returned, so `replace_page` and the
`insert_page(-1)` that calls it never return. -/
theorem replace_page_spins_on_kernel_ring :
    fifoSlots demo3_full = [0, 1, 2] ∧
    fifoSlots demo3_kk = [2, 1, 2] ∧
    validBits demo3_kk = [1, 1, 1] ∧
    kernelBits demo3_kk = [0, 4, 4] ∧
    PT.IS_FULL demo3_kk.IPT = .ok true ∧
    Except.map Prod.fst (replace_page demo3_kk.IPT) = .error Fault.diverge ∧
    outcome (insert_page demo3_kk 0x403000 NEG1) = .error Fault.diverge ∧
    ∀ fuel last, replace_page_loop demo3_kk.IPT fuel last = .error Fault.diverge := by
  refine ⟨by decide!, by decide!, by decide!, by decide!, by decide!, by decide!, by decide!,
    ?_⟩
  have hsize : demo3_kk.IPT.size = 3 := by decide!
  have hk : ∀ j, j < 3 → demo3_kk.IPT.FIFO j < 3 ∧
      PT.IS_KERNEL (demo3_kk.IPT.entries (demo3_kk.IPT.FIFO j)).hi ≠ 0 := by decide!
  intro fuel
  induction fuel with
  | zero => intro last; rfl
  | succ fuel ih =>
    intro last
    have hlt : ((last + 1) % U32) % 3 < 3 := Nat.mod_lt _ (by decide)
    have h := hk _ hlt
    simp only [replace_page_loop, hsize, if_neg (show ¬ (3 = 0) by decide), if_pos h.1,
      if_pos h.2, ih]

/-- C29, the code run on the 8-frame system where process 2 holds the pages
`0x400 .. 0x407` in the frames `0 .. 7` and no chunk (chunk 0, which it used once, is
free again; chunk 1 is the head of the free chain), and process 1 holds nothing:
`insert_page(0x500000, -1)` run by process 1 evicts frame 0, the page `0x400` of
process 2, to chunk 1. The chunk is stamped `(0x400, pid 2, swapped = 0)` but linked
into the chunk chain of process 1: `n_chunks` of process 1 goes from 0 to 1 with
`start_st_i = last_st_i = 1`, `n_chunks` of process 2 stays 0, `getSwapChunk` run by
process 2 for page `0x400` returns `-1` and run by process 1 it returns chunk 1. -/
theorem eviction_links_chunk_to_caller :
    residentPages demo8_qp = [0x400, 0x401, 0x402, 0x403, 0x404, 0x405, 0x406, 0x407] ∧
    (List.range 8).map (fun f => PT.GET_PID (demo8_qp.IPT.entries f).low)
      = [2, 2, 2, 2, 2, 2, 2, 2] ∧
    (nChunks demo8_qp 1, nChunks demo8_qp 2) = (some 0, some 0) ∧
    getFirstFreeChunckIndex demo8_qp.ST = .ok 1 ∧
    Except.map (fun r => (r.1, residentPages r.2)) (insert_page demo8_qp 0x500000 NEG1)
      = .ok (0x100000, [0x500, 0x401, 0x402, 0x403, 0x404, 0x405, 0x406, 0x407]) ∧
    Except.map (fun r => (SW.GET_PN (r.2.ST.entries 1).hi, SW.GET_PID (r.2.ST.entries 1).hi,
        SW.IS_SWAPPED (r.2.ST.entries 1).hi)) (insert_page demo8_qp 0x500000 NEG1)
      = .ok (0x400, 2, 0) ∧
    Except.map (fun r => (nChunks r.2 1, nChunks r.2 2)) (insert_page demo8_qp 0x500000 NEG1)
      = .ok (some 1, some 0) ∧
    Except.map (fun r => r.2.procs 1) (insert_page demo8_qp 0x500000 NEG1)
      = .ok (some { n_frames := 1, start_pt_i := 0, last_pt_i := 0, n_chunks := 1,
                    start_st_i := 1, last_st_i := 1 }) ∧
    (insert_page demo8_qp 0x500000 NEG1 >>= fun r =>
      getSwapChunk { r.2 with curproc := 2 } 0x400000 2) = .ok NEG1 ∧
    (insert_page demo8_qp 0x500000 NEG1 >>= fun r =>
      getSwapChunk { r.2 with curproc := 1 } 0x400000 1) = .ok 1 :=
  ⟨by decide!, by decide!, by decide!, by decide!, by decide!, by decide!, by decide!,
    by decide!, by decide!, by decide!⟩

/-- C30, the code run on the fresh 8-frame table (`mem_base = 0x100000`,
`frame_n_k = 7`): `alloc_n_contiguos_pages(2, pt)` marks the frames 6 and 7 and
`alloc_n_contiguos_pages(3, pt)` the frames 5, 6 and 7, and both return `0x107000`, the
address of frame 7, the highest frame of the run, and record the start frame 7: the
pages `a + 4096, ..` are the frames `8, ..`, outside the frame array of size 8, and the
frames 6 and 5 lie below `a`. For `n = 1` the address is that of the one frame
reserved. -/
theorem alloc_returns_top_frame_address :
    (demo8.IPT.size, demo8.IPT.mem_base_addr, demo8.frame_n_k) = (8, 0x100000, 7) ∧
    Except.map (fun r => (r.1, kernelBits r.2)) (alloc_n_contiguos_pages demo8 2)
      = .ok (0x107000, [0, 0, 0, 0, 0, 0, 4, 4]) ∧
    Except.map (fun r => (List.range 2).map fun k =>
        (r.1 + k * PAGE_SIZE - r.2.IPT.mem_base_addr) / PAGE_SIZE)
      (alloc_n_contiguos_pages demo8 2) = .ok [7, 8] ∧
    Except.map (fun r => (kRecords r.2).take 1) (alloc_n_contiguos_pages demo8 2)
      = .ok [(7, 0x80107000, 2)] ∧
    Except.map (fun r => (r.1, kernelBits r.2)) (alloc_n_contiguos_pages demo8 3)
      = .ok (0x107000, [0, 0, 0, 0, 0, 4, 4, 4]) ∧
    Except.map (fun r => (List.range 3).map fun k =>
        (r.1 + k * PAGE_SIZE - r.2.IPT.mem_base_addr) / PAGE_SIZE)
      (alloc_n_contiguos_pages demo8 3) = .ok [7, 8, 9] ∧
    Except.map (fun r => (kRecords r.2).take 1) (alloc_n_contiguos_pages demo8 3)
      = .ok [(7, 0x80107000, 3)] ∧
    Except.map Prod.fst (alloc_kpages demo8 2) = .ok 0x80107000 ∧
    Except.map (fun r => (r.1, kernelBits r.2)) (alloc_n_contiguos_pages demo8 1)
      = .ok (0x107000, [0, 0, 0, 0, 0, 0, 0, 4]) :=
  ⟨by decide!, by decide!, by decide!, by decide!, by decide!, by decide!, by decide!,
    by decide!, by decide!⟩

/-! ## The swap lookup of a process without chunks -/

theorem demo8_out_in_step :
    swapin { demo8_out with curproc := 1 } 0 0x100000 = .ok demo8_out_in := rfl

/-- C31, the code run on the fresh 16-chunk system: process 1 swaps page `0x400` out to
chunk 0 and takes it back in with `swapin`. The state is reached through `swapout` and
`swapin` by the calling process; process 1 has `n_chunks = 0` and an empty chunk chain,
and chunk 0 is free again (swapped = 1, last of the free chain) but keeps the stamp
`(0x400, pid 1)` and `start_st_i` of process 1 is still 0. `getSwapChunk` does not look
at `n_chunks`: it starts at `start_st_i` and returns chunk 0 for the address `0x400000`,
a free chunk outside the chain of the caller; for `0x401000` it returns `-1`. On the
fresh table, where `n_chunks = 0` as well, it returns chunk 0 for the address 0. -/
theorem getSwapChunk_returns_freed_chunk :
    SWReach demo8 demo8_out_in ∧
    demo8_out_in.procs 1 = some proc0 ∧
    (proc0.n_chunks, proc0.start_st_i) = (0, 0) ∧
    procChunkChain demo8_out_in.ST proc0 = [] ∧
    (SW.IS_SWAPPED (demo8_out_in.ST.entries 0).hi, SW.GET_PID (demo8_out_in.ST.entries 0).hi,
      SW.GET_PN (demo8_out_in.ST.entries 0).hi) = (64, 1, 0x400) ∧
    (freeChunkChain demo8_out_in.ST).getLast? = some 0 ∧
    getSwapChunk demo8_out_in 0x400000 1 = .ok 0 ∧
    getSwapChunk demo8_out_in 0x401000 1 = .ok NEG1 ∧
    nChunks demo8 1 = some 0 ∧
    getSwapChunk demo8 0 1 = .ok 0 :=
  ⟨SWReach.step demo8_out demo8_out_in
      (SWReach.step demo8 demo8_out SWReach.init
        (SWStep.out demo8 demo8_out 1 0 0x100000 0x400 false (by decide) (by decide!)
          demo8_out_step ⟨1, by decide!, by decide!⟩))
      (SWStep.back demo8_out demo8_out_in 1 0 0x100000
        { proc0 with n_chunks := 1 } (by decide!) (by decide!) demo8_out_in_step),
    by decide!, by decide!, by decide!, by decide!, by decide!, by decide!, by decide!,
    by decide!, by decide!⟩
end VM
